import Mathlib

/-! # Remote node: memory regions, mappings, buffers and mixes

A shallow embedding of `src/modules/module-client-node/remote-node.c`.

* C pointers are addresses (`Nat`), `NULL` is `0` and `MAP_FAILED` is `2^64 - 1`.
* A `struct mem *` is an index into `node_data.mems`, a `struct mix *` is the
  number of its slot in `mix_pool`.
* Calls that leave the file (`mmap`, `malloc`, `pw_port_use_buffers`, ...) take their
  result from an `Env`; each such result may depend on everything that was done
  before, recorded in `node_data.trace`.
* `uint32_t` counters wrap modulo `2^32`.
-/

namespace RemoteNode

/-! ## Constants -/

/-- The `MAX_MIX` bound of the mix pool. -/
def MAX_MIX : Nat := 4096

/-- The id that stands for "no id": `SPA_ID_INVALID`, `((uint32_t)0xffffffff)`. -/
def SPA_ID_INVALID : Nat := 0xffffffff

/-- The null pointer. -/
def NULL : Nat := 0

/-- The failure result of `mmap`, `((void *) -1)` on a 64 bit machine. -/
def MAP_FAILED : Nat := 2 ^ 64 - 1

/-- Modulus of `uint32_t` arithmetic. -/
def U32 : Nat := 2 ^ 32

def EINVAL : Int := 22

def ENOMEM : Int := 12

def PROT_READ : Nat := 1

def PROT_WRITE : Nat := 2

/-- Value of `SPA_DATA_MemPtr` in `enum spa_data_type`. -/
def SPA_DATA_MemPtr : Nat := 1

/-- Value of `SPA_DATA_MemFd` in `enum spa_data_type`. -/
def SPA_DATA_MemFd : Nat := 2

/-- Value of `SPA_DATA_DmaBuf` in `enum spa_data_type`. -/
def SPA_DATA_DmaBuf : Nat := 3

/-- Modelled from the spec: `enum spa_io_type` (spa/node/io.h) is not among the sources;
`SPA_IO_Buffers` is the io kind of the per-mix buffer exchange area. Only its being
different from the other kinds is used. -/
def SPA_IO_Buffers : Nat := 1

/-- Modelled from the spec: `enum spa_io_type` (spa/node/io.h) is not among the sources;
`SPA_IO_Position` is the io kind of the node-level position area. -/
def SPA_IO_Position : Nat := 7

/-- Size of `struct spa_chunk` (`offset`, `size`, `stride`: three 32 bit fields). -/
def sizeof_spa_chunk : Nat := 12

/-! ## Data model -/

/-- The two values of `enum spa_direction`, the index of `node_data.mix[2]`. -/
inductive spa_direction where
  | INPUT
  | OUTPUT
  deriving DecidableEq, Repr

/-- The `struct pw_map_range`: `start` is the offset of the data in its first page,
`offset` the page aligned offset that is mapped, `size` the mapped size. -/
structure pw_map_range where
  start : Nat
  offset : Nat
  size : Nat
  deriving DecidableEq, Repr, Inhabited

/-- The initial range `PW_MAP_RANGE_INIT`, all zero. -/
def PW_MAP_RANGE_INIT : pw_map_range := { start := 0, offset := 0, size := 0 }

/-- The `struct mapping` (its `prot` field is never written nor read). -/
structure mapping where
  ptr : Nat
  map : pw_map_range
  deriving DecidableEq, Repr, Inhabited

/-- The `struct mem`: one entry of the region registry `node_data.mems`. -/
structure mem where
  id : Nat
  fd : Int
  flags : Nat
  ref : Nat
  map : mapping
  deriving DecidableEq, Repr, Inhabited

/-- The `struct buffer_mem`: a region reference recorded by a buffer. -/
structure buffer_mem where
  mem_id : Nat
  map : mapping
  deriving DecidableEq, Repr

/-- The `struct spa_meta`. -/
structure spa_meta where
  type : Nat
  data : Nat
  size : Nat
  deriving DecidableEq, Repr

/-- The `struct spa_data`; `data` and `chunk` are addresses (on the wire `data` carries a
region id or an offset). -/
structure spa_data where
  type : Nat
  flags : Nat
  fd : Int
  mapoffset : Nat
  maxsize : Nat
  data : Nat
  chunk : Nat
  deriving DecidableEq, Repr

/-- The `struct spa_buffer`; `n_metas` and `n_datas` are the lengths of the two lists. -/
structure spa_buffer where
  id : Nat
  metas : List spa_meta
  datas : List spa_data
  deriving DecidableEq, Repr

/-- The `struct pw_client_node_buffer`: one buffer of a UseBuffers message. -/
structure pw_client_node_buffer where
  mem_id : Nat
  offset : Nat
  size : Nat
  buffer : spa_buffer
  deriving DecidableEq, Repr

/-- What the `buf` field of a slot of a mix's buffer array holds when it does not point to
a live block: the storage was never written and the value is indeterminate (`unset`), it
is `NULL` (`null`), or it points to a block that has been handed to `free` (`freed`). -/
inductive buf_left where
  | unset
  | null
  | freed
  deriving DecidableEq, Repr

/-- The `struct buffer`: one slot of the storage of `mix.buffers`. `mem` holds the first
`n_mem` entries of the C array, `buf` is `some` when it points to a live block. The code
writes `buf` and `n_mem` of a slot only late in a round of the loop of
`client_node_port_use_buffers`; until then the slot holds what was in its storage:
`n_mem_set` tells whether `n_mem` holds a value that was written (it is the length of
`mem` then, and indeterminate otherwise), `buf_left` is what `buf` holds when it is
`none`. -/
structure buffer where
  id : Nat
  buf : Option spa_buffer
  mem : List buffer_mem
  n_mem_set : Bool := true
  buf_left : buf_left := buf_left.null
  deriving DecidableEq, Repr

/-- What the file uses of a `struct pw_port`. -/
structure pw_port where
  direction : spa_direction
  port_id : Nat
  deriving DecidableEq, Repr

/-- A slot of the storage of a mix's buffer array as `clear_buffers` left it: `n_mem_zero`
tells whether its `n_mem` is 0 (it was never written otherwise), `buf` is what its `buf`
holds. -/
structure slot where
  n_mem_zero : Bool
  buf : buf_left
  deriving DecidableEq, Repr

/-- The `struct mix`: `io` is `mix.mix.io`, `buffers` the elements `0 .. size-1` of the
`pw_array`. `store` is the storage of the array from slot 0 on, as far as it has been
handed out since `pw_array_init`, each slot as `clear_buffers` left it when it last set
`size` to 0; the slots below `size` are superseded by `buffers`. -/
structure mix where
  port : pw_port
  mix_id : Nat
  io : Nat
  buffers : List buffer
  active : Bool
  store : List slot := []
  deriving DecidableEq, Repr

/-- What the node did outside of its own memory, in order of time. `unref` is not a call:
it records a decrement of a region's `ref`, with the id looked up and the value before. -/
inductive Event where
  | mmap (hint size prot : Nat) (fd : Int) (offset : Nat) (res : Nat)
  | munmap (addr : Int) (size : Nat)
  | close (fd : Int)
  | port_use_buffers (port : pw_port) (mix_id n_buffers : Nat) (res : Int)
  | node_set_io (id ptr size : Nat)
  | port_set_io (port : pw_port) (id ptr size : Nat)
  | destroy_source (source : Nat)
  | add_io (readfd : Int) (source : Nat)
  | unref (mem_id : Nat) (before : Nat)
  deriving DecidableEq, Repr

/-- The collaborators of the file. Every result may depend on the trace so far. -/
structure Env where
  /-- Page size, `data->core->sc_pagesize`. -/
  sc_pagesize : Nat
  /-- Result of `mmap(hint, size, prot, MAP_SHARED, fd, offset)`. -/
  mmap : List Event → Nat → Nat → Nat → Int → Nat → Nat
  /-- Value of `errno` read after a failed `mem_map`. -/
  errno : List Event → Int
  /-- Whether `malloc(size)` returns `NULL`. -/
  malloc_fails : List Event → Bool
  /-- Whether `pw_node_find_port(node, direction, port_id)` finds a port. -/
  pw_node_find_port : List Event → spa_direction → Nat → Bool
  /-- Result of `pw_port_use_buffers(port, mix_id, bufs, n_buffers)`. -/
  pw_port_use_buffers : List Event → pw_port → Nat → Nat → Int
  /-- Result of `pw_loop_add_io(data_loop, readfd, ...)`, the new source or `NULL`. -/
  pw_loop_add_io : List Event → Int → Nat

/-- The `struct node_data`, as far as the file reads it. -/
structure node_data where
  remote_id : Nat
  rtwritefd : Int
  rtsocket_source : Nat
  mix_pool : Nat → mix
  mix : spa_direction → List Nat
  free_mix : List Nat
  mems : List mem
  position : Nat
  trace : List Event
  /-- Set once the C code has left defined behaviour: `clear_buffers` has read an `n_mem`
  that was never written, or has handed `free` a pointer that was never written or that
  it had freed before. -/
  undefined : Bool := false

/-! ## Helpers for arrays and 32 bit arithmetic -/

/-- Replace the element at a position by its image under `f`. -/
def modify_at {α : Type} (f : α → α) : List α → Nat → List α
  | [], _ => []
  | x :: xs, 0 => f x :: xs
  | x :: xs, n + 1 => x :: modify_at f xs n

/-- The macro `SPA_ROUND_DOWN_N(num, align)` for an alignment that is a power of two. -/
def SPA_ROUND_DOWN_N (num align : Nat) : Nat := num - num % align

/-- The macro `SPA_ROUND_UP_N(num, align)` on `uint32_t`: the sum wraps at `2^32`. -/
def SPA_ROUND_UP_N (num align : Nat) : Nat := SPA_ROUND_DOWN_N ((num + (align - 1)) % U32) align

/-- Modelled from the spec: `pw_map_range_init` (pipewire/mem.h) is not among the sources.
The window of a request `(offset, size)` starts at the page boundary below `offset`,
`start` is the rest `offset mod page_size`, and the size is rounded up to whole pages. -/
def pw_map_range_init (offset size page_size : Nat) : pw_map_range :=
  let o := SPA_ROUND_DOWN_N offset page_size
  { start := offset - o, offset := o, size := SPA_ROUND_UP_N ((offset - o + size) % U32) page_size }

/-- The `uint32_t` decrement `--x`. -/
def dec32 (x : Nat) : Nat := (x + (U32 - 1)) % U32

/-- The `uint32_t` increment `++x`. -/
def inc32 (x : Nat) : Nat := (x + 1) % U32

/-- The macro `SPA_PTR_TO_UINT32`. -/
def SPA_PTR_TO_UINT32 (p : Nat) : Nat := p % U32

/-- The macro `SPA_PTR_TO_INT`: the low 32 bits read as a signed `int`. -/
def SPA_PTR_TO_INT (p : Nat) : Int :=
  if p % U32 < 2 ^ 31 then (p % U32 : Nat) else ((p % U32 : Nat) : Int) - (U32 : Nat)

/-- The macro `SPA_MEMBER(ptr, offset, type)` for a signed offset. -/
def SPA_MEMBER (ptr : Nat) (offset : Int) : Nat := ((ptr : Int) + offset).toNat

/-- The conversion `(int)(o)` that `SPA_MEMBER` applies to the offset it is given, for an
offset of an unsigned or a wider type: the low 32 bits read as a signed `int`. -/
def int_cast (o : Nat) : Int :=
  if o % U32 < 2 ^ 31 then (o % U32 : Nat) else ((o % U32 : Nat) : Int) - (U32 : Nat)

/-! ## The region registry -/

/-- The lookup `find_mem`: the first entry of the registry whose id is `id`. -/
def find_mem : List mem → Nat → Option Nat
  | [], _ => none
  | m :: ms, id => if m.id = id then some 0 else (find_mem ms id).map (· + 1)

/-- The lookup `find_mem_ptr`: the first entry whose cached mapping starts at `ptr`. -/
def find_mem_ptr : List mem → Nat → Option Nat
  | [], _ => none
  | m :: ms, ptr => if m.map.ptr = ptr then some 0 else (find_mem_ptr ms ptr).map (· + 1)

/-- The handler `client_node_add_mem`. -/
def client_node_add_mem (d : node_data) (mem_id _type : Nat) (memfd : Int) (flags : Nat) :
    node_data :=
  match find_mem d.mems mem_id with
  | some _ => d
  | none =>
    { d with mems := d.mems ++
        [{ id := mem_id, fd := memfd, flags := flags, ref := 0,
           map := { ptr := NULL, map := PW_MAP_RANGE_INIT } }] }

/-- The function `mem_map`: the pointer returned (`NULL` on failure), the mapping as `mem_map`
leaves it, and the trace. The old mapping is handed to `mmap` as the address hint. -/
def mem_map (env : Env) (tr : List Event) (map : mapping) (fd : Int) (prot offset size : Nat) :
    Nat × mapping × List Event :=
  let m := pw_map_range_init offset size env.sc_pagesize
  if map.ptr = NULL ∨ map.map.offset ≠ m.offset ∨ map.map.size ≠ m.size then
    let p := env.mmap tr map.ptr m.size prot fd m.offset
    let tr1 := tr ++ [Event.mmap map.ptr m.size prot fd m.offset p]
    if p = MAP_FAILED then
      (NULL, { map with ptr := p }, tr1)
    else
      (p + m.start, { ptr := p, map := m }, tr1)
  else
    (map.ptr + map.map.start, map, tr)

/-- The function `mem_unmap`: unmaps when the pointer is not `NULL`, and returns `NULL`. -/
def mem_unmap (tr : List Event) (ptr : Nat) (range : pw_map_range) : Nat × List Event :=
  if ptr ≠ NULL then
    (NULL, tr ++ [Event.munmap ((ptr : Int) - (range.start : Int)) range.size])
  else
    (NULL, tr)

/-- The function `clear_mem` on the entry at index `i`. -/
def clear_mem (d : node_data) (i : Nat) : node_data :=
  match d.mems.get? i with
  | none => d
  | some m =>
    if m.fd ≠ -1 then
      let fd := m.fd
      let mems1 := modify_at (fun x => { x with fd := -1, id := SPA_ID_INVALID }) d.mems i
      let has_ref := mems1.any (fun m2 => decide (m2.fd = fd))
      if has_ref then
        { d with mems := mems1 }
      else
        let r := mem_unmap d.trace m.map.ptr m.map.map
        { d with
          mems := modify_at (fun x => { x with map := { x.map with ptr := r.1 } }) mems1 i
          trace := r.2 ++ [Event.close fd] }
    else d

/-- The statement `if (--m->ref == 0) clear_mem(data, m);` on the entry at index `i`,
looked up under `key`. -/
def unref_mem (d : node_data) (key i : Nat) : node_data :=
  match d.mems.get? i with
  | none => d
  | some m =>
    let d1 := { d with
      mems := modify_at (fun x => { x with ref := dec32 x.ref }) d.mems i
      trace := d.trace ++ [Event.unref key m.ref] }
    if dec32 m.ref = 0 then clear_mem d1 i else d1

/-- The release by id of `clear_buffers`:
`m = find_mem(data, bm->mem_id); if (m && --m->ref == 0) clear_mem(data, m);`. -/
def release_id (d : node_data) (mem_id : Nat) : node_data :=
  match find_mem d.mems mem_id with
  | none => d
  | some i => unref_mem d mem_id i

/-- The release by pointer of the set_io handlers:
`m = find_mem_ptr(data, ptr); if (m && --m->ref == 0) clear_mem(data, m);`. -/
def release_ptr (d : node_data) (ptr : Nat) : node_data :=
  match find_mem_ptr d.mems ptr with
  | none => d
  | some i => unref_mem d ptr i

/-! ## Mixes -/

/-- Overwrite slot `k` of the mix pool. -/
def set_mix (d : node_data) (k : Nat) (m : mix) : node_data :=
  { d with mix_pool := fun j => if j = k then m else d.mix_pool j }

/-- The function `mix_init` on a pool slot: `port`, `mix_id`, `active` and the buffer array
are set (`pw_array_init` leaves the array without storage); `pw_port_init_mix` is outside
the file and the io pointer is left as it is. -/
def mix_init (old : mix) (port : pw_port) (mix_id : Nat) : mix :=
  { old with port := port, mix_id := mix_id, active := false, buffers := [], store := [] }

/-- The function `deactivate_mix` on slot `k`. -/
def deactivate_mix (d : node_data) (k : Nat) : node_data :=
  if (d.mix_pool k).active then set_mix d k { d.mix_pool k with active := false } else d

/-- The function `activate_mix` on slot `k`. -/
def activate_mix (d : node_data) (k : Nat) : node_data :=
  if (d.mix_pool k).active then d else set_mix d k { d.mix_pool k with active := true }

/-- The function `find_mix`: the first mix of the direction's list with that port id
and mix id. -/
def find_mix (d : node_data) (direction : spa_direction) (port_id mix_id : Nat) : Option Nat :=
  (d.mix direction).find?
    (fun k => decide ((d.mix_pool k).port.port_id = port_id ∧ (d.mix_pool k).mix_id = mix_id))

/-- The function `ensure_mix`: the slot of the mix (or `none` for `NULL`) and the new state.
`pw_node_find_port` is outside the file; the port it finds is taken to be the port of
`direction` whose `port_id` is the one asked for. -/
def ensure_mix (env : Env) (d : node_data) (direction : spa_direction) (port_id mix_id : Nat) :
    Option Nat × node_data :=
  match find_mix d direction port_id mix_id with
  | some k => (some k, d)
  | none =>
    match d.free_mix with
    | [] => (none, d)
    | k :: rest =>
      if env.pw_node_find_port d.trace direction port_id then
        let d1 := set_mix d k
          (mix_init (d.mix_pool k) { direction := direction, port_id := port_id } mix_id)
        (some k,
          { d1 with
            free_mix := rest
            mix := fun x => if x = direction then d.mix x ++ [k] else d.mix x })
      else
        (none, d)

/-- Whether `clear_buffers` has no defined behaviour on a slot: it reads an `n_mem` that
was never written, or it hands `free` a pointer that was never written or that points to
a block freed before. -/
def slot_undefined (b : buffer) : Bool :=
  !b.n_mem_set || (b.buf.isNone && b.buf_left != buf_left.null)

/-- A slot as `clear_buffers` leaves it: `n_mem = 0`, and `buf` keeps its value, which
points to a freed block when it pointed to a block. -/
def cleared_slot (b : buffer) : slot :=
  { n_mem_zero := true, buf := if b.buf.isSome then buf_left.freed else b.buf_left }

/-- The function `clear_buffers` on the mix in slot `k`. When the port refuses to drop its
buffers nothing is released. Otherwise every slot of the array is visited: the regions
named by its first `n_mem` entries are released, `n_mem` is set to 0 and `buf` is freed
(and keeps its value); then `size` is set to 0, the storage stays. -/
def clear_buffers (env : Env) (d : node_data) (k : Nat) : node_data :=
  let mx := d.mix_pool k
  let res := env.pw_port_use_buffers d.trace mx.port mx.mix_id 0
  let d1 := { d with trace := d.trace ++ [Event.port_use_buffers mx.port mx.mix_id 0 res] }
  if res < 0 then d1
  else
    let d2 := mx.buffers.foldl
      (fun s b => b.mem.foldl (fun s1 bm => release_id s1 bm.mem_id) s) d1
    set_mix { d2 with undefined := d2.undefined || mx.buffers.any slot_undefined } k
      { d2.mix_pool k with
        buffers := []
        store := mx.buffers.map cleared_slot ++ (d2.mix_pool k).store.drop mx.buffers.length }

/-! ## Installing buffers -/

/-- The loop over the metas of one buffer: each meta is copied, its `data` set to
`SPA_MEMBER(ptr, offset, void)`, which converts the `off_t` offset to `int`, and `offset`
advanced by the size rounded up to 8. Returns the metas and the final offset. -/
def build_metas (ptr : Nat) : List spa_meta → Nat → List spa_meta × Nat
  | [], offset => ([], offset)
  | w :: ws, offset =>
    let r := build_metas ptr ws (offset + SPA_ROUND_UP_N w.size 8)
    ({ w with data := SPA_MEMBER ptr (int_cast offset) } :: r.1, r.2)

/-- Outcome of the loop over the data planes of one buffer: whether it ran to the end, the
planes written, the entries appended to `bid->mem`, and the registry. -/
structure datas_result where
  ok : Bool
  datas : List spa_data
  entries : List buffer_mem
  mems : List mem

/-- The loop over the data planes of one buffer, from plane `j` on. The chunk pointer is
`SPA_MEMBER(ptr, offset + sizeof(struct spa_chunk) * j, struct spa_chunk)`, whose offset is
converted to `int`. A `MemFd` or `DmaBuf` plane looks its region up by the id carried in
`data`, takes a reference and records it; the loop stops at the first such plane whose
region is unknown. The `map.map` of the recorded entry is not initialised by the C code and
never read. -/
def build_datas (ptr offset : Nat) : List spa_data → Nat → List mem → datas_result
  | [], _, mems => { ok := true, datas := [], entries := [], mems := mems }
  | w :: ws, j, mems =>
    let d := { w with chunk := SPA_MEMBER ptr (int_cast (offset + sizeof_spa_chunk * j)) }
    if d.type = SPA_DATA_MemFd ∨ d.type = SPA_DATA_DmaBuf then
      let mem_id := SPA_PTR_TO_UINT32 d.data
      match find_mem mems mem_id with
      | none => { ok := false, datas := [d], entries := [], mems := mems }
      | some i =>
        let bm := mems.getD i default
        let r := build_datas ptr offset ws (j + 1)
          (modify_at (fun x => { x with ref := inc32 x.ref }) mems i)
        { r with
          datas := { d with fd := bm.fd, data := NULL } :: r.datas
          entries :=
            { mem_id := bm.id, map := { ptr := NULL, map := PW_MAP_RANGE_INIT } } :: r.entries }
    else if d.type = SPA_DATA_MemPtr then
      let r := build_datas ptr offset ws (j + 1) mems
      { r with datas := { d with data := SPA_MEMBER ptr (SPA_PTR_TO_INT d.data), fd := -1 }
                 :: r.datas }
    else
      let r := build_datas ptr offset ws (j + 1) mems
      { r with datas := d :: r.datas }

/-- Overwrite the last element of a list. -/
def set_last {α : Type} (l : List α) (x : α) : List α := l.dropLast ++ [x]

/-- Modelled from the spec: `pw_array_add` (pipewire/array.h) is not among the sources.
It hands out the slot of the storage behind the elements of the array, growing the
storage when needed, and writes nothing to it: the slot holds what `clear_buffers` left
there, or, when it was never handed out before, indeterminate values. -/
def pw_array_add (mx : mix) : slot :=
  mx.store.getD mx.buffers.length { n_mem_zero := false, buf := buf_left.unset }

/-- One round of the loop of `client_node_port_use_buffers`, for buffer `i` of the message
on the mix in slot `k`. Returns `some res` when the round ends in `goto cleanup`.
The slot handed out by `pw_array_add` gets its `id` at once; its `buf` is written by the
`malloc` and its `n_mem` after that, so a round that ends at the failed `mem_map` leaves
both as they were in the storage, and a round that ends at the failed `malloc` leaves
`n_mem` so. `mlock` only logs a warning and is left out. -/
def build_buffer (env : Env) (d : node_data) (k prot i : Nat) (cb : pw_client_node_buffer) :
    Option Int × node_data :=
  match find_mem d.mems cb.mem_id with
  | none => (some (-EINVAL), d)
  | some mi =>
    let m := d.mems.getD mi default
    let mx := d.mix_pool k
    let st := pw_array_add mx
    let bid0 : buffer :=
      { id := i, buf := none, mem := [], n_mem_set := st.n_mem_zero, buf_left := st.buf }
    let d1 := set_mix d k { mx with buffers := mx.buffers ++ [bid0] }
    let r := mem_map env d1.trace { ptr := NULL, map := PW_MAP_RANGE_INIT } m.fd prot
      cb.offset cb.size
    let ptr := r.1
    let bmem : buffer_mem := { mem_id := m.id, map := { ptr := ptr, map := r.2.1.map } }
    let d2 := { d1 with trace := r.2.2 }
    if ptr = NULL then
      (some (-(env.errno d2.trace)), d2)
    else if env.malloc_fails d2.trace then
      (some (-ENOMEM),
        set_mix d2 k { d2.mix_pool k with
          buffers := set_last (d2.mix_pool k).buffers { bid0 with buf_left := buf_left.null } })
    else
      let mems1 := modify_at (fun x => { x with ref := inc32 x.ref }) d2.mems mi
      let ms := build_metas ptr cb.buffer.metas 0
      let dr := build_datas ptr ms.2 cb.buffer.datas 0 mems1
      let b : spa_buffer := { id := cb.buffer.id, metas := ms.1, datas := dr.datas }
      let bid : buffer := { id := i, buf := some b, mem := bmem :: dr.entries }
      let mx2 := d2.mix_pool k
      let d3 := set_mix { d2 with mems := dr.mems } k
        { mx2 with buffers := set_last mx2.buffers bid }
      if dr.ok then (none, d3) else (some (-EINVAL), d3)

/-- The loop of `client_node_port_use_buffers` over the buffers of the message, from
buffer `i` on. -/
def build_buffers (env : Env) (k prot : Nat) :
    List pw_client_node_buffer → Nat → node_data → Option Int × node_data
  | [], _, d => (none, d)
  | cb :: rest, i, d =>
    match build_buffer env d k prot i cb with
    | (some res, d1) => (some res, d1)
    | (none, d1) => build_buffers env k prot rest (i + 1) d1

/-- The protection `prot` that `client_node_port_use_buffers` maps with. -/
def use_buffers_prot (direction : spa_direction) : Nat :=
  PROT_READ ||| (if direction = spa_direction.OUTPUT then PROT_WRITE else 0)

/-- The handler `client_node_port_use_buffers`: the result `res` passed to
`pw_client_node_proxy_done`, and the new state. -/
def client_node_port_use_buffers (env : Env) (d : node_data) (direction : spa_direction)
    (port_id mix_id : Nat) (buffers : List pw_client_node_buffer) : Int × node_data :=
  match ensure_mix env d direction port_id mix_id with
  | (none, d0) => (-EINVAL, d0)
  | (some k, d0) =>
    let d1 := clear_buffers env d0 k
    match build_buffers env k (use_buffers_prot direction) buffers 0 d1 with
    | (some res, d2) => (res, clear_buffers env d2 k)
    | (none, d2) =>
      let mx := d2.mix_pool k
      let res := env.pw_port_use_buffers d2.trace mx.port mx.mix_id buffers.length
      (res, { d2 with
        trace := d2.trace ++ [Event.port_use_buffers mx.port mx.mix_id buffers.length res] })

/-! ## Io areas -/

/-- The part shared by `client_node_set_io` and `client_node_port_set_io`: resolve
`(memid, offset, size)` to a pointer and a size. `none` stands for the early `return`
(unknown id or failed map); the state is returned in both cases. -/
def map_io (env : Env) (d : node_data) (memid offset size : Nat) :
    Option (Nat × Nat) × node_data :=
  if memid = SPA_ID_INVALID then
    (some (NULL, 0), d)
  else
    match find_mem d.mems memid with
    | none => (none, d)
    | some i =>
      let m := d.mems.getD i default
      let r := mem_map env d.trace m.map m.fd (PROT_READ ||| PROT_WRITE) offset size
      let d1 := { d with
        mems := modify_at (fun x => { x with map := r.2.1 }) d.mems i
        trace := r.2.2 }
      if r.1 = NULL then (none, d1)
      else
        (some (r.1, size),
          { d1 with mems := modify_at (fun x => { x with ref := inc32 x.ref }) d1.mems i })

/-- The handler `client_node_set_io`. -/
def client_node_set_io (env : Env) (d : node_data) (id memid offset size : Nat) : node_data :=
  match map_io env d memid offset size with
  | (none, d1) => d1
  | (some (ptr, sz), d1) =>
    let d2 :=
      if id = SPA_IO_Position then
        let d3 := if ptr = NULL ∧ d1.position ≠ NULL then release_ptr d1 d1.position else d1
        { d3 with position := ptr }
      else d1
    { d2 with trace := d2.trace ++ [Event.node_set_io id ptr sz] }

/-- The handler `client_node_port_set_io`. -/
def client_node_port_set_io (env : Env) (d : node_data) (direction : spa_direction)
    (port_id mix_id id memid offset size : Nat) : node_data :=
  match ensure_mix env d direction port_id mix_id with
  | (none, d0) => d0
  | (some k, d0) =>
    match map_io env d0 memid offset size with
    | (none, d1) => d1
    | (some (ptr, sz), d1) =>
      if id = SPA_IO_Buffers then
        let d2 :=
          if ptr = NULL ∧ (d1.mix_pool k).io ≠ NULL then
            let d3 := deactivate_mix d1 k
            release_ptr d3 (d3.mix_pool k).io
          else d1
        let d4 := set_mix d2 k { d2.mix_pool k with io := ptr }
        if ptr ≠ NULL then activate_mix d4 k else d4
      else
        { d1 with trace := d1.trace ++ [Event.port_set_io (d1.mix_pool k).port id ptr sz] }

/-! ## Transport and teardown -/

/-- The function `clean_transport`. -/
def clean_transport (d : node_data) : node_data :=
  if d.rtsocket_source = NULL then d
  else
    let d1 := { d with
      rtsocket_source := NULL
      trace := d.trace ++ [Event.destroy_source d.rtsocket_source] }
    let d2 := (List.range d1.mems.length).foldl clear_mem d1
    { d2 with
      mems := []
      trace := d2.trace ++ [Event.close d2.rtwritefd]
      remote_id := SPA_ID_INVALID }

/-- The handler `client_node_transport`. -/
def client_node_transport (env : Env) (d : node_data) (node_id : Nat) (readfd writefd : Int) :
    node_data :=
  let d1 := clean_transport d
  let src := env.pw_loop_add_io d1.trace readfd
  { d1 with
    remote_id := node_id
    rtwritefd := writefd
    rtsocket_source := src
    trace := d1.trace ++ [Event.add_io readfd src] }

/-- The function `clear_mix` on the mix in slot `k`. -/
def clear_mix (env : Env) (d : node_data) (k : Nat) : node_data :=
  let d1 := clear_buffers env d k
  let d2 := set_mix d1 k { d1.mix_pool k with buffers := [] }
  let d3 := deactivate_mix d2 k
  { d3 with
    mix := fun x => (d3.mix x).filter (fun j => decide (j ≠ k))
    free_mix := d3.free_mix.filter (fun j => decide (j ≠ k)) ++ [k] }

/-- The state that `node_export` sets up: every pool slot on the free list, no mix bound,
an empty registry, no transport. The proxy's user data starts zero filled. -/
def node_export : node_data :=
  { remote_id := SPA_ID_INVALID
    rtwritefd := 0
    rtsocket_source := NULL
    mix_pool := fun _ =>
      { port := { direction := spa_direction.INPUT, port_id := 0 }, mix_id := 0, io := NULL,
        buffers := [], active := false }
    mix := fun _ => []
    free_mix := List.range MAX_MIX
    mems := []
    position := NULL
    trace := [] }

/-! ## Sequences of operations -/

/-- The operations on an exported node that touch the region registry. -/
inductive Op where
  | add_mem (mem_id type : Nat) (memfd : Int) (flags : Nat)
  | port_use_buffers (direction : spa_direction) (port_id mix_id : Nat)
      (buffers : List pw_client_node_buffer)
  | port_set_io (direction : spa_direction) (port_id mix_id id memid offset size : Nat)
  | set_io (id memid offset size : Nat)
  | clear_buffers (k : Nat)
  | clear_mix (k : Nat)
  | transport (node_id : Nat) (readfd writefd : Int)

/-- One operation applied to a state. -/
def step (env : Env) (d : node_data) : Op → node_data
  | Op.add_mem mem_id type memfd flags => client_node_add_mem d mem_id type memfd flags
  | Op.port_use_buffers direction port_id mix_id buffers =>
    (client_node_port_use_buffers env d direction port_id mix_id buffers).2
  | Op.port_set_io direction port_id mix_id id memid offset size =>
    client_node_port_set_io env d direction port_id mix_id id memid offset size
  | Op.set_io id memid offset size => client_node_set_io env d id memid offset size
  | Op.clear_buffers k => clear_buffers env d k
  | Op.clear_mix k => clear_mix env d k
  | Op.transport node_id readfd writefd => client_node_transport env d node_id readfd writefd

/-- A sequence of operations applied to a state, first operation first. -/
def run (env : Env) (d : node_data) (ops : List Op) : node_data := ops.foldl (step env) d

/-- A request for a mix: direction, port id and mix id. -/
abbrev mix_key : Type := spa_direction × Nat × Nat

/-- The function `ensure_mix` called for each key of a list in turn; `none` as soon as one
call returns `NULL`. -/
def ensure_all (env : Env) : node_data → List mix_key → Option node_data
  | d, [] => some d
  | d, t :: ts =>
    match ensure_mix env d t.1 t.2.1 t.2.2 with
    | (none, _) => none
    | (some _, d1) => ensure_all env d1 ts

/-- The key under which the mix in slot `k` is found in the list of `direction`. -/
def key_of (d : node_data) (direction : spa_direction) (k : Nat) : mix_key :=
  (direction, (d.mix_pool k).port.port_id, (d.mix_pool k).mix_id)

/-- Pool invariant relative to the keys served so far: the free list has no repetition, no
bound slot is on it, every bound mix answers to a key served, and slots are conserved. -/
def pool_inv (d : node_data) (seen : List mix_key) : Prop :=
  d.free_mix.Nodup ∧
  (∀ dir, ∀ k ∈ d.mix dir, k ∉ d.free_mix) ∧
  (∀ dir, ∀ k ∈ d.mix dir, key_of d dir k ∈ seen) ∧
  d.free_mix.length + seen.length = MAX_MIX

/-! ## Sample surroundings, used to instantiate the statements below -/

/-- An environment in which every call succeeds: pages of 4096 bytes, `mmap` hands out a
fresh page aligned address per call, every port exists and accepts every request. -/
def env_plain : Env :=
  { sc_pagesize := 4096
    mmap := fun tr _ _ _ _ _ => 0x10000 + 0x1000 * tr.length
    errno := fun _ => ENOMEM
    malloc_fails := fun _ => false
    pw_node_find_port := fun _ _ _ => true
    pw_port_use_buffers := fun _ _ _ _ => 0
    pw_loop_add_io := fun _ _ => 1 }

/-- An environment like `env_plain` whose `mmap` hands out addresses from
`0x7f0000000000` on. -/
def env_high : Env :=
  { env_plain with mmap := fun tr _ _ _ _ _ => 0x7f0000000000 + 0x1000 * tr.length }

/-- The keys `(INPUT, 0, 0) .. (INPUT, 0, MAX_MIX - 1)`. -/
def keys_full : List mix_key :=
  (List.range MAX_MIX).map (fun i => (spa_direction.INPUT, 0, i))

/-- An environment whose first `mmap` fails and whose later ones succeed. -/
def env_map_fails_once : Env :=
  { env_plain with mmap := fun tr _ _ _ _ _ => if tr.length = 0 then MAP_FAILED else 0x10000 }

/-- A cached mapping of the first page of a region, at address `0x10000`. -/
def mapping_page0 : mapping :=
  { ptr := 0x10000, map := { start := 0, offset := 0, size := 4096 } }

/-- Region 1 is registered with fd 5, bound as the Buffers io of the mix `(INPUT, 0, 0)` at
the given offset with size 8, and the binding is then cleared with `SPA_ID_INVALID`. -/
def ops_bind_then_clear (offset : Nat) : List Op :=
  [Op.add_mem 1 0 5 0,
   Op.port_set_io spa_direction.INPUT 0 0 SPA_IO_Buffers 1 offset 8,
   Op.port_set_io spa_direction.INPUT 0 0 SPA_IO_Buffers SPA_ID_INVALID 0 0]

/-! ## Accounting -/

/-- Number of references that the ids of the list `R` hold on the entry at index `i`: an id
counts for the entry that `find_mem` returns for it. -/
def acq (ms : List mem) (R : List Nat) (i : Nat) : Nat :=
  match ms[i]? with
  | some m => if find_mem ms m.id = some i then R.count m.id else 0
  | none => 0

/-- The region ids recorded by a list of buffers, in the order in which `clear_buffers`
releases them. -/
def buffer_ids (bs : List buffer) : List Nat :=
  (bs.map (fun b => b.mem.map (fun bm => bm.mem_id))).flatten

/-- Number of `close` calls in a trace. -/
def close_count (tr : List Event) : Nat :=
  tr.countP (fun e => match e with | Event.close _ => true | _ => false)

/-- Number of ref count decrements in a trace. -/
def unref_count (tr : List Event) : Nat :=
  tr.countP (fun e => match e with | Event.unref _ _ => true | _ => false)

/-- Number of registry entries whose fd has been given up (`fd = -1`). -/
def dead_count (ms : List mem) : Nat := ms.countP (fun m => decide (m.fd = -1))

/-- Whether an event is a ref count decrement, a `munmap` or a `close`. -/
def is_release_event : Event → Bool
  | Event.unref _ _ => true
  | Event.munmap _ _ => true
  | Event.close _ => true
  | _ => false

/-- Traces in which no ref count is decremented from 0 and every `close` (with the `munmap`
that may precede it) comes right after the decrement of a ref count from 1. -/
inductive release_events : List Event → Prop where
  | nil : release_events []
  | unref (key b : Nat) (rest : List Event) :
      1 ≤ b → release_events rest → release_events (Event.unref key b :: rest)
  | close (key : Nat) (fd : Int) (rest : List Event) :
      release_events rest → release_events (Event.unref key 1 :: Event.close fd :: rest)
  | unmap_close (key : Nat) (a : Int) (s : Nat) (fd : Int) (rest : List Event) :
      release_events rest →
      release_events (Event.unref key 1 :: Event.munmap a s :: Event.close fd :: rest)
  | other (e : Event) (rest : List Event) :
      is_release_event e = false → release_events rest → release_events (e :: rest)

/-- Whether a data plane is backed by a registered region (`MemFd` or `DmaBuf`). -/
def is_fd_plane (w : spa_data) : Bool :=
  decide (w.type = SPA_DATA_MemFd ∨ w.type = SPA_DATA_DmaBuf)

/-- The region ids named by the planes of one buffer, in order. -/
def plane_ids (ws : List spa_data) : List Nat :=
  (ws.filter is_fd_plane).map (fun w => SPA_PTR_TO_UINT32 w.data)

/-- The region ids named by a UseBuffers message, in the order in which the build takes
references: per buffer its own region, then the regions of its planes. -/
def msg_ids (msg : List pw_client_node_buffer) : List Nat :=
  (msg.map (fun cb => cb.mem_id :: plane_ids cb.buffer.datas)).flatten

/-- The registry `ms` is the registry `ms0` with the references of the ids `L` added. -/
def refs_added (ms0 : List mem) (L : List Nat) (ms : List mem) : Prop :=
  ms.length = ms0.length ∧
  ∀ (i : Nat) (m0 : mem), ms0[i]? = some m0 →
    ms[i]? = some { m0 with ref := m0.ref + acq ms0 L i }

/-- The state `d'` differs from `d` at most in the registry, the trace and the mix in
slot `k`. -/
def same_frame (k : Nat) (d d' : node_data) : Prop :=
  d'.mix = d.mix ∧ d'.free_mix = d.free_mix ∧ ∀ (j : Nat), j ≠ k → d'.mix_pool j = d.mix_pool j

/-- No event of the list is a ref count decrement, a `munmap` or a `close`. -/
def no_release (tr : List Event) : Prop := ∀ e ∈ tr, is_release_event e = false

/-- An upper bound on the number of references that a UseBuffers message takes: one per
buffer and one per data plane. -/
def msg_refs (msg : List pw_client_node_buffer) : Nat :=
  (msg.map (fun cb => cb.buffer.datas.length + 1)).sum

/-- The ref counts of the registry, entry by entry. -/
def ref_counts (ms : List mem) : List Nat := ms.map (fun m => m.ref)

/-- A buffer of a UseBuffers message that lives in region `mem_id` (offset 0, size 4096), has
one header meta of 24 bytes and one `MemFd` data plane per entry of `planes`, each naming
the region id given there. -/
def buf_with_planes (mem_id : Nat) (planes : List Nat) : pw_client_node_buffer :=
  { mem_id := mem_id, offset := 0, size := 4096,
    buffer :=
      { id := 0, metas := [{ type := 0, data := 0, size := 24 }],
        datas := planes.map (fun p =>
          { type := SPA_DATA_MemFd, flags := 0, fd := -1, mapoffset := 0, maxsize := 4096,
            data := p, chunk := 0 }) } }

/-- An environment like `env_plain` whose ports refuse every `pw_port_use_buffers` (`-EIO`). -/
def env_port_refuses : Env :=
  { env_plain with pw_port_use_buffers := fun _ _ _ _ => -5 }

/-- An environment like `env_plain` in which fd 6 cannot be mapped. -/
def env_fd6 : Env :=
  { env_plain with
    mmap := fun tr _ _ _ fd _ => if fd = 6 then MAP_FAILED else 0x10000 + 0x1000 * tr.length }

/-- An environment in which fd 6 cannot be mapped and ports refuse every
`pw_port_use_buffers`. -/
def env_fd6_port_refuses : Env :=
  { env_fd6 with pw_port_use_buffers := fun _ _ _ _ => -5 }

/-- Regions 10 (fd 5) and 11 (fd 6) are registered, region 11 is used by a buffer of the mix
`(INPUT, 0, 0)` and then dropped, so that its entry, the second of the registry, is a
cleared one. -/
def ops_cleared_entry : List Op :=
  [Op.add_mem 10 0 5 0, Op.add_mem 11 0 6 0,
   Op.port_use_buffers spa_direction.INPUT 0 0 [buf_with_planes 11 []],
   Op.port_use_buffers spa_direction.INPUT 0 0 []]

/-! ## Reachable states and the reference count invariant -/

/-- The pool slots of the bound mixes, input list first. -/
def bound_slots (d : node_data) : List Nat :=
  d.mix spa_direction.INPUT ++ d.mix spa_direction.OUTPUT

/-- Number of recorded references to the region id `X`: the `buffer_mem` entries naming `X`
in the buffers installed on the bound mixes. -/
def recorded_refs (d : node_data) (X : Nat) : Nat :=
  ((bound_slots d).map (fun k => (buffer_ids (d.mix_pool k).buffers).count X)).sum

/-- Number of io pointers of the node (the position area and the io areas of the bound
mixes) that `find_mem_ptr` resolves to the entry at index `i`. -/
def io_bindings (d : node_data) (i : Nat) : Nat :=
  ((d.position :: (bound_slots d).map (fun k => (d.mix_pool k).io)).filter
    (fun p => decide (p ≠ NULL ∧ find_mem_ptr d.mems p = some i))).length

/-- Two regions are registered, then the position area is bound into the first and
rebound into the second. -/
def ops_rebind_position : List Op :=
  [Op.add_mem 1 0 5 0, Op.add_mem 2 0 6 0,
   Op.set_io SPA_IO_Position 1 0 4096, Op.set_io SPA_IO_Position 2 0 4096]

/-- An environment like `env_plain` whose ports accept buffers but refuse to drop them
(`pw_port_use_buffers` with `n_buffers = 0` gives `-EIO`). -/
def env_port_refuses_clear : Env :=
  { env_plain with pw_port_use_buffers := fun _ _ _ n => if n = 0 then -5 else 0 }

/-- Whether an operation is a `client_node_port_set_io` call for the io kind Buffers, or a
`client_node_add_mem` call (which registers the regions such calls name). -/
def is_buffers_io : Op → Bool
  | Op.port_set_io _ _ _ id _ _ _ => decide (id = SPA_IO_Buffers)
  | Op.add_mem _ _ _ _ => true
  | _ => false

/-- The link between activity and io binding: the free list has no duplicates and shares
no slot with the bound mixes, a bound mix is active exactly when its io pointer is not
`NULL`, and the io pointer of a free slot is `NULL`. -/
def io_inv (d : node_data) : Prop :=
  d.free_mix.Nodup ∧ (∀ k ∈ bound_slots d, k ∉ d.free_mix) ∧
  (∀ k ∈ bound_slots d, ((d.mix_pool k).active = true ↔ (d.mix_pool k).io ≠ NULL)) ∧
  (∀ k ∈ d.free_mix, (d.mix_pool k).io = NULL)


/-- Region 1 (fd 5) is registered, the Buffers io area of the mix `(INPUT, 0, 0)` is bound
into it and then unbound. -/
def ops_bind_unbind : List Op :=
  [Op.add_mem 1 0 5 0,
   Op.port_set_io spa_direction.INPUT 0 0 SPA_IO_Buffers 1 0 4096,
   Op.port_set_io spa_direction.INPUT 0 0 SPA_IO_Buffers SPA_ID_INVALID 0 0]


/-! ## Layout of metas and chunks -/

/-- The rounding of the layout rule in the words of the specification: the next multiple
of 8 at or above `s`, in unbounded arithmetic. -/
def spec_roundup8 (s : Nat) : Nat := (s + 7) / 8 * 8

/-- A buffer of a UseBuffers message in region `mem_id` whose metas have the sizes `sizes`
and which has `d` data planes of type `MemPtr`. -/
def buf_with_metas (mem_id : Nat) (sizes : List Nat) (d : Nat) : pw_client_node_buffer :=
  { mem_id := mem_id, offset := 0, size := 4096,
    buffer :=
      { id := 0, metas := sizes.map (fun s => { type := 0, data := 0, size := s }),
        datas := (List.range d).map (fun _ =>
          { type := SPA_DATA_MemPtr, flags := 0, fd := -1, mapoffset := 0, maxsize := 64,
            data := 0, chunk := 0 }) } }

/-- The data pointers of the metas and the chunk pointers of the data planes of the
buffers installed on the mix in slot `k`. -/
def installed_layout (d : node_data) (k : Nat) : List (List Nat × List Nat) :=
  (d.mix_pool k).buffers.map (fun b =>
    match b.buf with
    | some sb => (sb.metas.map (fun m => m.data), sb.datas.map (fun w => w.chunk))
    | none => ([], []))


/-! ## The realtime socket and the teardown of a node -/

/-- Modelled from the spec: the bit `SPA_IO_IN` of `enum spa_io` (spa/support/loop.h, which
is not among the sources): the descriptor is readable. -/
def SPA_IO_IN : Nat := 1

/-- Modelled from the spec: the bit `SPA_IO_HUP` of `enum spa_io`: the peer hung up. -/
def SPA_IO_HUP : Nat := 4

/-- Modelled from the spec: the bit `SPA_IO_ERR` of `enum spa_io`: an error condition. -/
def SPA_IO_ERR : Nat := 8

/-- The function `do_remove_source`. -/
def do_remove_source (d : node_data) : node_data :=
  if d.rtsocket_source ≠ NULL then
    { d with
      rtsocket_source := NULL
      trace := d.trace ++ [Event.destroy_source d.rtsocket_source] }
  else d

/-- The function `unhandle_socket`: `pw_loop_invoke` with `block = true` runs
`do_remove_source` on the data loop and waits for it. -/
def unhandle_socket (d : node_data) : node_data := do_remove_source d

/-- The function `on_rtsocket_condition` as far as it touches the node data: an error or
hangup removes the source; reading the wakeup and running the graph leave the node data
as they are. -/
def on_rtsocket_condition (d : node_data) (_fd : Int) (mask : Nat) : node_data :=
  if mask &&& (SPA_IO_ERR ||| SPA_IO_HUP) ≠ 0 then unhandle_socket d else d

/-- The state after a transport (node id 1, fds 10 and 11) was set up on a fresh node. -/
def state_transport : node_data := client_node_transport env_plain node_export 1 10 11

/-- The state `state_transport` after region 1 (fd 5) was registered and a hangup was
handled on the realtime socket. -/
def state_hangup : node_data :=
  on_rtsocket_condition (client_node_add_mem state_transport 1 0 5 0) 10 SPA_IO_HUP


/-- A transport is set up, region 1 (fd 5) is registered and the position area is bound
into it at offset 8 (size 8), so that its entry caches a mapping with `start = 8`. -/
def ops_io_unaligned : List Op :=
  [Op.transport 1 10 11, Op.add_mem 1 0 5 0, Op.set_io SPA_IO_Position 1 8 8]

/-- Region 1 (fd 5) is registered, the position area is bound into it at offset 0 and the
Buffers io area of the mix `(INPUT, 0, 0)` at offset 8 of the same page. -/
def ops_two_offsets : List Op :=
  [Op.add_mem 1 0 5 0, Op.set_io SPA_IO_Position 1 0 8,
   Op.port_set_io spa_direction.INPUT 0 0 SPA_IO_Buffers 1 8 8]

/-- The data planes of the buffers installed on the mix in slot `k`: type, fd and data
pointer of each. -/
def installed_planes (d : node_data) (k : Nat) : List (List (Nat × Int × Nat)) :=
  (d.mix_pool k).buffers.map (fun b =>
    match b.buf with
    | some sb => sb.datas.map (fun w => (w.type, w.fd, w.data))
    | none => [])

/-! ## The mix pool over sequences of `ensure_mix` and `clear_mix` -/

/-- The states that an exported node reaches through `ensure_mix` and through `clear_mix`
on slots of the pool. -/
inductive pool_reachable (env : Env) : node_data → Prop where
  | init : pool_reachable env node_export
  | ensure_mix (d : node_data) (direction : spa_direction) (port_id mix_id : Nat) :
      pool_reachable env d → pool_reachable env (ensure_mix env d direction port_id mix_id).2
  | clear_mix (d : node_data) (k : Nat) :
      pool_reachable env d → k < MAX_MIX → pool_reachable env (clear_mix env d k)

/-- The `(port_id, mix_id)` pairs of the mixes bound in a direction, in list order. -/
def mix_keys (d : node_data) (direction : spa_direction) : List (Nat × Nat) :=
  (d.mix direction).map (fun k => ((d.mix_pool k).port.port_id, (d.mix_pool k).mix_id))

/-- All slots on the three lists: free list, then input mixes, then output mixes. -/
def all_slots (d : node_data) : List Nat :=
  d.free_mix ++ (d.mix spa_direction.INPUT ++ d.mix spa_direction.OUTPUT)

/-- The state after `ensure_mix` for `(INPUT, 0, 0)`, `(INPUT, 0, 1)` and `(OUTPUT, 0, 0)` on
a fresh node, and `clear_mix` on the first of them (slot 0). -/
def state_pool_sample : node_data :=
  clear_mix env_plain
    (ensure_mix env_plain
      (ensure_mix env_plain
        (ensure_mix env_plain node_export spa_direction.INPUT 0 0).2
        spa_direction.INPUT 0 1).2
      spa_direction.OUTPUT 0 0).2
    0


/-! ## Reference counts with io areas -/

/-- The io pointers of the node: the position area, then the io area of every slot of the
mix pool. -/
def io_ptrs (d : node_data) : List Nat :=
  d.position :: (List.range MAX_MIX).map (fun k => (d.mix_pool k).io)

/-- Number of io pointers of the node that are the base of the cached mapping of the entry
at index `i`, the pointer that `find_mem_ptr` looks an entry up by. -/
def io_refs (d : node_data) (i : Nat) : Nat :=
  match d.mems[i]? with
  | some m => if m.map.ptr = NULL then 0 else (io_ptrs d).count m.map.ptr
  | none => 0

/-- Traces in which no ref count is decremented from 0, the decrement of a ref count from 1
is followed at once by the `close` of an fd (with at most one `munmap` between them), and
there is no other `munmap` or `close`. -/
inductive release_exact : List Event → Prop where
  | nil : release_exact []
  | unref (key b : Nat) (rest : List Event) :
      2 ≤ b → release_exact rest → release_exact (Event.unref key b :: rest)
  | close (key : Nat) (fd : Int) (rest : List Event) :
      release_exact rest → release_exact (Event.unref key 1 :: Event.close fd :: rest)
  | unmap_close (key : Nat) (a : Int) (s : Nat) (fd : Int) (rest : List Event) :
      release_exact rest →
      release_exact (Event.unref key 1 :: Event.munmap a s :: Event.close fd :: rest)
  | other (e : Event) (rest : List Event) :
      is_release_event e = false → release_exact rest → release_exact (e :: rest)

/-- The calls `mmap` and `malloc` do not fail: pages have a size, `mmap` returns a page
aligned address that is neither `MAP_FAILED` nor `NULL`, `malloc` returns a block. -/
def env_total (env : Env) : Prop :=
  0 < env.sc_pagesize ∧
  (∀ (tr : List Event) (hint size prot : Nat) (fd : Int) (offset : Nat),
    env.mmap tr hint size prot fd offset ≠ MAP_FAILED ∧
    env.mmap tr hint size prot fd offset ≠ NULL ∧
    env.mmap tr hint size prot fd offset % env.sc_pagesize = 0) ∧
  ∀ (tr : List Event), env.malloc_fails tr = false

/-- In the state `d`, `mmap` hands out an address that is in use neither as the base of the
cached mapping of a region nor as an io pointer of the node. -/
def mmap_fresh (env : Env) (d : node_data) : Prop :=
  ∀ (hint size prot : Nat) (fd : Int) (offset : Nat),
    env.mmap d.trace hint size prot fd offset ∉ io_ptrs d ∧
    ∀ m ∈ d.mems, m.map.ptr ≠ env.mmap d.trace hint size prot fd offset

/-- The request `(memid, offset, size)` does not move the cached mapping of a region that
an io pointer of the node points to: the region has no cached mapping, no io pointer is
its base, or the window asked for is the cached one. -/
def window_kept (env : Env) (d : node_data) (memid offset size : Nat) : Prop :=
  ∀ (i : Nat) (m : mem), find_mem d.mems memid = some i → d.mems[i]? = some m →
    m.map.ptr = NULL ∨ io_refs d i = 0 ∨
    (m.map.map.offset = (pw_map_range_init offset size env.sc_pagesize).offset ∧
     m.map.map.size = (pw_map_range_init offset size env.sc_pagesize).size)

/-- The states that an exported node reaches through `client_node_add_mem`,
`client_node_port_use_buffers` (messages that name no `SPA_ID_INVALID`),
`client_node_set_io`, `client_node_port_set_io`, `clear_buffers` and `clear_mix` on bound
mixes, while every ref count stays below `2^32` and `mmap` hands out addresses that are
not in use.

Without `exact`, every region is registered with an fd of its own (not `-1`, held by no
other entry).

With `exact`, an io area is bound only when it is of the kind Position (node) or Buffers
(mix) and not bound yet, at a page aligned offset, a binding does not move the mapping
that another binding points to, and `clear_mix` is called on a mix whose io area is not
bound and whose port accepts to drop its buffers. -/
inductive reachable_io (env : Env) (exact : Bool) : node_data → Prop where
  | init : reachable_io env exact node_export
  | add_mem (d : node_data) (mem_id type : Nat) (memfd : Int) (flags : Nat) :
      reachable_io env exact d →
      (exact = false → memfd ≠ -1 ∧ ∀ m ∈ d.mems, m.fd ≠ memfd) →
      reachable_io env exact (client_node_add_mem d mem_id type memfd flags)
  | port_use_buffers (d : node_data) (direction : spa_direction) (port_id mix_id : Nat)
      (msg : List pw_client_node_buffer) :
      reachable_io env exact d → SPA_ID_INVALID ∉ msg_ids msg →
      (∀ m ∈ d.mems, m.ref + msg_refs msg < U32) →
      reachable_io env exact (client_node_port_use_buffers env d direction port_id mix_id msg).2
  | set_io (d : node_data) (id memid offset size : Nat) :
      reachable_io env exact d →
      (memid ≠ SPA_ID_INVALID → mmap_fresh env d ∧ ∀ m ∈ d.mems, m.ref + 1 < U32) →
      (exact = true → memid ≠ SPA_ID_INVALID →
        id = SPA_IO_Position ∧ d.position = NULL ∧ offset % env.sc_pagesize = 0 ∧
        window_kept env d memid offset size) →
      reachable_io env exact (client_node_set_io env d id memid offset size)
  | port_set_io (d : node_data) (direction : spa_direction)
      (port_id mix_id id memid offset size : Nat) :
      reachable_io env exact d →
      (memid ≠ SPA_ID_INVALID → mmap_fresh env d ∧ ∀ m ∈ d.mems, m.ref + 1 < U32) →
      (exact = true → memid ≠ SPA_ID_INVALID →
        id = SPA_IO_Buffers ∧ offset % env.sc_pagesize = 0 ∧
        window_kept env d memid offset size ∧
        ∀ k, find_mix d direction port_id mix_id = some k → (d.mix_pool k).io = NULL) →
      reachable_io env exact
        (client_node_port_set_io env d direction port_id mix_id id memid offset size)
  | clear_buffers (d : node_data) (k : Nat) :
      reachable_io env exact d → k ∈ bound_slots d →
      reachable_io env exact (clear_buffers env d k)
  | clear_mix (d : node_data) (k : Nat) :
      reachable_io env exact d → k ∈ bound_slots d →
      (exact = true →
        (d.mix_pool k).io = NULL ∧
        0 ≤ env.pw_port_use_buffers d.trace (d.mix_pool k).port (d.mix_pool k).mix_id 0) →
      reachable_io env exact (clear_mix env d k)

/-- The registry is well formed: live ids and cached mappings each belong to one entry,
ref counts are below `2^32`, an entry without id has no reference, cached mappings are
page aligned and their `start` is below the page size. With `exact`, `start` is 0.
Without `exact`, no two entries hold the same fd and a live entry has an fd. -/
def reg_shape (exact : Bool) (page : Nat) (ms : List mem) : Prop :=
  (∀ (i j : Nat) (mi mj : mem), ms[i]? = some mi → ms[j]? = some mj →
    mi.id = mj.id → mi.id ≠ SPA_ID_INVALID → i = j) ∧
  (∀ (i j : Nat) (mi mj : mem), ms[i]? = some mi → ms[j]? = some mj →
    mi.map.ptr = mj.map.ptr → mi.map.ptr ≠ NULL → i = j) ∧
  (∀ (i : Nat) (m : mem), ms[i]? = some m →
    m.ref < U32 ∧ (m.id = SPA_ID_INVALID → m.ref = 0) ∧
    m.map.ptr % page = 0 ∧ m.map.map.start < page) ∧
  (exact = true → ∀ (i : Nat) (m : mem), ms[i]? = some m → m.map.map.start = 0) ∧
  (exact = false →
    (∀ (i j : Nat) (mi mj : mem), ms[i]? = some mi → ms[j]? = some mj →
      mi.fd = mj.fd → mi.fd ≠ -1 → i = j) ∧
    ∀ (i : Nat) (m : mem), ms[i]? = some m → m.id ≠ SPA_ID_INVALID → m.fd ≠ -1)

/-- The mix pool is well formed: its slots are shared out between the free list and the
bound mixes, every slot of a buffer array was written in full, the run has stayed within
defined behaviour, recorded region ids are registered and never `SPA_ID_INVALID`, and
(with `exact`) the io area of a slot that is not bound is not bound either. -/
def pool_shape (exact : Bool) (d : node_data) : Prop :=
  (all_slots d).Perm (List.range MAX_MIX) ∧
  (∀ (k : Nat) (b : buffer), b ∈ (d.mix_pool k).buffers → slot_undefined b = false) ∧
  d.undefined = false ∧
  (∀ k ∈ bound_slots d, SPA_ID_INVALID ∉ buffer_ids (d.mix_pool k).buffers) ∧
  (∀ k ∈ bound_slots d, ∀ X ∈ buffer_ids (d.mix_pool k).buffers,
    ∃ (n : Nat) (m : mem), d.mems[n]? = some m ∧ m.id = X) ∧
  (exact = true → ∀ (k : Nat), k ∉ bound_slots d → (d.mix_pool k).io = NULL)

/-- The ref count of every entry covers the recorded references to it, the `buffer_mem`
entries that name its id and the io pointers at its mapping; with `exact` it is their
number. -/
def acct (exact : Bool) (d : node_data) : Prop :=
  (∀ (i : Nat) (m : mem), d.mems[i]? = some m → recorded_refs d m.id + io_refs d i ≤ m.ref) ∧
  (exact = true →
    ∀ (i : Nat) (m : mem), d.mems[i]? = some m → m.ref = recorded_refs d m.id + io_refs d i)

/-- The invariant of the registry with io areas. Without `exact` it includes the trace:
each decrement from 1 closes an fd, and there are as many `close` calls as entries whose
fd is gone. -/
def io_acct (env : Env) (exact : Bool) (d : node_data) : Prop :=
  reg_shape exact env.sc_pagesize d.mems ∧ pool_shape exact d ∧ acct exact d ∧
  (exact = false → release_exact d.trace ∧ close_count d.trace = dead_count d.mems)

/-- An entry of the registry as `clear_mem` leaves it when no other entry holds its fd. -/
def cleared (m : mem) : mem :=
  { m with ref := 0, fd := -1, id := SPA_ID_INVALID, map := { m.map with ptr := NULL } }

/-- An environment like `env_plain` in which every `mmap` fails. -/
def env_map_fails : Env :=
  { env_plain with mmap := fun _ _ _ _ _ _ => MAP_FAILED }

/-- The state after region 1 (fd 5) was registered and the position area was bound into
it, at offset 0 with size 8. -/
def state_position_bound : node_data :=
  client_node_set_io env_plain (client_node_add_mem node_export 1 0 5 0) SPA_IO_Position 1 0 8

/-- The state `state_position_bound` after a buffer living in region 1, with one data plane
in it, was installed on the mix `(INPUT, 0, 0)`. -/
def state_io_bound : node_data :=
  (client_node_port_use_buffers env_plain state_position_bound
    spa_direction.INPUT 0 0 [buf_with_planes 1 [1]]).2

/-- Two regions are registered; the position area is bound into the first and into the
second, with size 8, and into the second again with size 0. -/
def ops_position_thrice : List Op :=
  [Op.add_mem 1 0 5 0, Op.add_mem 2 0 6 0,
   Op.set_io SPA_IO_Position 1 0 8, Op.set_io SPA_IO_Position 2 0 8,
   Op.set_io SPA_IO_Position 2 0 0]

/-- A region is registered and an io area of the node of kind 3, not the position area, is
bound into it. -/
def ops_other_kind : List Op :=
  [Op.add_mem 1 0 5 0, Op.set_io 3 1 0 8]

/-- A region is registered, the position area is bound into it at offset 8 and unbound
again. -/
def ops_position_unaligned : List Op :=
  [Op.add_mem 1 0 5 0, Op.set_io SPA_IO_Position 1 8 8,
   Op.set_io SPA_IO_Position SPA_ID_INVALID 0 0]

/-- A region is registered, the position area is bound into its first page, the Buffers
io area of the mix `(INPUT, 0, 0)` into its second page, and the position area is unbound
again. -/
def ops_remap_bound : List Op :=
  [Op.add_mem 1 0 5 0, Op.set_io SPA_IO_Position 1 0 8,
   Op.port_set_io spa_direction.INPUT 0 0 SPA_IO_Buffers 1 4096 8,
   Op.set_io SPA_IO_Position SPA_ID_INVALID 0 0]

/-- A region is registered, the Buffers io area of the mix `(INPUT, 0, 0)` is bound into
it, and the mix, which is in slot 0, is cleared. -/
def ops_clear_mix_bound : List Op :=
  [Op.add_mem 1 0 5 0, Op.port_set_io spa_direction.INPUT 0 0 SPA_IO_Buffers 1 0 8,
   Op.clear_mix 0]

/-- A region is registered, a buffer living in it is installed on the mix `(INPUT, 0, 0)`,
and the mix, which is in slot 0, is cleared. -/
def ops_clear_mix_installed : List Op :=
  [Op.add_mem 1 0 5 0, Op.port_use_buffers spa_direction.INPUT 0 0 [buf_with_planes 1 []],
   Op.clear_mix 0]

end RemoteNode

/-! # The SPA plugins: ALSA source and channel merger

Shallow embeddings of the buffer handling of `spa/plugins/alsa/alsa-source.c` and
`spa/plugins/audioconvert/merger.c`. The nodes of the intrusive `spa_list`s of an object
(the list heads and the one `link` of each buffer) are kept in a link memory, where a
pointer to a node is its address. A function returns `none` where the C code has no
defined result (an index outside the `buffers` array, a `NULL` pointer that is followed,
a write behind a block, a division by zero). -/

namespace Spa

/-- The `uint32_t` value `SPA_ID_INVALID`. -/
def SPA_ID_INVALID : Nat := 0xffffffff

/-- The error number `EIO` of `errno.h` (the plain name is taken in Lean). -/
def EIO_errno : Int := 5

/-- The error number `EINVAL`. -/
def EINVAL : Int := 22

/-- The error number `EPIPE`. -/
def EPIPE : Int := 32

/-- Modelled from the spec: the status `SPA_STATUS_NEED_BUFFER` of spa/node/io.h, which is
not among the sources. -/
def SPA_STATUS_NEED_BUFFER : Int := 1

/-- Modelled from the spec: the status `SPA_STATUS_HAVE_BUFFER` of spa/node/io.h, which is
not among the sources; an io area with this status holds a published buffer id. -/
def SPA_STATUS_HAVE_BUFFER : Int := 2

/-- The macro `SPA_FLAG_CHECK(field, flag)`: all bits of `flag` are set in `field`. -/
def SPA_FLAG_CHECK (field flag : Nat) : Bool := (field &&& flag) == flag

/-- The macro `SPA_FLAG_SET(field, flag)` on a `uint32_t` field. -/
def SPA_FLAG_SET (field flag : Nat) : Nat := field ||| flag

/-- The macro `SPA_FLAG_UNSET(field, flag)` on a `uint32_t` field: `field & ~flag`. -/
def SPA_FLAG_UNSET (field flag : Nat) : Nat := field &&& (0xffffffff ^^^ flag)

/-- The `struct spa_io_buffers`: the io area shared between a port and its peer. -/
structure spa_io_buffers where
  status : Int
  buffer_id : Nat
  deriving DecidableEq, Repr

/-- Replace the element at position `n` of an array by its image under `f`. -/
def update_at {α : Type} (f : α → α) : List α → Nat → List α
  | [], _ => []
  | x :: xs, 0 => f x :: xs
  | x :: xs, n + 1 => x :: update_at f xs n

/-! ## Intrusive lists -/

/-- Modelled from the spec: the `struct spa_list` of spa/utils/list.h, which is not among
the sources: the node of an intrusive doubly linked list. A pointer to a node is its
address: `0` is `NULL`, and the address `a + 1` is entry `a` of the link memory of the
object that holds the nodes. -/
structure spa_list where
  next : Nat
  prev : Nat
  deriving DecidableEq, Repr

/-- A node as zero filled storage leaves it: both pointers `NULL`. -/
def spa_list_zero : spa_list := { next := 0, prev := 0 }

/-- The node at address `p`; `none` for `NULL` and for an address outside the memory. -/
def link_at (lm : List spa_list) (p : Nat) : Option spa_list :=
  if p = 0 then none else lm[p - 1]?

/-- The store `p->next = v`; `none` when `p` is `NULL` or outside the memory. -/
def set_next (lm : List spa_list) (p v : Nat) : Option (List spa_list) :=
  match link_at lm p with
  | none => none
  | some _ => some (update_at (fun x => { x with next := v }) lm (p - 1))

/-- The store `p->prev = v`; `none` when `p` is `NULL` or outside the memory. -/
def set_prev (lm : List spa_list) (p v : Nat) : Option (List spa_list) :=
  match link_at lm p with
  | none => none
  | some _ => some (update_at (fun x => { x with prev := v }) lm (p - 1))

/-- Modelled from the spec: `spa_list_init` of spa/utils/list.h:
`list->next = list; list->prev = list;`. It is only called on list heads, which are fields
of the object, so the address is one of the memory. -/
def spa_list_init (lm : List spa_list) (list : Nat) : List spa_list :=
  update_at (fun _ => { next := list, prev := list }) lm (list - 1)

/-- Modelled from the spec: `spa_list_insert` of spa/utils/list.h:
`elem->prev = list; elem->next = list->next; list->next = elem; elem->next->prev = elem;`,
the four stores in this order. -/
def spa_list_insert (lm : List spa_list) (list elem : Nat) : Option (List spa_list) :=
  (set_prev lm elem list).bind (fun l1 =>
    (link_at l1 list).bind (fun ln =>
      (set_next l1 elem ln.next).bind (fun l2 =>
        (set_next l2 list elem).bind (fun l3 =>
          (link_at l3 elem).bind (fun e => set_prev l3 e.next elem)))))

/-- Modelled from the spec: the macro `spa_list_append(list, item)` of spa/utils/list.h:
`spa_list_insert((list)->prev, item)`. -/
def spa_list_append (lm : List spa_list) (list item : Nat) : Option (List spa_list) :=
  (link_at lm list).bind (fun l => spa_list_insert lm l.prev item)

/-- Modelled from the spec: `spa_list_remove` of spa/utils/list.h:
`elem->prev->next = elem->next; elem->next->prev = elem->prev;`. -/
def spa_list_remove (lm : List spa_list) (elem : Nat) : Option (List spa_list) :=
  (link_at lm elem).bind (fun e =>
    (set_next lm e.prev e.next).bind (fun l1 =>
      (link_at l1 elem).bind (fun e1 => set_prev l1 e1.next e1.prev)))

/-- Modelled from the spec: the macro `spa_list_is_empty(l)` of spa/utils/list.h:
`(l)->next == (l)`. -/
def spa_list_is_empty (lm : List spa_list) (list : Nat) : Option Bool :=
  (link_at lm list).map (fun l => decide (l.next = list))

/-- Modelled from the spec: the node that the macro `spa_list_first(head, type, member)` of
spa/utils/list.h starts from, `(head)->next`. -/
def spa_list_first (lm : List spa_list) (head : Nat) : Option Nat :=
  (link_at lm head).map (fun l => l.next)

/-- The nodes met on the way along `next` from the node `p` until the head is reached, a
`NULL` or wild pointer is met, or `fuel` nodes have been counted. -/
def list_walk (lm : List spa_list) (head : Nat) : Nat → Nat → List Nat
  | 0, _ => []
  | fuel + 1, p =>
    if p = head then []
    else
      match link_at lm p with
      | none => []
      | some l => p :: list_walk lm head fuel l.next

/-- The nodes on the list with the head at address `head`, first node first, as the walk
along `next` meets them; it counts at most as many nodes as the memory has, so on a list
that does not lead back to its head it stops after that many. -/
def list_members (lm : List spa_list) (head : Nat) : List Nat :=
  match link_at lm head with
  | none => []
  | some h => list_walk lm head lm.length h.next

end Spa

namespace AlsaSource

open Spa

/-- Modelled from the spec: the flag `BUFFER_FLAG_OUT` of alsa-utils.h, which is not among
the sources: the buffer is outstanding, that is handed out and not yet recycled. -/
def BUFFER_FLAG_OUT : Nat := 1

/-- Modelled from the spec: the `struct buffer` of alsa-utils.h, which is not among the
sources, as far as alsa-source.c reads it: the id of the `spa_buffer` it wraps
(`b->buf->id`) and its flags. Its `link` is kept in the link memory of the state. -/
structure buffer where
  buf_id : Nat
  flags : Nat
  deriving DecidableEq, Repr

/-- Modelled from the spec: the `struct state` of alsa-utils.h, which is not among the
sources, as far as the buffer handling of alsa-source.c reads it. `buffers` is the whole
array, `io` is `none` for `NULL`. `links` is the memory of the list nodes of the state:
address 1 is the head `free`, address 2 the head `ready`, and address `3 + i` the `link`
of `buffers[i]`. -/
structure state where
  buffers : List buffer
  n_buffers : Nat
  links : List spa_list
  io : Option spa_io_buffers
  deriving DecidableEq, Repr

/-- The address of the list head `free`. -/
def free_addr : Nat := 1

/-- The address of the list head `ready`. -/
def ready_addr : Nat := 2

/-- The address of `buffers[i].link`. -/
def link_addr (i : Nat) : Nat := i + 3

/-- The index of the buffer whose `link` has the address `p` (the `struct buffer` that
`spa_list_first` computes from a node); a list head is the `link` of no buffer. -/
def buffer_of (p : Nat) : Option Nat := if p < 3 then none else some (p - 3)

/-- The indices of the buffers on the list `free`, first member first. -/
def state.free (s : state) : List Nat := (list_members s.links free_addr).filterMap buffer_of

/-- The indices of the buffers on the list `ready`, first member first. -/
def state.ready (s : state) : List Nat := (list_members s.links ready_addr).filterMap buffer_of

/-- The function `recycle_buffer`. -/
def recycle_buffer (this : state) (buffer_id : Nat) : Option state :=
  match this.buffers[buffer_id]? with
  | none => none
  | some b =>
    if SPA_FLAG_CHECK b.flags BUFFER_FLAG_OUT then
      match spa_list_append this.links free_addr (link_addr buffer_id) with
      | none => none
      | some links =>
        some { this with
          links := links
          buffers := update_at
            (fun x => { x with flags := SPA_FLAG_UNSET x.flags BUFFER_FLAG_OUT })
            this.buffers buffer_id }
    else some this

/-- The function `impl_node_port_reuse_buffer` on a node that is not `NULL`: the result
and the state. -/
def impl_node_port_reuse_buffer (this : state) (port_id buffer_id : Nat) :
    Option (Int × state) :=
  if port_id ≠ 0 then some (-EINVAL, this)
  else if this.n_buffers = 0 then some (-EIO_errno, this)
  else if buffer_id ≥ this.n_buffers then some (-EINVAL, this)
  else (recycle_buffer this buffer_id).map (fun s => (0, s))

/-- The function `impl_node_process` on a node that is not `NULL`: the result and the
state, the io area included. -/
def impl_node_process (this : state) : Option (Int × state) :=
  match this.io with
  | none => some (-EIO_errno, this)
  | some io =>
    if io.status = SPA_STATUS_HAVE_BUFFER then some (SPA_STATUS_HAVE_BUFFER, this)
    else
      let recycled :=
        if io.buffer_id < this.n_buffers then
          (recycle_buffer this io.buffer_id).map
            (fun s => { s with io := some { io with buffer_id := SPA_ID_INVALID } })
        else some this
      match recycled with
      | none => none
      | some s1 =>
        match spa_list_is_empty s1.links ready_addr with
        | none => none
        | some true => some (-EPIPE, s1)
        | some false =>
          match spa_list_first s1.links ready_addr with
          | none => none
          | some p =>
            match buffer_of p, spa_list_remove s1.links p with
            | some b, some links =>
              match s1.buffers[b]?, s1.io with
              | some bb, some io1 =>
                some (SPA_STATUS_HAVE_BUFFER,
                  { s1 with
                    links := links
                    io := some { io1 with buffer_id := bb.buf_id,
                                          status := SPA_STATUS_HAVE_BUFFER } })
              | _, _ => none
            | _, _ => none

end AlsaSource

namespace Merger

open Spa

/-- The constant `MAX_BUFFERS`: the length of a port's `buffers` array. -/
def MAX_BUFFERS : Nat := 64

/-- The constant `MAX_PORTS`: the length of the `in_ports` array. -/
def MAX_PORTS : Nat := 128

/-- The flag `BUFFER_FLAG_QUEUED`: the buffer is on the port's queue. -/
def BUFFER_FLAG_QUEUED : Nat := 1

/-- Modelled from the spec: the data types `SPA_DATA_MemPtr`, `SPA_DATA_MemFd` and
`SPA_DATA_DmaBuf` of spa/buffer/buffer.h, which is not among the sources. -/
def SPA_DATA_MemPtr : Nat := 1

/-- The data type `SPA_DATA_MemFd`, see `SPA_DATA_MemPtr`. -/
def SPA_DATA_MemFd : Nat := 2

/-- The data type `SPA_DATA_DmaBuf`, see `SPA_DATA_MemPtr`. -/
def SPA_DATA_DmaBuf : Nat := 3

/-- The two values of `enum spa_direction`. -/
inductive spa_direction where
  | INPUT
  | OUTPUT
  deriving DecidableEq, Repr

/-- What merger.c reads of a `struct spa_data`: type, data pointer (`0` for `NULL`),
`maxsize` and the size in its chunk. -/
structure spa_data where
  type : Nat
  data : Nat
  maxsize : Nat
  chunk_size : Nat
  deriving DecidableEq, Repr

/-- What merger.c reads of a `struct spa_buffer`; `n_datas` is the length of `datas`. -/
structure spa_buffer where
  id : Nat
  datas : List spa_data
  deriving DecidableEq, Repr

/-- The `struct buffer`; `buf` is `none` for `NULL`, its `link` is kept in the link memory
of the port. -/
structure buffer where
  flags : Nat
  buf : Option spa_buffer
  deriving DecidableEq, Repr

/-- Modelled from the spec: the sample formats of `enum spa_audio_format`
(spa/param/audio/raw.h, which is not among the sources) that merger.c names: the
interleaved ones, then the planar ones (suffix `P`). `S16`, `S24`, `S32`, `S24_32` and
`F32` are the formats in the byte order of the machine, `_OE` the other byte order. -/
inductive spa_audio_format where
  | UNKNOWN
  | U8
  | S16
  | S16_OE
  | S24
  | S24_OE
  | S24_32
  | S32
  | F32
  | U8P
  | S16P
  | S24P
  | S24_32P
  | S32P
  | F32P
  deriving DecidableEq, Repr

/-- Modelled from the spec: the macro `SPA_AUDIO_FORMAT_IS_PLANAR` of
spa/param/audio/raw.h, which is not among the sources: the formats with one block of
samples per channel. -/
def SPA_AUDIO_FORMAT_IS_PLANAR : spa_audio_format → Bool
  | spa_audio_format.U8P => true
  | spa_audio_format.S16P => true
  | spa_audio_format.S24P => true
  | spa_audio_format.S24_32P => true
  | spa_audio_format.S32P => true
  | spa_audio_format.F32P => true
  | _ => false

/-- The `struct spa_audio_info_raw`, as far as merger.c reads it. -/
structure spa_audio_info_raw where
  format : spa_audio_format
  rate : Nat
  channels : Nat
  deriving DecidableEq, Repr

/-- The `struct spa_audio_info`: media type, subtype and `info.raw`. -/
structure spa_audio_info where
  media_type : Nat
  media_subtype : Nat
  raw : spa_audio_info_raw
  deriving DecidableEq, Repr

/-- The value `{ 0 }` of a `struct spa_audio_info`. -/
def spa_audio_info_zero : spa_audio_info :=
  { media_type := 0, media_subtype := 0,
    raw := { format := spa_audio_format.UNKNOWN, rate := 0, channels := 0 } }

/-- The `struct port`, as far as the buffer handling reads it. `io` is `none` for `NULL`,
`ctrl` holds `ctrl->max_size` when the pointer is set, `buffers` is the whole array.
`links` is the memory of the list nodes of the port: address 1 is the head `queue`, and
address `2 + i` the `link` of `buffers[i]`. -/
structure port where
  valid : Bool
  id : Nat
  io : Option spa_io_buffers
  ctrl : Option Nat
  have_format : Bool
  stride : Nat
  buffers : List buffer
  n_buffers : Nat
  links : List spa_list
  format : spa_audio_info := spa_audio_info_zero
  blocks : Nat := 0
  deriving DecidableEq, Repr

/-- The address of the list head `queue`. -/
def queue_addr : Nat := 1

/-- The address of `buffers[i].link`. -/
def link_addr (i : Nat) : Nat := i + 2

/-- The index of the buffer whose `link` has the address `p` (the `struct buffer` that
`spa_list_first` computes from a node); the list head is the `link` of no buffer. -/
def buffer_of (p : Nat) : Option Nat := if p < 2 then none else some (p - 2)

/-- The indices of the buffers on the list `queue`, first member first. -/
def port.queue (pt : port) : List Nat := (list_members pt.links queue_addr).filterMap buffer_of

/-- The `struct impl`, as far as the port and buffer handling reads it. `convert` tells
whether the conversion function is set, `out_port` is `out_ports[0]`. -/
structure impl where
  last_port : Nat
  in_ports : List port
  out_port : port
  convert : Bool
  port_count : Int := 0
  n_formats : Int := 0
  have_format : Bool := false
  format : spa_audio_info := spa_audio_info_zero
  force_rate : Bool := false
  deriving DecidableEq, Repr

/-- The function `queue_buffer`. -/
def queue_buffer (pt : port) (id : Nat) : Option port :=
  match pt.buffers[id]? with
  | none => none
  | some b =>
    if SPA_FLAG_CHECK b.flags BUFFER_FLAG_QUEUED then some pt
    else
      match spa_list_append pt.links queue_addr (link_addr id) with
      | none => none
      | some links =>
        some { pt with
          links := links
          buffers := update_at
            (fun x => { x with flags := SPA_FLAG_SET x.flags BUFFER_FLAG_QUEUED })
            pt.buffers id }

/-- The function `dequeue_buffer`: `some none` for `NULL` (empty queue), otherwise the index
of the buffer taken from the head of the queue and the port. -/
def dequeue_buffer (pt : port) : Option (Option (Nat × port)) :=
  match spa_list_is_empty pt.links queue_addr with
  | none => none
  | some true => some none
  | some false =>
    match spa_list_first pt.links queue_addr with
    | none => none
    | some p =>
      match buffer_of p, spa_list_remove pt.links p with
      | some b, some links =>
        match pt.buffers[b]? with
        | none => none
        | some _ =>
          some (some (b,
            { pt with
              links := links
              buffers := update_at
                (fun x => { x with flags := SPA_FLAG_UNSET x.flags BUFFER_FLAG_QUEUED })
                pt.buffers b }))
      | _, _ => none

/-- The function `clear_buffers`. -/
def clear_buffers (pt : port) : port :=
  if pt.n_buffers > 0 then
    { pt with n_buffers := 0, links := spa_list_init pt.links queue_addr }
  else pt

/-- The macro `CHECK_PORT(this, d, p)`. -/
def CHECK_PORT (this : impl) (d : spa_direction) (p : Nat) : Bool :=
  (d == spa_direction.OUTPUT && p == 0) ||
  (d == spa_direction.INPUT && decide (p < MAX_PORTS) &&
    (match this.in_ports[p]? with | some q => q.valid | none => false))

/-- The macro `GET_PORT(this, d, p)`, read access. -/
def GET_PORT (this : impl) (d : spa_direction) (p : Nat) : Option port :=
  match d with
  | spa_direction.INPUT => this.in_ports[p]?
  | spa_direction.OUTPUT => if p = 0 then some this.out_port else none

/-- Write a port back to where `GET_PORT(this, d, p)` points. -/
def SET_PORT (this : impl) (d : spa_direction) (p : Nat) (q : port) : impl :=
  match d with
  | spa_direction.INPUT => { this with in_ports := update_at (fun _ => q) this.in_ports p }
  | spa_direction.OUTPUT => { this with out_port := q }

/-- The loop of `impl_node_port_use_buffers` from buffer `i` on: the port and whether the
loop ran to the end (`false`: invalid memory on a buffer). -/
def use_buffers_loop (direction : spa_direction) :
    List spa_buffer → Nat → port → Option (port × Bool)
  | [], _, pt => some (pt, true)
  | sb :: rest, i, pt =>
    match pt.buffers[i]?, sb.datas[0]? with
    | some _, some d0 =>
      let port1 := { pt with
        buffers := update_at (fun _ => { flags := 0, buf := some sb }) pt.buffers i }
      if ¬ ((d0.type = SPA_DATA_MemPtr ∨ d0.type = SPA_DATA_MemFd ∨ d0.type = SPA_DATA_DmaBuf)
          ∧ d0.data ≠ 0) then
        some (port1, false)
      else
        match (if direction = spa_direction.OUTPUT then queue_buffer port1 i else some port1) with
        | none => none
        | some port2 => use_buffers_loop direction rest (i + 1) port2
    | _, _ => none

/-- The function `impl_node_port_use_buffers` on a node that is not `NULL`; `n_buffers` is
the length of `buffers`. -/
def impl_node_port_use_buffers (this : impl) (direction : spa_direction) (port_id : Nat)
    (buffers : List spa_buffer) : Option (Int × impl) :=
  if ¬ CHECK_PORT this direction port_id then some (-EINVAL, this)
  else
    match GET_PORT this direction port_id with
    | none => none
    | some pt =>
      if ¬ pt.have_format then some (-EIO_errno, this)
      else
        match use_buffers_loop direction buffers 0 (clear_buffers pt) with
        | none => none
        | some (port1, false) => some (-EINVAL, SET_PORT this direction port_id port1)
        | some (port1, true) =>
          some (0, SET_PORT this direction port_id { port1 with n_buffers := buffers.length })

/-- The function `impl_node_port_reuse_buffer` on a node that is not `NULL`. -/
def impl_node_port_reuse_buffer (this : impl) (port_id buffer_id : Nat) :
    Option (Int × impl) :=
  if ¬ CHECK_PORT this spa_direction.OUTPUT port_id then some (-EINVAL, this)
  else
    (queue_buffer this.out_port buffer_id).map (fun q => (0, { this with out_port := q }))

/-- One round of the loop of `impl_node_process` over the input ports: a port whose io
area holds a buffer is asked for the next one. The flag tells whether it was. -/
def process_input (inport : port) : Option (port × Bool) :=
  match inport.io with
  | none => some (inport, false)
  | some inio =>
    if inio.status ≠ SPA_STATUS_HAVE_BUFFER ∨ inio.buffer_id ≥ inport.n_buffers then
      some (inport, false)
    else
      match inport.buffers[inio.buffer_id]? with
      | none => none
      | some sbuf =>
        match sbuf.buf with
        | none => none
        | some sb =>
          match sb.datas[0]? with
          | none => none
          | some _ =>
            if inport.stride = 0 then none
            else some ({ inport with io := some { inio with status := SPA_STATUS_NEED_BUFFER } },
                       true)

/-- The loop of `impl_node_process` over the input ports `0 .. n-1`. -/
def process_inputs : List port → Nat → Option (List port × Bool)
  | ports, 0 => some (ports, false)
  | [], _ + 1 => none
  | p :: ps, n + 1 =>
    match process_input p with
    | none => none
    | some (p1, c) =>
      match process_inputs ps n with
      | none => none
      | some (ps1, c1) => some (p1 :: ps1, c || c1)

/-- The function `impl_node_process` on a node that is not `NULL`: the result and the
state, io areas included. The samples and the chunks written to the buffer memory are
left out; they touch neither queue nor io area. The block `src_datas` is taken from
`alloca` for `port_count` pointers and the loop over the input ports stores one pointer
per port below `last_port`: with `port_count < last_port` the loop writes behind the
block. The two status bits differ, so the result with both set is their sum. -/
def impl_node_process (this : impl) : Option (Int × impl) :=
  match this.out_port.io with
  | none => some (-EIO_errno, this)
  | some outio =>
    if ¬ this.convert then some (-EIO_errno, this)
    else if outio.status = SPA_STATUS_HAVE_BUFFER then some (SPA_STATUS_HAVE_BUFFER, this)
    else
      match (if outio.buffer_id < this.out_port.n_buffers then
               queue_buffer this.out_port outio.buffer_id
             else some this.out_port) with
      | none => none
      | some port1 =>
        match dequeue_buffer port1 with
        | none => none
        | some none => some (-EPIPE, { this with out_port := port1 })
        | some (some (bi, port2)) =>
          match port2.buffers[bi]? with
          | none => none
          | some dbuf =>
            match dbuf.buf with
            | none => none
            | some db =>
              match db.datas[0]? with
              | none => none
              | some _ =>
                if port2.stride = 0 then none
                else if this.port_count < (this.last_port : Int) then none
                else
                  match process_inputs this.in_ports this.last_port with
                  | none => none
                  | some (ins, need) =>
                    some ((if need then SPA_STATUS_NEED_BUFFER else 0) + SPA_STATUS_HAVE_BUFFER,
                      { this with
                        in_ports := ins
                        out_port := { port2 with
                          io := some { outio with buffer_id := db.id,
                                                  status := SPA_STATUS_HAVE_BUFFER } } })

end Merger

namespace AlsaSource

open Spa

/-- A source with two buffers installed: buffer 0 was published and is outstanding, buffer 1
is filled and waits on the ready list; the io area still names buffer 0, which the peer
has consumed (status `SPA_STATUS_NEED_BUFFER`). -/
def sample_state : state :=
  { buffers := [{ buf_id := 0, flags := BUFFER_FLAG_OUT }, { buf_id := 1, flags := BUFFER_FLAG_OUT }]
    n_buffers := 2
    links := [{ next := 1, prev := 1 }, { next := 4, prev := 4 },
              { next := 2, prev := 2 }, { next := 2, prev := 2 }]
    io := some { status := SPA_STATUS_NEED_BUFFER, buffer_id := 0 } }

/-- A source on which no buffers are installed. -/
def sample_empty : state :=
  { buffers := [{ buf_id := 0, flags := 0 }, { buf_id := 0, flags := 0 }]
    n_buffers := 0
    links := [{ next := 1, prev := 1 }, { next := 2, prev := 2 }, spa_list_zero, spa_list_zero]
    io := none }

end AlsaSource

namespace Merger

open Spa

/-- A port slot as zero filled storage leaves it. -/
def zero_port : port :=
  { valid := false, id := 0, io := none, ctrl := none, have_format := false, stride := 0,
    buffers := List.replicate MAX_BUFFERS { flags := 0, buf := none },
    n_buffers := 0, links := List.replicate (MAX_BUFFERS + 1) spa_list_zero }

/-- A merger after `impl_init` whose output port has got a format (stride 4), a conversion
function and an io area that holds no buffer. -/
def sample_impl : impl :=
  { last_port := 0
    in_ports := List.replicate MAX_PORTS zero_port
    out_port := { zero_port with
      valid := true, have_format := true, stride := 4,
      links := spa_list_init zero_port.links queue_addr,
      io := some { status := SPA_STATUS_NEED_BUFFER, buffer_id := SPA_ID_INVALID } }
    convert := true }

/-- A buffer with one mapped data plane of 64 bytes. -/
def sample_buffer (id : Nat) : spa_buffer :=
  { id := id, datas := [{ type := SPA_DATA_MemPtr, data := 0x1000, maxsize := 64, chunk_size := 0 }] }

/-- The merger `sample_impl` after two buffers were installed on its output port. -/
def sample_two : impl :=
  match impl_node_port_use_buffers sample_impl spa_direction.OUTPUT 0
      [sample_buffer 0, sample_buffer 1] with
  | some (_, s) => s
  | none => sample_impl


/-- A buffer whose data plane has no memory: its `data` is `NULL`. -/
def bad_buffer (id : Nat) : spa_buffer :=
  { id := id, datas := [{ type := SPA_DATA_MemPtr, data := 0, maxsize := 64, chunk_size := 0 }] }

/-- The merger `sample_impl` after `impl_node_port_use_buffers` on its output port was
refused for the buffers 0 (good) and 1 (without memory). -/
def sample_refused : impl :=
  match impl_node_port_use_buffers sample_impl spa_direction.OUTPUT 0
      [sample_buffer 0, bad_buffer 1] with
  | some (_, s) => s
  | none => sample_impl

/-- The merger `sample_refused` after `impl_node_port_use_buffers` on its output port with
buffer 0 alone. -/
def sample_retry : impl :=
  match impl_node_port_use_buffers sample_refused spa_direction.OUTPUT 0 [sample_buffer 0] with
  | some (_, s) => s
  | none => sample_refused

/-- The state of a merger after the peer has taken the buffer out of the io area of the
output port and has not handed it back: the status is `SPA_STATUS_NEED_BUFFER` and the
buffer id `SPA_ID_INVALID`. -/
def consume (this : impl) : impl :=
  { this with out_port := { this.out_port with
      io := some { status := SPA_STATUS_NEED_BUFFER, buffer_id := SPA_ID_INVALID } } }

/-- The merger `sample_two` after `impl_node_process` published buffer 0: buffer 1 is on the
queue, buffer 0 is outstanding. -/
def sample_published : impl :=
  match impl_node_process sample_two with
  | some (_, s) => s
  | none => sample_two

end Merger

namespace Merger

open Spa

/-! ## Ports and formats of the merger -/

/-- The macro `CHECK_FREE_IN_PORT(this, d, p)`. -/
def CHECK_FREE_IN_PORT (this : impl) (d : spa_direction) (p : Nat) : Bool :=
  d == spa_direction.INPUT && decide (p < MAX_PORTS) &&
    (match this.in_ports[p]? with | some q => !q.valid | none => false)

/-- The macro `CHECK_IN_PORT(this, d, p)`. -/
def CHECK_IN_PORT (this : impl) (d : spa_direction) (p : Nat) : Bool :=
  d == spa_direction.INPUT && decide (p < MAX_PORTS) &&
    (match this.in_ports[p]? with | some q => q.valid | none => false)

/-- The function `impl_node_add_port` on a node that is not `NULL`: the result and the
state. -/
def impl_node_add_port (this : impl) (direction : spa_direction) (port_id : Nat) : Int × impl :=
  if ¬ CHECK_FREE_IN_PORT this direction port_id then (-EINVAL, this)
  else
    (0, { this with
      in_ports := update_at
        (fun q => { q with valid := true, id := port_id, have_format := false })
        this.in_ports port_id
      port_count := this.port_count + 1
      last_port := if this.last_port ≤ port_id then port_id + 1 else this.last_port
      have_format := false })

/-- The loop `for (i = this->last_port; i >= 0; i--) if (GET_IN_PORT(this, i)->valid) break;`
of `impl_node_remove_port`, counted from `i + 1` down: the value of `i + 1` at which it
stops, or `none` when it reads outside the array. -/
def last_valid_below (ports : List port) : Nat → Option Nat
  | 0 => some 0
  | n + 1 =>
    match ports[n]? with
    | none => none
    | some q => if q.valid then some (n + 1) else last_valid_below ports n

/-- A port slot after `spa_memzero(port, sizeof(struct port))`. -/
def memzero_port : port :=
  { valid := false, id := 0, io := none, ctrl := none, have_format := false, stride := 0,
    buffers := List.replicate MAX_BUFFERS { flags := 0, buf := none },
    n_buffers := 0, links := List.replicate (MAX_BUFFERS + 1) spa_list_zero }

/-- The function `impl_node_remove_port` on a node that is not `NULL`: the result and the
state, or `none` when the scan for the last port reads outside `in_ports`. The scan is
entered when `port_id == this->last_port + 1`. -/
def impl_node_remove_port (this : impl) (direction : spa_direction) (port_id : Nat) :
    Option (Int × impl) :=
  if ¬ CHECK_IN_PORT this direction port_id then some (-EINVAL, this)
  else
    match this.in_ports[port_id]? with
    | none => none
    | some pt =>
      let this1 : impl := { this with port_count := this.port_count - 1 }
      let this2 : impl :=
        if pt.have_format then
          if this1.n_formats - 1 = (0 : Int) then
            { this1 with n_formats := this1.n_formats - 1, have_format := false, convert := false }
          else { this1 with n_formats := this1.n_formats - 1 }
        else this1
      let this3 : impl := { this2 with in_ports := update_at (fun _ => memzero_port) this2.in_ports port_id }
      if port_id = this3.last_port + 1 then
        match last_valid_below this3.in_ports (this3.last_port + 1) with
        | none => none
        | some l => some (0, { this3 with last_port := l })
      else some (0, this3)

/-- The function `calc_width`. -/
def calc_width (info : spa_audio_info) : Nat :=
  match info.raw.format with
  | spa_audio_format.U8 => 1
  | spa_audio_format.S16 => 2
  | spa_audio_format.S16_OE => 2
  | spa_audio_format.S24 => 3
  | spa_audio_format.S24_OE => 3
  | _ => 4

/-- Modelled from the spec: the media type `SPA_MEDIA_TYPE_audio` and the subtype
`SPA_MEDIA_SUBTYPE_raw` of spa/param/format.h, which is not among the sources. -/
def SPA_MEDIA_TYPE_audio : Nat := 1

/-- The subtype `SPA_MEDIA_SUBTYPE_raw`, see `SPA_MEDIA_TYPE_audio`. -/
def SPA_MEDIA_SUBTYPE_raw : Nat := 1

/-- Modelled from the spec: a format pod as `spa_format_parse` and
`spa_format_audio_raw_parse` (neither among the sources) read it: the result of the first,
the media type and subtype it yields, and the raw audio info the second yields (`none`
when it fails). -/
structure format_pod where
  parse_res : Int
  media_type : Nat
  media_subtype : Nat
  raw : Option spa_audio_info_raw
  deriving DecidableEq, Repr

/-- The function `find_in_port`: the first input port below `last_port` that has a format. -/
def find_in_port (this : impl) : Option port :=
  (this.in_ports.take this.last_port).find? (fun q => q.have_format)

/-- The function `setup_convert`; `find_conv_info` (fmt-ops.c) is not among the sources,
`conv src dst` tells whether it finds a conversion. -/
def setup_convert (conv : spa_audio_format → spa_audio_format → Bool) (this : impl) : impl :=
  match find_in_port this with
  | none => this
  | some inport =>
    if ¬ this.out_port.have_format then this
    else if conv inport.format.raw.format this.out_port.format.raw.format then
      { this with convert := true }
    else this

/-- The function `port_set_format`, called after `CHECK_PORT` has passed: the result and the
state; `format` is `none` for `NULL`. -/
def port_set_format (conv : spa_audio_format → spa_audio_format → Bool) (this : impl)
    (direction : spa_direction) (port_id : Nat) (_flags : Nat) (format : Option format_pod) :
    Option (Int × impl) :=
  match GET_PORT this direction port_id with
  | none => none
  | some pt =>
    match format with
    | none =>
      if pt.have_format then
        let this1 : impl := { this with n_formats := this.n_formats - 1 }
        let this2 : impl := if this1.n_formats = (0 : Int) then { this1 with have_format := false } else this1
        some (0, SET_PORT this2 direction port_id (clear_buffers { pt with have_format := false }))
      else some (0, this)
    | some f =>
      if f.parse_res < 0 then some (f.parse_res, this)
      else if f.media_type ≠ SPA_MEDIA_TYPE_audio ∨ f.media_subtype ≠ SPA_MEDIA_SUBTYPE_raw then
        some (-EINVAL, this)
      else
        match f.raw with
        | none => some (-EINVAL, this)
        | some raw =>
          let info : spa_audio_info :=
            { media_type := f.media_type, media_subtype := f.media_subtype, raw := raw }
          if (this.have_format ∨ this.force_rate) ∧ raw.rate ≠ this.format.raw.rate then
            some (-EINVAL, this)
          else if direction = spa_direction.OUTPUT ∧ (raw.channels : Int) ≠ this.port_count then
            some (-EINVAL, this)
          else if direction = spa_direction.INPUT ∧
              (raw.format ≠ spa_audio_format.F32P ∨ raw.channels ≠ 1) then
            some (-EINVAL, this)
          else
            let port1 : port :=
              if SPA_AUDIO_FORMAT_IS_PLANAR raw.format then
                { pt with format := info, stride := calc_width info, blocks := raw.channels }
              else
                { pt with format := info, stride := calc_width info * raw.channels % 2 ^ 32,
                          blocks := 1 }
            let this1 : impl := { this with have_format := true, format := info }
            let this2 : impl :=
              if ¬ port1.have_format then
                SET_PORT { this1 with n_formats := this1.n_formats + 1 } direction port_id
                  { port1 with have_format := true }
              else SET_PORT this1 direction port_id port1
            some (0, setup_convert conv this2)

/-- The function `impl_node_port_set_param` for the parameter `SPA_PARAM_Format` on a node
that is not `NULL`. -/
def impl_node_port_set_format (conv : spa_audio_format → spa_audio_format → Bool) (this : impl)
    (direction : spa_direction) (port_id : Nat) (flags : Nat) (param : Option format_pod) :
    Option (Int × impl) :=
  if ¬ CHECK_PORT this direction port_id then some (-EINVAL, this)
  else port_set_format conv this direction port_id flags param

/-- The state that `impl_init` sets up on zero filled storage: no input port, the output
port valid. -/
def impl_init : impl :=
  { last_port := 0
    in_ports := List.replicate MAX_PORTS memzero_port
    out_port := { memzero_port with
      valid := true, id := 0, links := spa_list_init memzero_port.links queue_addr }
    convert := false }

/-- The byte width of one sample of a format, in the words of the specification. -/
def spec_sample_width : spa_audio_format → Nat
  | spa_audio_format.U8 => 1
  | spa_audio_format.U8P => 1
  | spa_audio_format.S16 => 2
  | spa_audio_format.S16_OE => 2
  | spa_audio_format.S16P => 2
  | spa_audio_format.S24 => 3
  | spa_audio_format.S24_OE => 3
  | spa_audio_format.S24P => 3
  | _ => 4

/-- Number of valid input ports. -/
def valid_count (this : impl) : Nat := this.in_ports.countP (fun q => q.valid)

/-- One more than the highest id of a valid input port, 0 when there is none, in the words
of the specification. -/
def spec_last_port (this : impl) : Nat :=
  ((List.range this.in_ports.length).filter
    (fun i => match this.in_ports[i]? with | some q => q.valid | none => false)).foldl
    (fun acc i => max acc (i + 1)) 0

/-- The calls that add and remove input ports. -/
inductive PortOp where
  | add_port (direction : spa_direction) (port_id : Nat)
  | remove_port (direction : spa_direction) (port_id : Nat)
  deriving DecidableEq, Repr

/-- One call applied to a state; `none` where the C code has no defined result. -/
def port_step (this : impl) : PortOp → Option impl
  | PortOp.add_port d p => some (impl_node_add_port this d p).2
  | PortOp.remove_port d p => (impl_node_remove_port this d p).map (fun r => r.2)

/-- A sequence of calls applied to a state, first call first. -/
def port_run : impl → List PortOp → Option impl
  | this, [] => some this
  | this, op :: rest =>
    match port_step this op with
    | none => none
    | some this1 => port_run this1 rest

/-- A raw audio format pod that parses. -/
def sample_pod (format : spa_audio_format) (rate channels : Nat) : format_pod :=
  { parse_res := 0, media_type := SPA_MEDIA_TYPE_audio, media_subtype := SPA_MEDIA_SUBTYPE_raw,
    raw := some { format := format, rate := rate, channels := channels } }

/-- The merger after `impl_init` and `impl_node_add_port` for the input ports 0 and 1. -/
def sample_stereo : impl :=
  (impl_node_add_port (impl_node_add_port impl_init spa_direction.INPUT 0).2
    spa_direction.INPUT 1).2

end Merger

/-! # V4L2: comparing a frame interval with a frame rate

A shallow embedding of `compare_fraction` of `spa/plugins/v4l2/v4l2-utils.c`. -/

namespace V4l2

/-- Modelled from the spec: the `struct v4l2_fract` of linux/videodev2.h, which is not among
the sources: a frame interval in seconds, `numerator / denominator`, two `__u32`. -/
structure v4l2_fract where
  numerator : Nat
  denominator : Nat
  deriving DecidableEq, Repr

/-- Modelled from the spec: the `SpaFraction` of spa/defs.h, which is not among the sources:
a frame rate `num / denom`, two `uint32_t`. -/
structure SpaFraction where
  num : Nat
  denom : Nat
  deriving DecidableEq, Repr

/-- The largest value of an `int64_t`. -/
def INT64_MAX : Nat := 2 ^ 63 - 1

/-- The function `compare_fraction`. The products are formed in `int64_t` (the cast binds
to the first factor, the second is converted to it) and stored in `uint64_t`; where a
product exceeds `INT64_MAX` the multiplication overflows and C defines no result, which
is `none` here. -/
def compare_fraction (f1 : v4l2_fract) (f2 : SpaFraction) : Option Int :=
  if f1.denominator = f2.num ∧ f1.numerator = f2.denom then some 0
  else
    let n1 := f1.denominator * f2.denom
    let n2 := f1.numerator * f2.num
    if n1 > INT64_MAX ∨ n2 > INT64_MAX then none
    else if n1 < n2 then some (-1)
    else some 1

/-- The frame rate of a frame interval, `denominator / numerator`, as a rational number. -/
def rate_of (f1 : v4l2_fract) : ℚ := (f1.denominator : ℚ) / (f1.numerator : ℚ)

/-- The frame rate `num / denom` as a rational number. -/
def value_of (f2 : SpaFraction) : ℚ := (f2.num : ℚ) / (f2.denom : ℚ)

end V4l2

/-! # Device resources: the listener for asynchronous replies

A shallow embedding of the reply handling of `src/pipewire/impl-device.c`: the fields
`seq`, `end` and `listener` of a `struct resource_data` and the busy flag of its client.
Result events reach the resource between its calls, from the main loop. -/

namespace ImplDevice

/-- Modelled from the spec: the macro `SPA_RESULT_IS_ASYNC` of spa/utils/result.h, which is
not among the sources: of the bits 31 and 30 of the result exactly bit 30 is set. -/
def SPA_RESULT_IS_ASYNC (res : Int) : Bool := (res % 2 ^ 32).toNat / 2 ^ 30 == 1

/-- Modelled from the spec: the result type `SPA_RESULT_TYPE_DEVICE_PARAMS` of
spa/monitor/device.h, which is not among the sources. -/
def SPA_RESULT_TYPE_DEVICE_PARAMS : Nat := 1

/-- The two `result` callbacks that `listener` is registered with. -/
inductive result_callback where
  | result_device_params_async
  | result_device_done
  deriving DecidableEq, Repr

/-- What the resource does outside of its own memory, in order of time. -/
inductive Event where
  | add_listener (cb : result_callback)
  | hook_remove
  | set_busy (busy : Bool)
  | resource_error (seq res : Int)
  | resource_param (seq : Int)
  deriving DecidableEq, Repr

/-- The `struct resource_data`, as far as the reply handling reads it. `end_seq` is the
field `end`, `listener` the number of times the hook `listener` is linked into the hook
list of the device, `callback` the events it was last registered with, `busy` the busy
flag of `resource->client`. -/
structure resource_data where
  seq : Int
  end_seq : Int
  listener : Nat
  callback : result_callback
  busy : Bool
  trace : List Event
  deriving DecidableEq, Repr

/-- The state that `global_bind` sets up on the zero filled user data of a new resource of
a client whose busy flag is `busy`. -/
def global_bind (busy : Bool) : resource_data :=
  { seq := 0, end_seq := -1, listener := 0,
    callback := result_callback.result_device_params_async, busy := busy, trace := [] }

/-- The part shared by `device_enum_params` and `device_set_param` for a result that is
asynchronous: `sync` is what `spa_device_sync(device->device, res)` returns. -/
def await_reply (d : resource_data) (cb : result_callback) (res sync : Int) : resource_data :=
  let d1 := { d with busy := true, trace := d.trace ++ [Event.set_busy true] }
  let d2 :=
    if d1.end_seq = -1 then
      { d1 with listener := d1.listener + 1, callback := cb,
                trace := d1.trace ++ [Event.add_listener cb] }
    else d1
  { d2 with seq := res, end_seq := sync }

/-- The method `device_enum_params`: `res` is what `pw_impl_device_for_each_param` returns,
`sync` what `spa_device_sync` returns when it is called. -/
def device_enum_params (d : resource_data) (seq res sync : Int) : Int × resource_data :=
  if res < 0 then (res, { d with trace := d.trace ++ [Event.resource_error seq res] })
  else if SPA_RESULT_IS_ASYNC res then
    (res, await_reply d result_callback.result_device_params_async res sync)
  else (res, d)

/-- The method `device_set_param`: `res` is what `spa_device_set_param` returns, `sync` what
`spa_device_sync` returns when it is called. -/
def device_set_param (d : resource_data) (res sync : Int) : Int × resource_data :=
  if res < 0 then (res, { d with trace := d.trace ++ [Event.resource_error 0 res] })
  else if SPA_RESULT_IS_ASYNC res then
    (res, await_reply d result_callback.result_device_done res sync)
  else (res, d)

/-- The callback `result_device_done`. -/
def result_device_done (d : resource_data) (seq : Int) : resource_data :=
  if seq = d.end_seq then
    { d with listener := d.listener - 1, end_seq := -1, busy := false,
             trace := d.trace ++ [Event.hook_remove, Event.set_busy false] }
  else d

/-- The callback `result_device_params_async`. -/
def result_device_params_async (d : resource_data) (seq : Int) (type : Nat) : resource_data :=
  let d1 := result_device_done d seq
  if seq = d1.seq ∧ type = SPA_RESULT_TYPE_DEVICE_PARAMS then
    { d1 with trace := d1.trace ++ [Event.resource_param seq] }
  else d1

/-- A result event of the device: it reaches the resource through `listener` when that hook
is linked, with the callback it was registered with. -/
def emit_result (d : resource_data) (seq : Int) (type : Nat) : resource_data :=
  if d.listener = 0 then d
  else
    match d.callback with
    | result_callback.result_device_params_async => result_device_params_async d seq type
    | result_callback.result_device_done => result_device_done d seq

/-- The calls on a device resource and the result events of its device. -/
inductive Call where
  | enum_params (seq res sync : Int)
  | set_param (res sync : Int)
  | result (seq : Int) (type : Nat)
  deriving DecidableEq, Repr

/-- One call applied to a state. -/
def step (d : resource_data) : Call → resource_data
  | Call.enum_params seq res sync => (device_enum_params d seq res sync).2
  | Call.set_param res sync => (device_set_param d res sync).2
  | Call.result seq type => emit_result d seq type

/-- A sequence of calls applied to a state, first call first. -/
def run (d : resource_data) (calls : List Call) : resource_data := calls.foldl step d

/-- What `spa_device_sync` returns in a call, when the call reaches it. -/
def sync_result : Call → Option Int
  | Call.enum_params _ res sync => if 0 ≤ res ∧ SPA_RESULT_IS_ASYNC res then some sync else none
  | Call.set_param res sync => if 0 ≤ res ∧ SPA_RESULT_IS_ASYNC res then some sync else none
  | Call.result _ _ => none

/-- Number of `spa_hook_remove` calls in a trace. -/
def removals (tr : List Event) : Nat := tr.count Event.hook_remove

/-- An asynchronous result with sequence number 5: bit 30 set. -/
def async5 : Int := 2 ^ 30 + 5

/-- The sync point that follows `async5`. -/
def async6 : Int := 2 ^ 30 + 6

end ImplDevice

namespace Merger

open Spa

/-- What the port bookkeeping of the merger does keep: the array has `MAX_PORTS` slots,
`port_count` is the number of valid input ports, and every valid input port lies below
`last_port`. -/
def ports_inv (s : impl) : Prop :=
  s.in_ports.length = MAX_PORTS ∧ s.port_count = (valid_count s : Int) ∧
  ∀ (i : Nat) (q : port), s.in_ports[i]? = some q → q.valid = true → i < s.last_port

end Merger

/-! # Properties -/

namespace RemoteNode

/-! ## Lemmas on the registry lookup -/

theorem find_mem_eq_none_iff (ms : List mem) (id : Nat) :
    find_mem ms id = none ↔ ∀ m ∈ ms, m.id ≠ id := by
  induction ms with
  | nil => simp [find_mem]
  | cons m ms ih =>
    by_cases h : m.id = id
    · simp [find_mem, h]
    · simp [find_mem, h, ih]

theorem find_mem_isSome_iff (ms : List mem) (id : Nat) :
    (find_mem ms id).isSome ↔ ∃ m ∈ ms, m.id = id := by
  rw [← not_iff_not]
  simp [find_mem_eq_none_iff]

/-! ## Registration -/

/-- C9: `client_node_add_mem` with a `mem_id` that some entry of the registry already
carries returns the state unchanged (the first registration wins); with a `mem_id`
that no entry carries it appends exactly one entry with the given id, fd and flags,
ref count 0 and no mapping, and changes nothing else. -/
theorem client_node_add_mem_spec (d : node_data) (mem_id type : Nat) (memfd : Int)
    (flags : Nat) :
    ((∃ m ∈ d.mems, m.id = mem_id) → client_node_add_mem d mem_id type memfd flags = d) ∧
    ((∀ m ∈ d.mems, m.id ≠ mem_id) →
      client_node_add_mem d mem_id type memfd flags =
        { d with mems := d.mems ++
            [{ id := mem_id, fd := memfd, flags := flags, ref := 0,
               map := { ptr := NULL, map := PW_MAP_RANGE_INIT } }] }) := by
  constructor
  · intro h
    have h1 := (find_mem_isSome_iff d.mems mem_id).2 h
    unfold client_node_add_mem
    cases hf : find_mem d.mems mem_id with
    | none => simp [hf] at h1
    | some i => rfl
  · intro h
    have h1 := (find_mem_eq_none_iff d.mems mem_id).2 h
    unfold client_node_add_mem
    rw [h1]

theorem find_mix_eq_none_of_inv (d : node_data) (seen : List mix_key) (t : mix_key)
    (hinv : pool_inv d seen) (ht : t ∉ seen) : find_mix d t.1 t.2.1 t.2.2 = none := by
  unfold find_mix
  rw [List.find?_eq_none]
  intro k hk hp
  simp only [decide_eq_true_eq] at hp
  apply ht
  have := hinv.2.2.1 t.1 k hk
  unfold key_of at this
  rw [hp.1, hp.2] at this
  exact this

theorem ensure_mix_inv (env : Env) (d d1 : node_data) (seen : List mix_key) (t : mix_key)
    (k : Nat) (hinv : pool_inv d seen) (ht : t ∉ seen)
    (h : ensure_mix env d t.1 t.2.1 t.2.2 = (some k, d1)) : pool_inv d1 (t :: seen) := by
  have hf := find_mix_eq_none_of_inv d seen t hinv ht
  unfold ensure_mix at h
  rw [hf] at h
  obtain ⟨hnd, hfree, hkey, hlen⟩ := hinv
  cases hfm : d.free_mix with
  | nil => simp [hfm] at h
  | cons k0 rest =>
    simp only [hfm] at h
    by_cases hp : env.pw_node_find_port d.trace t.1 t.2.1 = true
    · simp only [hp, if_true, Prod.mk.injEq, Option.some.injEq] at h
      obtain ⟨hk, hd1⟩ := h
      subst hd1
      rw [hfm] at hnd hfree hlen
      have hk0 : k0 ∉ rest := (List.nodup_cons.1 hnd).1
      have hrest : rest.Nodup := (List.nodup_cons.1 hnd).2
      have hnotbound : ∀ dir, k0 ∉ d.mix dir := by
        intro dir hmem
        exact hfree dir k0 hmem (List.mem_cons_self _ _)
      refine ⟨hrest, ?_, ?_, ?_⟩
      · intro dir j hj
        simp only [set_mix] at hj
        by_cases hdir : dir = t.1
        · simp only [hdir, if_true, List.mem_append, List.mem_singleton] at hj
          rcases hj with hj | hj
          · intro hjr
            exact hfree t.1 j hj (List.mem_cons_of_mem _ hjr)
          · rw [hj]; exact hk0
        · simp only [hdir, if_false] at hj
          intro hjr
          exact hfree dir j hj (List.mem_cons_of_mem _ hjr)
      · intro dir j hj
        simp only [set_mix] at hj
        simp only [key_of, set_mix, mix_init]
        by_cases hdir : dir = t.1
        · simp only [hdir, if_true, List.mem_append, List.mem_singleton] at hj
          rcases hj with hj | hj
          · have hne : j ≠ k0 := by
              intro he; rw [he] at hj; exact hnotbound t.1 hj
            simp only [hne, if_false]
            have := hkey t.1 j hj
            rw [hdir]
            exact List.mem_cons_of_mem _ this
          · simp [hj, hdir]
        · simp only [hdir, if_false] at hj
          have hne : j ≠ k0 := by
            intro he; rw [he] at hj; exact hnotbound dir hj
          simp only [hne, if_false]
          exact List.mem_cons_of_mem _ (hkey dir j hj)
      · simp only [set_mix, List.length_cons] at hlen ⊢
        omega
    · simp [hp] at h

theorem ensure_all_inv (env : Env) (ts : List mix_key) :
    ∀ (d d1 : node_data) (seen : List mix_key), pool_inv d seen → ts.Nodup →
      (∀ t ∈ ts, t ∉ seen) → ensure_all env d ts = some d1 →
      pool_inv d1 (ts.reverse ++ seen) := by
  induction ts with
  | nil =>
    intro d d1 seen hinv _ _ h
    simp only [ensure_all, Option.some.injEq] at h
    subst h
    simpa using hinv
  | cons t ts ih =>
    intro d d1 seen hinv hnd hdis h
    simp only [ensure_all] at h
    cases he : ensure_mix env d t.1 t.2.1 t.2.2 with
    | mk r d2 =>
      rw [he] at h
      cases r with
      | none => simp at h
      | some k =>
        simp only at h
        have hinv2 := ensure_mix_inv env d d2 seen t k hinv (hdis t (List.mem_cons_self _ _)) he
        have hnd2 := (List.nodup_cons.1 hnd)
        have := ih d2 d1 (t :: seen) hinv2 hnd2.2 (by
          intro x hx hx2
          rcases List.mem_cons.1 hx2 with hx3 | hx3
          · rw [hx3] at hx; exact hnd2.1 hx
          · exact hdis x (List.mem_cons_of_mem _ hx) hx3) h
        simpa using this

theorem pool_inv_node_export : pool_inv node_export [] := by
  refine ⟨?_, ?_, ?_, ?_⟩
  · simp only [node_export]
    exact List.nodup_range MAX_MIX
  · intro dir k hk; simp [node_export] at hk
  · intro dir k hk; simp [node_export] at hk
  · simp only [node_export, List.length_range, List.length_nil, Nat.add_zero]

/-- C10: starting from the state set up by `node_export`, once `ensure_mix` has returned
a mix for each of `MAX_MIX` = 4096 distinct keys, `ensure_mix` for any key not among
them returns `NULL` and leaves the state (bound mixes, their buffers and active flags,
the free list) as it is, and `client_node_port_use_buffers` for such a key reports
`-EINVAL` and installs nothing. -/
theorem ensure_mix_pool_exhausted (env : Env) (ts : List mix_key) (d : node_data)
    (hnd : ts.Nodup) (hlen : ts.length = MAX_MIX)
    (hrun : ensure_all env node_export ts = some d)
    (t : mix_key) (ht : t ∉ ts) (buffers : List pw_client_node_buffer) :
    ensure_mix env d t.1 t.2.1 t.2.2 = (none, d) ∧
    client_node_port_use_buffers env d t.1 t.2.1 t.2.2 buffers = (-EINVAL, d) := by
  have hinv := ensure_all_inv env ts node_export d [] pool_inv_node_export hnd
    (by intro x _ hx; simp at hx) hrun
  simp only [List.append_nil] at hinv
  have hfm : find_mix d t.1 t.2.1 t.2.2 = none :=
    find_mix_eq_none_of_inv d ts.reverse t hinv (by simpa using ht)
  have hfree : d.free_mix = [] := by
    have := hinv.2.2.2
    simp only [List.length_reverse, hlen] at this
    exact List.length_eq_zero.1 (by omega)
  have h1 : ensure_mix env d t.1 t.2.1 t.2.2 = (none, d) := by
    unfold ensure_mix
    rw [hfm, hfree]
  refine ⟨h1, ?_⟩
  unfold client_node_port_use_buffers
  rw [h1]

theorem ensure_all_isSome (env : Env)
    (hport : ∀ tr dir p, env.pw_node_find_port tr dir p = true) (ts : List mix_key) :
    ∀ (d : node_data) (seen : List mix_key), pool_inv d seen → ts.Nodup →
      (∀ t ∈ ts, t ∉ seen) → ts.length ≤ d.free_mix.length →
      ∃ d1, ensure_all env d ts = some d1 := by
  induction ts with
  | nil => intro d _ _ _ _ _; exact ⟨d, rfl⟩
  | cons t ts ih =>
    intro d seen hinv hnd hdis hlen
    have hf := find_mix_eq_none_of_inv d seen t hinv (hdis t (List.mem_cons_self _ _))
    cases hfm : d.free_mix with
    | nil => rw [hfm] at hlen; simp at hlen
    | cons k rest =>
      have he : ∃ d2, ensure_mix env d t.1 t.2.1 t.2.2 = (some k, d2) := by
        unfold ensure_mix
        rw [hf, hfm]
        simp only [hport, if_true]
        exact ⟨_, rfl⟩
      obtain ⟨d2, he⟩ := he
      have hinv2 := ensure_mix_inv env d d2 seen t k hinv (hdis t (List.mem_cons_self _ _)) he
      have hnd2 := (List.nodup_cons.1 hnd)
      have hl2 : ts.length ≤ d2.free_mix.length := by
        have h1 := hinv.2.2.2
        have h2 := hinv2.2.2.2
        simp only [List.length_cons] at h2 hlen
        omega
      obtain ⟨d1, hd1⟩ := ih d2 (t :: seen) hinv2 hnd2.2 (by
        intro x hx hx2
        rcases List.mem_cons.1 hx2 with hx3 | hx3
        · rw [hx3] at hx; exact hnd2.1 hx
        · exact hdis x (List.mem_cons_of_mem _ hx) hx3) hl2
      refine ⟨d1, ?_⟩
      simp only [ensure_all, he]
      exact hd1

theorem keys_full_nodup : keys_full.Nodup := by
  unfold keys_full
  refine List.Nodup.map ?_ (List.nodup_range MAX_MIX)
  intro a b h
  simpa using h

theorem keys_full_length : keys_full.length = MAX_MIX := by
  simp [keys_full]

/-- Witness for C10: with every port present, the 4096 keys `(INPUT, 0, i)` are all
served from the fresh pool, after which the key `(OUTPUT, 0, 0)` is refused. -/
theorem ensure_mix_pool_exhausted_witness :
    ∃ d, ensure_all env_plain node_export keys_full = some d ∧
      ensure_mix env_plain d spa_direction.OUTPUT 0 0 = (none, d) ∧
      client_node_port_use_buffers env_plain d spa_direction.OUTPUT 0 0 [] = (-EINVAL, d) := by
  obtain ⟨d, hd⟩ := ensure_all_isSome env_plain (by intro _ _ _; rfl) keys_full node_export []
    pool_inv_node_export keys_full_nodup (by intro x _ hx; simp at hx)
    (by rw [keys_full_length]; simp only [node_export, List.length_range]; exact le_refl _)
  exact ⟨d, hd, ensure_mix_pool_exhausted env_plain keys_full d keys_full_nodup
    keys_full_length hd (spa_direction.OUTPUT, 0, 0) (by simp [keys_full]) []⟩

/-! ## The mapping cache -/

/-- Counterexample to C5 as stated: when the first `mem_map` of a window fails (returns
`NULL`), the second call with the same `(offset, size)` does perform an `mmap` and
returns another pointer. -/
theorem mem_map_retry_after_failure :
    (mem_map env_map_fails_once [] { ptr := NULL, map := PW_MAP_RANGE_INIT } 5 3 0 4096).1
      = NULL ∧
    mem_map env_map_fails_once
      (mem_map env_map_fails_once [] { ptr := NULL, map := PW_MAP_RANGE_INIT } 5 3 0 4096).2.2
      (mem_map env_map_fails_once [] { ptr := NULL, map := PW_MAP_RANGE_INIT } 5 3 0 4096).2.1
      5 3 0 4096
      = (0x10000, mapping_page0,
          [Event.mmap 0 4096 3 5 0 MAP_FAILED, Event.mmap MAP_FAILED 4096 3 5 0 0x10000]) := by
  decide

/-- C5 (amended): when `mmap` never returns `NULL` and a `mem_map` call on a region's cached
mapping returns a pointer, a second call with the same `(offset, size)` returns the
same pointer and leaves the cached mapping and the trace as they are: it performs
no `mmap` and no `munmap`. -/
theorem mem_map_reuse (env : Env) (tr : List Event) (map : mapping) (fd : Int)
    (prot offset size : Nat)
    (hnn : ∀ t h s p f o, env.mmap t h s p f o ≠ NULL)
    (hok : (mem_map env tr map fd prot offset size).1 ≠ NULL) :
    mem_map env (mem_map env tr map fd prot offset size).2.2
        (mem_map env tr map fd prot offset size).2.1 fd prot offset size
      = mem_map env tr map fd prot offset size := by
  unfold mem_map at hok ⊢
  by_cases hc : map.ptr = NULL ∨
      map.map.offset ≠ (pw_map_range_init offset size env.sc_pagesize).offset ∨
      map.map.size ≠ (pw_map_range_init offset size env.sc_pagesize).size
  · simp only [hc, if_true] at hok ⊢
    by_cases hp : env.mmap tr map.ptr (pw_map_range_init offset size env.sc_pagesize).size prot
        fd (pw_map_range_init offset size env.sc_pagesize).offset = MAP_FAILED
    · simp [hp] at hok
    · simp only [hp, if_false]
      have h2 := hnn tr map.ptr (pw_map_range_init offset size env.sc_pagesize).size prot
        fd (pw_map_range_init offset size env.sc_pagesize).offset
      simp [h2]
  · simp only [hc, if_false]

/-- Witness for C5 (amended): a first call that maps the first page at `0x10000`. -/
theorem mem_map_reuse_witness :
    mem_map env_plain
        (mem_map env_plain [] { ptr := NULL, map := PW_MAP_RANGE_INIT } 5 3 0 4096).2.2
        (mem_map env_plain [] { ptr := NULL, map := PW_MAP_RANGE_INIT } 5 3 0 4096).2.1
        5 3 0 4096
      = mem_map env_plain [] { ptr := NULL, map := PW_MAP_RANGE_INIT } 5 3 0 4096 :=
  mem_map_reuse env_plain [] { ptr := NULL, map := PW_MAP_RANGE_INIT } 5 3 0 4096
    (by intro t h s p f o; simp [env_plain, NULL]) (by decide)

/-- Counterexample to C6 as stated: a call for the second page on a mapping that caches
the first page performs one `mmap`, with the old address as hint, and no `munmap`. -/
theorem mem_map_remap_no_unmap :
    mem_map env_plain [] mapping_page0 5 3 4096 4096
      = (0x10000, { ptr := 0x10000, map := { start := 0, offset := 4096, size := 4096 } },
          [Event.mmap 0x10000 4096 3 5 4096 0x10000]) := by
  decide

/-- C6 (amended): a `mem_map` call whose page aligned window (offset rounded down to a page,
size rounded up to whole pages) differs from the cached one performs exactly one
`mmap`, handing over the old address as hint, and no `munmap`; when that `mmap`
succeeds the cached mapping is replaced by the new one and the pointer returned lies
`start` bytes into it, when it fails the call returns `NULL`. -/
theorem mem_map_remap (env : Env) (tr : List Event) (map : mapping) (fd : Int)
    (prot offset size : Nat)
    (hdiff : map.map.offset ≠ (pw_map_range_init offset size env.sc_pagesize).offset ∨
      map.map.size ≠ (pw_map_range_init offset size env.sc_pagesize).size) :
    (mem_map env tr map fd prot offset size).2.2
      = tr ++ [Event.mmap map.ptr (pw_map_range_init offset size env.sc_pagesize).size prot fd
          (pw_map_range_init offset size env.sc_pagesize).offset
          (env.mmap tr map.ptr (pw_map_range_init offset size env.sc_pagesize).size prot fd
            (pw_map_range_init offset size env.sc_pagesize).offset)] ∧
    (env.mmap tr map.ptr (pw_map_range_init offset size env.sc_pagesize).size prot fd
        (pw_map_range_init offset size env.sc_pagesize).offset ≠ MAP_FAILED →
      (mem_map env tr map fd prot offset size).2.1
        = { ptr := env.mmap tr map.ptr (pw_map_range_init offset size env.sc_pagesize).size
              prot fd (pw_map_range_init offset size env.sc_pagesize).offset,
            map := pw_map_range_init offset size env.sc_pagesize } ∧
      (mem_map env tr map fd prot offset size).1
        = env.mmap tr map.ptr (pw_map_range_init offset size env.sc_pagesize).size prot fd
            (pw_map_range_init offset size env.sc_pagesize).offset
          + (pw_map_range_init offset size env.sc_pagesize).start) ∧
    (env.mmap tr map.ptr (pw_map_range_init offset size env.sc_pagesize).size prot fd
        (pw_map_range_init offset size env.sc_pagesize).offset = MAP_FAILED →
      (mem_map env tr map fd prot offset size).1 = NULL) := by
  have hc : map.ptr = NULL ∨
      map.map.offset ≠ (pw_map_range_init offset size env.sc_pagesize).offset ∨
      map.map.size ≠ (pw_map_range_init offset size env.sc_pagesize).size := Or.inr hdiff
  unfold mem_map
  simp only [hc, if_true]
  by_cases hp : env.mmap tr map.ptr (pw_map_range_init offset size env.sc_pagesize).size prot
      fd (pw_map_range_init offset size env.sc_pagesize).offset = MAP_FAILED
  · simp [hp]
  · simp [hp]

/-- Witness for C6 (amended): the second page requested on a mapping of the first page. -/
theorem mem_map_remap_witness :
    (mem_map env_plain [] mapping_page0 5 3 4096 4096).2.2
      = [] ++ [Event.mmap mapping_page0.ptr
          (pw_map_range_init 4096 4096 env_plain.sc_pagesize).size 3 5
          (pw_map_range_init 4096 4096 env_plain.sc_pagesize).offset
          (env_plain.mmap [] mapping_page0.ptr
            (pw_map_range_init 4096 4096 env_plain.sc_pagesize).size 3 5
            (pw_map_range_init 4096 4096 env_plain.sc_pagesize).offset)] :=
  (mem_map_remap env_plain [] mapping_page0 5 3 4096 4096 (Or.inl (by decide))).1

/-! ## Clearing a Buffers io binding -/

set_option maxRecDepth 1000000 in
/-- C7, the code at the failing input: region 1 (fd 5, no other referent) is bound as the
Buffers io of a mix at offset 8 and the binding is cleared with `SPA_ID_INVALID`.
The binding is gone and the mix inactive, but the region keeps ref count 1 and its fd is
never closed: `find_mem_ptr` compares the io pointer `0x10008` with the start
`0x10000` of the cached mapping. With offset 0 the same two messages do release the
region (ref count 0, fd closed, entry cleared). -/
theorem port_set_io_clear_unaligned :
    ((run env_plain node_export (ops_bind_then_clear 8)).mix_pool 0).io = NULL ∧
    ((run env_plain node_export (ops_bind_then_clear 8)).mix_pool 0).active = false ∧
    (run env_plain node_export (ops_bind_then_clear 8)).mems.map
        (fun m => (m.id, m.fd, m.ref, m.map.ptr)) = [(1, 5, 1, 0x10000)] ∧
    Event.close 5 ∉ (run env_plain node_export (ops_bind_then_clear 8)).trace ∧
    (run env_plain node_export (ops_bind_then_clear 0)).mems.map
        (fun m => (m.id, m.fd, m.ref, m.map.ptr)) = [(SPA_ID_INVALID, -1, 0, NULL)] ∧
    Event.close 5 ∈ (run env_plain node_export (ops_bind_then_clear 0)).trace := by
  decide

/-! ## Lemmas on arrays -/

theorem modify_at_length {α : Type} (f : α → α) (l : List α) (i : Nat) :
    (modify_at f l i).length = l.length := by
  induction l generalizing i with
  | nil => rfl
  | cons x xs ih =>
    cases i with
    | zero => rfl
    | succ n => simp [modify_at, ih]

theorem modify_at_getElem? {α : Type} (f : α → α) (l : List α) (i j : Nat) :
    (modify_at f l i)[j]? = if j = i then (l[j]?).map f else l[j]? := by
  induction l generalizing i j with
  | nil => simp [modify_at]
  | cons x xs ih =>
    cases i with
    | zero =>
      cases j with
      | zero => simp [modify_at]
      | succ m => simp [modify_at]
    | succ n =>
      cases j with
      | zero => simp [modify_at]
      | succ m => simp [modify_at, ih]

theorem modify_at_getElem?_same {α : Type} (f : α → α) (l : List α) (i : Nat) (x : α)
    (h : l[i]? = some x) : (modify_at f l i)[i]? = some (f x) := by
  rw [modify_at_getElem?]; simp [h]

theorem modify_at_getElem?_ne {α : Type} (f : α → α) (l : List α) (i j : Nat) (h : j ≠ i) :
    (modify_at f l i)[j]? = l[j]? := by
  rw [modify_at_getElem?]; simp [h]

theorem modify_at_congr_at {α : Type} (f g : α → α) (l : List α) (i : Nat)
    (h : ∀ x, l[i]? = some x → f x = g x) : modify_at f l i = modify_at g l i := by
  induction l generalizing i with
  | nil => rfl
  | cons x xs ih =>
    cases i with
    | zero => simp [modify_at, h x (by simp)]
    | succ n =>
      simp only [modify_at, List.cons.injEq, true_and]
      exact ih n (by intro y hy; exact h y (by simpa using hy))

theorem modify_at_modify_at {α : Type} (f g : α → α) (l : List α) (i : Nat) :
    modify_at g (modify_at f l i) i = modify_at (fun x => g (f x)) l i := by
  induction l generalizing i with
  | nil => rfl
  | cons x xs ih =>
    cases i with
    | zero => rfl
    | succ n => simp [modify_at, ih]

theorem map_modify_at {α β : Type} (f : α → α) (g : α → β) (l : List α) (i : Nat)
    (h : ∀ x, l[i]? = some x → g (f x) = g x) : (modify_at f l i).map g = l.map g := by
  induction l generalizing i with
  | nil => rfl
  | cons x xs ih =>
    cases i with
    | zero => simp [modify_at, h x (by simp)]
    | succ n =>
      simp only [modify_at, List.map_cons, List.cons.injEq, true_and]
      exact ih n (by intro y hy; exact h y (by simpa using hy))

theorem getD_of_getElem? {α : Type} (l : List α) (i : Nat) (x dflt : α) (h : l[i]? = some x) :
    l.getD i dflt = x := by
  simp [List.getD, h]

/-! ## More on the registry lookup -/

theorem find_mem_some_iff (ms : List mem) (id i : Nat) :
    find_mem ms id = some i ↔
      (∃ m, ms[i]? = some m ∧ m.id = id) ∧ ∀ j m, j < i → ms[j]? = some m → m.id ≠ id := by
  induction ms generalizing i with
  | nil => simp [find_mem]
  | cons m ms ih =>
    by_cases h : m.id = id
    · simp only [find_mem, h, if_true, Option.some.injEq]
      constructor
      · intro hi
        subst hi
        exact ⟨⟨m, by simp, h⟩, by intro j _ hj; omega⟩
      · rintro ⟨_, h2⟩
        by_contra hne
        have hpos : 0 < i := Nat.pos_of_ne_zero (fun h0 => hne h0.symm)
        exact h2 0 m hpos (by simp) h
    · simp only [find_mem, h, if_false, Option.map_eq_some']
      constructor
      · rintro ⟨a, ha, rfl⟩
        have := (ih a).1 ha
        refine ⟨by simpa using this.1, ?_⟩
        intro j m' hj hm'
        cases j with
        | zero => simp at hm'; rw [← hm']; exact h
        | succ n => exact this.2 n m' (by omega) (by simpa using hm')
      · rintro ⟨⟨m', hm', hid⟩, h2⟩
        cases i with
        | zero => simp at hm'; rw [← hm'] at hid; exact absurd hid h
        | succ n =>
          refine ⟨n, (ih n).2 ⟨⟨m', by simpa using hm', hid⟩, ?_⟩, rfl⟩
          intro j m'' hj hm''
          exact h2 (j + 1) m'' (by omega) (by simpa using hm'')

theorem find_mem_congr (ms ms' : List mem) (id : Nat)
    (h : ms.map (fun m => decide (m.id = id)) = ms'.map (fun m => decide (m.id = id))) :
    find_mem ms id = find_mem ms' id := by
  induction ms generalizing ms' with
  | nil =>
    cases ms' with
    | nil => rfl
    | cons _ _ => simp at h
  | cons m ms ih =>
    cases ms' with
    | nil => simp at h
    | cons m' ms' =>
      simp only [List.map_cons, List.cons.injEq, decide_eq_decide] at h
      simp only [find_mem]
      by_cases hm : m.id = id
      · simp [hm, h.1.1 hm]
      · have hm' : ¬ m'.id = id := fun h' => hm (h.1.2 h')
        simp [hm, hm', ih ms' h.2]

/-! ## One release -/

theorem mem_unmap_fst (tr : List Event) (ptr : Nat) (range : pw_map_range) :
    (mem_unmap tr ptr range).1 = NULL := by
  unfold mem_unmap
  split <;> rfl

theorem clear_mem_cases (d : node_data) (i : Nat) (m : mem) (h : d.mems[i]? = some m)
    (hfd : m.fd ≠ -1) :
    ∃ m' blk,
      clear_mem d i =
        { d with mems := modify_at (fun _ => m') d.mems i, trace := d.trace ++ blk } ∧
      m'.ref = m.ref ∧ m'.id = SPA_ID_INVALID ∧ m'.fd = -1 ∧
      ((blk = [] ∧ ∃ j mj, j ≠ i ∧ d.mems[j]? = some mj ∧ mj.fd = m.fd) ∨
        blk = [Event.close m.fd] ∨
        ∃ a s, blk = [Event.munmap a s, Event.close m.fd]) := by
  have hget : d.mems.get? i = some m := by simpa using h
  unfold clear_mem
  simp only [hget]
  rw [if_pos hfd]
  split
  · rename_i hany
    refine ⟨{ m with fd := -1, id := SPA_ID_INVALID }, [], ?_, rfl, rfl, rfl, Or.inl ⟨rfl, ?_⟩⟩
    · rw [modify_at_congr_at _ (fun _ => { m with fd := -1, id := SPA_ID_INVALID }) d.mems i
        (by intro x hx; rw [h] at hx; cases hx; rfl)]
      simp
    · obtain ⟨x, hx, hxfd⟩ := List.any_eq_true.1 hany
      obtain ⟨j, hj⟩ := List.mem_iff_getElem?.1 hx
      simp only [decide_eq_true_eq] at hxfd
      have hji : j ≠ i := by
        intro hji
        subst hji
        rw [modify_at_getElem?_same _ d.mems j m h] at hj
        cases hj
        exact hfd hxfd.symm
      rw [modify_at_getElem?_ne _ _ _ _ hji] at hj
      exact ⟨j, x, hji, hj, hxfd⟩
  · by_cases hp : m.map.ptr = NULL
    · refine ⟨{ m with fd := -1, id := SPA_ID_INVALID, map := { m.map with ptr := NULL } },
        [Event.close m.fd], ?_, rfl, rfl, rfl, Or.inr (Or.inl rfl)⟩
      rw [modify_at_modify_at]
      rw [modify_at_congr_at _
        (fun _ => { m with fd := -1, id := SPA_ID_INVALID, map := { m.map with ptr := NULL } })
        d.mems i (by intro x hx; rw [h] at hx; cases hx; simp [mem_unmap_fst])]
      simp [mem_unmap, hp]
    · refine ⟨{ m with fd := -1, id := SPA_ID_INVALID, map := { m.map with ptr := NULL } },
        [Event.munmap ((m.map.ptr : Int) - (m.map.map.start : Int)) m.map.map.size,
          Event.close m.fd], ?_, rfl, rfl, rfl, Or.inr (Or.inr ⟨_, _, rfl⟩)⟩
      rw [modify_at_modify_at]
      rw [modify_at_congr_at _
        (fun _ => { m with fd := -1, id := SPA_ID_INVALID, map := { m.map with ptr := NULL } })
        d.mems i (by intro x hx; rw [h] at hx; cases hx; simp [mem_unmap_fst])]
      simp [mem_unmap, hp]

theorem unref_mem_cases (d : node_data) (key i : Nat) (m : mem) (h : d.mems[i]? = some m) :
    ∃ m' blk,
      unref_mem d key i =
        { d with
          mems := modify_at (fun _ => m') d.mems i
          trace := d.trace ++ Event.unref key m.ref :: blk } ∧
      m'.ref = dec32 m.ref ∧
      ((m'.id = m.id ∧ m'.fd = m.fd ∧ blk = [] ∧ (dec32 m.ref ≠ 0 ∨ m.fd = -1)) ∨
       (dec32 m.ref = 0 ∧ m.fd ≠ -1 ∧ m'.id = SPA_ID_INVALID ∧ m'.fd = -1 ∧
         ((blk = [] ∧ ∃ j mj, j ≠ i ∧ d.mems[j]? = some mj ∧ mj.fd = m.fd) ∨
           blk = [Event.close m.fd] ∨
           ∃ a s, blk = [Event.munmap a s, Event.close m.fd]))) := by
  have hget : d.mems.get? i = some m := by simpa using h
  have hplain : modify_at (fun x => { x with ref := dec32 x.ref }) d.mems i
      = modify_at (fun _ => { m with ref := dec32 m.ref }) d.mems i :=
    modify_at_congr_at _ _ d.mems i (by intro x hx; rw [h] at hx; cases hx; rfl)
  unfold unref_mem
  simp only [hget]
  by_cases hz : dec32 m.ref = 0
  · rw [if_pos hz]
    by_cases hfd : m.fd = -1
    · refine ⟨{ m with ref := dec32 m.ref }, [], ?_, rfl, Or.inl ⟨rfl, rfl, rfl, Or.inr hfd⟩⟩
      unfold clear_mem
      have h1 : (modify_at (fun x => { x with ref := dec32 x.ref }) d.mems i).get? i
          = some { m with ref := dec32 m.ref } := by
        simpa using modify_at_getElem?_same _ d.mems i m h
      simp only [h1]
      rw [if_neg (by simpa using hfd), hplain]
    · have h1 : (modify_at (fun x => { x with ref := dec32 x.ref }) d.mems i)[i]?
          = some { m with ref := dec32 m.ref } := modify_at_getElem?_same _ d.mems i m h
      obtain ⟨m', blk, heq, hr, hid, hfd', hblk⟩ := clear_mem_cases
        { d with
          mems := modify_at (fun x => { x with ref := dec32 x.ref }) d.mems i
          trace := d.trace ++ [Event.unref key m.ref] } i { m with ref := dec32 m.ref } h1 hfd
      refine ⟨m', blk, ?_, hr, Or.inr ⟨hz, hfd, hid, hfd', ?_⟩⟩
      · rw [heq]
        simp [modify_at_modify_at]
      · rcases hblk with ⟨hb, j, mj, hji, hj, hjfd⟩ | hb | hb
        · refine Or.inl ⟨hb, j, mj, hji, ?_, hjfd⟩
          simpa [modify_at_getElem?_ne _ _ _ _ hji] using hj
        · exact Or.inr (Or.inl hb)
        · exact Or.inr (Or.inr hb)
  · rw [if_neg hz]
    refine ⟨{ m with ref := dec32 m.ref }, [], ?_, rfl, Or.inl ⟨rfl, rfl, rfl, Or.inl hz⟩⟩
    rw [hplain]

/-! ## Accounting lemmas -/

theorem acq_nil (ms : List mem) (i : Nat) : acq ms [] i = 0 := by
  unfold acq
  split
  · simp
  · rfl

theorem dec32_of_pos (r : Nat) (h1 : 1 ≤ r) (h2 : r < U32) : dec32 r = r - 1 := by
  unfold dec32
  have hU : U32 = 4294967296 := by decide
  rw [hU] at h2 ⊢
  omega

theorem inc32_of_lt (r : Nat) (h : r + 1 < U32) : inc32 r = r + 1 := by
  unfold inc32
  exact Nat.mod_eq_of_lt h

theorem find_mem_modify_same_id (ms : List mem) (i id : Nat) (m m' : mem)
    (h : ms[i]? = some m) (hid : m'.id = m.id) :
    find_mem (modify_at (fun _ => m') ms i) id = find_mem ms id := by
  apply find_mem_congr
  apply map_modify_at
  intro x hx
  rw [h] at hx
  cases hx
  simp [hid]

theorem find_mem_modify_other_id (ms : List mem) (i id : Nat) (m m' : mem)
    (h : ms[i]? = some m) (h1 : m.id ≠ id) (h2 : m'.id ≠ id) :
    find_mem (modify_at (fun _ => m') ms i) id = find_mem ms id := by
  apply find_mem_congr
  apply map_modify_at
  intro x hx
  rw [h] at hx
  cases hx
  simp [h1, h2]

theorem dead_count_modify_at (ms : List mem) (i : Nat) (m m' : mem) (h : ms[i]? = some m) :
    dead_count (modify_at (fun _ => m') ms i) + (if m.fd = -1 then 1 else 0)
      = dead_count ms + (if m'.fd = -1 then 1 else 0) := by
  induction ms generalizing i with
  | nil => simp at h
  | cons x xs ih =>
    cases i with
    | zero =>
      simp only [List.getElem?_cons_zero, Option.some.injEq] at h
      subst h
      simp only [modify_at, dead_count, List.countP_cons, decide_eq_true_eq]
      omega
    | succ n =>
      have := ih n (by simpa using h)
      simp only [modify_at, dead_count, List.countP_cons, decide_eq_true_eq] at this ⊢
      omega

theorem release_events_append (a b : List Event) (ha : release_events a)
    (hb : release_events b) : release_events (a ++ b) := by
  induction ha with
  | nil => simpa using hb
  | unref key c rest hc _ ih => exact release_events.unref key c _ hc ih
  | close key fd rest _ ih => exact release_events.close key fd _ ih
  | unmap_close key x s fd rest _ ih => exact release_events.unmap_close key x s fd _ ih
  | other e rest he _ ih => exact release_events.other e _ he ih

theorem close_count_append (a b : List Event) :
    close_count (a ++ b) = close_count a + close_count b := by
  simp [close_count, List.countP_append]

theorem acq_eq (ms : List mem) (R : List Nat) (i : Nat) (m : mem) (h : ms[i]? = some m) :
    acq ms R i = if find_mem ms m.id = some i then R.count m.id else 0 := by
  unfold acq
  rw [h]

theorem close_count_nil : close_count [] = 0 := rfl

theorem close_count_cons_unref (key b : Nat) (l : List Event) :
    close_count (Event.unref key b :: l) = close_count l := by
  simp [close_count]

theorem close_count_cons_munmap (a : Int) (s : Nat) (l : List Event) :
    close_count (Event.munmap a s :: l) = close_count l := by
  simp [close_count]

theorem close_count_cons_close (fd : Int) (l : List Event) :
    close_count (Event.close fd :: l) = close_count l + 1 := by
  simp [close_count]

theorem release_id_step (d : node_data) (X : Nat) (R : List Nat) (base : Nat → Nat)
    (hinv : SPA_ID_INVALID ∉ X :: R)
    (hfound : ∀ Y ∈ X :: R, ∃ i, find_mem d.mems Y = some i)
    (href : ∀ (i : Nat) (m : mem), d.mems[i]? = some m → m.ref = base i + acq d.mems (X :: R) i)
    (hsmall : ∀ (i : Nat) (m : mem), d.mems[i]? = some m → m.ref < U32) :
    ∃ ms1 blk,
      release_id d X = { d with mems := ms1, trace := d.trace ++ blk } ∧
      ms1.length = d.mems.length ∧
      (∀ Y ∈ R, ∃ i, find_mem ms1 Y = some i) ∧
      (∀ (i : Nat) (m : mem), ms1[i]? = some m → m.ref = base i + acq ms1 R i) ∧
      (∀ (i : Nat) (m : mem), ms1[i]? = some m → m.ref < U32) ∧
      (∀ (i : Nat) (m m' : mem), d.mems[i]? = some m → ms1[i]? = some m' →
        (m'.id = m.id ∧ m'.fd = m.fd) ∨
        (m'.id = SPA_ID_INVALID ∧ m'.fd = -1 ∧ m.fd ≠ -1 ∧ m'.ref = 0)) ∧
      release_events blk ∧
      close_count blk + dead_count d.mems ≤ dead_count ms1 ∧
      (∀ (i : Nat) (m : mem), d.mems[i]? = some m → 0 < acq d.mems (X :: R) i → base i = 0 →
        m.fd ≠ -1 →
        (0 < acq ms1 R i ∧ ∃ m1, ms1[i]? = some m1 ∧ m1.fd = m.fd) ∨
        (∃ m', ms1[i]? = some m' ∧ m'.fd = -1 ∧
          ((∀ (j : Nat) (mj : mem), j ≠ i → d.mems[j]? = some mj → mj.fd ≠ m.fd) →
            Event.close m.fd ∈ blk))) ∧
      unref_count blk = 1 := by
  obtain ⟨i0, hi0⟩ := hfound X (List.mem_cons_self _ _)
  obtain ⟨⟨m0, hm0, hid0⟩, _⟩ := (find_mem_some_iff d.mems X i0).1 hi0
  have hXne : X ≠ SPA_ID_INVALID := fun h => hinv (by rw [h]; exact List.mem_cons_self _ _)
  have hRne : SPA_ID_INVALID ∉ R := fun h => hinv (List.mem_cons_of_mem _ h)
  have hcountI : R.count SPA_ID_INVALID = 0 := List.count_eq_zero_of_not_mem hRne
  have href0 : m0.ref = base i0 + R.count X + 1 := by
    have := href i0 m0 hm0
    rw [acq_eq d.mems (X :: R) i0 m0 hm0, hid0, if_pos hi0] at this
    simp only [List.count_cons_self] at this
    omega
  have hdec : dec32 m0.ref = base i0 + R.count X :=  by
    rw [dec32_of_pos m0.ref (by omega) (hsmall i0 m0 hm0)]
    omega
  obtain ⟨m', blk, heq, hr', hcase⟩ := unref_mem_cases d X i0 m0 hm0
  have hrel : release_id d X = unref_mem d X i0 := by
    unfold release_id
    rw [hi0]
  have hget0 : (modify_at (fun _ => m') d.mems i0)[i0]? = some m' :=
    modify_at_getElem?_same _ d.mems i0 m0 hm0
  have hidcase : m'.id = X ∨ (m'.id = SPA_ID_INVALID ∧ base i0 + R.count X = 0) := by
    rcases hcase with ⟨h1, _, _, _⟩ | ⟨hz, _, h3, _, _⟩
    · left; rw [h1, hid0]
    · right; exact ⟨h3, by rw [← hdec]; exact hz⟩
  -- lookups of other ids are not affected
  have hfind_other : ∀ Y, Y ≠ X → Y ≠ SPA_ID_INVALID →
      find_mem (modify_at (fun _ => m') d.mems i0) Y = find_mem d.mems Y := by
    intro Y hYX hYI
    apply find_mem_modify_other_id d.mems i0 Y m0 m' hm0
    · rw [hid0]; exact fun h => hYX h.symm
    · rcases hidcase with h | ⟨h, _⟩
      · rw [h]; exact fun h => hYX h.symm
      · rw [h]; exact fun h => hYI h.symm
  have hfind_same : m'.id = X → find_mem (modify_at (fun _ => m') d.mems i0) X = some i0 := by
    intro h
    rw [find_mem_modify_same_id d.mems i0 X m0 m' hm0 (by rw [h, hid0])]
    exact hi0
  have hacq_other : ∀ (i : Nat) (m : mem), d.mems[i]? = some m → i ≠ i0 →
      acq (modify_at (fun _ => m') d.mems i0) R i = acq d.mems (X :: R) i := by
    intro i m hm hi
    have hm2 : (modify_at (fun _ => m') d.mems i0)[i]? = some m := by
      rw [modify_at_getElem?_ne _ _ _ _ hi]; exact hm
    rw [acq_eq _ R i m hm2, acq_eq d.mems (X :: R) i m hm]
    by_cases hYI : m.id = SPA_ID_INVALID
    · rw [hYI, hcountI, List.count_eq_zero_of_not_mem hinv]
      simp
    · by_cases hYX : m.id = X
      · rw [hYX]
        have h1 : find_mem d.mems X ≠ some i := by
          rw [hi0]; intro h; cases h; exact hi rfl
        rw [if_neg h1]
        rcases hidcase with h | ⟨_, hz⟩
        · rw [hfind_same h]
          rw [if_neg (by intro h; cases h; exact hi rfl)]
        · have : R.count X = 0 := by omega
          rw [this]; simp
      · rw [hfind_other m.id hYX hYI]
        rw [List.count_cons_of_ne hYX]
  refine ⟨modify_at (fun _ => m') d.mems i0, Event.unref X m0.ref :: blk, ?_, ?_, ?_, ?_, ?_,
    ?_, ?_, ?_, ?_, ?_⟩
  · rw [hrel, heq]
  · exact modify_at_length _ _ _
  · intro Y hY
    have hYI : Y ≠ SPA_ID_INVALID := fun h => hRne (by rw [← h]; exact hY)
    by_cases hYX : Y = X
    · subst hYX
      rcases hidcase with h | ⟨_, h⟩
      · exact ⟨i0, hfind_same h⟩
      · have : 0 < R.count Y := List.count_pos_iff.2 hY
        omega
    · rw [hfind_other Y hYX hYI]
      exact hfound Y (List.mem_cons_of_mem _ hY)
  · intro i m hm
    by_cases hi : i = i0
    · subst hi
      rw [hget0] at hm
      cases hm
      rw [acq_eq _ R i m' hget0, hr', hdec]
      rcases hidcase with h | ⟨h, hz⟩
      · rw [h, if_pos (hfind_same h)]
      · rw [h, hcountI]
        simp only [ite_self]
        omega
    · rw [modify_at_getElem?_ne _ _ _ _ hi] at hm
      have hm2 : (modify_at (fun _ => m') d.mems i0)[i]? = some m := by
        rw [modify_at_getElem?_ne _ _ _ _ hi]; exact hm
      rw [hacq_other i m hm hi]
      exact href i m hm
  · intro i m hm
    by_cases hi : i = i0
    · subst hi
      rw [hget0] at hm
      cases hm
      rw [hr', hdec]
      have := hsmall i m0 hm0
      omega
    · rw [modify_at_getElem?_ne _ _ _ _ hi] at hm
      exact hsmall i m hm
  · intro i m m1 hm hm1
    by_cases hi : i = i0
    · subst hi
      rw [hget0] at hm1
      cases hm1
      rw [hm0] at hm
      cases hm
      rcases hcase with ⟨h1, h2, _, _⟩ | ⟨hz, h2, h3, h4, _⟩
      · exact Or.inl ⟨h1, h2⟩
      · exact Or.inr ⟨h3, h4, h2, by rw [hr']; exact hz⟩
    · rw [modify_at_getElem?_ne _ _ _ _ hi, hm] at hm1
      cases hm1
      exact Or.inl ⟨rfl, rfl⟩
  · rcases hcase with ⟨_, _, hb, _⟩ | ⟨hz, _, _, _, hb⟩
    · rw [hb]
      exact release_events.unref X m0.ref [] (by omega) release_events.nil
    · have h1 : m0.ref = 1 := by
        have := hdec
        rw [hz] at this
        omega
      rw [h1]
      rcases hb with ⟨hb, _⟩ | hb | ⟨a, s, hb⟩
      · rw [hb]; exact release_events.unref X 1 [] (le_refl _) release_events.nil
      · rw [hb]; exact release_events.close X m0.fd [] release_events.nil
      · rw [hb]; exact release_events.unmap_close X a s m0.fd [] release_events.nil
  · have hdc := dead_count_modify_at d.mems i0 m0 m' hm0
    rw [close_count_cons_unref]
    rcases hcase with ⟨_, h2, hb, _⟩ | ⟨_, h2, _, h4, hb⟩
    · rw [h2] at hdc
      rw [hb, close_count_nil]
      omega
    · rw [if_neg h2, if_pos h4] at hdc
      rcases hb with ⟨hb, _⟩ | hb | ⟨a, s, hb⟩
      · rw [hb, close_count_nil]; omega
      · rw [hb, close_count_cons_close, close_count_nil]; omega
      · rw [hb, close_count_cons_munmap, close_count_cons_close, close_count_nil]; omega
  · intro i m hm hpos hbase hfd
    by_cases hi : i = i0
    · subst hi
      rw [hm0] at hm
      cases hm
      by_cases hc : 0 < R.count X
      · left
        rcases hcase with ⟨h1, h2, _, _⟩ | ⟨hz, _, _, _, _⟩
        · have hidX : m'.id = X := by rw [h1, hid0]
          refine ⟨?_, ?_⟩
          · rw [acq_eq _ R i m' hget0, hidX, if_pos (hfind_same hidX)]
            exact hc
          · exact ⟨m', hget0, h2⟩
        · rw [hdec] at hz; omega
      · right
        have hz : dec32 m0.ref = 0 := by rw [hdec]; omega
        rcases hcase with ⟨_, _, _, h4⟩ | ⟨_, _, _, h4, hb⟩
        · rcases h4 with h4 | h4
          · exact absurd hz h4
          · exact absurd h4 hfd
        · refine ⟨m', hget0, h4, ?_⟩
          intro huniq
          rcases hb with ⟨_, j, mj, hji, hj, hjfd⟩ | hb | ⟨a, s, hb⟩
          · exact absurd hjfd (huniq j mj hji hj)
          · rw [hb]; simp
          · rw [hb]; simp
    · left
      refine ⟨?_, ?_⟩
      · rw [hacq_other i m hm hi]; exact hpos
      · exact ⟨m, by rw [modify_at_getElem?_ne _ _ _ _ hi]; exact hm, rfl⟩
  · rcases hcase with ⟨_, _, hb, _⟩ | ⟨_, _, _, _, hb⟩
    · rw [hb]; simp [unref_count]
    · rcases hb with ⟨hb, _⟩ | hb | ⟨a, s, hb⟩ <;> rw [hb] <;> simp [unref_count]

theorem lt_length_of_getElem? {α : Type} (l : List α) (i : Nat) (x : α) (h : l[i]? = some x) :
    i < l.length := by
  obtain ⟨h1, _⟩ := List.getElem?_eq_some.1 h
  exact h1

theorem getElem?_of_length_eq {α : Type} (l l' : List α) (i : Nat) (x : α)
    (h : l[i]? = some x) (hl : l'.length = l.length) : ∃ y, l'[i]? = some y := by
  have h1 := lt_length_of_getElem? l i x h
  cases h2 : l'[i]? with
  | none =>
    have := List.getElem?_eq_none_iff.1 h2
    omega
  | some y => exact ⟨y, rfl⟩

/-- Releasing the ids of a list `R` one after the other, when every entry's ref count is
`base` plus the references that `R` holds on it: every decrement starts from a positive
count, the counts end at `base`, an entry keeps its id and fd unless its count reached 0,
in which case it is cleared, and each `close` kills one live entry. -/
theorem release_fold (R : List Nat) : ∀ (d : node_data) (base : Nat → Nat),
    SPA_ID_INVALID ∉ R →
    (∀ X ∈ R, ∃ i, find_mem d.mems X = some i) →
    (∀ (i : Nat) (m : mem), d.mems[i]? = some m → m.ref = base i + acq d.mems R i) →
    (∀ (i : Nat) (m : mem), d.mems[i]? = some m → m.ref < U32) →
    ∃ ms blk,
      R.foldl release_id d = { d with mems := ms, trace := d.trace ++ blk } ∧
      ms.length = d.mems.length ∧
      (∀ (i : Nat) (m' : mem), ms[i]? = some m' → m'.ref = base i) ∧
      (∀ (i : Nat) (m m' : mem), d.mems[i]? = some m → ms[i]? = some m' →
        (m'.id = m.id ∧ m'.fd = m.fd) ∨
        (m'.id = SPA_ID_INVALID ∧ m'.fd = -1 ∧ m.fd ≠ -1 ∧ m'.ref = 0)) ∧
      release_events blk ∧
      close_count blk + dead_count d.mems ≤ dead_count ms ∧
      (∀ (i : Nat) (m : mem), d.mems[i]? = some m → 0 < acq d.mems R i → base i = 0 →
        m.fd ≠ -1 →
        ∃ m', ms[i]? = some m' ∧ m'.fd = -1 ∧
          ((∀ (j : Nat) (mj : mem), j ≠ i → d.mems[j]? = some mj → mj.fd ≠ m.fd) →
            Event.close m.fd ∈ blk)) ∧
      unref_count blk = R.length := by
  induction R with
  | nil =>
    intro d base _ _ href _
    refine ⟨d.mems, [], by simp, rfl, ?_, ?_, release_events.nil, by simp [close_count], ?_,
      by simp [unref_count]⟩
    rotate_left 2
    · intro i m _ hpos
      rw [acq_nil] at hpos
      exact absurd hpos (lt_irrefl 0)
    · intro i m hm
      have := href i m hm
      rw [acq_nil] at this
      exact this
    · intro i m m' hm hm'
      rw [hm] at hm'
      cases hm'
      exact Or.inl ⟨rfl, rfl⟩
  | cons X R ih =>
    intro d base hinv hfound href hsmall
    obtain ⟨ms1, blk0, heq, hlen, hfound1, href1, hsmall1, hids1, hev1, hcnt1, hcl1, hun1⟩ :=
      release_id_step d X R base hinv hfound href hsmall
    obtain ⟨ms, blk, heq2, hlen2, href2, hids2, hev2, hcnt2, hcl2, hun2⟩ :=
      ih { d with mems := ms1, trace := d.trace ++ blk0 } base
        (fun h => hinv (List.mem_cons_of_mem _ h)) hfound1 href1 hsmall1
    refine ⟨ms, blk0 ++ blk, ?_, ?_, href2, ?_, release_events_append _ _ hev1 hev2, ?_, ?_,
      ?_⟩
    · rw [List.foldl_cons, heq, heq2]
      simp
    · rw [hlen2]; exact hlen
    · intro i m m' hm hm'
      obtain ⟨m1, hm1⟩ := getElem?_of_length_eq d.mems ms1 i m hm hlen
      rcases hids1 i m m1 hm hm1 with ⟨h1, h2⟩ | ⟨h1, h2, h3, h4⟩
      · rcases hids2 i m1 m' hm1 hm' with ⟨h5, h6⟩ | ⟨h5, h6, h7, h8⟩
        · exact Or.inl ⟨by rw [h5, h1], by rw [h6, h2]⟩
        · exact Or.inr ⟨h5, h6, by rw [← h2]; exact h7, h8⟩
      · rcases hids2 i m1 m' hm1 hm' with ⟨h5, h6⟩ | ⟨_, _, h7, _⟩
        · refine Or.inr ⟨by rw [h5, h1], by rw [h6, h2], h3, ?_⟩
          have e1 := href1 i m1 hm1
          have e2 := href2 i m' hm'
          omega
        · exact absurd h2 h7
    · rw [close_count_append]
      simp only at hcnt2
      omega
    · intro i m hm hpos hbase hfd
      rcases hcl1 i m hm hpos hbase hfd with ⟨hpos1, m1, hm1, hfd1⟩ | ⟨m1, hm1, hfd1, hclose⟩
      · obtain ⟨m', hm', hfd', hclose'⟩ := hcl2 i m1 hm1 hpos1 hbase (by rw [hfd1]; exact hfd)
        refine ⟨m', hm', hfd', ?_⟩
        intro huniq
        apply List.mem_append_right
        rw [← hfd1]
        apply hclose'
        intro j mj1 hji hmj1
        have hjlt : j < d.mems.length := by
          rw [← hlen]; exact lt_length_of_getElem? ms1 j mj1 hmj1
        obtain ⟨mj, hmj⟩ : ∃ mj, d.mems[j]? = some mj :=
          ⟨d.mems[j], List.getElem?_eq_getElem hjlt⟩
        rcases hids1 j mj mj1 hmj hmj1 with ⟨_, h2⟩ | ⟨_, h2, _, _⟩
        · rw [h2, hfd1]; exact huniq j mj hji hmj
        · rw [h2, hfd1]; exact fun h => hfd h.symm
      · obtain ⟨m', hm'⟩ := getElem?_of_length_eq ms1 ms i m1 hm1 hlen2
        refine ⟨m', hm', ?_, ?_⟩
        · rcases hids2 i m1 m' hm1 hm' with ⟨_, h6⟩ | ⟨_, h6, _, _⟩
          · rw [h6]; exact hfd1
          · exact h6
        · intro huniq
          exact List.mem_append_left _ (hclose huniq)
    · simp only [unref_count, List.countP_append, List.length_cons] at hun1 hun2 ⊢
      omega

/-! ## Taking references -/

theorem refs_added_refl (ms0 : List mem) : refs_added ms0 [] ms0 := by
  refine ⟨rfl, ?_⟩
  intro i m0 h
  rw [acq_nil, h]
  rfl

theorem refs_added_find (ms0 ms : List mem) (L : List Nat) (X : Nat)
    (h : refs_added ms0 L ms) : find_mem ms X = find_mem ms0 X := by
  apply find_mem_congr
  apply List.ext_getElem?
  intro i
  simp only [List.getElem?_map]
  cases h0 : ms0[i]? with
  | none =>
    have : ms[i]? = none := by
      apply List.getElem?_eq_none
      rw [h.1]
      exact List.getElem?_eq_none_iff.1 h0
    rw [this]
  | some m0 =>
    rw [h.2 i m0 h0]
    rfl

theorem acq_le_length (ms : List mem) (L : List Nat) (i : Nat) : acq ms L i ≤ L.length := by
  unfold acq
  split
  · split
    · exact List.count_le_length _ _
    · exact Nat.zero_le _
  · exact Nat.zero_le _

theorem acq_append_singleton (ms0 : List mem) (L : List Nat) (X i0 i : Nat) (m0 : mem)
    (hf0 : find_mem ms0 X = some i0) (hm0 : ms0[i]? = some m0) :
    acq ms0 (L ++ [X]) i = acq ms0 L i + (if i = i0 then 1 else 0) := by
  rw [acq_eq ms0 (L ++ [X]) i m0 hm0, acq_eq ms0 L i m0 hm0]
  by_cases hi : i = i0
  · subst hi
    obtain ⟨⟨m, hm, hid⟩, _⟩ := (find_mem_some_iff ms0 X i).1 hf0
    rw [hm0] at hm
    cases hm
    rw [hid, if_pos hf0, if_pos hf0, if_pos rfl]
    simp [List.count_append]
  · rw [if_neg hi, Nat.add_zero]
    by_cases hfi : find_mem ms0 m0.id = some i
    · rw [if_pos hfi, if_pos hfi]
      have hne : m0.id ≠ X := by
        intro he
        rw [he, hf0] at hfi
        cases hfi
        exact hi rfl
      simp [List.count_append, hne]
    · rw [if_neg hfi, if_neg hfi]

theorem refs_added_acquire (ms0 ms : List mem) (L : List Nat) (X i0 : Nat)
    (h : refs_added ms0 L ms) (hf : find_mem ms X = some i0)
    (hovf : ∀ (i : Nat) (m0 : mem), ms0[i]? = some m0 → m0.ref + L.length + 1 < U32) :
    refs_added ms0 (L ++ [X]) (modify_at (fun x => { x with ref := inc32 x.ref }) ms i0) := by
  have hf0 : find_mem ms0 X = some i0 := by rw [← refs_added_find ms0 ms L X h]; exact hf
  refine ⟨by rw [modify_at_length]; exact h.1, ?_⟩
  intro i m0 hm0
  have hms := h.2 i m0 hm0
  rw [modify_at_getElem?, hms, acq_append_singleton ms0 L X i0 i m0 hf0 hm0]
  have hle := acq_le_length ms0 L i
  have hov := hovf i m0 hm0
  by_cases hi : i = i0
  · simp only [hi, if_true, Option.map_some', Option.some.injEq, mem.mk.injEq, true_and,
      and_true]
    rw [inc32_of_lt _ (by rw [← hi]; omega)]
    omega
  · simp only [hi, if_false, Nat.add_zero]

theorem plane_ids_cons_fd (w : spa_data) (ws : List spa_data)
    (h : w.type = SPA_DATA_MemFd ∨ w.type = SPA_DATA_DmaBuf) :
    plane_ids (w :: ws) = SPA_PTR_TO_UINT32 w.data :: plane_ids ws := by
  simp [plane_ids, is_fd_plane, h]

theorem plane_ids_cons_other (w : spa_data) (ws : List spa_data)
    (h : ¬ (w.type = SPA_DATA_MemFd ∨ w.type = SPA_DATA_DmaBuf)) :
    plane_ids (w :: ws) = plane_ids ws := by
  simp [plane_ids, is_fd_plane, h]

theorem build_datas_spec (ptr offset : Nat) (ms0 : List mem) :
    ∀ (ws : List spa_data) (j : Nat) (ms : List mem) (L : List Nat),
      refs_added ms0 L ms →
      (∀ (i : Nat) (m0 : mem), ms0[i]? = some m0 → m0.ref + L.length + ws.length < U32) →
      (build_datas ptr offset ws j ms).entries.map (fun bm => bm.mem_id) <+: plane_ids ws ∧
      ((build_datas ptr offset ws j ms).ok = true →
        (build_datas ptr offset ws j ms).entries.map (fun bm => bm.mem_id) = plane_ids ws) ∧
      refs_added ms0
        (L ++ (build_datas ptr offset ws j ms).entries.map (fun bm => bm.mem_id))
        (build_datas ptr offset ws j ms).mems ∧
      (∀ X ∈ (build_datas ptr offset ws j ms).entries.map (fun bm => bm.mem_id),
        ∃ i, find_mem ms0 X = some i) := by
  intro ws
  induction ws with
  | nil =>
    intro j ms L h _
    simp only [build_datas, List.map_nil, List.append_nil]
    exact ⟨List.nil_prefix, fun _ => by simp [plane_ids], h, by simp⟩
  | cons w ws ih =>
    intro j ms L h hovf
    by_cases hfd : w.type = SPA_DATA_MemFd ∨ w.type = SPA_DATA_DmaBuf
    · cases hf : find_mem ms (SPA_PTR_TO_UINT32 w.data) with
      | none =>
        simp only [build_datas, hfd, if_true, hf, List.map_nil, List.append_nil]
        exact ⟨List.nil_prefix, fun h => by simp at h, h, by simp⟩
      | some i0 =>
        obtain ⟨⟨m, hm, hid⟩, _⟩ := (find_mem_some_iff ms _ i0).1 hf
        have hbm : (ms.getD i0 default).id = SPA_PTR_TO_UINT32 w.data := by
          rw [getD_of_getElem? ms i0 m default hm]; exact hid
        have h1 := refs_added_acquire ms0 ms L _ i0 h hf (by
          intro i m0 hm0
          have := hovf i m0 hm0
          simp only [List.length_cons] at this
          omega)
        obtain ⟨hp, hok, hra, hfound⟩ := ih (j + 1)
          (modify_at (fun x => { x with ref := inc32 x.ref }) ms i0)
          (L ++ [SPA_PTR_TO_UINT32 w.data]) h1 (by
            intro i m0 hm0
            have := hovf i m0 hm0
            simp only [List.length_cons, List.length_append, List.length_nil] at this ⊢
            omega)
        simp only [build_datas, hfd, if_true, hf, List.map_cons, hbm]
        rw [plane_ids_cons_fd w ws hfd]
        refine ⟨?_, ?_, ?_, ?_⟩
        · exact (List.prefix_cons_inj _).2 hp
        · intro h2
          rw [hok h2]
        · rw [List.append_assoc] at hra
          exact hra
        · intro X hX
          rcases List.mem_cons.1 hX with hX | hX
          · rw [hX, ← refs_added_find ms0 ms L _ h]; exact ⟨i0, hf⟩
          · exact hfound X hX
    · have hovf2 : ∀ (i : Nat) (m0 : mem), ms0[i]? = some m0 →
          m0.ref + L.length + ws.length < U32 := by
        intro i m0 hm0
        have := hovf i m0 hm0
        simp only [List.length_cons] at this
        omega
      obtain ⟨hp, hok, hra, hfound⟩ := ih (j + 1) ms L h hovf2
      rw [plane_ids_cons_other w ws hfd]
      by_cases hptr : w.type = SPA_DATA_MemPtr
      · simp only [build_datas, hfd, if_false, hptr, if_true]
        exact ⟨hp, hok, hra, hfound⟩
      · simp only [build_datas, hfd, if_false, hptr]
        exact ⟨hp, hok, hra, hfound⟩

theorem buffer_ids_append (bs : List buffer) (b : buffer) :
    buffer_ids (bs ++ [b]) = buffer_ids bs ++ b.mem.map (fun bm => bm.mem_id) := by
  simp [buffer_ids]

theorem set_last_append {α : Type} (l : List α) (x y : α) : set_last (l ++ [x]) y = l ++ [y] := by
  simp [set_last]

theorem same_frame_refl (k : Nat) (d : node_data) : same_frame k d d :=
  ⟨rfl, rfl, fun _ _ => rfl⟩

theorem same_frame_trans (k : Nat) (d1 d2 d3 : node_data) (h12 : same_frame k d1 d2)
    (h23 : same_frame k d2 d3) : same_frame k d1 d3 :=
  ⟨h23.1.trans h12.1, h23.2.1.trans h12.2.1, fun j hj => (h23.2.2 j hj).trans (h12.2.2 j hj)⟩

theorem mem_map_trace (env : Env) (tr : List Event) (map : mapping) (fd : Int)
    (prot offset size : Nat) :
    ∃ tr', (mem_map env tr map fd prot offset size).2.2 = tr ++ tr' ∧ no_release tr' := by
  unfold mem_map
  dsimp only
  by_cases h1 : map.ptr = NULL ∨
      map.map.offset ≠ (pw_map_range_init offset size env.sc_pagesize).offset ∨
      map.map.size ≠ (pw_map_range_init offset size env.sc_pagesize).size
  · rw [if_pos h1]
    by_cases h2 : env.mmap tr map.ptr (pw_map_range_init offset size env.sc_pagesize).size prot
        fd (pw_map_range_init offset size env.sc_pagesize).offset = MAP_FAILED
    · rw [if_pos h2]
      exact ⟨_, rfl, by intro e he; simp at he; subst he; rfl⟩
    · rw [if_neg h2]
      exact ⟨_, rfl, by intro e he; simp at he; subst he; rfl⟩
  · rw [if_neg h1]
    exact ⟨[], by simp, by intro e he; simp at he⟩

theorem build_buffer_spec (env : Env) (d : node_data) (k prot i : Nat)
    (cb : pw_client_node_buffer) (ms0 : List mem) (L : List Nat)
    (h : refs_added ms0 L d.mems)
    (hovf : ∀ (n : Nat) (m0 : mem), ms0[n]? = some m0 →
      m0.ref + L.length + (cb.buffer.datas.length + 1) < U32) :
    ∃ L' tr',
      L' <+: cb.mem_id :: plane_ids cb.buffer.datas ∧
      ((build_buffer env d k prot i cb).1 = none → L' = cb.mem_id :: plane_ids cb.buffer.datas) ∧
      buffer_ids ((build_buffer env d k prot i cb).2.mix_pool k).buffers
        = buffer_ids (d.mix_pool k).buffers ++ L' ∧
      refs_added ms0 (L ++ L') (build_buffer env d k prot i cb).2.mems ∧
      (∀ X ∈ L', ∃ n, find_mem ms0 X = some n) ∧
      same_frame k d (build_buffer env d k prot i cb).2 ∧
      (build_buffer env d k prot i cb).2.trace = d.trace ++ tr' ∧ no_release tr' := by
  unfold build_buffer
  cases hf : find_mem d.mems cb.mem_id with
  | none =>
    refine ⟨[], [], List.nil_prefix, ?_, by simp, by simpa using h, by simp,
      same_frame_refl k d, by simp, by intro e he; simp at he⟩
    intro h1; simp at h1
  | some mi =>
    obtain ⟨⟨m, hm, hid⟩, _⟩ := (find_mem_some_iff d.mems _ mi).1 hf
    have hgd : d.mems.getD mi default = m := getD_of_getElem? d.mems mi m default hm
    obtain ⟨tr1, htr1, hnr1⟩ := mem_map_trace env d.trace { ptr := NULL, map := PW_MAP_RANGE_INIT }
      m.fd prot cb.offset cb.size
    simp only [hgd]
    by_cases hptr : (mem_map env d.trace { ptr := NULL, map := PW_MAP_RANGE_INIT } m.fd prot
        cb.offset cb.size).1 = NULL
    · simp only [set_mix, hptr, if_true]
      refine ⟨[], tr1, List.nil_prefix, ?_, ?_, by simpa using h, by simp, ?_, htr1, hnr1⟩
      · intro h1; simp at h1
      · simp [buffer_ids]
      · exact ⟨rfl, rfl, fun j hj => by simp [hj]⟩
    · by_cases hmal : env.malloc_fails (mem_map env d.trace { ptr := NULL, map := PW_MAP_RANGE_INIT }
          m.fd prot cb.offset cb.size).2.2 = true
      · simp only [set_mix, hptr, if_false, hmal, if_true]
        refine ⟨[], tr1, List.nil_prefix, ?_, ?_, by simpa using h, by simp, ?_, htr1, hnr1⟩
        · intro h1; simp at h1
        · simp [buffer_ids, set_last_append]
        · exact ⟨rfl, rfl, fun j hj => by simp [hj]⟩
      · have h1 := refs_added_acquire ms0 d.mems L cb.mem_id mi h hf (by
          intro n m0 hm0
          have := hovf n m0 hm0
          omega)
        obtain ⟨hp, hok, hra, hfound⟩ := build_datas_spec
          (mem_map env d.trace { ptr := NULL, map := PW_MAP_RANGE_INIT } m.fd prot
            cb.offset cb.size).1
          (build_metas (mem_map env d.trace { ptr := NULL, map := PW_MAP_RANGE_INIT } m.fd prot
            cb.offset cb.size).1 cb.buffer.metas 0).2 ms0 cb.buffer.datas 0
          (modify_at (fun x => { x with ref := inc32 x.ref }) d.mems mi) (L ++ [cb.mem_id]) h1 (by
            intro n m0 hm0
            have := hovf n m0 hm0
            simp only [List.length_append, List.length_cons, List.length_nil]
            omega)
        simp only [set_mix, hptr, if_false, hmal]
        generalize build_datas
          (mem_map env d.trace { ptr := NULL, map := PW_MAP_RANGE_INIT } m.fd prot
            cb.offset cb.size).1
          (build_metas (mem_map env d.trace { ptr := NULL, map := PW_MAP_RANGE_INIT } m.fd prot
            cb.offset cb.size).1 cb.buffer.metas 0).2 cb.buffer.datas 0
          (modify_at (fun x => { x with ref := inc32 x.ref }) d.mems mi) = dr at hp hok hra hfound ⊢
        rw [List.append_assoc] at hra
        cases hok2 : dr.ok with
        | true =>
          simp only [if_true]
          refine ⟨cb.mem_id :: _, tr1, (List.prefix_cons_inj _).2 hp, ?_, ?_, hra, ?_, ?_, htr1,
            hnr1⟩
          · intro _
            rw [hok hok2]
          · simp [set_last_append, buffer_ids_append, hid]
          · intro X hX
            rcases List.mem_cons.1 hX with hX | hX
            · rw [hX, ← refs_added_find ms0 d.mems L _ h]; exact ⟨mi, hf⟩
            · exact hfound X hX
          · exact ⟨rfl, rfl, fun j hj => by simp [hj]⟩
        | false =>
          simp only [Bool.false_eq_true, if_false]
          refine ⟨cb.mem_id :: _, tr1, (List.prefix_cons_inj _).2 hp, ?_, ?_, hra, ?_, ?_, htr1,
            hnr1⟩
          · intro h2
            simp at h2
          · simp [set_last_append, buffer_ids_append, hid]
          · intro X hX
            rcases List.mem_cons.1 hX with hX | hX
            · rw [hX, ← refs_added_find ms0 d.mems L _ h]; exact ⟨mi, hf⟩
            · exact hfound X hX
          · exact ⟨rfl, rfl, fun j hj => by simp [hj]⟩

theorem plane_ids_length_le (ws : List spa_data) : (plane_ids ws).length ≤ ws.length := by
  unfold plane_ids
  rw [List.length_map]
  exact List.length_filter_le _ _

theorem msg_ids_cons (cb : pw_client_node_buffer) (rest : List pw_client_node_buffer) :
    msg_ids (cb :: rest) = (cb.mem_id :: plane_ids cb.buffer.datas) ++ msg_ids rest := by
  simp [msg_ids]

theorem msg_refs_cons (cb : pw_client_node_buffer) (rest : List pw_client_node_buffer) :
    msg_refs (cb :: rest) = (cb.buffer.datas.length + 1) + msg_refs rest := by
  simp [msg_refs]

theorem msg_ids_length_le (msg : List pw_client_node_buffer) :
    (msg_ids msg).length ≤ msg_refs msg := by
  induction msg with
  | nil => simp [msg_ids, msg_refs]
  | cons cb rest ih =>
    rw [msg_ids_cons, msg_refs_cons]
    have := plane_ids_length_le cb.buffer.datas
    simp only [List.length_append, List.length_cons]
    omega

theorem no_release_append (a b : List Event) (ha : no_release a) (hb : no_release b) :
    no_release (a ++ b) := by
  intro e he
  rcases List.mem_append.1 he with h | h
  · exact ha e h
  · exact hb e h

/-- The build loop takes one reference per id of a prefix of `msg_ids`, the whole of it when
the loop runs to the end; it records exactly these ids in the buffers of the mix, and
touches nothing but the registry's ref counts, the trace and the mix. -/
theorem build_buffers_spec (env : Env) (k prot : Nat) (ms0 : List mem) :
    ∀ (msg : List pw_client_node_buffer) (i : Nat) (d : node_data) (L : List Nat),
      refs_added ms0 L d.mems →
      (∀ (n : Nat) (m0 : mem), ms0[n]? = some m0 → m0.ref + L.length + msg_refs msg < U32) →
      ∃ L' tr',
        L' <+: msg_ids msg ∧
        ((build_buffers env k prot msg i d).1 = none → L' = msg_ids msg) ∧
        buffer_ids ((build_buffers env k prot msg i d).2.mix_pool k).buffers
          = buffer_ids (d.mix_pool k).buffers ++ L' ∧
        refs_added ms0 (L ++ L') (build_buffers env k prot msg i d).2.mems ∧
        (∀ X ∈ L', ∃ n, find_mem ms0 X = some n) ∧
        same_frame k d (build_buffers env k prot msg i d).2 ∧
        (build_buffers env k prot msg i d).2.trace = d.trace ++ tr' ∧ no_release tr' := by
  intro msg
  induction msg with
  | nil =>
    intro i d L h _
    refine ⟨[], [], by simp [msg_ids], by simp [msg_ids], by simp [build_buffers],
      by simpa [build_buffers] using h, by simp, ?_, by simp [build_buffers],
      by intro e he; simp at he⟩
    simpa [build_buffers] using same_frame_refl k d
  | cons cb rest ih =>
    intro i d L h hovf
    obtain ⟨L1, tr1, hp1, hall1, hids1, hra1, hfound1, hfr1, htr1, hnr1⟩ :=
      build_buffer_spec env d k prot i cb ms0 L h (by
        intro n m0 hm0
        have := hovf n m0 hm0
        rw [msg_refs_cons] at this
        omega)
    rw [msg_ids_cons]
    unfold build_buffers
    cases hb : build_buffer env d k prot i cb with
    | mk r d1 =>
      rw [hb] at hall1 hids1 hra1 hfr1 htr1
      cases r with
      | some res =>
        refine ⟨L1, tr1, ?_, ?_, hids1, hra1, hfound1, hfr1, htr1, hnr1⟩
        · exact hp1.trans (List.prefix_append _ _)
        · intro h2; simp at h2
      | none =>
        have hL1 := hall1 rfl
        simp only at hids1 hra1 hfr1 htr1 ⊢
        obtain ⟨L2, tr2, hp2, hall2, hids2, hra2, hfound2, hfr2, htr2, hnr2⟩ :=
          ih (i + 1) d1 (L ++ L1) hra1 (by
            intro n m0 hm0
            have := hovf n m0 hm0
            have hl := plane_ids_length_le cb.buffer.datas
            rw [msg_refs_cons] at this
            rw [hL1]
            simp only [List.length_append, List.length_cons]
            omega)
        refine ⟨L1 ++ L2, tr1 ++ tr2, ?_, ?_, ?_, ?_, ?_, ?_, ?_, ?_⟩
        · rw [hL1]
          exact (List.prefix_append_right_inj _).2 hp2
        · intro h2
          rw [hall2 h2, hL1]
        · rw [hids2, hids1, List.append_assoc]
        · rw [← List.append_assoc]; exact hra2
        · intro X hX
          rcases List.mem_append.1 hX with hX | hX
          · exact hfound1 X hX
          · exact hfound2 X hX
        · exact same_frame_trans k d d1 _ hfr1 hfr2
        · rw [htr2, htr1, List.append_assoc]
        · exact no_release_append _ _ hnr1 hnr2

/-! ## Dropping the buffers of a mix -/

theorem clear_mem_frame (d : node_data) (i : Nat) :
    clear_mem d i = { d with mems := (clear_mem d i).mems, trace := (clear_mem d i).trace } := by
  unfold clear_mem
  split
  · rfl
  · dsimp only
    split
    · split <;> rfl
    · rfl

theorem unref_mem_frame (d : node_data) (key i : Nat) :
    unref_mem d key i
      = { d with mems := (unref_mem d key i).mems, trace := (unref_mem d key i).trace } := by
  unfold unref_mem
  split
  · rfl
  · dsimp only
    split
    · rw [clear_mem_frame]
    · rfl

theorem release_id_frame (d : node_data) (X : Nat) :
    release_id d X
      = { d with mems := (release_id d X).mems, trace := (release_id d X).trace } := by
  unfold release_id
  split
  · rfl
  · exact unref_mem_frame d X _

theorem foldl_release_id_frame (R : List Nat) : ∀ (d : node_data),
    (R.foldl release_id d).mix_pool = d.mix_pool ∧ (R.foldl release_id d).mix = d.mix ∧
    (R.foldl release_id d).free_mix = d.free_mix ∧
    (R.foldl release_id d).position = d.position ∧
    (R.foldl release_id d).rtsocket_source = d.rtsocket_source ∧
    (R.foldl release_id d).rtwritefd = d.rtwritefd ∧
    (R.foldl release_id d).remote_id = d.remote_id := by
  induction R with
  | nil => intro d; exact ⟨rfl, rfl, rfl, rfl, rfl, rfl, rfl⟩
  | cons X R ih =>
    intro d
    rw [List.foldl_cons]
    obtain ⟨h1, h2, h3, h4, h5, h6, h7⟩ := ih (release_id d X)
    have h := release_id_frame d X
    refine ⟨?_, ?_, ?_, ?_, ?_, ?_, ?_⟩
    · rw [h1]; exact (congrArg node_data.mix_pool h).trans rfl
    · rw [h2]; exact (congrArg node_data.mix h).trans rfl
    · rw [h3]; exact (congrArg node_data.free_mix h).trans rfl
    · rw [h4]; exact (congrArg node_data.position h).trans rfl
    · rw [h5]; exact (congrArg node_data.rtsocket_source h).trans rfl
    · rw [h6]; exact (congrArg node_data.rtwritefd h).trans rfl
    · rw [h7]; exact (congrArg node_data.remote_id h).trans rfl

theorem clear_buffers_fold (env : Env) (d : node_data) (k : Nat) :
    (d.mix_pool k).buffers.foldl
        (fun s b => b.mem.foldl (fun s1 bm => release_id s1 bm.mem_id) s)
        { d with trace := d.trace ++
            [Event.port_use_buffers (d.mix_pool k).port (d.mix_pool k).mix_id 0
              (env.pw_port_use_buffers d.trace (d.mix_pool k).port (d.mix_pool k).mix_id 0)] }
      = (buffer_ids (d.mix_pool k).buffers).foldl release_id
        { d with trace := d.trace ++
            [Event.port_use_buffers (d.mix_pool k).port (d.mix_pool k).mix_id 0
              (env.pw_port_use_buffers d.trace (d.mix_pool k).port (d.mix_pool k).mix_id 0)] } := by
  unfold buffer_ids
  rw [List.foldl_flatten, List.foldl_map]
  congr 1
  funext s b
  rw [List.foldl_map]

theorem clear_buffers_accept (env : Env) (d : node_data) (k : Nat)
    (h : 0 ≤ env.pw_port_use_buffers d.trace (d.mix_pool k).port (d.mix_pool k).mix_id 0) :
    clear_buffers env d k
      = set_mix
          { (buffer_ids (d.mix_pool k).buffers).foldl release_id
              { d with trace := d.trace ++
                  [Event.port_use_buffers (d.mix_pool k).port (d.mix_pool k).mix_id 0
                    (env.pw_port_use_buffers d.trace (d.mix_pool k).port
                      (d.mix_pool k).mix_id 0)] } with
            undefined :=
              ((buffer_ids (d.mix_pool k).buffers).foldl release_id
                { d with trace := d.trace ++
                    [Event.port_use_buffers (d.mix_pool k).port (d.mix_pool k).mix_id 0
                      (env.pw_port_use_buffers d.trace (d.mix_pool k).port
                        (d.mix_pool k).mix_id 0)] }).undefined
                || (d.mix_pool k).buffers.any slot_undefined }
          k { d.mix_pool k with
              buffers := []
              store := (d.mix_pool k).buffers.map cleared_slot
                ++ (d.mix_pool k).store.drop (d.mix_pool k).buffers.length } := by
  unfold clear_buffers
  dsimp only
  rw [if_neg (not_lt.2 h), clear_buffers_fold]
  rw [(foldl_release_id_frame _ _).1]

theorem clear_buffers_refuse (env : Env) (d : node_data) (k : Nat)
    (h : env.pw_port_use_buffers d.trace (d.mix_pool k).port (d.mix_pool k).mix_id 0 < 0) :
    clear_buffers env d k
      = { d with trace := d.trace ++
            [Event.port_use_buffers (d.mix_pool k).port (d.mix_pool k).mix_id 0
              (env.pw_port_use_buffers d.trace (d.mix_pool k).port (d.mix_pool k).mix_id 0)] } := by
  unfold clear_buffers
  dsimp only
  rw [if_pos h]

theorem acq_refs_added (ms0 ms : List mem) (L R : List Nat) (n : Nat)
    (h : refs_added ms0 L ms) : acq ms R n = acq ms0 R n := by
  cases h0 : ms0[n]? with
  | none =>
    have h1 : ms[n]? = none := by
      apply List.getElem?_eq_none
      rw [h.1]
      exact List.getElem?_eq_none_iff.1 h0
    unfold acq
    rw [h0, h1]
  | some m0 =>
    rw [acq_eq ms R n _ (h.2 n m0 h0), acq_eq ms0 R n m0 h0, refs_added_find ms0 ms L _ h]

theorem dead_count_refs_added (ms0 ms : List mem) (L : List Nat) (h : refs_added ms0 L ms) :
    dead_count ms = dead_count ms0 := by
  have hmap : ms.map (fun m => decide (m.fd = -1)) = ms0.map (fun m => decide (m.fd = -1)) := by
    apply List.ext_getElem?
    intro i
    simp only [List.getElem?_map]
    cases h0 : ms0[i]? with
    | none =>
      have : ms[i]? = none := by
        apply List.getElem?_eq_none
        rw [h.1]
        exact List.getElem?_eq_none_iff.1 h0
      rw [this]
    | some m0 =>
      rw [h.2 i m0 h0]
      rfl
  have e1 : dead_count ms = (ms.map (fun m => decide (m.fd = -1))).countP id := by
    simp [dead_count, List.countP_map]
  have e2 : dead_count ms0 = (ms0.map (fun m => decide (m.fd = -1))).countP id := by
    simp [dead_count, List.countP_map]
  rw [e1, e2, hmap]

/-- Dropping the buffers of a mix, when the port accepts it and the buffers record exactly
the references `L` that were added to the registry `d1.mems`: every ref count is back at
its value in `d1.mems`, an entry keeps its id and fd unless its count is back at 0 from
above, in which case it is cleared, and a cleared entry's fd is closed when no other
entry holds it. -/
theorem clear_restores (env : Env) (d1 d2 : node_data) (k : Nat) (L : List Nat)
    (hra : refs_added d1.mems L d2.mems)
    (hids : buffer_ids (d2.mix_pool k).buffers = L)
    (hinv : SPA_ID_INVALID ∉ L)
    (hfound : ∀ X ∈ L, ∃ n, find_mem d1.mems X = some n)
    (hovf : ∀ (n : Nat) (m0 : mem), d1.mems[n]? = some m0 → m0.ref + L.length < U32)
    (hacc : 0 ≤ env.pw_port_use_buffers d2.trace (d2.mix_pool k).port (d2.mix_pool k).mix_id 0) :
    ∃ blk,
      (clear_buffers env d2 k).trace
        = d2.trace ++
            [Event.port_use_buffers (d2.mix_pool k).port (d2.mix_pool k).mix_id 0
              (env.pw_port_use_buffers d2.trace (d2.mix_pool k).port (d2.mix_pool k).mix_id 0)]
            ++ blk ∧
      release_events blk ∧
      ((clear_buffers env d2 k).mix_pool k).buffers = [] ∧
      same_frame k d2 (clear_buffers env d2 k) ∧
      (clear_buffers env d2 k).mems.length = d1.mems.length ∧
      (∀ (n : Nat) (m1 m3 : mem), d1.mems[n]? = some m1 →
        (clear_buffers env d2 k).mems[n]? = some m3 →
        m3.ref = m1.ref ∧
        ((m3.id = m1.id ∧ m3.fd = m1.fd) ∨
          (m3.id = SPA_ID_INVALID ∧ m3.fd = -1 ∧ m1.fd ≠ -1 ∧ m1.ref = 0))) ∧
      (∀ (n : Nat) (m1 : mem), d1.mems[n]? = some m1 → 0 < acq d1.mems L n → m1.ref = 0 →
        m1.fd ≠ -1 →
        ∃ m3, (clear_buffers env d2 k).mems[n]? = some m3 ∧ m3.fd = -1 ∧
          ((∀ (j : Nat) (mj : mem), j ≠ n → d1.mems[j]? = some mj → mj.fd ≠ m1.fd) →
            Event.close m1.fd ∈ blk)) ∧
      close_count blk + dead_count d1.mems ≤ dead_count (clear_buffers env d2 k).mems ∧
      unref_count blk = L.length := by
  have hent : ∀ (n : Nat) (m2 : mem), d2.mems[n]? = some m2 →
      ∃ m1, d1.mems[n]? = some m1 ∧ m2 = { m1 with ref := m1.ref + acq d1.mems L n } := by
    intro n m2 hm2
    obtain ⟨m1, hm1⟩ := getElem?_of_length_eq d2.mems d1.mems n m2 hm2 hra.1.symm
    refine ⟨m1, hm1, ?_⟩
    have := hra.2 n m1 hm1
    rw [hm2] at this
    exact Option.some.inj this
  obtain ⟨ms, blk, heq, hlen, href, hidr, hev, hcnt, hcl, hun⟩ := release_fold L
    { d2 with trace := d2.trace ++
        [Event.port_use_buffers (d2.mix_pool k).port (d2.mix_pool k).mix_id 0
          (env.pw_port_use_buffers d2.trace (d2.mix_pool k).port (d2.mix_pool k).mix_id 0)] }
    (fun n => (d1.mems.getD n default).ref) hinv
    (by
      intro X hX
      show ∃ i, find_mem d2.mems X = some i
      rw [refs_added_find d1.mems d2.mems L X hra]
      exact hfound X hX)
    (by
      intro n m2 hm2
      obtain ⟨m1, hm1, he⟩ := hent n m2 hm2
      show m2.ref = (d1.mems.getD n default).ref + acq d2.mems L n
      rw [getD_of_getElem? d1.mems n m1 default hm1, acq_refs_added d1.mems d2.mems L L n hra, he])
    (by
      intro n m2 hm2
      obtain ⟨m1, hm1, he⟩ := hent n m2 hm2
      have h1 := hovf n m1 hm1
      have h2 := acq_le_length d1.mems L n
      rw [he]
      show m1.ref + acq d1.mems L n < U32
      omega)
  have hcb := clear_buffers_accept env d2 k hacc
  rw [hids, heq] at hcb
  refine ⟨blk, ?_, hev, ?_, ?_, ?_, ?_, ?_, ?_, hun⟩
  · rw [hcb]; simp [set_mix]
  · rw [hcb]; simp [set_mix]
  · rw [hcb]
    exact ⟨rfl, rfl, fun j hj => by simp [set_mix, hj]⟩
  · rw [hcb]
    show ms.length = d1.mems.length
    rw [hlen]
    exact hra.1
  · intro n m1 m3 hm1 hm3
    rw [hcb] at hm3
    have hm3' : ms[n]? = some m3 := hm3
    have hm2 := hra.2 n m1 hm1
    have hr := href n m3 hm3'
    rw [getD_of_getElem? d1.mems n m1 default hm1] at hr
    refine ⟨hr, ?_⟩
    rcases hidr n _ m3 hm2 hm3' with ⟨h1, h2⟩ | ⟨h1, h2, h3, h4⟩
    · exact Or.inl ⟨h1, h2⟩
    · exact Or.inr ⟨h1, h2, h3, by rw [← hr]; exact h4⟩
  · intro n m1 hm1 hpos hz hfd
    have hm2 := hra.2 n m1 hm1
    obtain ⟨m3, hm3, hfd3, hclose⟩ := hcl n _ hm2
      (by show 0 < acq d2.mems L n; rw [acq_refs_added d1.mems d2.mems L L n hra]; exact hpos)
      (by show (d1.mems.getD n default).ref = 0
          rw [getD_of_getElem? d1.mems n m1 default hm1]; exact hz)
      hfd
    refine ⟨m3, by rw [hcb]; exact hm3, hfd3, ?_⟩
    intro huniq
    apply hclose
    intro j mj hji hmj
    obtain ⟨mj1, hmj1, he⟩ := hent j mj hmj
    rw [he]
    exact huniq j mj1 hji hmj1
  · rw [hcb]
    show close_count blk + dead_count d1.mems ≤ dead_count ms
    have := dead_count_refs_added d1.mems d2.mems L hra
    simp only at hcnt
    omega

/-! ## Failure of the build -/

theorem ref_counts_eq (a b : List mem) (hlen : b.length = a.length)
    (h : ∀ (n : Nat) (m1 m3 : mem), a[n]? = some m1 → b[n]? = some m3 → m3.ref = m1.ref) :
    ref_counts b = ref_counts a := by
  apply List.ext_getElem?
  intro n
  simp only [ref_counts, List.getElem?_map]
  cases ha : a[n]? with
  | none =>
    have : b[n]? = none := by
      apply List.getElem?_eq_none
      rw [hlen]
      exact List.getElem?_eq_none_iff.1 ha
    rw [this]
  | some m1 =>
    obtain ⟨m3, hm3⟩ := getElem?_of_length_eq a b n m1 ha hlen
    rw [hm3]
    simp [h n m1 m3 ha hm3]

theorem build_buffers_append (env : Env) (k prot : Nat) (cb : pw_client_node_buffer)
    (post : List pw_client_node_buffer) :
    ∀ (pre : List pw_client_node_buffer) (i : Nat) (d dmid : node_data),
      build_buffers env k prot pre i d = (none, dmid) →
      build_buffers env k prot (pre ++ cb :: post) i d
        = build_buffers env k prot (cb :: post) (i + pre.length) dmid := by
  intro pre
  induction pre with
  | nil =>
    intro i d dmid h
    simp only [build_buffers, Prod.mk.injEq, true_and] at h
    subst h
    rfl
  | cons c pre ih =>
    intro i d dmid h
    rw [List.cons_append]
    cases hb : build_buffer env d k prot i c with
    | mk r d1 =>
      cases r with
      | some res => simp [build_buffers, hb] at h
      | none =>
        have h1 : build_buffers env k prot pre (i + 1) d1 = (none, dmid) := by
          simpa [build_buffers, hb] using h
        have e1 : build_buffers env k prot (c :: (pre ++ cb :: post)) i d
            = build_buffers env k prot (pre ++ cb :: post) (i + 1) d1 := by
          rw [build_buffers, hb]
        rw [e1, ih (i + 1) d1 dmid h1]
        have e2 : i + 1 + pre.length = i + (c :: pre).length := by
          simp only [List.length_cons]; omega
        rw [e2]

theorem find_mem_inc (ms : List mem) (i X : Nat) :
    find_mem (modify_at (fun x => { x with ref := inc32 x.ref }) ms i) X = find_mem ms X := by
  apply find_mem_congr
  apply map_modify_at
  intro x _
  rfl

theorem build_datas_fails (ptr offset : Nat) (pl : spa_data) (ppost : List spa_data)
    (hpl : pl.type = SPA_DATA_MemFd ∨ pl.type = SPA_DATA_DmaBuf) :
    ∀ (ppre : List spa_data) (j : Nat) (ms : List mem),
      (∀ X ∈ plane_ids ppre, ∃ n, find_mem ms X = some n) →
      find_mem ms (SPA_PTR_TO_UINT32 pl.data) = none →
      (build_datas ptr offset (ppre ++ pl :: ppost) j ms).ok = false := by
  intro ppre
  induction ppre with
  | nil =>
    intro j ms _ hnone
    simp [build_datas, hpl, hnone]
  | cons w ws ih =>
    intro j ms hreg hnone
    by_cases hfd : w.type = SPA_DATA_MemFd ∨ w.type = SPA_DATA_DmaBuf
    · rw [plane_ids_cons_fd w ws hfd] at hreg
      obtain ⟨n, hn⟩ := hreg _ (List.mem_cons_self _ _)
      simp only [List.cons_append, build_datas, hfd, if_true, hn]
      apply ih
      · intro X hX
        rw [find_mem_inc]
        exact hreg X (List.mem_cons_of_mem _ hX)
      · rw [find_mem_inc]; exact hnone
    · rw [plane_ids_cons_other w ws hfd] at hreg
      by_cases hptr : w.type = SPA_DATA_MemPtr
      · simp only [List.cons_append, build_datas, hfd, if_false, hptr, if_true]
        exact ih (j + 1) ms hreg hnone
      · simp only [List.cons_append, build_datas, hfd, if_false, hptr]
        exact ih (j + 1) ms hreg hnone

theorem build_buffer_unknown_plane (env : Env) (d : node_data) (k prot i mi : Nat)
    (cb : pw_client_node_buffer) (ppre ppost : List spa_data) (pl : spa_data)
    (hown : find_mem d.mems cb.mem_id = some mi)
    (hmap : (mem_map env d.trace { ptr := NULL, map := PW_MAP_RANGE_INIT }
      (d.mems.getD mi default).fd prot cb.offset cb.size).1 ≠ NULL)
    (hmal : env.malloc_fails (mem_map env d.trace { ptr := NULL, map := PW_MAP_RANGE_INIT }
      (d.mems.getD mi default).fd prot cb.offset cb.size).2.2 = false)
    (hplanes : cb.buffer.datas = ppre ++ pl :: ppost)
    (hreg : ∀ X ∈ plane_ids ppre, ∃ n, find_mem d.mems X = some n)
    (hpl : pl.type = SPA_DATA_MemFd ∨ pl.type = SPA_DATA_DmaBuf)
    (hunreg : find_mem d.mems (SPA_PTR_TO_UINT32 pl.data) = none) :
    (build_buffer env d k prot i cb).1 = some (-EINVAL) := by
  unfold build_buffer
  simp only [hown, set_mix, hmap, if_false, hmal, Bool.false_eq_true]
  rw [hplanes, build_datas_fails _ _ pl ppost hpl ppre 0 _
    (by intro X hX; rw [find_mem_inc]; exact hreg X hX)
    (by rw [find_mem_inc]; exact hunreg)]
  rfl

theorem unref_count_append (a b : List Event) :
    unref_count (a ++ b) = unref_count a + unref_count b := by
  simp [unref_count, List.countP_append]

theorem unref_count_no_release (tr : List Event) (h : no_release tr) : unref_count tr = 0 := by
  unfold unref_count
  rw [List.countP_eq_zero]
  intro e he
  have := h e he
  cases e <;> simp_all [is_release_event]

theorem clear_buffers_empty (env : Env) (d : node_data) (k : Nat)
    (hacc : ∀ tr p m, 0 ≤ env.pw_port_use_buffers tr p m 0) :
    ((clear_buffers env d k).mix_pool k).buffers = [] := by
  rw [clear_buffers_accept env d k (hacc _ _ _)]
  simp [set_mix]

/-- A build that stops with an error, on a port that accepts the drop of its buffers, for a
message that names no `SPA_ID_INVALID` and cannot overflow a ref count: the handler
reports the error of the build, the mix ends without buffers, every ref count is back
at its value from before the build, and the cleanup performs one decrement per
reference that the build had recorded. -/
theorem use_buffers_failure (env : Env) (d d0 : node_data) (direction : spa_direction)
    (port_id mix_id k : Nat) (msg : List pw_client_node_buffer) (res : Int)
    (hacc : ∀ tr p m, 0 ≤ env.pw_port_use_buffers tr p m 0)
    (hmix : ensure_mix env d direction port_id mix_id = (some k, d0))
    (hinv : SPA_ID_INVALID ∉ msg_ids msg)
    (hovf : ∀ m ∈ (clear_buffers env d0 k).mems, m.ref + msg_refs msg < U32)
    (hres : (build_buffers env k (use_buffers_prot direction) msg 0
      (clear_buffers env d0 k)).1 = some res) :
    (client_node_port_use_buffers env d direction port_id mix_id msg).1 = res ∧
    (((client_node_port_use_buffers env d direction port_id mix_id msg).2).mix_pool k).buffers
      = [] ∧
    ref_counts (client_node_port_use_buffers env d direction port_id mix_id msg).2.mems
      = ref_counts (clear_buffers env d0 k).mems ∧
    unref_count (client_node_port_use_buffers env d direction port_id mix_id msg).2.trace
      = unref_count (clear_buffers env d0 k).trace
        + (buffer_ids ((build_buffers env k (use_buffers_prot direction) msg 0
            (clear_buffers env d0 k)).2.mix_pool k).buffers).length := by
  obtain ⟨L, tr', hp, _, hids, hra, hfound, _, htr, hnr⟩ :=
    build_buffers_spec env k (use_buffers_prot direction) (clear_buffers env d0 k).mems msg 0
      (clear_buffers env d0 k) [] (refs_added_refl _) (by
        intro n m0 hm0
        have := hovf m0 (List.mem_iff_getElem?.2 ⟨n, hm0⟩)
        simp only [List.length_nil]
        omega)
  rw [clear_buffers_empty env d0 k hacc] at hids
  have hnil : buffer_ids ([] : List buffer) = [] := rfl
  rw [hnil, List.nil_append] at hids
  rw [List.nil_append] at hra
  have hlen := (msg_ids_length_le msg)
  have hLlen : L.length ≤ (msg_ids msg).length := hp.length_le
  obtain ⟨blk, hctr, hev, hbuf, _, hclen, href, _, _, hun⟩ := clear_restores env
    (clear_buffers env d0 k)
    (build_buffers env k (use_buffers_prot direction) msg 0 (clear_buffers env d0 k)).2 k L
    hra hids (fun h => hinv (hp.subset h)) hfound (by
      intro n m0 hm0
      have := hovf m0 (List.mem_iff_getElem?.2 ⟨n, hm0⟩)
      omega) (hacc _ _ _)
  have hcall : client_node_port_use_buffers env d direction port_id mix_id msg
      = (res, clear_buffers env
          (build_buffers env k (use_buffers_prot direction) msg 0 (clear_buffers env d0 k)).2
          k) := by
    unfold client_node_port_use_buffers
    rw [hmix]
    dsimp only
    cases hb : build_buffers env k (use_buffers_prot direction) msg 0 (clear_buffers env d0 k)
      with
    | mk r d2 =>
      rw [hb] at hres
      simp only at hres
      subst hres
      rfl
  rw [hcall]
  refine ⟨rfl, hbuf, ?_, ?_⟩
  · exact ref_counts_eq _ _ hclen (fun n m1 m3 h1 h3 => (href n m1 m3 h1 h3).1)
  · simp only
    rw [hctr, htr, unref_count_append, unref_count_append, unref_count_append, hun,
      unref_count_no_release tr' hnr, hids]
    simp [unref_count]

/-! ## A build that fails -/

set_option maxRecDepth 1000000 in
/-- Counterexample to C2 as stated, in two runs. (1) The port refuses to drop its buffers:
region 1 is registered, the message has one buffer in region 1 whose plane names the
unregistered id 77; the handler reports `-EINVAL`, but `clear_buffers` returns early, the
partly built buffer stays on the mix and region 1 keeps the reference (ref count 1, was
0). (2) The port accepts, the registry holds a cleared entry behind the live region 10,
and the buffer's first plane names `SPA_ID_INVALID`, its second the unregistered id 77:
the cleanup decrements the count of region 10's entry from 0 and leaves the cleared
entry with count 1 (before the build both were 0). -/
theorem port_use_buffers_unknown_plane_not_rolled_back :
    (client_node_port_use_buffers env_port_refuses
        (run env_port_refuses node_export [Op.add_mem 1 0 5 0])
        spa_direction.INPUT 0 0 [buf_with_planes 1 [77]]).1 = -EINVAL ∧
    ref_counts (run env_port_refuses node_export [Op.add_mem 1 0 5 0]).mems = [0] ∧
    ref_counts (client_node_port_use_buffers env_port_refuses
        (run env_port_refuses node_export [Op.add_mem 1 0 5 0])
        spa_direction.INPUT 0 0 [buf_with_planes 1 [77]]).2.mems = [1] ∧
    (((client_node_port_use_buffers env_port_refuses
        (run env_port_refuses node_export [Op.add_mem 1 0 5 0])
        spa_direction.INPUT 0 0 [buf_with_planes 1 [77]]).2).mix_pool 0).buffers.length = 1 ∧
    (client_node_port_use_buffers env_plain (run env_plain node_export ops_cleared_entry)
        spa_direction.INPUT 0 0 [buf_with_planes 10 [SPA_ID_INVALID, 77]]).1 = -EINVAL ∧
    ref_counts (run env_plain node_export ops_cleared_entry).mems = [0, 0] ∧
    ref_counts (client_node_port_use_buffers env_plain
        (run env_plain node_export ops_cleared_entry)
        spa_direction.INPUT 0 0 [buf_with_planes 10 [SPA_ID_INVALID, 77]]).2.mems
      = [U32 - 1, 1] ∧
    Event.unref SPA_ID_INVALID 0 ∈ (client_node_port_use_buffers env_plain
        (run env_plain node_export ops_cleared_entry)
        spa_direction.INPUT 0 0 [buf_with_planes 10 [SPA_ID_INVALID, 77]]).2.trace := by
  decide

/-- C2 (amended): on a port that accepts the drop of its buffers, for a UseBuffers message
that names no `SPA_ID_INVALID` and cannot overflow a ref count: when the buffers before
buffer `cb` are built, `cb`'s own region is registered, mapped and its block allocated,
the planes before plane `pl` name registered regions and `pl` is a `MemFd` or `DmaBuf`
plane naming an unregistered id, then `client_node_port_use_buffers` reports `-EINVAL`,
leaves the mix without buffers, and every region's ref count equals its value just
before the build began (after the previous buffers of the mix were dropped). -/
theorem port_use_buffers_unknown_plane (env : Env) (d d0 dmid : node_data)
    (direction : spa_direction) (port_id mix_id k mi : Nat)
    (pre post : List pw_client_node_buffer) (cb : pw_client_node_buffer)
    (ppre ppost : List spa_data) (pl : spa_data)
    (hacc : ∀ tr p m, 0 ≤ env.pw_port_use_buffers tr p m 0)
    (hmix : ensure_mix env d direction port_id mix_id = (some k, d0))
    (hinv : SPA_ID_INVALID ∉ msg_ids (pre ++ cb :: post))
    (hovf : ∀ m ∈ (clear_buffers env d0 k).mems, m.ref + msg_refs (pre ++ cb :: post) < U32)
    (hpre : build_buffers env k (use_buffers_prot direction) pre 0 (clear_buffers env d0 k)
      = (none, dmid))
    (hown : find_mem dmid.mems cb.mem_id = some mi)
    (hmap : (mem_map env dmid.trace { ptr := NULL, map := PW_MAP_RANGE_INIT }
      (dmid.mems.getD mi default).fd (use_buffers_prot direction) cb.offset cb.size).1 ≠ NULL)
    (hmal : env.malloc_fails (mem_map env dmid.trace { ptr := NULL, map := PW_MAP_RANGE_INIT }
      (dmid.mems.getD mi default).fd (use_buffers_prot direction) cb.offset cb.size).2.2
      = false)
    (hplanes : cb.buffer.datas = ppre ++ pl :: ppost)
    (hreg : ∀ X ∈ plane_ids ppre, ∃ m ∈ (clear_buffers env d0 k).mems, m.id = X)
    (hpl : pl.type = SPA_DATA_MemFd ∨ pl.type = SPA_DATA_DmaBuf)
    (hunreg : ∀ m ∈ (clear_buffers env d0 k).mems, m.id ≠ SPA_PTR_TO_UINT32 pl.data) :
    (client_node_port_use_buffers env d direction port_id mix_id (pre ++ cb :: post)).1
      = -EINVAL ∧
    (((client_node_port_use_buffers env d direction port_id mix_id
        (pre ++ cb :: post)).2).mix_pool k).buffers = [] ∧
    ref_counts (client_node_port_use_buffers env d direction port_id mix_id
        (pre ++ cb :: post)).2.mems
      = ref_counts (clear_buffers env d0 k).mems := by
  obtain ⟨L1, _, _, _, _, hra1, _, _, _, _⟩ :=
    build_buffers_spec env k (use_buffers_prot direction) (clear_buffers env d0 k).mems pre 0
      (clear_buffers env d0 k) [] (refs_added_refl _) (by
        intro n m0 hm0
        have := hovf m0 (List.mem_iff_getElem?.2 ⟨n, hm0⟩)
        simp only [msg_refs, List.map_append, List.sum_append, List.length_nil] at this ⊢
        omega)
  rw [hpre] at hra1
  have hfind : ∀ X, find_mem dmid.mems X = find_mem (clear_buffers env d0 k).mems X :=
    fun X => refs_added_find _ _ _ X hra1
  have hres : (build_buffers env k (use_buffers_prot direction) (pre ++ cb :: post) 0
      (clear_buffers env d0 k)).1 = some (-EINVAL) := by
    rw [build_buffers_append env k _ cb post pre 0 _ dmid hpre]
    have hb := build_buffer_unknown_plane env dmid k (use_buffers_prot direction)
      (0 + pre.length) mi cb ppre ppost pl hown hmap hmal hplanes
      (by
        intro X hX
        rw [hfind]
        obtain ⟨n, hn⟩ := Option.isSome_iff_exists.1
          ((find_mem_isSome_iff _ X).2 (hreg X hX))
        exact ⟨n, hn⟩)
      hpl (by rw [hfind]; exact (find_mem_eq_none_iff _ _).2 hunreg)
    rw [build_buffers]
    cases hbb : build_buffer env dmid k (use_buffers_prot direction) (0 + pre.length) cb with
    | mk r d2 =>
      rw [hbb] at hb
      simp only at hb
      subst hb
      rfl
  obtain ⟨h1, h2, h3, _⟩ := use_buffers_failure env d d0 direction port_id mix_id k
    (pre ++ cb :: post) (-EINVAL) hacc hmix hinv hovf hres
  exact ⟨h1, h2, h3⟩

set_option maxRecDepth 1000000 in
/-- Witness for C2 (amended): region 1 is registered with ref count 0 and the message has one
buffer in region 1 whose only plane names the unregistered id 77. -/
theorem port_use_buffers_unknown_plane_witness :
    (client_node_port_use_buffers env_plain (run env_plain node_export [Op.add_mem 1 0 5 0])
        spa_direction.INPUT 0 0 ([] ++ buf_with_planes 1 [77] :: [])).1 = -EINVAL ∧
    (((client_node_port_use_buffers env_plain (run env_plain node_export [Op.add_mem 1 0 5 0])
        spa_direction.INPUT 0 0 ([] ++ buf_with_planes 1 [77] :: [])).2).mix_pool 0).buffers
      = [] ∧
    ref_counts (client_node_port_use_buffers env_plain
        (run env_plain node_export [Op.add_mem 1 0 5 0])
        spa_direction.INPUT 0 0 ([] ++ buf_with_planes 1 [77] :: [])).2.mems
      = ref_counts (clear_buffers env_plain
          (ensure_mix env_plain (run env_plain node_export [Op.add_mem 1 0 5 0])
            spa_direction.INPUT 0 0).2 0).mems :=
  port_use_buffers_unknown_plane env_plain (run env_plain node_export [Op.add_mem 1 0 5 0])
    (ensure_mix env_plain (run env_plain node_export [Op.add_mem 1 0 5 0])
      spa_direction.INPUT 0 0).2
    (clear_buffers env_plain
      (ensure_mix env_plain (run env_plain node_export [Op.add_mem 1 0 5 0])
        spa_direction.INPUT 0 0).2 0)
    spa_direction.INPUT 0 0 0 0 [] [] (buf_with_planes 1 [77]) [] []
    { type := SPA_DATA_MemFd, flags := 0, fd := -1, mapoffset := 0, maxsize := 4096,
      data := 77, chunk := 0 }
    (by intro _ _ _; exact le_refl _)
    (Prod.ext (by decide) rfl)
    (by decide) (by decide) rfl (by decide) (by decide) (by decide) rfl
    (by intro X hX; simp [plane_ids] at hX)
    (Or.inl rfl) (by decide)

set_option maxRecDepth 1000000 in
/-- C3, the code at the failing input: regions 1 (fd 5) and 2 (fd 6) are registered and
fd 6 cannot be mapped. (1) The first UseBuffers message for the mix `(INPUT, 0, 0)` has
one buffer, in region 2: the round ends at the failed `mem_map` with slot 0 of the array
handed out and only its `id` written, and the cleanup `clear_buffers` reads the `n_mem`
and frees the `buf` of that slot, which were never written. (2) A buffer in region 1 is
installed first and the same message follows: `clear_buffers` frees the block of slot 0
before the build, the build hands slot 0 out again and ends at the failed `mem_map`, and
the cleanup frees the block of slot 0 a second time. In both runs the handler reports
`-ENOMEM`; the install of the buffer in region 1 alone stays within defined behaviour. -/
theorem port_use_buffers_map_fails_frees_stale_slot :
    ((build_buffers env_fd6 0 (use_buffers_prot spa_direction.INPUT) [buf_with_planes 2 []] 0
        (clear_buffers env_fd6
          (ensure_mix env_fd6 (run env_fd6 node_export [Op.add_mem 1 0 5 0, Op.add_mem 2 0 6 0])
            spa_direction.INPUT 0 0).2 0)).2.mix_pool 0).buffers
      = [{ id := 0, buf := none, mem := [], n_mem_set := false, buf_left := buf_left.unset }] ∧
    (client_node_port_use_buffers env_fd6
        (run env_fd6 node_export [Op.add_mem 1 0 5 0, Op.add_mem 2 0 6 0])
        spa_direction.INPUT 0 0 [buf_with_planes 2 []]).1 = -ENOMEM ∧
    (client_node_port_use_buffers env_fd6
        (run env_fd6 node_export [Op.add_mem 1 0 5 0, Op.add_mem 2 0 6 0])
        spa_direction.INPUT 0 0 [buf_with_planes 2 []]).2.undefined = true ∧
    (run env_fd6 node_export [Op.add_mem 1 0 5 0, Op.add_mem 2 0 6 0,
        Op.port_use_buffers spa_direction.INPUT 0 0 [buf_with_planes 1 []]]).undefined = false ∧
    ((build_buffers env_fd6 0 (use_buffers_prot spa_direction.INPUT) [buf_with_planes 2 []] 0
        (clear_buffers env_fd6
          (run env_fd6 node_export [Op.add_mem 1 0 5 0, Op.add_mem 2 0 6 0,
            Op.port_use_buffers spa_direction.INPUT 0 0 [buf_with_planes 1 []]]) 0)).2.mix_pool
          0).buffers
      = [{ id := 0, buf := none, mem := [], n_mem_set := true, buf_left := buf_left.freed }] ∧
    (client_node_port_use_buffers env_fd6
        (run env_fd6 node_export [Op.add_mem 1 0 5 0, Op.add_mem 2 0 6 0,
          Op.port_use_buffers spa_direction.INPUT 0 0 [buf_with_planes 1 []]])
        spa_direction.INPUT 0 0 [buf_with_planes 2 []]).1 = -ENOMEM ∧
    (client_node_port_use_buffers env_fd6
        (run env_fd6 node_export [Op.add_mem 1 0 5 0, Op.add_mem 2 0 6 0,
          Op.port_use_buffers spa_direction.INPUT 0 0 [buf_with_planes 1 []]])
        spa_direction.INPUT 0 0 [buf_with_planes 2 []]).2.undefined = true := by
  decide

/-! ## C4: install, then clear -/

theorem ensure_mix_mems (env : Env) (d : node_data) (direction : spa_direction)
    (port_id mix_id : Nat) :
    (ensure_mix env d direction port_id mix_id).2.mems = d.mems := by
  unfold ensure_mix
  split
  · rfl
  · split
    · rfl
    · split <;> rfl

theorem clear_buffers_mems_of_empty (env : Env) (d : node_data) (k : Nat)
    (h : (d.mix_pool k).buffers = []) : (clear_buffers env d k).mems = d.mems := by
  unfold clear_buffers
  dsimp only
  split
  · rfl
  · rw [h]; rfl

theorem acq_pos_of_named (ms : List mem) (L : List Nat) (n : Nat) (m : mem)
    (hm : ms[n]? = some m) (hfirst : find_mem ms m.id = some n) (hnamed : m.id ∈ L) :
    0 < acq ms L n := by
  rw [acq_eq ms L n m hm, if_pos hfirst]
  exact List.count_pos_iff.2 hnamed

set_option maxRecDepth 1000000 in
/-- Counterexample to C4 as stated: the mix already holds a buffer in region 1 (ref count 1)
when a message with one buffer in region 2 is installed on it and the mix is then
cleared. The install drops the previous buffer first, so region 1 ends with ref count
0, not with the 1 it had before the install. -/
theorem install_then_clear_drops_previous :
    ref_counts (run env_plain node_export
        [Op.add_mem 1 0 5 0, Op.add_mem 2 0 6 0,
         Op.port_use_buffers spa_direction.INPUT 0 0 [buf_with_planes 1 []]]).mems = [1, 0] ∧
    (client_node_port_use_buffers env_plain
        (run env_plain node_export
          [Op.add_mem 1 0 5 0, Op.add_mem 2 0 6 0,
           Op.port_use_buffers spa_direction.INPUT 0 0 [buf_with_planes 1 []]])
        spa_direction.INPUT 0 0 [buf_with_planes 2 []]).1 = 0 ∧
    ref_counts (clear_buffers env_plain
        (client_node_port_use_buffers env_plain
          (run env_plain node_export
            [Op.add_mem 1 0 5 0, Op.add_mem 2 0 6 0,
             Op.port_use_buffers spa_direction.INPUT 0 0 [buf_with_planes 1 []]])
          spa_direction.INPUT 0 0 [buf_with_planes 2 []]).2 0).mems = [0, 0] := by
  decide

/-- C4 (amended): on a port that accepts the drop of its buffers, for a UseBuffers message
that names no `SPA_ID_INVALID` and cannot overflow a ref count: when the message builds
successfully on a mix, the mix records one reference per id named by the message, and
clearing the mix afterwards leaves it without buffers and returns every region's ref
count to its value from just before the build, which is its value before the message
when the mix held no buffers. A region that had ref count 0 and a live fd then and is
named by the message ends cleared, with ref count 0, and its fd is closed when no other
entry holds it. -/
theorem install_then_clear (env : Env) (d d0 d2 : node_data) (direction : spa_direction)
    (port_id mix_id k : Nat) (msg : List pw_client_node_buffer)
    (hacc : ∀ tr p m, 0 ≤ env.pw_port_use_buffers tr p m 0)
    (hmix : ensure_mix env d direction port_id mix_id = (some k, d0))
    (hinv : SPA_ID_INVALID ∉ msg_ids msg)
    (hovf : ∀ m ∈ (clear_buffers env d0 k).mems, m.ref + msg_refs msg < U32)
    (hbuild : build_buffers env k (use_buffers_prot direction) msg 0 (clear_buffers env d0 k)
      = (none, d2)) :
    buffer_ids (((client_node_port_use_buffers env d direction port_id mix_id msg).2).mix_pool
        k).buffers = msg_ids msg ∧
    ((clear_buffers env (client_node_port_use_buffers env d direction port_id mix_id msg).2
        k).mix_pool k).buffers = [] ∧
    ref_counts (clear_buffers env
        (client_node_port_use_buffers env d direction port_id mix_id msg).2 k).mems
      = ref_counts (clear_buffers env d0 k).mems ∧
    ((d0.mix_pool k).buffers = [] →
      ref_counts (clear_buffers env
          (client_node_port_use_buffers env d direction port_id mix_id msg).2 k).mems
        = ref_counts d.mems) ∧
    (∀ (n : Nat) (m1 : mem), (clear_buffers env d0 k).mems[n]? = some m1 → m1.ref = 0 →
      m1.fd ≠ -1 → m1.id ∈ msg_ids msg →
      find_mem (clear_buffers env d0 k).mems m1.id = some n →
      ∃ m3, (clear_buffers env
          (client_node_port_use_buffers env d direction port_id mix_id msg).2 k).mems[n]?
          = some m3 ∧
        m3.ref = 0 ∧ m3.fd = -1 ∧ m3.id = SPA_ID_INVALID ∧
        ((∀ (j : Nat) (mj : mem), j ≠ n → (clear_buffers env d0 k).mems[j]? = some mj →
            mj.fd ≠ m1.fd) →
          Event.close m1.fd ∈ (clear_buffers env
            (client_node_port_use_buffers env d direction port_id mix_id msg).2 k).trace)) := by
  obtain ⟨L, tr', _, hall, hids, hra, hfound, _, _, _⟩ :=
    build_buffers_spec env k (use_buffers_prot direction) (clear_buffers env d0 k).mems msg 0
      (clear_buffers env d0 k) [] (refs_added_refl _) (by
        intro n m0 hm0
        have := hovf m0 (List.mem_iff_getElem?.2 ⟨n, hm0⟩)
        simp only [List.length_nil]
        omega)
  rw [hbuild] at hall hids hra
  have hL : L = msg_ids msg := hall rfl
  subst hL
  rw [clear_buffers_empty env d0 k hacc] at hids
  have hnil : buffer_ids ([] : List buffer) = [] := rfl
  rw [hnil, List.nil_append] at hids
  rw [List.nil_append] at hra
  simp only at hids hra
  have hcall : (client_node_port_use_buffers env d direction port_id mix_id msg).2
      = { d2 with trace := d2.trace ++
            [Event.port_use_buffers (d2.mix_pool k).port (d2.mix_pool k).mix_id msg.length
              (env.pw_port_use_buffers d2.trace (d2.mix_pool k).port (d2.mix_pool k).mix_id
                msg.length)] } := by
    unfold client_node_port_use_buffers
    rw [hmix]
    dsimp only
    rw [hbuild]
  rw [hcall]
  have hlen := msg_ids_length_le msg
  obtain ⟨blk, hctr, _, hbuf, _, hclen, href, hcl, _, _⟩ := clear_restores env
    (clear_buffers env d0 k)
    { d2 with trace := d2.trace ++
        [Event.port_use_buffers (d2.mix_pool k).port (d2.mix_pool k).mix_id msg.length
          (env.pw_port_use_buffers d2.trace (d2.mix_pool k).port (d2.mix_pool k).mix_id
            msg.length)] }
    k (msg_ids msg) hra hids hinv hfound (by
      intro n m0 hm0
      have := hovf m0 (List.mem_iff_getElem?.2 ⟨n, hm0⟩)
      omega) (hacc _ _ _)
  have hrc := ref_counts_eq _ _ hclen (fun n m1 m3 h1 h3 => (href n m1 m3 h1 h3).1)
  refine ⟨hids, hbuf, hrc, ?_, ?_⟩
  · intro hempty
    rw [hrc, clear_buffers_mems_of_empty env d0 k hempty]
    have := ensure_mix_mems env d direction port_id mix_id
    rw [hmix] at this
    rw [this]
  · intro n m1 hm1 hz hfd hnamed hfirst
    obtain ⟨m3, hm3, hfd3, hclose⟩ := hcl n m1 hm1
      (acq_pos_of_named _ _ n m1 hm1 hfirst hnamed) hz hfd
    obtain ⟨hr3, hid3⟩ := href n m1 m3 hm1 hm3
    refine ⟨m3, hm3, by rw [hr3]; exact hz, hfd3, ?_, ?_⟩
    · rcases hid3 with ⟨_, h2⟩ | ⟨h1, _, _, _⟩
      · rw [hfd3] at h2; exact absurd h2.symm hfd
      · exact h1
    · intro huniq
      rw [hctr]
      exact List.mem_append_right _ (hclose huniq)

set_option maxRecDepth 1000000 in
/-- Witness for C4 (amended), the end-to-end scenario: region 1 (fd 5) is registered, a
message with one buffer in region 1, one header meta and one plane in region 1 is
installed on the mix `(INPUT, 0, 0)`, and the mix is cleared: the ref count of region 1
is back at 0 and fd 5 is closed. -/
theorem install_then_clear_witness :
    ref_counts (clear_buffers env_plain
        (client_node_port_use_buffers env_plain
          (run env_plain node_export [Op.add_mem 1 0 5 0])
          spa_direction.INPUT 0 0 [buf_with_planes 1 [1]]).2 0).mems
      = ref_counts (run env_plain node_export [Op.add_mem 1 0 5 0]).mems ∧
    Event.close 5 ∈ (clear_buffers env_plain
        (client_node_port_use_buffers env_plain
          (run env_plain node_export [Op.add_mem 1 0 5 0])
          spa_direction.INPUT 0 0 [buf_with_planes 1 [1]]).2 0).trace := by
  have h := install_then_clear env_plain (run env_plain node_export [Op.add_mem 1 0 5 0])
    (ensure_mix env_plain (run env_plain node_export [Op.add_mem 1 0 5 0])
      spa_direction.INPUT 0 0).2
    (build_buffers env_plain 0 (use_buffers_prot spa_direction.INPUT) [buf_with_planes 1 [1]] 0
      (clear_buffers env_plain
        (ensure_mix env_plain (run env_plain node_export [Op.add_mem 1 0 5 0])
          spa_direction.INPUT 0 0).2 0)).2
    spa_direction.INPUT 0 0 0 [buf_with_planes 1 [1]]
    (by intro _ _ _; exact le_refl _)
    (Prod.ext (by decide) rfl) (by decide) (by decide) (Prod.ext (by decide) rfl)
  refine ⟨h.2.2.2.1 (by decide), ?_⟩
  obtain ⟨_, _, _, _, _, hclose⟩ := h.2.2.2.2 0
    { id := 1, fd := 5, flags := 0, ref := 0, map := { ptr := NULL, map := PW_MAP_RANGE_INIT } }
    (by decide) rfl (by decide) (by decide) (by decide)
  have hm : (clear_buffers env_plain
      (ensure_mix env_plain (run env_plain node_export [Op.add_mem 1 0 5 0])
        spa_direction.INPUT 0 0).2 0).mems
      = [{ id := 1, fd := 5, flags := 0, ref := 0,
           map := { ptr := NULL, map := PW_MAP_RANGE_INIT } }] := by
    decide
  apply hclose
  intro j mj hj hmj
  rw [hm] at hmj
  cases j with
  | zero => exact absurd rfl hj
  | succ n => simp at hmj

/-! ## The reference count invariant -/

theorem sum_map_update (l : List Nat) (k : Nat) (g g' : Nat → Nat) (hnd : l.Nodup)
    (hk : k ∈ l) (hg : ∀ j, j ≠ k → g' j = g j) :
    (l.map g').sum + g k = (l.map g).sum + g' k := by
  induction l with
  | nil => simp at hk
  | cons a l ih =>
    have hnd' := List.nodup_cons.1 hnd
    by_cases hak : a = k
    · subst hak
      have hrest : l.map g' = l.map g := by
        apply List.map_congr_left
        intro j hj
        exact hg j (fun h => hnd'.1 (h ▸ hj))
      simp only [List.map_cons, List.sum_cons, hrest]
      omega
    · have hk' : k ∈ l := by
        rcases List.mem_cons.1 hk with h | h
        · exact absurd h.symm hak
        · exact h
      have := ih hnd'.2 hk'
      simp only [List.map_cons, List.sum_cons, hg a hak]
      omega

theorem sum_map_congr_off (l : List Nat) (k : Nat) (g g' : Nat → Nat) (hk : k ∉ l)
    (hg : ∀ j, j ≠ k → g' j = g j) : (l.map g').sum = (l.map g).sum := by
  have : l.map g' = l.map g := by
    apply List.map_congr_left
    intro j hj
    exact hg j (fun h => hk (h ▸ hj))
  rw [this]

/-- When only slot `k` changed, the recorded references change by what slot `k` records. -/
theorem recorded_refs_update (d d' : node_data) (k X : Nat) (hfr : same_frame k d d')
    (hnd : (bound_slots d).Nodup) (hk : k ∈ bound_slots d) :
    recorded_refs d' X + (buffer_ids (d.mix_pool k).buffers).count X
      = recorded_refs d X + (buffer_ids (d'.mix_pool k).buffers).count X := by
  unfold recorded_refs
  have hb : bound_slots d' = bound_slots d := by
    unfold bound_slots; rw [hfr.1]
  rw [hb]
  exact sum_map_update (bound_slots d) k
    (fun j => (buffer_ids (d.mix_pool j).buffers).count X)
    (fun j => (buffer_ids (d'.mix_pool j).buffers).count X) hnd hk
    (fun j hj => by simp only; rw [hfr.2.2 j hj])

theorem find_mem_of_unique (ms : List mem) (n : Nat) (m : mem)
    (huniq : ∀ (i j : Nat) (mi mj : mem), ms[i]? = some mi → ms[j]? = some mj →
      mi.id = mj.id → mi.id ≠ SPA_ID_INVALID → i = j)
    (hm : ms[n]? = some m) (hid : m.id ≠ SPA_ID_INVALID) : find_mem ms m.id = some n := by
  rw [find_mem_some_iff]
  refine ⟨⟨m, hm, rfl⟩, ?_⟩
  intro j mj hj hmj he
  have := huniq j n mj m hmj hm he (by rw [he]; exact hid)
  omega

theorem find_mix_mem (d : node_data) (direction : spa_direction) (port_id mix_id k : Nat)
    (h : find_mix d direction port_id mix_id = some k) : k ∈ bound_slots d := by
  have := List.mem_of_find?_eq_some h
  unfold bound_slots
  cases direction
  · exact List.mem_append_left _ this
  · exact List.mem_append_right _ this

theorem le_sum_map_of_mem (l : List Nat) (g : Nat → Nat) (k : Nat) (hk : k ∈ l) :
    g k ≤ (l.map g).sum := by
  induction l with
  | nil => simp at hk
  | cons a l ih =>
    simp only [List.map_cons, List.sum_cons]
    rcases List.mem_cons.1 hk with h | h
    · subst h; omega
    · have := ih h; omega

theorem sum_map_eq_zero (l : List Nat) (g : Nat → Nat) (h : ∀ k ∈ l, g k = 0) :
    (l.map g).sum = 0 := by
  induction l with
  | nil => rfl
  | cons a l ih =>
    simp only [List.map_cons, List.sum_cons]
    rw [h a (List.mem_cons_self a l), ih (fun k hk => h k (List.mem_cons_of_mem a hk))]

theorem count_le_recorded_refs (d : node_data) (k X : Nat) (hk : k ∈ bound_slots d) :
    (buffer_ids (d.mix_pool k).buffers).count X ≤ recorded_refs d X :=
  le_sum_map_of_mem (bound_slots d) (fun j => (buffer_ids (d.mix_pool j).buffers).count X) k hk

theorem recorded_refs_invalid (d : node_data)
    (h : ∀ k ∈ bound_slots d, SPA_ID_INVALID ∉ buffer_ids (d.mix_pool k).buffers) :
    recorded_refs d SPA_ID_INVALID = 0 :=
  sum_map_eq_zero (bound_slots d) _ (fun k hk => List.count_eq_zero.2 (h k hk))

theorem close_count_no_release (tr : List Event) (h : no_release tr) : close_count tr = 0 := by
  induction tr with
  | nil => rfl
  | cons e tr ih =>
    have he := h e (List.mem_cons_self e tr)
    have ih' := ih (fun x hx => h x (List.mem_cons_of_mem e hx))
    cases e <;> simp [is_release_event] at he <;>
      simp [close_count, List.countP_cons] <;> simpa [close_count] using ih'

theorem sum_map_filter_ne (l : List Nat) (k : Nat) (g g' : Nat → Nat) (hk : g k = 0)
    (hg : ∀ j, j ≠ k → g' j = g j) :
    ((l.filter (fun j => decide (j ≠ k))).map g').sum = (l.map g).sum := by
  induction l with
  | nil => rfl
  | cons a l ih =>
    by_cases hak : a = k
    · rw [List.filter_cons_of_neg (by simp [hak])]
      simp only [List.map_cons, List.sum_cons, hak, hk, Nat.zero_add]
      exact ih
    · rw [List.filter_cons_of_pos (by simp [hak])]
      simp only [List.map_cons, List.sum_cons, hg a hak, ih]

theorem deactivate_mix_frame (d : node_data) (k : Nat) :
    (deactivate_mix d k).mix = d.mix ∧ (deactivate_mix d k).free_mix = d.free_mix ∧
    (deactivate_mix d k).mems = d.mems ∧ (deactivate_mix d k).trace = d.trace ∧
    ∀ j, j ≠ k → (deactivate_mix d k).mix_pool j = d.mix_pool j := by
  unfold deactivate_mix
  by_cases ha : (d.mix_pool k).active = true
  · rw [if_pos ha]
    refine ⟨rfl, rfl, rfl, rfl, ?_⟩
    intro j hj
    simp only [set_mix, if_neg hj]
  · rw [if_neg ha]
    exact ⟨rfl, rfl, rfl, rfl, fun _ _ => rfl⟩

/-- C11: `ensure_mix` on a triple that a mix of the direction's list already carries
returns such a mix (the first one) and leaves the whole state, free list and mixes
included, as it is. On a triple that no mix of the list carries, with a port of that id
and a free list `k :: rest`, it returns slot `k`, leaves `rest` as free list, appends `k`
to the list of the direction and to no other, binds the slot to that port with the given
mix id, inactive and without buffers, and changes no other slot, nor the registry or the
trace. -/
theorem ensure_mix_spec (env : Env) (d : node_data) (direction : spa_direction)
    (port_id mix_id : Nat) :
    ((∃ j ∈ d.mix direction,
        (d.mix_pool j).port.port_id = port_id ∧ (d.mix_pool j).mix_id = mix_id) →
      ∃ k, ensure_mix env d direction port_id mix_id = (some k, d) ∧ k ∈ d.mix direction ∧
        (d.mix_pool k).port.port_id = port_id ∧ (d.mix_pool k).mix_id = mix_id) ∧
    (∀ (k : Nat) (rest : List Nat),
      (∀ j ∈ d.mix direction,
        ¬ ((d.mix_pool j).port.port_id = port_id ∧ (d.mix_pool j).mix_id = mix_id)) →
      d.free_mix = k :: rest →
      env.pw_node_find_port d.trace direction port_id = true →
      (ensure_mix env d direction port_id mix_id).1 = some k ∧
      (ensure_mix env d direction port_id mix_id).2.free_mix = rest ∧
      (ensure_mix env d direction port_id mix_id).2.mix direction = d.mix direction ++ [k] ∧
      (∀ x, x ≠ direction → (ensure_mix env d direction port_id mix_id).2.mix x = d.mix x) ∧
      ((ensure_mix env d direction port_id mix_id).2.mix_pool k).port
        = { direction := direction, port_id := port_id } ∧
      ((ensure_mix env d direction port_id mix_id).2.mix_pool k).mix_id = mix_id ∧
      ((ensure_mix env d direction port_id mix_id).2.mix_pool k).active = false ∧
      ((ensure_mix env d direction port_id mix_id).2.mix_pool k).buffers = [] ∧
      (∀ j, j ≠ k → (ensure_mix env d direction port_id mix_id).2.mix_pool j = d.mix_pool j) ∧
      (ensure_mix env d direction port_id mix_id).2.mems = d.mems ∧
      (ensure_mix env d direction port_id mix_id).2.trace = d.trace) := by
  constructor
  · rintro ⟨j, hj, hjm⟩
    cases hf : find_mix d direction port_id mix_id with
    | none =>
      unfold find_mix at hf
      have := List.find?_eq_none.1 hf j hj
      simp only [decide_eq_true_eq] at this
      exact absurd hjm this
    | some k =>
      refine ⟨k, ?_, ?_, ?_⟩
      · unfold ensure_mix; rw [hf]
      · exact List.mem_of_find?_eq_some hf
      · have := List.find?_some hf
        simp only [decide_eq_true_eq] at this
        exact this
  · intro k rest hnone hfree hport
    have hf : find_mix d direction port_id mix_id = none := by
      unfold find_mix
      rw [List.find?_eq_none]
      intro j hj
      simp only [decide_eq_true_eq]
      exact hnone j hj
    unfold ensure_mix
    simp only [hf, hfree, hport, if_true]
    refine ⟨trivial, trivial, ?_, ?_, ?_, ?_, ?_, ?_, ?_, rfl, rfl⟩
    · simp only [if_true]
    · intro x hx; simp only [if_neg hx]
    · simp only [set_mix, if_true, mix_init]
    · simp only [set_mix, if_true, mix_init]
    · simp only [set_mix, if_true, mix_init]
    · simp only [set_mix, if_true, mix_init]
    · intro j hj; simp only [set_mix, if_neg hj]

set_option maxRecDepth 1000000 in
/-- Witness for C11: on a fresh node the triple `(INPUT, 3, 7)` is unseen and takes slot 0;
asked again, the same slot is returned and the state stays as it is. -/
theorem ensure_mix_spec_witness :
    (ensure_mix env_plain node_export spa_direction.INPUT 3 7).1 = some 0 ∧
    (ensure_mix env_plain node_export spa_direction.INPUT 3 7).2.mix spa_direction.INPUT
      = [0] ∧
    ∃ k, ensure_mix env_plain (ensure_mix env_plain node_export spa_direction.INPUT 3 7).2
        spa_direction.INPUT 3 7
      = (some k, (ensure_mix env_plain node_export spa_direction.INPUT 3 7).2) ∧
      k ∈ (ensure_mix env_plain node_export spa_direction.INPUT 3 7).2.mix spa_direction.INPUT ∧
      ((ensure_mix env_plain node_export spa_direction.INPUT 3 7).2.mix_pool k).port.port_id
        = 3 ∧
      ((ensure_mix env_plain node_export spa_direction.INPUT 3 7).2.mix_pool k).mix_id = 7 :=
  ⟨by decide, by decide,
   (ensure_mix_spec env_plain (ensure_mix env_plain node_export spa_direction.INPUT 3 7).2
      spa_direction.INPUT 3 7).1 ⟨0, by decide, by decide, by decide⟩⟩


/-! ## Replacing the buffers of a mix -/

theorem io_inv_node_export : io_inv node_export := by
  refine ⟨?_, ?_, ?_, ?_⟩
  · simp only [node_export]; exact List.nodup_range MAX_MIX
  · intro k hk; simp only [bound_slots, node_export, List.append_nil] at hk
    exact absurd hk (List.not_mem_nil k)
  · intro k hk; simp only [bound_slots, node_export, List.append_nil] at hk
    exact absurd hk (List.not_mem_nil k)
  · intro k _; rfl

/-- A state that differs from one satisfying `io_inv` only outside the mixes satisfies it. -/
theorem io_inv_congr (d d' : node_data) (h : io_inv d) (hmix : d'.mix = d.mix)
    (hfree : d'.free_mix = d.free_mix) (hpool : d'.mix_pool = d.mix_pool) : io_inv d' := by
  have hb : bound_slots d' = bound_slots d := by unfold bound_slots; rw [hmix]
  unfold io_inv
  rw [hb, hfree, hpool]
  exact h

theorem ensure_mix_io_inv (env : Env) (d : node_data) (direction : spa_direction)
    (port_id mix_id : Nat) (h : io_inv d) :
    io_inv (ensure_mix env d direction port_id mix_id).2 ∧
    ∀ k, (ensure_mix env d direction port_id mix_id).1 = some k →
      k ∈ bound_slots (ensure_mix env d direction port_id mix_id).2 := by
  unfold ensure_mix
  cases hf : find_mix d direction port_id mix_id with
  | some k =>
    refine ⟨h, ?_⟩
    intro k' hk'
    simp only [Option.some.injEq] at hk'
    subst hk'
    exact find_mix_mem d direction port_id mix_id k hf
  | none =>
    cases hfree : d.free_mix with
    | nil => exact ⟨h, fun k hk => by simp at hk⟩
    | cons k rest =>
      by_cases hp : env.pw_node_find_port d.trace direction port_id = true
      · simp only [hp, if_true]
        obtain ⟨h1, h2, h3, h4⟩ := h
        rw [hfree] at h1 h2 h4
        have hnd := List.nodup_cons.1 h1
        have hkio : (d.mix_pool k).io = NULL := h4 k (List.mem_cons_self k rest)
        have hmem : ∀ j, j ∈ bound_slots
            { set_mix d k (mix_init (d.mix_pool k)
                { direction := direction, port_id := port_id } mix_id) with
              free_mix := rest
              mix := fun x => if x = direction then d.mix x ++ [k] else d.mix x } ↔
            j = k ∨ j ∈ bound_slots d := by
          intro j
          unfold bound_slots
          cases direction <;> simp [set_mix] <;> tauto
        refine ⟨⟨hnd.2, ?_, ?_, ?_⟩, ?_⟩
        · intro j hj
          rcases (hmem j).1 hj with e | e
          · rw [e]; exact hnd.1
          · exact fun hjr => h2 j e (List.mem_cons_of_mem k hjr)
        · intro j hj
          by_cases hjk : j = k
          · subst hjk
            simp only [set_mix, if_true, mix_init, hkio]
            simp
          · rcases (hmem j).1 hj with e | e
            · exact absurd e hjk
            · simp only [set_mix, if_neg hjk]
              exact h3 j e
        · intro j hj
          have hjk : j ≠ k := fun e => hnd.1 (e ▸ hj)
          simp only [set_mix, if_neg hjk]
          exact h4 j (List.mem_cons_of_mem k hj)
        · intro k' hk'
          simp only [Option.some.injEq] at hk'
          subst hk'
          exact (hmem k).2 (Or.inl rfl)
      · simp only [hp]
        exact ⟨h, fun k hk => by simp at hk⟩

theorem map_io_frame (env : Env) (d : node_data) (memid offset size : Nat) :
    (map_io env d memid offset size).2.mix = d.mix ∧
    (map_io env d memid offset size).2.free_mix = d.free_mix ∧
    (map_io env d memid offset size).2.mix_pool = d.mix_pool := by
  unfold map_io
  by_cases hm : memid = SPA_ID_INVALID
  · rw [if_pos hm]; exact ⟨rfl, rfl, rfl⟩
  · rw [if_neg hm]
    cases find_mem d.mems memid with
    | none => exact ⟨rfl, rfl, rfl⟩
    | some i =>
      dsimp only
      split <;> exact ⟨rfl, rfl, rfl⟩

theorem map_io_ptr (env : Env) (d : node_data) (memid offset size ptr sz : Nat)
    (h : (map_io env d memid offset size).1 = some (ptr, sz)) :
    (memid = SPA_ID_INVALID → ptr = NULL) ∧ (memid ≠ SPA_ID_INVALID → ptr ≠ NULL) := by
  unfold map_io at h
  by_cases hm : memid = SPA_ID_INVALID
  · rw [if_pos hm] at h
    simp only [Option.some.injEq, Prod.mk.injEq] at h
    exact ⟨fun _ => h.1.symm, fun c => absurd hm c⟩
  · rw [if_neg hm] at h
    refine ⟨fun c => absurd c hm, fun _ => ?_⟩
    cases hf : find_mem d.mems memid with
    | none => rw [hf] at h; simp at h
    | some i =>
      rw [hf] at h
      dsimp only at h
      split at h
      · simp at h
      · rename_i hne
        simp only [Option.some.injEq, Prod.mk.injEq] at h
        rw [← h.1]; exact hne

theorem release_ptr_frame (d : node_data) (ptr : Nat) :
    (release_ptr d ptr).mix = d.mix ∧ (release_ptr d ptr).free_mix = d.free_mix ∧
    (release_ptr d ptr).mix_pool = d.mix_pool := by
  unfold release_ptr
  cases find_mem_ptr d.mems ptr with
  | none => exact ⟨rfl, rfl, rfl⟩
  | some i =>
    have h := unref_mem_frame d ptr i
    refine ⟨?_, ?_, ?_⟩
    · exact (congrArg node_data.mix h).trans rfl
    · exact (congrArg node_data.free_mix h).trans rfl
    · exact (congrArg node_data.mix_pool h).trans rfl


theorem activate_mix_frame (d : node_data) (k : Nat) :
    (activate_mix d k).mix = d.mix ∧ (activate_mix d k).free_mix = d.free_mix ∧
    (∀ j, j ≠ k → (activate_mix d k).mix_pool j = d.mix_pool j) ∧
    ((activate_mix d k).mix_pool k).io = (d.mix_pool k).io ∧
    ((activate_mix d k).mix_pool k).active = true := by
  unfold activate_mix
  by_cases ha : (d.mix_pool k).active = true
  · rw [if_pos ha]
    exact ⟨rfl, rfl, fun _ _ => rfl, rfl, ha⟩
  · rw [if_neg ha]
    refine ⟨rfl, rfl, ?_, ?_, ?_⟩
    · intro j hj; simp only [set_mix, if_neg hj]
    · simp only [set_mix, if_true]
    · simp only [set_mix, if_true]

theorem deactivate_mix_slot (d : node_data) (k : Nat) :
    ((deactivate_mix d k).mix_pool k).active = false ∧
    ((deactivate_mix d k).mix_pool k).io = (d.mix_pool k).io := by
  unfold deactivate_mix
  by_cases ha : (d.mix_pool k).active = true
  · rw [if_pos ha]
    simp only [set_mix, if_true, and_self]
  · rw [if_neg ha]
    exact ⟨by simpa using ha, rfl⟩

/-- What a `client_node_port_set_io` call for the io kind Buffers does to the mixes, once
the mix is found or bound in slot `k` and the region is resolved to `ptr`. -/
theorem port_set_io_buffers_spec (env : Env) (d d0 d1 : node_data)
    (direction : spa_direction) (port_id mix_id memid offset size k ptr sz : Nat)
    (he : ensure_mix env d direction port_id mix_id = (some k, d0))
    (hm : map_io env d0 memid offset size = (some (ptr, sz), d1)) :
    (client_node_port_set_io env d direction port_id mix_id SPA_IO_Buffers memid offset
      size).mix = d0.mix ∧
    (client_node_port_set_io env d direction port_id mix_id SPA_IO_Buffers memid offset
      size).free_mix = d0.free_mix ∧
    (∀ j, j ≠ k → (client_node_port_set_io env d direction port_id mix_id SPA_IO_Buffers
      memid offset size).mix_pool j = d0.mix_pool j) ∧
    ((client_node_port_set_io env d direction port_id mix_id SPA_IO_Buffers memid offset
      size).mix_pool k).io = ptr ∧
    (ptr ≠ NULL → ((client_node_port_set_io env d direction port_id mix_id SPA_IO_Buffers
      memid offset size).mix_pool k).active = true) ∧
    (ptr = NULL → (d0.mix_pool k).io ≠ NULL →
      ((client_node_port_set_io env d direction port_id mix_id SPA_IO_Buffers memid offset
        size).mix_pool k).active = false) ∧
    (ptr = NULL → (d0.mix_pool k).io = NULL →
      ((client_node_port_set_io env d direction port_id mix_id SPA_IO_Buffers memid offset
        size).mix_pool k).active = (d0.mix_pool k).active) := by
  obtain ⟨m1, m2, m3⟩ := map_io_frame env d0 memid offset size
  rw [hm] at m1 m2 m3
  simp only at m1 m2 m3
  unfold client_node_port_set_io
  rw [he]
  simp only [hm, if_true]
  by_cases hp : ptr = NULL
  · rw [if_neg (by simpa using hp)]
    by_cases hio : (d1.mix_pool k).io = NULL
    · rw [if_neg (by rintro ⟨-, c⟩; exact c hio)]
      refine ⟨m1, m2, ?_, ?_, fun c => absurd hp c, ?_, ?_⟩
      · intro j hj; simp only [set_mix, if_neg hj, m3]
      · simp only [set_mix, if_true]
      · intro _ c; rw [m3] at hio; exact absurd hio c
      · intro _ _; simp only [set_mix, if_true, m3]
    · rw [if_pos ⟨hp, hio⟩]
      obtain ⟨f1, f2, f3, f4, f5⟩ := deactivate_mix_frame d1 k
      obtain ⟨s1, s2⟩ := deactivate_mix_slot d1 k
      obtain ⟨r1, r2, r3⟩ := release_ptr_frame (deactivate_mix d1 k)
        ((deactivate_mix d1 k).mix_pool k).io
      refine ⟨?_, ?_, ?_, ?_, fun c => absurd hp c, ?_, ?_⟩
      · show (release_ptr _ _).mix = _
        rw [r1, f1, m1]
      · show (release_ptr _ _).free_mix = _
        rw [r2, f2, m2]
      · intro j hj
        simp only [set_mix, if_neg hj]
        rw [r3, f5 j hj, m3]
      · simp only [set_mix, if_true]
      · intro _ _
        simp only [set_mix, if_true]
        rw [r3]; exact s1
      · intro _ c; rw [m3] at hio; exact absurd c hio
  · rw [if_pos (by simpa using hp), if_neg (by rintro ⟨c, -⟩; exact hp c)]
    obtain ⟨a1, a2, a3, a4, a5⟩ :=
      activate_mix_frame (set_mix d1 k { d1.mix_pool k with io := ptr }) k
    refine ⟨?_, ?_, ?_, ?_, fun _ => a5, fun c => absurd c hp, fun c => absurd c hp⟩
    · rw [a1]; exact m1
    · rw [a2]; exact m2
    · intro j hj
      rw [a3 j hj]
      simp only [set_mix, if_neg hj, m3]
    · rw [a4]
      simp only [set_mix, if_true]


theorem port_set_io_buffers_inv (env : Env) (d : node_data) (direction : spa_direction)
    (port_id mix_id memid offset size : Nat) (h : io_inv d) :
    io_inv (client_node_port_set_io env d direction port_id mix_id SPA_IO_Buffers memid offset
      size) := by
  obtain ⟨he, hke⟩ := ensure_mix_io_inv env d direction port_id mix_id h
  cases hen : ensure_mix env d direction port_id mix_id with
  | mk r d0 =>
    rw [hen] at he hke
    simp only at he hke
    cases r with
    | none =>
      have : client_node_port_set_io env d direction port_id mix_id SPA_IO_Buffers memid
          offset size = d0 := by
        unfold client_node_port_set_io; rw [hen]
      rw [this]; exact he
    | some k =>
      have hk : k ∈ bound_slots d0 := hke k rfl
      obtain ⟨m1, m2, m3⟩ := map_io_frame env d0 memid offset size
      cases hmap : map_io env d0 memid offset size with
      | mk o d1 =>
        rw [hmap] at m1 m2 m3
        simp only at m1 m2 m3
        cases o with
        | none =>
          have : client_node_port_set_io env d direction port_id mix_id SPA_IO_Buffers memid
              offset size = d1 := by
            unfold client_node_port_set_io; rw [hen]; simp only [hmap]
          rw [this]
          exact io_inv_congr d0 d1 he m1 m2 m3
        | some pr =>
          obtain ⟨ptr, sz⟩ := pr
          obtain ⟨s1, s2, s3, s4, s5, s6, s7⟩ :=
            port_set_io_buffers_spec env d d0 d1 direction port_id mix_id memid offset size k
              ptr sz hen hmap
          generalize client_node_port_set_io env d direction port_id mix_id SPA_IO_Buffers
            memid offset size = fin at s1 s2 s3 s4 s5 s6 s7 ⊢
          obtain ⟨h1, h2, h3, h4⟩ := he
          have hb : bound_slots fin = bound_slots d0 := by unfold bound_slots; rw [s1]
          refine ⟨?_, ?_, ?_, ?_⟩
          · rw [s2]; exact h1
          · rw [hb, s2]; exact h2
          · intro j hj
            rw [hb] at hj
            by_cases hjk : j = k
            · subst hjk
              rw [s4]
              by_cases hp : ptr = NULL
              · by_cases hio : (d0.mix_pool j).io = NULL
                · rw [s7 hp hio, hp]
                  have := h3 j hj
                  rw [hio] at this
                  exact this
                · rw [s6 hp hio, hp]
                  simp
              · rw [s5 hp]
                simp [hp]
            · rw [s3 j hjk]; exact h3 j hj
          · intro j hj
            rw [s2] at hj
            have hjk : j ≠ k := fun e => h2 k hk (e ▸ hj)
            rw [s3 j hjk]; exact h4 j hj

theorem run_buffers_io_inv (env : Env) (ops : List Op) :
    ∀ (d : node_data), io_inv d → (∀ op ∈ ops, is_buffers_io op = true) →
      io_inv (run env d ops) := by
  induction ops with
  | nil => intro d h _; exact h
  | cons op rest ih =>
    intro d h hops
    have hop := hops op (List.mem_cons_self op rest)
    have hrest : ∀ o ∈ rest, is_buffers_io o = true :=
      fun o ho => hops o (List.mem_cons_of_mem op ho)
    show io_inv (run env (step env d op) rest)
    apply ih _ _ hrest
    cases op with
    | add_mem mem_id type memfd flags =>
      show io_inv (client_node_add_mem d mem_id type memfd flags)
      unfold client_node_add_mem
      cases find_mem d.mems mem_id with
      | some _ => exact h
      | none => exact io_inv_congr d _ h rfl rfl rfl
    | port_set_io direction port_id mix_id id memid offset size =>
      have hid : id = SPA_IO_Buffers := by simpa [is_buffers_io] using hop
      subst hid
      exact port_set_io_buffers_inv env d direction port_id mix_id memid offset size h
    | port_use_buffers _ _ _ _ => simp [is_buffers_io] at hop
    | set_io _ _ _ _ => simp [is_buffers_io] at hop
    | clear_buffers _ => simp [is_buffers_io] at hop
    | clear_mix _ => simp [is_buffers_io] at hop
    | transport _ _ _ => simp [is_buffers_io] at hop


/-- C13: over every sequence of `client_node_port_set_io` calls for the io kind Buffers on
a freshly exported node (interleaved with the `client_node_add_mem` calls that register
the regions they name), every bound mix is active exactly when its Buffers io pointer is
not `NULL`. In such a state a further call whose mix is found or bound and whose region
is registered and maps (`map_io` yields a pointer for a `memid` other than
`SPA_ID_INVALID`) leaves the mix active with that pointer, which is not `NULL`, as io
binding; a call with `memid = SPA_ID_INVALID` leaves it inactive with a `NULL` binding. -/
theorem port_set_io_buffers_active (env : Env) (ops : List Op)
    (hops : ∀ op ∈ ops, is_buffers_io op = true) :
    (∀ k ∈ bound_slots (run env node_export ops),
      (((run env node_export ops).mix_pool k).active = true ↔
        ((run env node_export ops).mix_pool k).io ≠ NULL)) ∧
    (∀ (direction : spa_direction) (port_id mix_id memid offset size k ptr sz : Nat)
        (d0 d1 : node_data),
      ensure_mix env (run env node_export ops) direction port_id mix_id = (some k, d0) →
      map_io env d0 memid offset size = (some (ptr, sz), d1) →
      memid ≠ SPA_ID_INVALID →
      ((client_node_port_set_io env (run env node_export ops) direction port_id mix_id
          SPA_IO_Buffers memid offset size).mix_pool k).active = true ∧
      ((client_node_port_set_io env (run env node_export ops) direction port_id mix_id
          SPA_IO_Buffers memid offset size).mix_pool k).io = ptr ∧
      ptr ≠ NULL) ∧
    (∀ (direction : spa_direction) (port_id mix_id offset size k : Nat) (d0 : node_data),
      ensure_mix env (run env node_export ops) direction port_id mix_id = (some k, d0) →
      ((client_node_port_set_io env (run env node_export ops) direction port_id mix_id
          SPA_IO_Buffers SPA_ID_INVALID offset size).mix_pool k).active = false ∧
      ((client_node_port_set_io env (run env node_export ops) direction port_id mix_id
          SPA_IO_Buffers SPA_ID_INVALID offset size).mix_pool k).io = NULL) := by
  have hI := run_buffers_io_inv env ops node_export io_inv_node_export hops
  refine ⟨hI.2.2.1, ?_, ?_⟩
  · intro direction port_id mix_id memid offset size k ptr sz d0 d1 he hm hne
    have hp := (map_io_ptr env d0 memid offset size ptr sz (by rw [hm])).2 hne
    obtain ⟨-, -, -, s4, s5, -, -⟩ :=
      port_set_io_buffers_spec env _ d0 d1 direction port_id mix_id memid offset size k
        ptr sz he hm
    exact ⟨s5 hp, s4, hp⟩
  · intro direction port_id mix_id offset size k d0 he
    have hm : map_io env d0 SPA_ID_INVALID offset size = (some (NULL, 0), d0) := by
      unfold map_io; rw [if_pos rfl]
    obtain ⟨-, -, -, s4, -, s6, s7⟩ :=
      port_set_io_buffers_spec env _ d0 d0 direction port_id mix_id SPA_ID_INVALID offset size
        k NULL 0 he hm
    refine ⟨?_, s4⟩
    obtain ⟨hI0, hk0⟩ := ensure_mix_io_inv env (run env node_export ops) direction port_id
      mix_id hI
    rw [he] at hI0 hk0
    simp only at hI0 hk0
    by_cases hio : (d0.mix_pool k).io = NULL
    · rw [s7 rfl hio]
      have := (hI0.2.2.1 k (hk0 k rfl))
      rw [hio] at this
      simpa using this
    · exact s6 rfl hio

set_option maxRecDepth 1000000 in
/-- Witness for C13: after region 1 is registered and the Buffers io area of the mix
`(INPUT, 0, 0)` is bound into it, the mix is active with a binding; after the call with
`SPA_ID_INVALID` it is inactive with none. -/
theorem port_set_io_buffers_active_witness :
    (∀ op ∈ ops_bind_unbind, is_buffers_io op = true) ∧
    (∀ k ∈ bound_slots (run env_plain node_export ops_bind_unbind),
      (((run env_plain node_export ops_bind_unbind).mix_pool k).active = true ↔
        ((run env_plain node_export ops_bind_unbind).mix_pool k).io ≠ NULL)) ∧
    (((run env_plain node_export (ops_bind_unbind.take 2)).mix_pool 0).active,
      ((run env_plain node_export (ops_bind_unbind.take 2)).mix_pool 0).io)
      = (true, 0x10000) ∧
    (((run env_plain node_export ops_bind_unbind).mix_pool 0).active,
      ((run env_plain node_export ops_bind_unbind).mix_pool 0).io) = (false, NULL) :=
  ⟨by decide, (port_set_io_buffers_active env_plain ops_bind_unbind (by decide)).1,
   by decide, by decide⟩


/-! ## Layout of metas and chunks -/

theorem SPA_ROUND_UP_N_eq_spec (s : Nat) (h : s + 7 < U32) :
    SPA_ROUND_UP_N s 8 = spec_roundup8 s := by
  unfold SPA_ROUND_UP_N SPA_ROUND_DOWN_N spec_roundup8
  have e : (8 : Nat) - 1 = 7 := rfl
  rw [e, Nat.mod_eq_of_lt h]
  omega

theorem SPA_ROUND_UP_N_dvd (s : Nat) : 8 ∣ SPA_ROUND_UP_N s 8 := by
  unfold SPA_ROUND_UP_N SPA_ROUND_DOWN_N
  omega

theorem int_cast_of_lt (o : Nat) (h : o < 2 ^ 31) : int_cast o = (o : Int) := by
  unfold int_cast U32
  have h1 : o % 2 ^ 32 = o := Nat.mod_eq_of_lt (by omega)
  rw [h1, if_pos h]

theorem SPA_MEMBER_int_cast (B o : Nat) (h : o < 2 ^ 31) :
    SPA_MEMBER B (int_cast o) = B + o := by
  rw [int_cast_of_lt o h]
  unfold SPA_MEMBER
  omega

theorem build_metas_layout (B : Nat) :
    ∀ (ms : List spa_meta) (off : Nat),
      (build_metas B ms off).1.length = ms.length ∧
      (build_metas B ms off).2 = off + (ms.map (fun m => SPA_ROUND_UP_N m.size 8)).sum ∧
      ∀ (j : Nat) (w : spa_meta), (build_metas B ms off).1[j]? = some w →
        w.data = SPA_MEMBER B
          (int_cast (off + ((ms.take j).map (fun m => SPA_ROUND_UP_N m.size 8)).sum)) ∧
        ∃ m0, ms[j]? = some m0 ∧ w.type = m0.type ∧ w.size = m0.size := by
  intro ms
  induction ms with
  | nil =>
    intro off
    refine ⟨rfl, rfl, ?_⟩
    intro j w h
    simp [build_metas] at h
  | cons m ms ih =>
    intro off
    obtain ⟨i1, i2, i3⟩ := ih (off + SPA_ROUND_UP_N m.size 8)
    refine ⟨?_, ?_, ?_⟩
    · simp only [build_metas, List.length_cons, i1]
    · simp only [build_metas, i2, List.map_cons, List.sum_cons]
      omega
    · intro j w h
      cases j with
      | zero =>
        simp only [build_metas, List.getElem?_cons_zero, Option.some.injEq] at h
        subst h
        exact ⟨by simp, m, by simp, rfl, rfl⟩
      | succ j =>
        simp only [build_metas, List.getElem?_cons_succ] at h
        obtain ⟨a, m0, b, c, e⟩ := i3 j w h
        refine ⟨?_, m0, by simpa using b, c, e⟩
        rw [a]
        simp only [List.take_succ_cons, List.map_cons, List.sum_cons]
        rw [Nat.add_assoc]

theorem build_datas_layout (B off : Nat) :
    ∀ (ws : List spa_data) (j0 : Nat) (mems : List mem) (j : Nat) (w : spa_data),
      (build_datas B off ws j0 mems).datas[j]? = some w →
      w.chunk = SPA_MEMBER B (int_cast (off + sizeof_spa_chunk * (j0 + j))) := by
  intro ws
  induction ws with
  | nil =>
    intro j0 mems j w h
    simp [build_datas] at h
  | cons x ws ih =>
    intro j0 mems j w h
    have e : ∀ (j : Nat), j0 + 1 + j = j0 + (j + 1) := fun j => by omega
    unfold build_datas at h
    dsimp only at h
    split at h
    · split at h
      · cases j with
        | zero =>
          simp only [List.getElem?_cons_zero, Option.some.injEq] at h
          subst h; rfl
        | succ j => simp at h
      · cases j with
        | zero =>
          simp only [List.getElem?_cons_zero, Option.some.injEq] at h
          subst h; rfl
        | succ j =>
          simp only [List.getElem?_cons_succ] at h
          rw [ih _ _ j w h, e]
    · split at h
      · cases j with
        | zero =>
          simp only [List.getElem?_cons_zero, Option.some.injEq] at h
          subst h; rfl
        | succ j =>
          simp only [List.getElem?_cons_succ] at h
          rw [ih _ _ j w h, e]
      · cases j with
        | zero =>
          simp only [List.getElem?_cons_zero, Option.some.injEq] at h
          subst h; rfl
        | succ j =>
          simp only [List.getElem?_cons_succ] at h
          rw [ih _ _ j w h, e]

theorem build_datas_length (B off : Nat) :
    ∀ (ws : List spa_data) (j0 : Nat) (mems : List mem),
      (build_datas B off ws j0 mems).ok = true →
      (build_datas B off ws j0 mems).datas.length = ws.length := by
  intro ws
  induction ws with
  | nil => intro j0 mems _; rfl
  | cons x ws ih =>
    intro j0 mems h
    unfold build_datas at h ⊢
    dsimp only at h ⊢
    split
    · rename_i hc
      rw [if_pos hc] at h
      split
      · rename_i hf
        rw [hf] at h
        simp at h
      · rename_i i hf
        rw [hf] at h
        simp only [List.length_cons] at h ⊢
        rw [ih _ _ h]
    · rename_i hc
      rw [if_neg hc] at h
      split
      · rename_i hc2
        rw [if_pos hc2] at h
        simp only [List.length_cons] at h ⊢
        rw [ih _ _ h]
      · rename_i hc2
        rw [if_neg hc2] at h
        simp only [List.length_cons] at h ⊢
        rw [ih _ _ h]


set_option maxRecDepth 1000000 in
/-- C14 (as written, refuted), two runs. With metas of sizes `0xfffffffc` and `8` and two
data planes, built over the base pointer `0x11000`, the second meta and the chunk block
do not lie `2^32` bytes (the first size rounded up to a multiple of 8) further on: the
rounding wraps in 32 bits, the second meta lands on the base pointer and the chunks
follow at offset 8. With metas of sizes `0x80000000` and `8`, built over the base pointer
`0x7f0000001000`, the second meta does not lie `2^31` bytes above the base: `SPA_MEMBER`
converts the offset to `int`, and the meta lands `2^31` bytes below the base, the chunks
follow 8 bytes after it. -/
theorem layout_roundup_wraps :
    installed_layout (run env_plain node_export
      [Op.add_mem 1 0 5 0,
       Op.port_use_buffers spa_direction.INPUT 0 0 [buf_with_metas 1 [0xfffffffc, 8] 2]]) 0
      = [([0x11000, 0x11000], [0x11008, 0x11008 + sizeof_spa_chunk])] ∧
    0x11000 + spec_roundup8 0xfffffffc = 0x11000 + 2 ^ 32 ∧
    installed_layout (run env_high node_export
      [Op.add_mem 1 0 5 0,
       Op.port_use_buffers spa_direction.INPUT 0 0 [buf_with_metas 1 [0x80000000, 8] 2]]) 0
      = [([0x7f0000001000, 0x7f0000001000 - 2 ^ 31],
          [0x7f0000001000 - 2 ^ 31 + 8, 0x7f0000001000 - 2 ^ 31 + 8 + sizeof_spa_chunk])] ∧
    0x7f0000001000 + spec_roundup8 0x80000000 = 0x7f0000001000 + 2 ^ 31 := by
  decide

/-- C14 (amended): for every wire buffer whose meta sizes are at most `2^32 - 8` and whose
offsets (the rounded sizes of the metas before a meta, and all rounded meta sizes plus
`j * sizeof (struct spa_chunk)` for data plane `j`) are below `2^31`, once `build_buffer`
has built it over the pointer `B` that `mem_map` returned for its region: the buffer
installed last has as many metas and data planes as the wire buffer, meta `j` has data
pointer `B` plus the sizes of the metas before it, each rounded up to a multiple of 8,
data plane `j` has chunk pointer `B` plus all rounded meta sizes plus
`j * sizeof (struct spa_chunk)`, and the chunk block starts at an offset that is a
multiple of 8. -/
theorem build_buffer_layout (env : Env) (d : node_data) (k prot i mi : Nat)
    (cb : pw_client_node_buffer)
    (hsize : ∀ m ∈ cb.buffer.metas, m.size + 7 < U32)
    (hmeta : ∀ j, j < cb.buffer.metas.length →
      ((cb.buffer.metas.take j).map (fun m => spec_roundup8 m.size)).sum < 2 ^ 31)
    (hchunk : ∀ j, j < cb.buffer.datas.length →
      (cb.buffer.metas.map (fun m => spec_roundup8 m.size)).sum + j * sizeof_spa_chunk
        < 2 ^ 31)
    (hown : find_mem d.mems cb.mem_id = some mi)
    (hok : (build_buffer env d k prot i cb).1 = none) :
    ∃ b sb,
      ((build_buffer env d k prot i cb).2.mix_pool k).buffers.getLast? = some b ∧
      b.id = i ∧ b.buf = some sb ∧
      sb.metas.length = cb.buffer.metas.length ∧
      sb.datas.length = cb.buffer.datas.length ∧
      (∀ (j : Nat) (w : spa_meta), sb.metas[j]? = some w →
        w.data = (mem_map env d.trace { ptr := NULL, map := PW_MAP_RANGE_INIT }
            (d.mems.getD mi default).fd prot cb.offset cb.size).1
          + (((cb.buffer.metas.take j).map (fun m => spec_roundup8 m.size)).sum)) ∧
      (∀ (j : Nat) (w : spa_data), sb.datas[j]? = some w →
        w.chunk = (mem_map env d.trace { ptr := NULL, map := PW_MAP_RANGE_INIT }
            (d.mems.getD mi default).fd prot cb.offset cb.size).1
          + (cb.buffer.metas.map (fun m => spec_roundup8 m.size)).sum
          + j * sizeof_spa_chunk) ∧
      8 ∣ (cb.buffer.metas.map (fun m => spec_roundup8 m.size)).sum := by
  have hmap : ∀ (l : List spa_meta), (∀ m ∈ l, m.size + 7 < U32) →
      l.map (fun m => SPA_ROUND_UP_N m.size 8) = l.map (fun m => spec_roundup8 m.size) := by
    intro l hl
    apply List.map_congr_left
    intro m hm
    exact SPA_ROUND_UP_N_eq_spec m.size (hl m hm)
  have hdvd : ∀ (l : List spa_meta), 8 ∣ (l.map (fun m => spec_roundup8 m.size)).sum := by
    intro l
    apply List.dvd_sum
    intro x hx
    obtain ⟨m, -, rfl⟩ := List.mem_map.1 hx
    exact Dvd.intro_left _ rfl
  unfold build_buffer at hok ⊢
  rw [hown] at hok
  simp only [hown]
  dsimp only [set_mix] at hok ⊢
  generalize hB : (mem_map env d.trace { ptr := NULL, map := PW_MAP_RANGE_INIT }
    (d.mems.getD mi default).fd prot cb.offset cb.size) = r at hok ⊢
  by_cases h1 : r.1 = NULL
  · rw [if_pos h1] at hok; simp at hok
  · rw [if_neg h1] at hok ⊢
    by_cases h2 : env.malloc_fails r.2.2 = true
    · rw [if_pos h2] at hok; simp at hok
    · rw [if_neg h2] at hok ⊢
      obtain ⟨l1, l2, l3⟩ := build_metas_layout r.1 cb.buffer.metas 0
      generalize hms : build_metas r.1 cb.buffer.metas 0 = ms at hok l1 l2 l3 ⊢
      have hlay := build_datas_layout r.1 ms.2 cb.buffer.datas 0
        (modify_at (fun x => { x with ref := inc32 x.ref }) d.mems mi)
      have hlen := build_datas_length r.1 ms.2 cb.buffer.datas 0
        (modify_at (fun x => { x with ref := inc32 x.ref }) d.mems mi)
      generalize hdr : build_datas r.1 ms.2 cb.buffer.datas 0
        (modify_at (fun x => { x with ref := inc32 x.ref }) d.mems mi) = dr at hok hlay hlen ⊢
      cases hdok : dr.ok with
      | false => rw [hdok] at hok; simp at hok
      | true =>
        simp only [if_true]
        refine ⟨buffer.mk i (some (spa_buffer.mk cb.buffer.id ms.1 dr.datas))
            (buffer_mem.mk (d.mems.getD mi default).id (mapping.mk r.1 r.2.1.map) :: dr.entries)
            true buf_left.null,
          spa_buffer.mk cb.buffer.id ms.1 dr.datas, ?_, rfl, rfl, l1, hlen hdok, ?_, ?_,
          hdvd _⟩
        · simp only [if_true, set_last_append]
          simp
        · intro j w hw
          obtain ⟨a, m0, hm0, -⟩ := l3 j w hw
          have hj : j < cb.buffer.metas.length := lt_length_of_getElem? _ _ _ hm0
          rw [a, Nat.zero_add, hmap _ (fun m hm => hsize m (List.mem_of_mem_take hm))]
          exact SPA_MEMBER_int_cast _ _ (hmeta j hj)
        · intro j w hw
          have hj : j < cb.buffer.datas.length := by
            have := lt_length_of_getElem? _ _ _ hw
            rw [hlen hdok] at this
            exact this
          have hc := hchunk j hj
          rw [hlay j w hw, l2, Nat.zero_add, Nat.zero_add, hmap _ hsize]
          rw [SPA_MEMBER_int_cast _ _ (by rw [Nat.mul_comm]; exact hc)]
          ring

set_option maxRecDepth 1000000 in
/-- Witness for C14: metas of sizes 24, 5 and 8 and two data planes over the base
pointer `0x11000`: the metas lie at offsets 0, 24 and 32, the chunks at 40 and 52. -/
theorem build_buffer_layout_witness :
    (∃ b sb,
      ((build_buffer env_plain (client_node_add_mem node_export 1 0 5 0) 0 PROT_READ 0
        (buf_with_metas 1 [24, 5, 8] 2)).2.mix_pool 0).buffers.getLast? = some b ∧
      b.id = 0 ∧ b.buf = some sb ∧
      sb.metas.length = (buf_with_metas 1 [24, 5, 8] 2).buffer.metas.length ∧
      sb.datas.length = (buf_with_metas 1 [24, 5, 8] 2).buffer.datas.length ∧
      (∀ (j : Nat) (w : spa_meta), sb.metas[j]? = some w →
        w.data = (mem_map env_plain (client_node_add_mem node_export 1 0 5 0).trace
            { ptr := NULL, map := PW_MAP_RANGE_INIT }
            ((client_node_add_mem node_export 1 0 5 0).mems.getD 0 default).fd PROT_READ
            (buf_with_metas 1 [24, 5, 8] 2).offset (buf_with_metas 1 [24, 5, 8] 2).size).1
          + ((((buf_with_metas 1 [24, 5, 8] 2).buffer.metas.take j).map
              (fun m => spec_roundup8 m.size)).sum)) ∧
      (∀ (j : Nat) (w : spa_data), sb.datas[j]? = some w →
        w.chunk = (mem_map env_plain (client_node_add_mem node_export 1 0 5 0).trace
            { ptr := NULL, map := PW_MAP_RANGE_INIT }
            ((client_node_add_mem node_export 1 0 5 0).mems.getD 0 default).fd PROT_READ
            (buf_with_metas 1 [24, 5, 8] 2).offset (buf_with_metas 1 [24, 5, 8] 2).size).1
          + ((buf_with_metas 1 [24, 5, 8] 2).buffer.metas.map
              (fun m => spec_roundup8 m.size)).sum
          + j * sizeof_spa_chunk) ∧
      8 ∣ ((buf_with_metas 1 [24, 5, 8] 2).buffer.metas.map
        (fun m => spec_roundup8 m.size)).sum) ∧
    installed_layout (run env_plain node_export
      [Op.add_mem 1 0 5 0,
       Op.port_use_buffers spa_direction.INPUT 0 0 [buf_with_metas 1 [24, 5, 8] 2]]) 0
      = [([0x11000, 0x11000 + 24, 0x11000 + 32], [0x11000 + 40, 0x11000 + 52])] :=
  ⟨build_buffer_layout env_plain (client_node_add_mem node_export 1 0 5 0) 0 PROT_READ 0 0
    (buf_with_metas 1 [24, 5, 8] 2) (by decide) (by decide) (by decide) (by decide)
    (by decide),
   by decide⟩


/-! ## Hangup on the realtime socket -/

/-- C18: handling an error or hangup event on the realtime socket leaves no notification
source registered: a registered source is destroyed, exactly once, and nothing else
changes; with no source registered nothing changes at all. Hence a second error or
hangup event right after the first changes nothing and removes nothing. -/
theorem rtsocket_hangup_idempotent (d : node_data) (fd fd' : Int) (mask mask' : Nat)
    (h : mask &&& (SPA_IO_ERR ||| SPA_IO_HUP) ≠ 0)
    (h' : mask' &&& (SPA_IO_ERR ||| SPA_IO_HUP) ≠ 0) :
    (on_rtsocket_condition d fd mask).rtsocket_source = NULL ∧
    (d.rtsocket_source ≠ NULL →
      on_rtsocket_condition d fd mask = { d with
        rtsocket_source := NULL
        trace := d.trace ++ [Event.destroy_source d.rtsocket_source] }) ∧
    (d.rtsocket_source = NULL → on_rtsocket_condition d fd mask = d) ∧
    on_rtsocket_condition (on_rtsocket_condition d fd mask) fd' mask'
      = on_rtsocket_condition d fd mask := by
  have e1 : ∀ (x : node_data), on_rtsocket_condition x fd mask = do_remove_source x := by
    intro x; unfold on_rtsocket_condition unhandle_socket; rw [if_pos h]
  have e2 : ∀ (x : node_data), on_rtsocket_condition x fd' mask' = do_remove_source x := by
    intro x; unfold on_rtsocket_condition unhandle_socket; rw [if_pos h']
  rw [e2, e1]
  by_cases hs : d.rtsocket_source = NULL
  · have hd : do_remove_source d = d := by
      unfold do_remove_source; rw [if_neg (by simpa using hs)]
    rw [hd]
    exact ⟨hs, fun c => absurd hs c, fun _ => rfl, hd⟩
  · have hd : do_remove_source d = { d with
        rtsocket_source := NULL
        trace := d.trace ++ [Event.destroy_source d.rtsocket_source] } := by
      unfold do_remove_source; rw [if_pos hs]
    rw [hd]
    refine ⟨rfl, fun _ => rfl, fun c => absurd c hs, ?_⟩
    unfold do_remove_source
    rw [if_neg (by simp)]

set_option maxRecDepth 1000000 in
/-- Witness for C18: after a transport was set up, a hangup and then an error event leave
one removal of the source in the trace. -/
theorem rtsocket_hangup_idempotent_witness :
    (on_rtsocket_condition state_transport 10 SPA_IO_HUP).rtsocket_source = NULL ∧
    on_rtsocket_condition (on_rtsocket_condition state_transport 10 SPA_IO_HUP) 10 SPA_IO_ERR
      = on_rtsocket_condition state_transport 10 SPA_IO_HUP ∧
    (on_rtsocket_condition (on_rtsocket_condition state_transport 10 SPA_IO_HUP) 10
      SPA_IO_ERR).trace = [Event.add_io 10 1, Event.destroy_source 1] :=
  ⟨(rtsocket_hangup_idempotent state_transport 10 10 SPA_IO_HUP SPA_IO_ERR
      (by decide) (by decide)).1,
   (rtsocket_hangup_idempotent state_transport 10 10 SPA_IO_HUP SPA_IO_ERR
      (by decide) (by decide)).2.2.2,
   by decide⟩


/-! ## A new transport after a hangup -/

set_option maxRecDepth 1000000 in
/-- C19 (evaluation at the failing input): a transport with write fd 11 is set up, region
1 (fd 5) is registered, a hangup is handled, and a new transport (write fd 13) arrives:
the old write fd 11 is never closed and the registry keeps region 1. Without the hangup
the same message closes fd 5 and fd 11 before the new source is added. -/
theorem transport_after_hangup_leaks :
    (client_node_transport env_plain state_hangup 2 12 13).trace
      = [Event.add_io 10 1, Event.destroy_source 1, Event.add_io 12 1] ∧
    ((client_node_transport env_plain state_hangup 2 12 13).remote_id,
      (client_node_transport env_plain state_hangup 2 12 13).rtwritefd,
      (client_node_transport env_plain state_hangup 2 12 13).rtsocket_source) = (2, 13, 1) ∧
    (client_node_transport env_plain state_hangup 2 12 13).mems.map (fun m => (m.id, m.fd))
      = [(1, 5)] ∧
    (client_node_transport env_plain (client_node_add_mem state_transport 1 0 5 0)
        2 12 13).trace
      = [Event.add_io 10 1, Event.destroy_source 1, Event.close 5, Event.close 11,
         Event.add_io 12 1] := by
  decide


/-! ## Every fd of the registry is closed once -/

/-- What `clear_mix` does to the pool and to the fields of the transport. -/
theorem clear_mix_frame (env : Env) (d : node_data) (k : Nat) :
    (∀ x, (clear_mix env d k).mix x = (d.mix x).filter (fun j => decide (j ≠ k))) ∧
    (clear_mix env d k).free_mix = d.free_mix.filter (fun j => decide (j ≠ k)) ++ [k] ∧
    ((clear_mix env d k).mix_pool k).active = false ∧
    ((clear_mix env d k).mix_pool k).buffers = [] ∧
    (∀ j, j ≠ k → (clear_mix env d k).mix_pool j = d.mix_pool j) ∧
    (clear_mix env d k).remote_id = d.remote_id ∧
    (clear_mix env d k).rtwritefd = d.rtwritefd ∧
    (clear_mix env d k).rtsocket_source = d.rtsocket_source ∧
    (clear_mix env d k).mems = (clear_buffers env d k).mems ∧
    (clear_mix env d k).trace = (clear_buffers env d k).trace := by
  have hcb : (clear_buffers env d k).mix = d.mix ∧
      (clear_buffers env d k).free_mix = d.free_mix ∧
      (∀ j, j ≠ k → (clear_buffers env d k).mix_pool j = d.mix_pool j) ∧
      (clear_buffers env d k).remote_id = d.remote_id ∧
      (clear_buffers env d k).rtwritefd = d.rtwritefd ∧
      (clear_buffers env d k).rtsocket_source = d.rtsocket_source := by
    by_cases hacc : env.pw_port_use_buffers d.trace (d.mix_pool k).port
        (d.mix_pool k).mix_id 0 < 0
    · rw [clear_buffers_refuse env d k hacc]
      exact ⟨rfl, rfl, fun _ _ => rfl, rfl, rfl, rfl⟩
    · rw [clear_buffers_accept env d k (not_lt.1 hacc)]
      obtain ⟨p1, p2, p3, -, p5, p6, p7⟩ := foldl_release_id_frame
        (buffer_ids (d.mix_pool k).buffers)
        { d with trace := d.trace ++
          [Event.port_use_buffers (d.mix_pool k).port (d.mix_pool k).mix_id 0
            (env.pw_port_use_buffers d.trace (d.mix_pool k).port (d.mix_pool k).mix_id 0)] }
      refine ⟨p2, p3, ?_, p7, p6, p5⟩
      intro j hj
      simp only [set_mix, if_neg hj]
      rw [p1]
  obtain ⟨c1, c2, c3, c4, c5, c6⟩ := hcb
  unfold clear_mix
  generalize clear_buffers env d k = d1 at c1 c2 c3 c4 c5 c6 ⊢
  obtain ⟨f1, f2, f3, f4, f5⟩ :=
    deactivate_mix_frame (set_mix d1 k { d1.mix_pool k with buffers := [] }) k
  have hslot := deactivate_mix_slot (set_mix d1 k { d1.mix_pool k with buffers := [] }) k
  have hbuf : ((deactivate_mix (set_mix d1 k { d1.mix_pool k with buffers := [] }) k).mix_pool
      k).buffers = [] := by
    unfold deactivate_mix
    split <;> simp only [set_mix, if_true]
  have hrest : (deactivate_mix (set_mix d1 k { d1.mix_pool k with buffers := [] }) k).remote_id
        = d1.remote_id ∧
      (deactivate_mix (set_mix d1 k { d1.mix_pool k with buffers := [] }) k).rtwritefd
        = d1.rtwritefd ∧
      (deactivate_mix (set_mix d1 k { d1.mix_pool k with buffers := [] }) k).rtsocket_source
        = d1.rtsocket_source := by
    unfold deactivate_mix
    split <;> exact ⟨rfl, rfl, rfl⟩
  refine ⟨?_, ?_, hslot.1, hbuf, ?_, ?_, ?_, ?_, ?_, ?_⟩
  · intro x
    show List.filter _ ((deactivate_mix _ k).mix x) = _
    rw [f1]
    show List.filter _ (d1.mix x) = _
    rw [c1]
  · show List.filter _ (deactivate_mix _ k).free_mix ++ [k] = _
    rw [f2]
    show List.filter _ d1.free_mix ++ [k] = _
    rw [c2]
  · intro j hj
    show (deactivate_mix _ k).mix_pool j = _
    rw [f5 j hj]
    simp only [set_mix, if_neg hj]
    exact c3 j hj
  · show (deactivate_mix _ k).remote_id = _
    rw [hrest.1]; exact c4
  · show (deactivate_mix _ k).rtwritefd = _
    rw [hrest.2.1]; exact c5
  · show (deactivate_mix _ k).rtsocket_source = _
    rw [hrest.2.2]; exact c6
  · show (deactivate_mix _ k).mems = _
    rw [f3]; rfl
  · show (deactivate_mix _ k).trace = _
    rw [f4]; rfl

set_option maxRecDepth 1000000 in
/-- C22, the code at the failing input: a transport is set up, region 1 (fd 5) is
registered and the position area is bound at offset 8 of it, so that the entry caches
the mapping of 4096 bytes that `mmap` placed at `0x11000`, with `start = 8`. No other
entry holds fd 5. `clear_mem` on the entry (as the next transport calls it) invalidates
it and closes fd 5, but its one `munmap` names the address `0x11000 - 8`, not the
mapping: `mem_unmap` subtracts `start` from the pointer it is given, and `clear_mem`
gives it the start of the mapping. With offset 0 the `munmap` names the mapping. -/
theorem clear_mem_unmaps_below_mapping :
    (run env_plain node_export ops_io_unaligned).mems.map
        (fun m => (m.id, m.fd, m.map.ptr, m.map.map.start, m.map.map.size))
      = [(1, 5, 0x11000, 8, 4096)] ∧
    Event.mmap 0 4096 3 5 0 0x11000 ∈ (run env_plain node_export ops_io_unaligned).trace ∧
    (clear_mem (run env_plain node_export ops_io_unaligned) 0).mems.map
        (fun m => (m.id, m.fd, m.map.ptr)) = [(SPA_ID_INVALID, -1, NULL)] ∧
    (clear_mem (run env_plain node_export ops_io_unaligned) 0).trace
      = (run env_plain node_export ops_io_unaligned).trace
          ++ [Event.munmap (0x11000 - 8) 4096, Event.close 5] ∧
    Event.munmap 0x11000 4096 ∉ (clear_mem (run env_plain node_export ops_io_unaligned) 0).trace ∧
    Event.munmap (0x11000 - 8) 4096
      ∈ (run env_plain node_export (ops_io_unaligned ++ [Op.transport 2 12 13])).trace ∧
    Event.munmap 0x11000 4096
      ∉ (run env_plain node_export (ops_io_unaligned ++ [Op.transport 2 12 13])).trace ∧
    (clear_mem (run env_plain node_export
        [Op.transport 1 10 11, Op.add_mem 1 0 5 0, Op.set_io SPA_IO_Position 1 0 8]) 0).trace
      = (run env_plain node_export
          [Op.transport 1 10 11, Op.add_mem 1 0 5 0, Op.set_io SPA_IO_Position 1 0 8]).trace
          ++ [Event.munmap 0x11000 4096, Event.close 5] := by
  decide

/-! ## The pointer that `mem_map` returns from its cache -/

set_option maxRecDepth 1000000 in
/-- C24, the code at the failing input: with pages of 4096 bytes, a mapping of the first
page cached at `0x10000` for a request at offset 0 is reused for the request
`(offset 8, size 8)`, whose window is the same page; `mem_map` returns `0x10000`, the
base plus the `start` of the request that created the mapping, not the base plus
`8 = offset mod 4096`. In a run: region 1 is registered, the position area is bound at
offset 0 and the Buffers io of a mix at offset 8; both get the pointer `0x10000`. -/
theorem mem_map_reuse_stale_start :
    mem_map env_plain [] mapping_page0 5 3 8 8 = (0x10000, mapping_page0, []) ∧
    (pw_map_range_init 8 8 env_plain.sc_pagesize).offset = mapping_page0.map.offset ∧
    (pw_map_range_init 8 8 env_plain.sc_pagesize).size = mapping_page0.map.size ∧
    mapping_page0.ptr + 8 % env_plain.sc_pagesize = 0x10008 ∧
    (mem_map env_plain [] { ptr := NULL, map := PW_MAP_RANGE_INIT } 5 3 8 8).1 = 0x10008 ∧
    (run env_plain node_export ops_two_offsets).position = 0x10000 ∧
    ((run env_plain node_export ops_two_offsets).mix_pool 0).io = 0x10000 ∧
    (run env_plain node_export ops_two_offsets).trace
      = [Event.mmap 0 4096 3 5 0 0x10000, Event.node_set_io SPA_IO_Position 0x10000 8] := by
  decide

/-! ## Looking up a cleared entry -/

set_option maxRecDepth 1000000 in
/-- C25, the code at the failing input: the regions 10 (fd 5) and 11 (fd 6) are registered,
region 11 is used by a buffer and dropped, so that its entry is cleared (id
`SPA_ID_INVALID`, fd -1, ref count 0, fd 6 closed). `find_mem` for the id
`SPA_ID_INVALID` returns that entry. A UseBuffers message with a buffer in region 10
whose `MemFd` plane names `SPA_ID_INVALID` succeeds, raises the ref count of the
cleared entry to 1 and gives the plane the fd -1 of that entry. -/
theorem find_mem_returns_cleared_entry :
    (run env_plain node_export ops_cleared_entry).mems.map (fun m => (m.id, m.fd, m.ref))
      = [(10, 5, 0), (SPA_ID_INVALID, -1, 0)] ∧
    Event.close 6 ∈ (run env_plain node_export ops_cleared_entry).trace ∧
    find_mem (run env_plain node_export ops_cleared_entry).mems SPA_ID_INVALID = some 1 ∧
    (client_node_port_use_buffers env_plain (run env_plain node_export ops_cleared_entry)
        spa_direction.INPUT 0 0 [buf_with_planes 10 [SPA_ID_INVALID]]).1 = 0 ∧
    (client_node_port_use_buffers env_plain (run env_plain node_export ops_cleared_entry)
        spa_direction.INPUT 0 0 [buf_with_planes 10 [SPA_ID_INVALID]]).2.mems.map
        (fun m => (m.id, m.fd, m.ref)) = [(10, 5, 1), (SPA_ID_INVALID, -1, 1)] ∧
    installed_planes (client_node_port_use_buffers env_plain
        (run env_plain node_export ops_cleared_entry)
        spa_direction.INPUT 0 0 [buf_with_planes 10 [SPA_ID_INVALID]]).2 0
      = [[(SPA_DATA_MemFd, -1, NULL)]] := by
  decide


/-! ## The mix pool is a partition of its slots -/

/-- The invariant of the pool on a fresh node: the three lists together hold every slot of
the pool once, and the keys of the mixes bound in a direction are pairwise different. -/
theorem pool_partition_node_export :
    (all_slots node_export).Perm (List.range MAX_MIX) ∧
    ∀ dir, (mix_keys node_export dir).Nodup := by
  refine ⟨?_, ?_⟩
  · have e : all_slots node_export = List.range MAX_MIX := by
      simp [all_slots, node_export]
    rw [e]
  · intro dir
    simp [mix_keys, node_export]

theorem pool_partition_ensure_mix (env : Env) (d : node_data) (direction : spa_direction)
    (port_id mix_id : Nat)
    (h : (all_slots d).Perm (List.range MAX_MIX) ∧ ∀ dir, (mix_keys d dir).Nodup) :
    (all_slots (ensure_mix env d direction port_id mix_id).2).Perm (List.range MAX_MIX) ∧
    ∀ dir, (mix_keys (ensure_mix env d direction port_id mix_id).2 dir).Nodup := by
  obtain ⟨hperm, hkeys⟩ := h
  unfold ensure_mix
  cases hf : find_mix d direction port_id mix_id with
  | some k0 => exact ⟨hperm, hkeys⟩
  | none =>
    cases hfree : d.free_mix with
    | nil => exact ⟨hperm, hkeys⟩
    | cons k rest =>
      by_cases hport : env.pw_node_find_port d.trace direction port_id = true
      · simp only [hport, if_true]
        have hnd : (all_slots d).Nodup := hperm.nodup_iff.2 (List.nodup_range MAX_MIX)
        have hkfree : k ∈ d.free_mix := by rw [hfree]; exact List.mem_cons_self k rest
        have hknot : ∀ dir, k ∉ d.mix dir := by
          intro dir hk
          unfold all_slots at hnd
          have hdis := (List.nodup_append.1 hnd).2.2
          apply hdis hkfree
          cases dir with
          | INPUT => exact List.mem_append_left _ hk
          | OUTPUT => exact List.mem_append_right _ hk
        refine ⟨?_, ?_⟩
        · refine List.Perm.trans ?_ hperm
          rw [List.perm_iff_count]
          intro a
          unfold all_slots
          rw [hfree]
          cases direction with
          | INPUT =>
            simp only [set_mix, if_true, List.count_append, List.count_cons,
              List.count_nil, reduceCtorEq, if_false]
            omega
          | OUTPUT =>
            simp only [set_mix, if_true, List.count_append, List.count_cons,
              List.count_nil, reduceCtorEq, if_false]
            omega
        · intro dir
          have hold : ∀ j ∈ d.mix dir,
              (((if j = k then
                  mix_init (d.mix_pool k) { direction := direction, port_id := port_id } mix_id
                else d.mix_pool j).port.port_id),
               ((if j = k then
                  mix_init (d.mix_pool k) { direction := direction, port_id := port_id } mix_id
                else d.mix_pool j).mix_id))
              = ((d.mix_pool j).port.port_id, (d.mix_pool j).mix_id) := by
            intro j hj
            have hjk : j ≠ k := fun e => hknot dir (e ▸ hj)
            rw [if_neg hjk]
          by_cases hd : dir = direction
          · subst hd
            unfold mix_keys
            simp only [set_mix, if_true, List.map_append, List.map_cons, List.map_nil]
            rw [List.map_congr_left hold]
            have hnew : ((mix_init (d.mix_pool k) { direction := dir, port_id := port_id }
                mix_id).port.port_id,
                (mix_init (d.mix_pool k) { direction := dir, port_id := port_id } mix_id).mix_id)
                = (port_id, mix_id) := rfl
            rw [hnew]
            have hk0 := hkeys dir
            unfold mix_keys at hk0
            rw [List.nodup_append]
            refine ⟨hk0, List.nodup_singleton _, ?_⟩
            intro x hx hx2
            rw [List.mem_singleton] at hx2
            subst hx2
            obtain ⟨j, hj, hjx⟩ := List.mem_map.1 hx
            unfold find_mix at hf
            have hnone := List.find?_eq_none.1 hf j hj
            simp only [Prod.mk.injEq] at hjx
            simp [hjx.1, hjx.2] at hnone
          · unfold mix_keys
            simp only [set_mix, if_neg hd]
            rw [List.map_congr_left hold]
            exact hkeys dir
      · simp only [hport]
        exact ⟨hperm, hkeys⟩

theorem pool_partition_clear_mix (env : Env) (d : node_data) (k : Nat) (hk : k < MAX_MIX)
    (h : (all_slots d).Perm (List.range MAX_MIX) ∧ ∀ dir, (mix_keys d dir).Nodup) :
    (all_slots (clear_mix env d k)).Perm (List.range MAX_MIX) ∧
    ∀ dir, (mix_keys (clear_mix env d k) dir).Nodup := by
  obtain ⟨hperm, hkeys⟩ := h
  obtain ⟨hmix, hfree, _, _, hpool, _⟩ := clear_mix_frame env d k
  have hcountk : (all_slots d).count k = 1 := by
    rw [hperm.count_eq]
    exact List.count_eq_one_of_mem (List.nodup_range MAX_MIX) (List.mem_range.2 hk)
  have hfilt : ∀ (l : List Nat) (a : Nat),
      (l.filter (fun j => decide (j ≠ k))).count a = if a = k then 0 else l.count a := by
    intro l a
    by_cases hak : a = k
    · rw [if_pos hak, List.count_eq_zero]
      intro hm
      have h2 := (List.mem_filter.1 hm).2
      simp [hak] at h2
    · rw [if_neg hak, List.count_filter]
      simpa using hak
  refine ⟨?_, ?_⟩
  · refine List.Perm.trans ?_ hperm
    rw [List.perm_iff_count]
    intro a
    unfold all_slots at hcountk ⊢
    rw [hfree, hmix, hmix]
    simp only [List.count_append, hfilt, List.count_cons, List.count_nil]
    simp only [List.count_append] at hcountk
    by_cases hak : a = k
    · subst hak
      simp only [if_true, beq_self_eq_true]
      omega
    · have hka : ¬ (k = a) := fun e => hak e.symm
      simp only [if_neg hak, beq_iff_eq, hka, if_false]
      omega
  · intro dir
    unfold mix_keys
    rw [hmix]
    have hcongr : ∀ j ∈ (d.mix dir).filter (fun j => decide (j ≠ k)),
        (((clear_mix env d k).mix_pool j).port.port_id, ((clear_mix env d k).mix_pool j).mix_id)
          = ((d.mix_pool j).port.port_id, (d.mix_pool j).mix_id) := by
      intro j hj
      have hjk : j ≠ k := by simpa using (List.mem_filter.1 hj).2
      rw [hpool j hjk]
    rw [List.map_congr_left hcongr]
    have hk0 := hkeys dir
    unfold mix_keys at hk0
    exact hk0.sublist (List.Sublist.map _ (List.filter_sublist _))

theorem pool_reachable_partition (env : Env) (d : node_data) (h : pool_reachable env d) :
    (all_slots d).Perm (List.range MAX_MIX) ∧ ∀ dir, (mix_keys d dir).Nodup := by
  induction h with
  | init => exact pool_partition_node_export
  | ensure_mix d direction port_id mix_id _ ih =>
    exact pool_partition_ensure_mix env d direction port_id mix_id ih
  | clear_mix d k _ hk ih => exact pool_partition_clear_mix env d k hk ih

/-- C26: in every state reached from `node_export` through `ensure_mix` and `clear_mix`, each
of the `MAX_MIX = 4096` pool slots occurs exactly once on the free list, the input mix
list and the output mix list taken together, the lists hold nothing but pool slots,
their lengths sum to 4096, and two mixes bound in the same direction with the same
`(port_id, mix_id)` are the same mix. -/
theorem pool_slots_partition (env : Env) (d : node_data) (h : pool_reachable env d) :
    (∀ k, k < MAX_MIX →
      d.free_mix.count k + (d.mix spa_direction.INPUT).count k
        + (d.mix spa_direction.OUTPUT).count k = 1) ∧
    (∀ k, k ∈ d.free_mix ∨ k ∈ d.mix spa_direction.INPUT ∨ k ∈ d.mix spa_direction.OUTPUT →
      k < MAX_MIX) ∧
    d.free_mix.length + (d.mix spa_direction.INPUT).length
      + (d.mix spa_direction.OUTPUT).length = 4096 ∧
    (∀ dir k1 k2, k1 ∈ d.mix dir → k2 ∈ d.mix dir →
      (d.mix_pool k1).port.port_id = (d.mix_pool k2).port.port_id →
      (d.mix_pool k1).mix_id = (d.mix_pool k2).mix_id → k1 = k2) := by
  obtain ⟨hperm, hkeys⟩ := pool_reachable_partition env d h
  refine ⟨?_, ?_, ?_, ?_⟩
  · intro k hk
    have hc : (all_slots d).count k = 1 := by
      rw [hperm.count_eq]
      exact List.count_eq_one_of_mem (List.nodup_range MAX_MIX) (List.mem_range.2 hk)
    unfold all_slots at hc
    simp only [List.count_append] at hc
    omega
  · intro k hk
    have hm : k ∈ all_slots d := by
      unfold all_slots
      simp only [List.mem_append]
      exact hk
    exact List.mem_range.1 (hperm.mem_iff.1 hm)
  · have hl := hperm.length_eq
    unfold all_slots at hl
    simp only [List.length_append, List.length_range] at hl
    have e : MAX_MIX = 4096 := rfl
    omega
  · intro dir k1 k2 h1 h2 hp hm
    have hinj := List.inj_on_of_nodup_map (hkeys dir)
    exact hinj h1 h2 (by rw [hp, hm])

theorem pool_reachable_state_pool_sample : pool_reachable env_plain state_pool_sample :=
  pool_reachable.clear_mix _ 0
    (pool_reachable.ensure_mix _ spa_direction.OUTPUT 0 0
      (pool_reachable.ensure_mix _ spa_direction.INPUT 0 1
        (pool_reachable.ensure_mix _ spa_direction.INPUT 0 0 pool_reachable.init)))
    (by decide)

/-- Witness for C26: three mixes are bound on a fresh node and the first is cleared. -/
theorem pool_slots_partition_witness :
    state_pool_sample.free_mix.length + (state_pool_sample.mix spa_direction.INPUT).length
      + (state_pool_sample.mix spa_direction.OUTPUT).length = 4096 :=
  (pool_slots_partition env_plain state_pool_sample pool_reachable_state_pool_sample).2.2.1


/-! ## The byte ranges of the metas -/

set_option maxRecDepth 1000000 in
/-- C27 (as written, refuted), two layouts from offset 0. Metas of the sizes `0xfffffffc`
and `8` over the base pointer 0: the first size rounded up in 32 bits is 0, so both metas
get the data pointer 0, the ranges `[0, 0xfffffffc)` and `[0, 8)` overlap, and the chunk
block begins at offset 8, inside the first meta. Metas of the sizes `0x80000000`,
`0x80000000` and `8` over the base pointer `2^40`: the offsets are 0, `2^31` and `2^32`,
which `SPA_MEMBER` converts to `int`, so the second meta lies `2^31` bytes below the base
and the third meta gets the pointer of the first. -/
theorem meta_ranges_overlap :
    SPA_ROUND_UP_N 0xfffffffc 8 = 0 ∧
    (build_metas 0 [{ type := 0, data := 0, size := 0xfffffffc },
        { type := 0, data := 0, size := 8 }] 0).1.map (fun w => (w.data, w.size))
      = [(0, 0xfffffffc), (0, 8)] ∧
    (build_metas 0 [{ type := 0, data := 0, size := 0xfffffffc },
        { type := 0, data := 0, size := 8 }] 0).2 = 8 ∧
    (build_metas (2 ^ 40) [{ type := 0, data := 0, size := 0x80000000 },
        { type := 0, data := 0, size := 0x80000000 },
        { type := 0, data := 0, size := 8 }] 0).1.map (fun w => (w.data, w.size))
      = [(2 ^ 40, 0x80000000), (2 ^ 40 - 2 ^ 31, 0x80000000), (2 ^ 40, 8)] := by
  decide

/-- C27 (amended): for every list of meta sizes that are at most `2^32 - 8`, laid out by
`build_metas` over the pointer `B` from offset `off` so that the final offset stays below
`2^31`: a meta ends at or before the data pointer of every later meta (so the byte ranges
`[data, data + size)` are pairwise disjoint), and every meta ends at or before the
pointer that `SPA_MEMBER` forms from `B` and the final offset, where the chunk block
begins. The sizes are rounded up by `SPA_ROUND_UP_N`, in 32 bit arithmetic. -/
theorem meta_ranges_disjoint (B off : Nat) (ms : List spa_meta)
    (hsize : ∀ m ∈ ms, m.size + 7 < U32)
    (hfin : off + (ms.map (fun m => SPA_ROUND_UP_N m.size 8)).sum < 2 ^ 31) :
    (∀ (i j : Nat) (wi wj : spa_meta), i < j →
      (build_metas B ms off).1[i]? = some wi → (build_metas B ms off).1[j]? = some wj →
      wi.data + wi.size ≤ wj.data) ∧
    (∀ (i : Nat) (wi : spa_meta), (build_metas B ms off).1[i]? = some wi →
      wi.data + wi.size ≤ SPA_MEMBER B (int_cast (build_metas B ms off).2)) := by
  obtain ⟨_, hfin2, hlay⟩ := build_metas_layout B ms off
  have hle : ∀ (s : Nat), s + 7 < U32 → s ≤ SPA_ROUND_UP_N s 8 := by
    intro s hs
    rw [SPA_ROUND_UP_N_eq_spec s hs]
    unfold spec_roundup8
    omega
  -- the rounded sizes of the metas up to position `i` cover the size of meta `i`
  have hpre : ∀ (l : List spa_meta) (i : Nat) (m0 : spa_meta),
      (∀ m ∈ l, m.size + 7 < U32) → l[i]? = some m0 →
      ((l.take i).map (fun m => SPA_ROUND_UP_N m.size 8)).sum + m0.size
        ≤ ((l.take (i + 1)).map (fun m => SPA_ROUND_UP_N m.size 8)).sum := by
    intro l
    induction l with
    | nil => intro i m0 _ h; simp at h
    | cons a l ih =>
      intro i m0 hl h
      cases i with
      | zero =>
        simp only [List.getElem?_cons_zero, Option.some.injEq] at h
        subst h
        have := hle a.size (hl a (List.mem_cons_self a l))
        simp
        omega
      | succ i =>
        simp only [List.getElem?_cons_succ] at h
        have := ih i m0 (fun m hm => hl m (List.mem_cons_of_mem a hm)) h
        simp only [List.take_succ_cons, List.map_cons, List.sum_cons]
        omega
  -- prefix sums grow with the length of the prefix
  have hmono : ∀ (l : List Nat) (i j : Nat), i ≤ j → (l.take i).sum ≤ (l.take j).sum := by
    intro l
    induction l with
    | nil => intro i j _; simp
    | cons a l ih =>
      intro i j hij
      cases i with
      | zero => simp
      | succ i =>
        cases j with
        | zero => omega
        | succ j =>
          have := ih i j (by omega)
          simp only [List.take_succ_cons, List.sum_cons]
          omega
  have htake : ∀ (l : List Nat) (j : Nat), (l.take j).sum ≤ l.sum := by
    intro l j
    have h := hmono l j (j + l.length) (by omega)
    rw [List.take_of_length_le (show l.length ≤ j + l.length by omega)] at h
    exact h
  have hbound : ∀ (j : Nat),
      off + ((ms.take j).map (fun m => SPA_ROUND_UP_N m.size 8)).sum < 2 ^ 31 := by
    intro j
    have h2 := htake (ms.map (fun m => SPA_ROUND_UP_N m.size 8)) j
    rw [← List.map_take] at h2
    omega
  refine ⟨?_, ?_⟩
  · intro i j wi wj hij hi hj
    obtain ⟨di, mi, hmi, _, hsi⟩ := hlay i wi hi
    obtain ⟨dj, _⟩ := hlay j wj hj
    rw [di, dj, hsi, SPA_MEMBER_int_cast _ _ (hbound i), SPA_MEMBER_int_cast _ _ (hbound j)]
    have h1 := hpre ms i mi hsize hmi
    have h2 := hmono (ms.map (fun m => SPA_ROUND_UP_N m.size 8)) (i + 1) j hij
    rw [← List.map_take, ← List.map_take] at h2
    omega
  · intro i wi hi
    obtain ⟨di, mi, hmi, _, hsi⟩ := hlay i wi hi
    rw [di, hsi, hfin2, SPA_MEMBER_int_cast _ _ (hbound i), SPA_MEMBER_int_cast _ _ hfin]
    have h1 := hpre ms i mi hsize hmi
    have h2 := htake (ms.map (fun m => SPA_ROUND_UP_N m.size 8)) (i + 1)
    rw [← List.map_take] at h2
    omega

/-- Witness for C27 (amended): metas of 24 and 12 bytes over the base pointer `0x1000`; the
first lies at `0x1000`, the second at `0x1018`. -/
theorem meta_ranges_disjoint_witness :
    (build_metas 0x1000 [{ type := 0, data := 0, size := 24 },
        { type := 1, data := 0, size := 12 }] 0).1.map (fun w => (w.data, w.size))
      = [(0x1000, 24), (0x1018, 12)] ∧
    ({ type := 0, data := 0x1000, size := 24 } : spa_meta).data
        + ({ type := 0, data := 0x1000, size := 24 } : spa_meta).size
      ≤ ({ type := 1, data := 0x1018, size := 12 } : spa_meta).data :=
  ⟨by decide,
   (meta_ranges_disjoint 0x1000 0 [{ type := 0, data := 0, size := 24 },
      { type := 1, data := 0, size := 12 }]
    (by intro m hm; simp at hm; rcases hm with h | h <;> subst h <;> decide)
    (by decide)).1 0 1
    { type := 0, data := 0x1000, size := 24 } { type := 1, data := 0x1018, size := 12 }
    (by decide) (by decide) (by decide)⟩


/-! ## What `clear_mem` does, case by case -/

/-- The scan of `clear_mem` finds the fd on another entry exactly when another entry of
the registry holds it. -/
theorem clear_mem_has_ref_iff (ms : List mem) (i : Nat) (m : mem) (h : ms[i]? = some m)
    (hfd : m.fd ≠ -1) :
    (modify_at (fun x => { x with fd := -1, id := SPA_ID_INVALID }) ms i).any
        (fun m2 => decide (m2.fd = m.fd)) = true
      ↔ ∃ j mj, j ≠ i ∧ ms[j]? = some mj ∧ mj.fd = m.fd := by
  constructor
  · intro hany
    obtain ⟨x, hx, hxfd⟩ := List.any_eq_true.1 hany
    obtain ⟨j, hj⟩ := List.mem_iff_getElem?.1 hx
    simp only [decide_eq_true_eq] at hxfd
    have hji : j ≠ i := by
      intro hji
      subst hji
      rw [modify_at_getElem?_same _ ms j m h] at hj
      cases hj
      exact hfd hxfd.symm
    rw [modify_at_getElem?_ne _ _ _ _ hji] at hj
    exact ⟨j, x, hji, hj, hxfd⟩
  · intro hex
    obtain ⟨j, mj, hji, hj, hjfd⟩ := hex
    apply List.any_eq_true.2
    refine ⟨mj, ?_, by simpa using hjfd⟩
    apply List.mem_iff_getElem?.2
    exact ⟨j, by rw [modify_at_getElem?_ne _ _ _ _ hji]; exact hj⟩

/-- The function `clear_mem` in full: an entry with `fd = -1` is left alone; a live entry
is invalidated; when another entry holds the same fd nothing else happens (the mapping
of the entry stays); otherwise the fd is closed, after one `munmap` when the entry
caches a mapping, at the cached pointer minus `start`, and the cached pointer is reset. -/
theorem clear_mem_spec (d : node_data) (i : Nat) (m : mem) (h : d.mems[i]? = some m) :
    (m.fd = -1 → clear_mem d i = d) ∧
    (m.fd ≠ -1 → (∃ j mj, j ≠ i ∧ d.mems[j]? = some mj ∧ mj.fd = m.fd) →
      clear_mem d i =
        { d with mems := modify_at (fun _ => { m with fd := -1, id := SPA_ID_INVALID }) d.mems i }) ∧
    (m.fd ≠ -1 → ¬ (∃ j mj, j ≠ i ∧ d.mems[j]? = some mj ∧ mj.fd = m.fd) →
      clear_mem d i =
        { d with
          mems := modify_at
            (fun _ => { m with fd := -1, id := SPA_ID_INVALID, map := { m.map with ptr := NULL } })
            d.mems i
          trace := d.trace
            ++ (if m.map.ptr = NULL then []
                else [Event.munmap ((m.map.ptr : Int) - (m.map.map.start : Int)) m.map.map.size])
            ++ [Event.close m.fd] }) := by
  have hget : d.mems.get? i = some m := by simpa using h
  refine ⟨?_, ?_, ?_⟩
  · intro hfd
    unfold clear_mem
    simp only [hget]
    rw [if_neg (by simpa using hfd)]
  · intro hfd hex
    have hany := (clear_mem_has_ref_iff d.mems i m h hfd).2 hex
    unfold clear_mem
    simp only [hget]
    rw [if_pos hfd]
    simp only [hany, if_true]
    rw [modify_at_congr_at _ (fun _ => { m with fd := -1, id := SPA_ID_INVALID }) d.mems i
      (by intro x hx; rw [h] at hx; cases hx; rfl)]
  · intro hfd hex
    have hany : ¬ ((modify_at (fun x => { x with fd := -1, id := SPA_ID_INVALID }) d.mems i).any
        (fun m2 => decide (m2.fd = m.fd)) = true) :=
      fun e => hex ((clear_mem_has_ref_iff d.mems i m h hfd).1 e)
    unfold clear_mem
    simp only [hget]
    rw [if_pos hfd]
    split
    · rename_i hany2
      exact absurd hany2 hany
    · by_cases hp : m.map.ptr = NULL
      · rw [modify_at_modify_at]
        rw [modify_at_congr_at _
          (fun _ => { m with fd := -1, id := SPA_ID_INVALID, map := { m.map with ptr := NULL } })
          d.mems i (by intro x hx; rw [h] at hx; cases hx; simp [mem_unmap_fst])]
        simp [mem_unmap, hp]
      · rw [modify_at_modify_at]
        rw [modify_at_congr_at _
          (fun _ => { m with fd := -1, id := SPA_ID_INVALID, map := { m.map with ptr := NULL } })
          d.mems i (by intro x hx; rw [h] at hx; cases hx; simp [mem_unmap_fst])]
        simp [mem_unmap, hp]

/-- A request whose page aligned window is the cached one gets the cached pointer plus the
cached `start`, whatever its own offset in the page is; nothing is mapped. -/
theorem mem_map_cached (env : Env) (tr : List Event) (map : mapping) (fd : Int)
    (prot offset size : Nat) (hp : map.ptr ≠ NULL)
    (ho : map.map.offset = (pw_map_range_init offset size env.sc_pagesize).offset)
    (hs : map.map.size = (pw_map_range_init offset size env.sc_pagesize).size) :
    mem_map env tr map fd prot offset size = (map.ptr + map.map.start, map, tr) := by
  unfold mem_map
  have hc : ¬ (map.ptr = NULL ∨
      map.map.offset ≠ (pw_map_range_init offset size env.sc_pagesize).offset ∨
      map.map.size ≠ (pw_map_range_init offset size env.sc_pagesize).size) := by
    intro h
    rcases h with h | h | h
    · exact hp h
    · exact h ho
    · exact h hs
  simp only [hc, if_false]


theorem release_exact_append (a b : List Event) (ha : release_exact a)
    (hb : release_exact b) : release_exact (a ++ b) := by
  induction ha with
  | nil => exact hb
  | unref key c rest hc _ ih => exact release_exact.unref key c _ hc ih
  | close key fd rest _ ih => exact release_exact.close key fd _ ih
  | unmap_close key a1 s fd rest _ ih => exact release_exact.unmap_close key a1 s fd _ ih
  | other e rest he _ ih => exact release_exact.other e _ he ih

theorem release_exact_of_no_release (tr : List Event) (h : no_release tr) :
    release_exact tr := by
  induction tr with
  | nil => exact release_exact.nil
  | cons e rest ih =>
    exact release_exact.other e rest (h e (List.mem_cons_self _ _))
      (ih (fun x hx => h x (List.mem_cons_of_mem _ hx)))

/-- An id other than `SPA_ID_INVALID` is found at the one entry that carries it. -/
theorem find_mem_of_reg_shape (ex : Bool) (page : Nat) (ms : List mem) (n : Nat) (m : mem)
    (h : reg_shape ex page ms) (hn : ms[n]? = some m) (hid : m.id ≠ SPA_ID_INVALID) :
    find_mem ms m.id = some n :=
  find_mem_of_unique ms n m h.1 hn hid

theorem find_mem_ptr_some_iff (ms : List mem) (p i : Nat) :
    find_mem_ptr ms p = some i ↔
      (∃ m, ms[i]? = some m ∧ m.map.ptr = p) ∧
      ∀ (j : Nat) (m : mem), j < i → ms[j]? = some m → m.map.ptr ≠ p := by
  induction ms generalizing i with
  | nil => simp [find_mem_ptr]
  | cons x xs ih =>
    unfold find_mem_ptr
    by_cases hx : x.map.ptr = p
    · rw [if_pos hx]
      constructor
      · intro h
        cases h
        exact ⟨⟨x, by simp, hx⟩, fun j m hj => absurd hj (Nat.not_lt_zero j)⟩
      · rintro ⟨-, h2⟩
        cases i with
        | zero => rfl
        | succ i => exact absurd hx (h2 0 x (Nat.succ_pos i) (by simp))
    · rw [if_neg hx]
      cases i with
      | zero =>
        constructor
        · intro h
          cases hf : find_mem_ptr xs p with
          | none => rw [hf] at h; simp at h
          | some k => rw [hf] at h; simp at h
        · rintro ⟨⟨m, hm, hp⟩, -⟩
          simp only [List.getElem?_cons_zero, Option.some.injEq] at hm
          rw [← hm] at hp
          exact absurd hp hx
      | succ i =>
        constructor
        · intro h
          have h' : find_mem_ptr xs p = some i := by
            cases hf : find_mem_ptr xs p with
            | none => rw [hf] at h; simp at h
            | some k =>
              rw [hf] at h
              simp only [Option.map_some', Option.some.injEq, Nat.add_right_cancel_iff] at h
              rw [h]
          obtain ⟨⟨m, hm, hp⟩, h2⟩ := (ih i).1 h'
          refine ⟨⟨m, by simpa using hm, hp⟩, ?_⟩
          intro j mj hj hmj
          cases j with
          | zero =>
            simp only [List.getElem?_cons_zero, Option.some.injEq] at hmj
            rw [← hmj]; exact hx
          | succ j =>
            simp only [List.getElem?_cons_succ] at hmj
            exact h2 j mj (Nat.lt_of_succ_lt_succ hj) hmj
        · rintro ⟨⟨m, hm, hp⟩, h2⟩
          simp only [List.getElem?_cons_succ] at hm
          have := (ih i).2 ⟨⟨m, hm, hp⟩, fun j mj hj hmj =>
            h2 (j + 1) mj (Nat.succ_lt_succ hj) (by simpa using hmj)⟩
          rw [this]
          rfl

/-- In a well formed registry `find_mem_ptr` finds the one entry whose cached mapping has
the base asked for. -/
theorem find_mem_ptr_of_reg_shape (ex : Bool) (page : Nat) (ms : List mem) (p i : Nat)
    (h : reg_shape ex page ms) (hp : p ≠ NULL) :
    find_mem_ptr ms p = some i ↔ ∃ m, ms[i]? = some m ∧ m.map.ptr = p := by
  rw [find_mem_ptr_some_iff]
  constructor
  · exact fun h => h.1
  · rintro ⟨m, hm, hmp⟩
    refine ⟨⟨m, hm, hmp⟩, ?_⟩
    intro j mj hj hmj hc
    have := h.2.1 j i mj m hmj hm (by rw [hc, hmp]) (by rw [hc]; exact hp)
    omega

/-- Replacing one entry of a well formed registry by an entry that keeps or gives up the
id and the fd, and whose cached mapping is the old one, none, or one that no other entry
has, leaves the registry well formed. -/
theorem reg_shape_modify (ex : Bool) (page : Nat) (ms : List mem) (i : Nat) (m m' : mem)
    (hs : reg_shape ex page ms) (hm : ms[i]? = some m)
    (hid : m'.id = m.id ∨ m'.id = SPA_ID_INVALID)
    (hptr : m'.map.ptr = m.map.ptr ∨ m'.map.ptr = NULL ∨
      ∀ (j : Nat) (mj : mem), j ≠ i → ms[j]? = some mj → mj.map.ptr ≠ m'.map.ptr)
    (hloc : m'.ref < U32 ∧ (m'.id = SPA_ID_INVALID → m'.ref = 0) ∧
      m'.map.ptr % page = 0 ∧ m'.map.map.start < page)
    (hst : ex = true → m'.map.map.start = 0)
    (hfd : ex = false → (m'.fd = m.fd ∨ m'.fd = -1) ∧ (m'.id ≠ SPA_ID_INVALID → m'.fd ≠ -1)) :
    reg_shape ex page (modify_at (fun _ => m') ms i) := by
  obtain ⟨h1, h2, h3, h4, h5⟩ := hs
  have hget : ∀ (j : Nat) (mj : mem), (modify_at (fun _ => m') ms i)[j]? = some mj →
      (j = i ∧ mj = m') ∨ (j ≠ i ∧ ms[j]? = some mj) := by
    intro j mj hj
    by_cases hji : j = i
    · subst hji
      rw [modify_at_getElem?_same _ ms j m hm] at hj
      exact Or.inl ⟨rfl, (Option.some.inj hj).symm⟩
    · rw [modify_at_getElem?_ne _ ms i j hji] at hj
      exact Or.inr ⟨hji, hj⟩
  have hp2 : ∀ (j : Nat) (mj : mem), j ≠ i → ms[j]? = some mj → m'.map.ptr ≠ NULL →
      mj.map.ptr ≠ m'.map.ptr := by
    intro j mj hji hmj hne hc
    rcases hptr with e | e | e
    · exact hji (h2 j i mj m hmj hm (by rw [hc, e]) (by rw [hc]; exact hne))
    · exact hne e
    · exact e j mj hji hmj hc
  refine ⟨?_, ?_, ?_, ?_, ?_⟩
  · intro a b ma mb ha hb hab hne
    rcases hget a ma ha with ⟨ea, fa⟩ | ⟨ea, fa⟩ <;> rcases hget b mb hb with ⟨eb, fb⟩ | ⟨eb, fb⟩
    · rw [ea, eb]
    · subst fa
      rcases hid with e | e
      · rw [ea]; exact h1 i b m mb hm fb (by rw [← e]; exact hab) (by rw [← e]; exact hne)
      · exact absurd e hne
    · subst fb
      rcases hid with e | e
      · rw [eb]; exact h1 a i ma m fa hm (by rw [← e]; exact hab) hne
      · rw [e] at hab; exact absurd hab hne
    · exact h1 a b ma mb fa fb hab hne
  · intro a b ma mb ha hb hab hne
    rcases hget a ma ha with ⟨ea, fa⟩ | ⟨ea, fa⟩ <;> rcases hget b mb hb with ⟨eb, fb⟩ | ⟨eb, fb⟩
    · rw [ea, eb]
    · subst fa
      exact absurd hab.symm (hp2 b mb eb fb hne)
    · subst fb
      exact absurd hab (hp2 a ma ea fa (by rw [← hab]; exact hne))
    · exact h2 a b ma mb fa fb hab hne
  · intro a ma ha
    rcases hget a ma ha with ⟨-, fa⟩ | ⟨-, fa⟩
    · subst fa; exact hloc
    · exact h3 a ma fa
  · intro hex a ma ha
    rcases hget a ma ha with ⟨-, fa⟩ | ⟨-, fa⟩
    · subst fa; exact hst hex
    · exact h4 hex a ma fa
  · intro hex
    obtain ⟨h5a, h5b⟩ := h5 hex
    obtain ⟨hfd1, hfd2⟩ := hfd hex
    refine ⟨?_, ?_⟩
    · intro a b ma mb ha hb hab hne
      rcases hget a ma ha with ⟨ea, fa⟩ | ⟨ea, fa⟩ <;>
        rcases hget b mb hb with ⟨eb, fb⟩ | ⟨eb, fb⟩
      · rw [ea, eb]
      · subst fa
        rcases hfd1 with e | e
        · rw [ea]; exact h5a i b m mb hm fb (by rw [← e]; exact hab) (by rw [← e]; exact hne)
        · exact absurd e hne
      · subst fb
        rcases hfd1 with e | e
        · rw [eb]; exact h5a a i ma m fa hm (by rw [← e]; exact hab) hne
        · rw [e] at hab; exact absurd hab hne
      · exact h5a a b ma mb fa fb hab hne
    · intro a ma ha
      rcases hget a ma ha with ⟨-, fa⟩ | ⟨-, fa⟩
      · subst fa; exact hfd2
      · exact h5b a ma fa

/-- The statement `if (--m->ref == 0) clear_mem(data, m);` case by case: the entry is kept
with its count decremented, or it is cleared while another entry holds its fd, or it is
cleared, unmapped and its fd closed. -/
theorem unref_mem_step (d : node_data) (key i : Nat) (m : mem) (hm : d.mems[i]? = some m) :
    ∃ m' blk,
      unref_mem d key i
        = { d with mems := modify_at (fun _ => m') d.mems i, trace := d.trace ++ blk } ∧
      ((m' = { m with ref := dec32 m.ref } ∧ blk = [Event.unref key m.ref] ∧
          (dec32 m.ref ≠ 0 ∨ m.fd = -1)) ∨
       (dec32 m.ref = 0 ∧ m.fd ≠ -1 ∧
          m' = { m with ref := 0, fd := -1, id := SPA_ID_INVALID } ∧
          blk = [Event.unref key m.ref] ∧
          ∃ j mj, j ≠ i ∧ d.mems[j]? = some mj ∧ mj.fd = m.fd) ∨
       (dec32 m.ref = 0 ∧ m.fd ≠ -1 ∧ m' = cleared m ∧
          (blk = [Event.unref key m.ref, Event.close m.fd] ∨
           ∃ a s, blk = [Event.unref key m.ref, Event.munmap a s, Event.close m.fd]) ∧
          ¬ ∃ j mj, j ≠ i ∧ d.mems[j]? = some mj ∧ mj.fd = m.fd)) := by
  have hget : d.mems.get? i = some m := by simpa using hm
  have hplain : modify_at (fun x => { x with ref := dec32 x.ref }) d.mems i
      = modify_at (fun _ => ({ m with ref := dec32 m.ref } : mem)) d.mems i :=
    modify_at_congr_at _ _ d.mems i (by intro x hx; rw [hm] at hx; cases hx; rfl)
  have hkeep : ({ d with
        mems := modify_at (fun x => { x with ref := dec32 x.ref }) d.mems i
        trace := d.trace ++ [Event.unref key m.ref] } : node_data)
      = { d with
        mems := modify_at (fun _ => ({ m with ref := dec32 m.ref } : mem)) d.mems i
        trace := d.trace ++ [Event.unref key m.ref] } := by rw [hplain]
  unfold unref_mem
  simp only [hget]
  by_cases hz : dec32 m.ref = 0
  · rw [if_pos hz]
    have hm1 : (modify_at (fun x => { x with ref := dec32 x.ref }) d.mems i)[i]?
        = some { m with ref := dec32 m.ref } := modify_at_getElem?_same _ d.mems i m hm
    obtain ⟨c1, c2, c3⟩ := clear_mem_spec
      { d with
        mems := modify_at (fun x => { x with ref := dec32 x.ref }) d.mems i
        trace := d.trace ++ [Event.unref key m.ref] } i { m with ref := dec32 m.ref } hm1
    have hother : (∃ j mj, j ≠ i ∧
        (modify_at (fun x => { x with ref := dec32 x.ref }) d.mems i)[j]? = some mj ∧
        mj.fd = m.fd) ↔ ∃ j mj, j ≠ i ∧ d.mems[j]? = some mj ∧ mj.fd = m.fd := by
      constructor
      · rintro ⟨j, mj, hji, hj, hjfd⟩
        rw [modify_at_getElem?_ne _ d.mems i j hji] at hj
        exact ⟨j, mj, hji, hj, hjfd⟩
      · rintro ⟨j, mj, hji, hj, hjfd⟩
        exact ⟨j, mj, hji, by rw [modify_at_getElem?_ne _ d.mems i j hji]; exact hj, hjfd⟩
    by_cases hfd : m.fd = -1
    · refine ⟨{ m with ref := dec32 m.ref }, [Event.unref key m.ref], ?_,
        Or.inl ⟨rfl, rfl, Or.inr hfd⟩⟩
      rw [c1 hfd, hkeep]
    · by_cases hex : ∃ j mj, j ≠ i ∧ d.mems[j]? = some mj ∧ mj.fd = m.fd
      · refine ⟨{ m with ref := 0, fd := -1, id := SPA_ID_INVALID }, [Event.unref key m.ref],
          ?_, Or.inr (Or.inl ⟨hz, hfd, rfl, rfl, hex⟩)⟩
        rw [c2 hfd (hother.2 hex)]
        dsimp only
        have e1 : modify_at
            (fun _ => ({ ({ m with ref := dec32 m.ref } : mem) with
              fd := -1, id := SPA_ID_INVALID } : mem))
            (modify_at (fun x => { x with ref := dec32 x.ref }) d.mems i) i
            = modify_at (fun _ => ({ m with ref := 0, fd := -1, id := SPA_ID_INVALID } : mem))
                d.mems i := by
          rw [modify_at_modify_at]
          apply modify_at_congr_at
          intro x _
          rw [hz]
        rw [e1]
      · refine ⟨cleared m, [Event.unref key m.ref]
          ++ ((if m.map.ptr = NULL then []
                else [Event.munmap ((m.map.ptr : Int) - (m.map.map.start : Int))
                  m.map.map.size])
              ++ [Event.close m.fd]), ?_, Or.inr (Or.inr ⟨hz, hfd, rfl, ?_, hex⟩)⟩
        · rw [c3 hfd (fun h => hex (hother.1 h))]
          dsimp only
          have e1 : modify_at
              (fun _ => ({ ({ m with ref := dec32 m.ref } : mem) with
                fd := -1, id := SPA_ID_INVALID, map := { m.map with ptr := NULL } } : mem))
              (modify_at (fun x => { x with ref := dec32 x.ref }) d.mems i) i
              = modify_at (fun _ => cleared m) d.mems i := by
            rw [modify_at_modify_at]
            apply modify_at_congr_at
            intro x _
            unfold cleared
            rw [hz]
          rw [e1, List.append_assoc, List.append_assoc]
        · by_cases hp : m.map.ptr = NULL
          · left; rw [if_pos hp]; rfl
          · right
            exact ⟨(m.map.ptr : Int) - (m.map.map.start : Int), m.map.map.size,
              by rw [if_neg hp]; rfl⟩
  · rw [if_neg hz]
    exact ⟨{ m with ref := dec32 m.ref }, [Event.unref key m.ref], hkeep,
      Or.inl ⟨rfl, rfl, Or.inl hz⟩⟩

/-! ### One release -/

/-- One decrement of the ref count of an entry that has a reference, in a well formed
registry: the registry stays well formed, the count goes down by one, the entry keeps its
id and its mapping unless the count reaches 0, and without `exact` the decrement from 1
closes the fd. -/
theorem unref_mem_acct (ex : Bool) (page : Nat) (d : node_data) (key i : Nat) (m : mem)
    (hs : reg_shape ex page d.mems) (hm : d.mems[i]? = some m) (href : 1 ≤ m.ref) :
    ∃ m' blk,
      unref_mem d key i
        = { d with mems := modify_at (fun _ => m') d.mems i, trace := d.trace ++ blk } ∧
      reg_shape ex page (modify_at (fun _ => m') d.mems i) ∧
      m'.ref + 1 = m.ref ∧
      ((m'.id = m.id ∧ m'.map.ptr = m.map.ptr) ∨
       (m'.id = SPA_ID_INVALID ∧ m'.ref = 0 ∧
         (m'.map.ptr = NULL ∨ (ex = true ∧ m'.map.ptr = m.map.ptr)))) ∧
      (ex = false → release_exact blk ∧
        close_count blk + dead_count d.mems
          = dead_count (modify_at (fun _ => m') d.mems i)) := by
  obtain ⟨l1, l2, l3, l4⟩ := hs.2.2.1 i m hm
  have hlive : m.id ≠ SPA_ID_INVALID := fun h => by have := l2 h; omega
  have hdec : dec32 m.ref = m.ref - 1 := dec32_of_pos m.ref href l1
  have hU : (0 : Nat) < U32 := by decide
  obtain ⟨m', blk, heq, hcase⟩ := unref_mem_step d key i m hm
  refine ⟨m', blk, heq, ?_⟩
  rcases hcase with ⟨hm', hblk, hz⟩ | ⟨hz, hfd, hm', hblk, hex⟩ | ⟨hz, hfd, hm', hblk, hex⟩
  · -- kept
    subst hm'
    refine ⟨?_, ?_, Or.inl ⟨rfl, rfl⟩, ?_⟩
    · refine reg_shape_modify ex page d.mems i m _ hs hm (Or.inl rfl) (Or.inl rfl)
        ⟨?_, fun h => absurd h hlive, l3, l4⟩ (fun hx => hs.2.2.2.1 hx i m hm) ?_
      · show dec32 m.ref < U32
        rw [hdec]; omega
      · intro hx
        exact ⟨Or.inl rfl, fun _ => (hs.2.2.2.2 hx).2 i m hm hlive⟩
    · show dec32 m.ref + 1 = m.ref
      rw [hdec]; omega
    · intro hx
      have hfdm : m.fd ≠ -1 := (hs.2.2.2.2 hx).2 i m hm hlive
      have h2 : 2 ≤ m.ref := by
        rcases hz with hz | hz
        · rw [hdec] at hz; omega
        · exact absurd hz hfdm
      subst hblk
      refine ⟨release_exact.unref key m.ref [] h2 release_exact.nil, ?_⟩
      have hdc := dead_count_modify_at d.mems i m ({ m with ref := dec32 m.ref } : mem) hm
      have e1 : close_count [Event.unref key m.ref] = 0 := rfl
      rw [e1]
      simp only [if_neg hfdm] at hdc
      omega
  · -- cleared while another entry holds the fd
    have hr1 : m.ref = 1 := by rw [hdec] at hz; omega
    subst hm'
    have hexact : ex = true := by
      cases ex with
      | true => rfl
      | false =>
        exfalso
        obtain ⟨j, mj, hji, hmj, hjfd⟩ := hex
        exact hji ((hs.2.2.2.2 rfl).1 j i mj m hmj hm hjfd (by rw [hjfd]; exact hfd))
    refine ⟨?_, ?_, Or.inr ⟨rfl, rfl, Or.inr ⟨hexact, rfl⟩⟩, ?_⟩
    · refine reg_shape_modify ex page d.mems i m _ hs hm (Or.inr rfl) (Or.inl rfl)
        ⟨hU, fun _ => rfl, l3, l4⟩ (fun hx => hs.2.2.2.1 hx i m hm) ?_
      intro hx
      rw [hexact] at hx
      exact absurd hx (by decide)
    · show 0 + 1 = m.ref
      omega
    · intro hx
      rw [hexact] at hx
      exact absurd hx (by decide)
  · -- cleared, unmapped, closed
    have hr1 : m.ref = 1 := by rw [hdec] at hz; omega
    subst hm'
    refine ⟨?_, ?_, Or.inr ⟨rfl, rfl, Or.inl rfl⟩, ?_⟩
    · refine reg_shape_modify ex page d.mems i m _ hs hm (Or.inr rfl) (Or.inr (Or.inl rfl))
        ⟨hU, fun _ => rfl, ?_, l4⟩ (fun hx => hs.2.2.2.1 hx i m hm) ?_
      · show NULL % page = 0
        exact Nat.zero_mod page
      · intro _
        exact ⟨Or.inr rfl, fun h => absurd rfl h⟩
    · show 0 + 1 = m.ref
      omega
    · intro _
      have hdc := dead_count_modify_at d.mems i m (cleared m) hm
      have hcf : (cleared m).fd = -1 := rfl
      simp only [if_neg hfd, hcf, if_true] at hdc
      rw [hr1] at hblk
      rcases hblk with hblk | ⟨a, s, hblk⟩
      · subst hblk
        refine ⟨release_exact.close key m.fd [] release_exact.nil, ?_⟩
        have e1 : close_count [Event.unref key 1, Event.close m.fd] = 1 := rfl
        rw [e1]; omega
      · subst hblk
        refine ⟨release_exact.unmap_close key a s m.fd [] release_exact.nil, ?_⟩
        have e1 : close_count [Event.unref key 1, Event.munmap a s, Event.close m.fd] = 1 := rfl
        rw [e1]; omega

/-! ### The releases of `clear_buffers` -/

/-- The releases by id of a list of ids, none `SPA_ID_INVALID`, each registered, in a well
formed registry whose entries have at least as many references as the list names them:
the registry stays well formed, every count goes down by the number of times the list
names the entry, an entry keeps its id and its mapping unless its count reaches 0, and
without `exact` each decrement from 1 closes an fd. -/
theorem release_fold_acct (ex : Bool) (page : Nat) (R : List Nat) : ∀ (d : node_data),
    reg_shape ex page d.mems → SPA_ID_INVALID ∉ R →
    (∀ X ∈ R, ∃ (n : Nat) (m : mem), d.mems[n]? = some m ∧ m.id = X) →
    (∀ (i : Nat) (m : mem), d.mems[i]? = some m → R.count m.id ≤ m.ref) →
    ∃ ms blk,
      R.foldl release_id d = { d with mems := ms, trace := d.trace ++ blk } ∧
      reg_shape ex page ms ∧
      ms.length = d.mems.length ∧
      (∀ (i : Nat) (m : mem), d.mems[i]? = some m → ∃ m', ms[i]? = some m' ∧
        m'.ref + R.count m.id = m.ref ∧
        ((m'.id = m.id ∧ m'.map.ptr = m.map.ptr) ∨
         (m'.id = SPA_ID_INVALID ∧ m'.ref = 0 ∧
           (m'.map.ptr = NULL ∨ (ex = true ∧ m'.map.ptr = m.map.ptr))))) ∧
      (ex = false → release_exact blk ∧
        close_count blk + dead_count d.mems = dead_count ms) := by
  induction R with
  | nil =>
    intro d hs _ _ _
    refine ⟨d.mems, [], ?_, hs, rfl, ?_, ?_⟩
    · simp
    · intro i m hm
      exact ⟨m, hm, by simp, Or.inl ⟨rfl, rfl⟩⟩
    · intro _
      exact ⟨release_exact.nil, by simp [close_count]⟩
  | cons X R ih =>
    intro d hs hinv hfound hcount
    have hXinv : X ≠ SPA_ID_INVALID := fun h => hinv (h ▸ List.mem_cons_self _ _)
    have hRinv : SPA_ID_INVALID ∉ R := fun h => hinv (List.mem_cons_of_mem _ h)
    obtain ⟨n, m, hm, hmid⟩ := hfound X (List.mem_cons_self _ _)
    have hfind : find_mem d.mems X = some n := by
      rw [← hmid]
      exact find_mem_of_reg_shape ex page d.mems n m hs hm (by rw [hmid]; exact hXinv)
    have href : 1 ≤ m.ref := by
      have := hcount n m hm
      rw [hmid, List.count_cons_self] at this
      omega
    obtain ⟨m1, blk1, heq1, hs1, hr1, hcase1, htr1⟩ :=
      unref_mem_acct ex page d X n m hs hm href
    have hstep : release_id d X
        = { d with mems := modify_at (fun _ => m1) d.mems n, trace := d.trace ++ blk1 } := by
      unfold release_id
      rw [hfind]
      exact heq1
    have hget1 : ∀ (j : Nat) (mj : mem), d.mems[j]? = some mj →
        (modify_at (fun _ => m1) d.mems n)[j]? = some (if j = n then m1 else mj) := by
      intro j mj hj
      by_cases hjn : j = n
      · subst hjn
        rw [if_pos rfl]
        exact modify_at_getElem?_same _ d.mems j mj hj
      · rw [if_neg hjn, modify_at_getElem?_ne _ d.mems n j hjn]
        exact hj
    have hother : ∀ (j : Nat) (mj : mem), j ≠ n → d.mems[j]? = some mj → mj.id ≠ X := by
      intro j mj hjn hj hc
      exact hjn (hs.1 j n mj m hj hm (by rw [hc, hmid]) (by rw [hc]; exact hXinv))
    have hXR : m1.ref = 0 → X ∉ R := by
      intro h0 hXR
      have := hcount n m hm
      rw [hmid, List.count_cons_self] at this
      have : 1 ≤ R.count X := List.count_pos_iff.2 hXR
      omega
    obtain ⟨ms, blk, heq, hs2, hlen, hrel, htr⟩ := ih
      { d with mems := modify_at (fun _ => m1) d.mems n, trace := d.trace ++ blk1 } hs1 hRinv
      (by
        intro Y hY
        obtain ⟨j, mj, hj, hjid⟩ := hfound Y (List.mem_cons_of_mem _ hY)
        by_cases hjn : j = n
        · subst hjn
          rw [hm] at hj
          cases hj
          rcases hcase1 with ⟨e, -⟩ | ⟨-, e0, -⟩
          · exact ⟨j, m1, modify_at_getElem?_same _ d.mems j m hm, by rw [e, hjid]⟩
          · exfalso
            apply hXR e0
            rw [← hmid, hjid]
            exact hY
        · exact ⟨j, mj, by
            show (modify_at (fun _ => m1) d.mems n)[j]? = some mj
            rw [modify_at_getElem?_ne _ d.mems n j hjn]; exact hj, hjid⟩)
      (by
        intro j mj hj
        change (modify_at (fun _ => m1) d.mems n)[j]? = some mj at hj
        by_cases hjn : j = n
        · subst hjn
          rw [modify_at_getElem?_same _ d.mems j m hm] at hj
          cases hj
          rcases hcase1 with ⟨e, -⟩ | ⟨e, -, -⟩
          · have := hcount j m hm
            rw [hmid, List.count_cons_self] at this
            rw [e, hmid]
            omega
          · rw [e, List.count_eq_zero.2 hRinv]
            exact Nat.zero_le _
        · rw [modify_at_getElem?_ne _ d.mems n j hjn] at hj
          have := hcount j mj hj
          rw [List.count_cons_of_ne (hother j mj hjn hj)] at this
          exact this)
    refine ⟨ms, blk1 ++ blk, ?_, hs2, ?_, ?_, ?_⟩
    · rw [List.foldl_cons, hstep, heq]
      simp only [List.append_assoc]
    · rw [hlen]
      exact modify_at_length _ d.mems n
    · intro j mj hj
      obtain ⟨m', hm', hr', hcase'⟩ := hrel j (if j = n then m1 else mj) (hget1 j mj hj)
      refine ⟨m', hm', ?_⟩
      by_cases hjn : j = n
      · subst hjn
        rw [hm] at hj
        cases hj
        rw [if_pos rfl] at hr' hcase'
        rw [hmid, List.count_cons_self]
        rcases hcase1 with ⟨e1, e2⟩ | ⟨e1, e0, e2⟩
        · rw [e1, hmid] at hr'
          refine ⟨by omega, ?_⟩
          rcases hcase' with ⟨f1, f2⟩ | ⟨f1, f0, f2⟩
          · exact Or.inl ⟨by rw [f1, e1, hmid], by rw [f2, e2]⟩
          · refine Or.inr ⟨f1, f0, ?_⟩
            rcases f2 with f2 | ⟨fx, f2⟩
            · exact Or.inl f2
            · exact Or.inr ⟨fx, by rw [f2, e2]⟩
        · have hc0 : R.count X = 0 := List.count_eq_zero.2 (hXR e0)
          have hc1 : R.count m1.id = 0 := by rw [e1]; exact List.count_eq_zero.2 hRinv
          rw [hc1] at hr'
          refine ⟨by omega, Or.inr ⟨?_, by omega, ?_⟩⟩
          · rcases hcase' with ⟨f1, -⟩ | ⟨f1, -, -⟩
            · rw [f1, e1]
            · exact f1
          · rcases hcase' with ⟨-, f2⟩ | ⟨-, -, f2⟩
            · rw [f2]; exact e2
            · rcases f2 with f2 | ⟨fx, f2⟩
              · exact Or.inl f2
              · rcases e2 with e2 | ⟨ex2, e2⟩
                · exact Or.inl (by rw [f2, e2])
                · exact Or.inr ⟨fx, by rw [f2, e2]⟩
      · rw [if_neg hjn] at hr' hcase'
        rw [List.count_cons_of_ne (hother j mj hjn hj)]
        exact ⟨hr', hcase'⟩
    · intro hx
      obtain ⟨t1, t2⟩ := htr1 hx
      obtain ⟨t3, t4⟩ := htr hx
      refine ⟨release_exact_append blk1 blk t1 t3, ?_⟩
      rw [close_count_append]
      change close_count blk + dead_count (modify_at (fun _ => m1) d.mems n) = dead_count ms at t4
      omega

/-! ### Counting io pointers and recorded references -/

theorem bound_slots_congr (d d' : node_data) (hmix : d'.mix = d.mix) :
    bound_slots d' = bound_slots d := by
  unfold bound_slots
  rw [hmix]

theorem recorded_refs_congr (d d' : node_data) (X : Nat) (hmix : d'.mix = d.mix)
    (hb : ∀ k, (d'.mix_pool k).buffers = (d.mix_pool k).buffers) :
    recorded_refs d' X = recorded_refs d X := by
  unfold recorded_refs
  rw [bound_slots_congr d d' hmix]
  apply congrArg
  apply List.map_congr_left
  intro k _
  rw [hb k]

theorem io_ptrs_congr (d d' : node_data) (hp : d'.position = d.position)
    (hio : ∀ k, (d'.mix_pool k).io = (d.mix_pool k).io) : io_ptrs d' = io_ptrs d := by
  have e : (List.range MAX_MIX).map (fun k => (d'.mix_pool k).io)
      = (List.range MAX_MIX).map (fun k => (d.mix_pool k).io) :=
    List.map_congr_left (fun k _ => hio k)
  unfold io_ptrs
  rw [hp, e]

theorem count_map_eq_sum (l : List Nat) (f : Nat → Nat) (b : Nat) :
    (l.map f).count b = (l.map (fun j => if f j = b then 1 else 0)).sum := by
  induction l with
  | nil => rfl
  | cons x xs ih =>
    simp only [List.map_cons, List.sum_cons, List.count_cons, ih, beq_iff_eq]
    omega

/-- Overwriting the position pointer changes the number of io pointers equal to `b` by the
old and the new value. -/
theorem io_count_position (d d' : node_data) (b : Nat)
    (hio : ∀ k, (d'.mix_pool k).io = (d.mix_pool k).io) :
    (io_ptrs d').count b + (if d.position = b then 1 else 0)
      = (io_ptrs d).count b + (if d'.position = b then 1 else 0) := by
  have e : (List.range MAX_MIX).map (fun k => (d'.mix_pool k).io)
      = (List.range MAX_MIX).map (fun k => (d.mix_pool k).io) :=
    List.map_congr_left (fun k _ => hio k)
  unfold io_ptrs
  simp only [List.count_cons, e, beq_iff_eq]
  omega

/-- Overwriting the io pointer of one pool slot changes the number of io pointers equal to
`b` by the old and the new value. -/
theorem io_count_slot (d d' : node_data) (b k : Nat) (hk : k < MAX_MIX)
    (hp : d'.position = d.position)
    (hio : ∀ j, j ≠ k → (d'.mix_pool j).io = (d.mix_pool j).io) :
    (io_ptrs d').count b + (if (d.mix_pool k).io = b then 1 else 0)
      = (io_ptrs d).count b + (if (d'.mix_pool k).io = b then 1 else 0) := by
  have hs := sum_map_update (List.range MAX_MIX) k
    (fun j => if (d.mix_pool j).io = b then 1 else 0)
    (fun j => if (d'.mix_pool j).io = b then 1 else 0)
    (List.nodup_range MAX_MIX) (List.mem_range.2 hk)
    (by intro j hj; simp only [hio j hj])
  unfold io_ptrs
  simp only [List.count_cons, count_map_eq_sum, hp, beq_iff_eq]
  simp only at hs
  omega

theorem io_refs_eq (d : node_data) (i : Nat) (m : mem) (h : d.mems[i]? = some m) :
    io_refs d i = if m.map.ptr = NULL then 0 else (io_ptrs d).count m.map.ptr := by
  unfold io_refs
  rw [h]

theorem position_mem_io_ptrs (d : node_data) : d.position ∈ io_ptrs d :=
  List.mem_cons_self _ _

theorem slot_mem_io_ptrs (d : node_data) (k : Nat) (hk : k < MAX_MIX) :
    (d.mix_pool k).io ∈ io_ptrs d :=
  List.mem_cons_of_mem _ (List.mem_map.2 ⟨k, List.mem_range.2 hk, rfl⟩)

/-! ### The lists of the pool -/

theorem all_slots_nodup (d : node_data) (h : (all_slots d).Perm (List.range MAX_MIX)) :
    (all_slots d).Nodup := h.nodup_iff.2 (List.nodup_range MAX_MIX)

theorem bound_slots_nodup (d : node_data) (h : (all_slots d).Perm (List.range MAX_MIX)) :
    (bound_slots d).Nodup := by
  have hnd := all_slots_nodup d h
  unfold all_slots at hnd
  exact (List.nodup_append.1 hnd).2.1

theorem bound_slots_lt (d : node_data) (h : (all_slots d).Perm (List.range MAX_MIX))
    (k : Nat) (hk : k ∈ bound_slots d) : k < MAX_MIX := by
  have : k ∈ all_slots d := List.mem_append_right _ hk
  exact List.mem_range.1 (h.mem_iff.1 this)

theorem free_mix_not_bound (d : node_data) (h : (all_slots d).Perm (List.range MAX_MIX))
    (k : Nat) (hk : k ∈ d.free_mix) : k ∉ bound_slots d := by
  have hnd := all_slots_nodup d h
  unfold all_slots at hnd
  intro hb
  exact (List.nodup_append.1 hnd).2.2 hk hb

/-! ### Lookups that fail -/

theorem find_mem_none (ms : List mem) (id : Nat) (h : find_mem ms id = none) :
    ∀ (n : Nat) (m : mem), ms[n]? = some m → m.id ≠ id := by
  induction ms with
  | nil => intro n m hn; simp at hn
  | cons x xs ih =>
    unfold find_mem at h
    by_cases hx : x.id = id
    · rw [if_pos hx] at h; cases h
    · rw [if_neg hx] at h
      have h' : find_mem xs id = none := by
        cases hf : find_mem xs id with
        | none => rfl
        | some k => rw [hf] at h; simp at h
      intro n m hn
      cases n with
      | zero =>
        simp only [List.getElem?_cons_zero, Option.some.injEq] at hn
        rw [← hn]; exact hx
      | succ n =>
        simp only [List.getElem?_cons_succ] at hn
        exact ih h' n m hn

theorem find_mem_ptr_none (ms : List mem) (p : Nat) (h : find_mem_ptr ms p = none) :
    ∀ (n : Nat) (m : mem), ms[n]? = some m → m.map.ptr ≠ p := by
  induction ms with
  | nil => intro n m hn; simp at hn
  | cons x xs ih =>
    unfold find_mem_ptr at h
    by_cases hx : x.map.ptr = p
    · rw [if_pos hx] at h; cases h
    · rw [if_neg hx] at h
      have h' : find_mem_ptr xs p = none := by
        cases hf : find_mem_ptr xs p with
        | none => rfl
        | some k => rw [hf] at h; simp at h
      intro n m hn
      cases n with
      | zero =>
        simp only [List.getElem?_cons_zero, Option.some.injEq] at hn
        rw [← hn]; exact hx
      | succ n =>
        simp only [List.getElem?_cons_succ] at hn
        exact ih h' n m hn

/-- A recorded id is the id of a registered entry, so an id that `find_mem` does not find
has no recorded reference. -/
theorem recorded_refs_zero_of_absent (d : node_data) (X : Nat)
    (h5 : ∀ k ∈ bound_slots d, ∀ Y ∈ buffer_ids (d.mix_pool k).buffers,
      ∃ (n : Nat) (m : mem), d.mems[n]? = some m ∧ m.id = Y)
    (hX : ∀ (n : Nat) (m : mem), d.mems[n]? = some m → m.id ≠ X) :
    recorded_refs d X = 0 := by
  unfold recorded_refs
  apply List.sum_eq_zero
  intro c hc
  obtain ⟨k, hk, rfl⟩ := List.mem_map.1 hc
  rw [List.count_eq_zero]
  intro hmem
  obtain ⟨n, m, hn, hid⟩ := h5 k hk X hmem
  exact hX n m hn hid

/-! ### States that agree on what the invariant reads -/

theorem io_refs_congr (d d' : node_data) (i : Nat) (hm : d'.mems = d.mems)
    (hp : d'.position = d.position)
    (hio : ∀ k, (d'.mix_pool k).io = (d.mix_pool k).io) : io_refs d' i = io_refs d i := by
  unfold io_refs
  rw [hm, io_ptrs_congr d d' hp hio]

theorem all_slots_congr (d d' : node_data) (hmix : d'.mix = d.mix)
    (hfree : d'.free_mix = d.free_mix) : all_slots d' = all_slots d := by
  unfold all_slots
  rw [hmix, hfree]

/-- The invariant reads the registry, the position pointer, the lists of the pool, the
buffers and the io pointer of every slot, the flag `undefined` and the trace: a state
that agrees on them with a state satisfying the invariant, and whose trace is longer by
events that release nothing, satisfies it. -/
theorem io_acct_frame (env : Env) (ex : Bool) (d d' : node_data) (blk : List Event)
    (h : io_acct env ex d) (hm : d'.mems = d.mems) (hp : d'.position = d.position)
    (hmix : d'.mix = d.mix) (hfree : d'.free_mix = d.free_mix)
    (hu : d'.undefined = d.undefined)
    (hb : ∀ k, (d'.mix_pool k).buffers = (d.mix_pool k).buffers)
    (hio : ∀ k, (d'.mix_pool k).io = (d.mix_pool k).io)
    (htr : d'.trace = d.trace ++ blk) (hblk : no_release blk) : io_acct env ex d' := by
  obtain ⟨hs, ⟨p1, p2, p3, p4, p5, p6⟩, ⟨a1, a2⟩, ht⟩ := h
  have hbs := bound_slots_congr d d' hmix
  refine ⟨by rw [hm]; exact hs, ⟨?_, ?_, ?_, ?_, ?_, ?_⟩, ⟨?_, ?_⟩, ?_⟩
  · rw [all_slots_congr d d' hmix hfree]; exact p1
  · intro k b hk
    rw [hb k] at hk
    exact p2 k b hk
  · rw [hu]; exact p3
  · intro k hk
    rw [hbs] at hk
    rw [hb k]
    exact p4 k hk
  · intro k hk X hX
    rw [hbs] at hk
    rw [hb k] at hX
    rw [hm]
    exact p5 k hk X hX
  · intro hex k hk
    rw [hbs] at hk
    rw [hio k]
    exact p6 hex k hk
  · intro i m hi
    rw [hm] at hi
    rw [recorded_refs_congr d d' m.id hmix hb, io_refs_congr d d' i hm hp hio]
    exact a1 i m hi
  · intro hex i m hi
    rw [hm] at hi
    rw [recorded_refs_congr d d' m.id hmix hb, io_refs_congr d d' i hm hp hio]
    exact a2 hex i m hi
  · intro hex
    obtain ⟨t1, t2⟩ := ht hex
    rw [htr, hm, close_count_append, close_count_no_release blk hblk]
    exact ⟨release_exact_append _ _ t1 (release_exact_of_no_release blk hblk), by omega⟩

/-! ### `clear_buffers` keeps the invariant -/

/-- The state after the buffers of the bound mix in slot `k` were released and dropped:
given the registry and the trace that the releases leave, the invariant holds again. -/
theorem io_acct_release (env : Env) (ex : Bool) (d d' : node_data) (k : Nat)
    (ms : List mem) (ev blk : List Event)
    (h : io_acct env ex d) (hk : k ∈ bound_slots d)
    (hs2 : reg_shape ex env.sc_pagesize ms) (hlen : ms.length = d.mems.length)
    (hrel : ∀ (i : Nat) (m : mem), d.mems[i]? = some m → ∃ m', ms[i]? = some m' ∧
      m'.ref + (buffer_ids (d.mix_pool k).buffers).count m.id = m.ref ∧
      ((m'.id = m.id ∧ m'.map.ptr = m.map.ptr) ∨
       (m'.id = SPA_ID_INVALID ∧ m'.ref = 0 ∧
         (m'.map.ptr = NULL ∨ (ex = true ∧ m'.map.ptr = m.map.ptr)))))
    (htr : ex = false → release_exact blk ∧
      close_count blk + dead_count d.mems = dead_count ms)
    (hev : no_release ev)
    (hm : d'.mems = ms) (hp : d'.position = d.position) (hmix : d'.mix = d.mix)
    (hfree : d'.free_mix = d.free_mix) (hu : d'.undefined = false)
    (hbk : (d'.mix_pool k).buffers = [])
    (hb : ∀ j, j ≠ k → d'.mix_pool j = d.mix_pool j)
    (hio : ∀ j, (d'.mix_pool j).io = (d.mix_pool j).io)
    (htrace : d'.trace = d.trace ++ ev ++ blk) : io_acct env ex d' := by
  obtain ⟨hs, ⟨p1, p2, p3, p4, p5, p6⟩, ⟨a1, a2⟩, ht⟩ := h
  have hnd := bound_slots_nodup d p1
  have hbs := bound_slots_congr d d' hmix
  have hfr : same_frame k d d' := ⟨hmix, hfree, hb⟩
  have hrec : ∀ X, recorded_refs d' X + (buffer_ids (d.mix_pool k).buffers).count X
      = recorded_refs d X := by
    intro X
    have := recorded_refs_update d d' k X hfr hnd hk
    rw [hbk] at this
    simpa [buffer_ids] using this
  have hp4 : ∀ j ∈ bound_slots d', SPA_ID_INVALID ∉ buffer_ids (d'.mix_pool j).buffers := by
    intro j hj
    rw [hbs] at hj
    by_cases hjk : j = k
    · subst hjk
      rw [hbk]
      simp [buffer_ids]
    · rw [hb j hjk]
      exact p4 j hj
  have hiop := io_ptrs_congr d d' hp hio
  refine ⟨by rw [hm]; exact hs2, ⟨?_, ?_, hu, hp4, ?_, ?_⟩, ⟨?_, ?_⟩, ?_⟩
  · rw [all_slots_congr d d' hmix hfree]; exact p1
  · intro j b hj
    by_cases hjk : j = k
    · subst hjk
      rw [hbk] at hj
      simp at hj
    · rw [hb j hjk] at hj
      exact p2 j b hj
  · intro j hj X hX
    have hj' : j ∈ bound_slots d := by rw [← hbs]; exact hj
    by_cases hjk : j = k
    · subst hjk
      rw [hbk] at hX
      simp [buffer_ids] at hX
    · have hX' : X ∈ buffer_ids (d.mix_pool j).buffers := by rw [← hb j hjk]; exact hX
      obtain ⟨n, m, hn, hid⟩ := p5 j hj' X hX'
      obtain ⟨m', hn', hr, hcase⟩ := hrel n m hn
      refine ⟨n, m', by rw [hm]; exact hn', ?_⟩
      rcases hcase with ⟨e, -⟩ | ⟨-, e0, -⟩
      · rw [e, hid]
      · exfalso
        have h1 := a1 n m hn
        have h2 := hrec X
        have h3 := count_le_recorded_refs d' j X hj
        have h4 : 0 < (buffer_ids (d'.mix_pool j).buffers).count X :=
          List.count_pos_iff.2 hX
        rw [hid] at hr h1
        omega
  · intro hex j hj
    rw [hbs] at hj
    rw [hio j]
    exact p6 hex j hj
  · intro i m'' hi
    rw [hm] at hi
    obtain ⟨m, hmi⟩ := getElem?_of_length_eq ms d.mems i m'' hi hlen.symm
    obtain ⟨m', hn', hr, hcase⟩ := hrel i m hmi
    rw [hi] at hn'
    cases hn'
    have h1 := a1 i m hmi
    have h2 := hrec m.id
    rw [io_refs_eq d' i m'' (by rw [hm]; exact hi), hiop]
    rw [io_refs_eq d i m hmi] at h1
    rcases hcase with ⟨e1, e2⟩ | ⟨e1, e0, e2⟩
    · rw [e1, e2]
      omega
    · rw [e1, recorded_refs_invalid d' hp4]
      rcases e2 with e2 | ⟨hex, e2⟩
      · rw [if_pos e2]; omega
      · have h3 := a2 hex i m hmi
        rw [io_refs_eq d i m hmi] at h3
        have h4 := count_le_recorded_refs d k m.id hk
        rw [e2]
        omega
  · intro hex i m'' hi
    rw [hm] at hi
    obtain ⟨m, hmi⟩ := getElem?_of_length_eq ms d.mems i m'' hi hlen.symm
    obtain ⟨m', hn', hr, hcase⟩ := hrel i m hmi
    rw [hi] at hn'
    cases hn'
    have h1 := a2 hex i m hmi
    have h2 := hrec m.id
    rw [io_refs_eq d' i m'' (by rw [hm]; exact hi), hiop]
    rw [io_refs_eq d i m hmi] at h1
    rcases hcase with ⟨e1, e2⟩ | ⟨e1, e0, e2⟩
    · rw [e1, e2]
      omega
    · rw [e1, recorded_refs_invalid d' hp4]
      have h4 := count_le_recorded_refs d k m.id hk
      rcases e2 with e2 | ⟨-, e2⟩
      · rw [if_pos e2]; omega
      · rw [e2]
        omega
  · intro hex
    obtain ⟨t1, t2⟩ := ht hex
    obtain ⟨t3, t4⟩ := htr hex
    rw [htrace, hm, close_count_append, close_count_append, close_count_no_release ev hev]
    exact ⟨release_exact_append _ _
      (release_exact_append _ _ t1 (release_exact_of_no_release ev hev)) t3, by omega⟩

theorem no_release_port_use_buffers (port : pw_port) (mix_id n : Nat) (res : Int) :
    no_release [Event.port_use_buffers port mix_id n res] := by
  intro e he
  rw [List.mem_singleton] at he
  subst he
  rfl

/-- The function `clear_buffers` on a bound mix keeps the invariant. It changes neither the
lists of the pool, nor the position pointer, nor an io pointer, nor the number of entries
of the registry, and raises no ref count. -/
theorem clear_buffers_io_acct (env : Env) (ex : Bool) (d : node_data) (k : Nat)
    (h : io_acct env ex d) (hk : k ∈ bound_slots d) :
    io_acct env ex (clear_buffers env d k) ∧
    (clear_buffers env d k).mix = d.mix ∧
    (clear_buffers env d k).free_mix = d.free_mix ∧
    (clear_buffers env d k).position = d.position ∧
    (∀ j, ((clear_buffers env d k).mix_pool j).io = (d.mix_pool j).io) ∧
    (∀ j, j ≠ k → (clear_buffers env d k).mix_pool j = d.mix_pool j) ∧
    (0 ≤ env.pw_port_use_buffers d.trace (d.mix_pool k).port (d.mix_pool k).mix_id 0 →
      ((clear_buffers env d k).mix_pool k).buffers = []) ∧
    (∀ (i : Nat) (m' : mem), (clear_buffers env d k).mems[i]? = some m' →
      ∃ m, d.mems[i]? = some m ∧ m'.ref ≤ m.ref) := by
  by_cases hacc : 0 ≤ env.pw_port_use_buffers d.trace (d.mix_pool k).port (d.mix_pool k).mix_id 0
  · have hd := h
    obtain ⟨hs, ⟨p1, p2, p3, p4, p5, p6⟩, ⟨a1, a2⟩, ht⟩ := h
    obtain ⟨ms, blk, heq, hs2, hlen, hrel, htr⟩ := release_fold_acct ex env.sc_pagesize
      (buffer_ids (d.mix_pool k).buffers)
      { d with trace := d.trace ++
        [Event.port_use_buffers (d.mix_pool k).port (d.mix_pool k).mix_id 0
          (env.pw_port_use_buffers d.trace (d.mix_pool k).port (d.mix_pool k).mix_id 0)] }
      hs (p4 k hk) (p5 k hk)
      (fun i m hi => le_trans (count_le_recorded_refs d k m.id hk)
        (le_trans (Nat.le_add_right _ _) (a1 i m hi)))
    have hany : (d.mix_pool k).buffers.any slot_undefined = false := by
      rw [List.any_eq_false]
      intro b hb
      rw [p2 k b hb]
      exact Bool.false_ne_true
    rw [clear_buffers_accept env d k hacc, heq]
    refine ⟨?_, rfl, rfl, rfl, ?_, ?_, ?_, ?_⟩
    · refine io_acct_release env ex d _ k ms _ blk hd hk hs2 hlen hrel htr
        (no_release_port_use_buffers _ _ _ _) rfl rfl rfl rfl ?_ ?_ ?_ ?_ rfl
      · show (d.undefined || (d.mix_pool k).buffers.any slot_undefined) = false
        rw [p3, hany]; rfl
      · simp [set_mix]
      · intro j hj
        simp [set_mix, hj]
      · intro j
        by_cases hj : j = k
        · subst hj; simp [set_mix]
        · simp [set_mix, hj]
    · intro j
      by_cases hj : j = k
      · subst hj; simp [set_mix]
      · simp [set_mix, hj]
    · intro j hj
      simp [set_mix, hj]
    · intro _
      simp [set_mix]
    · intro i m' hi
      change ms[i]? = some m' at hi
      obtain ⟨m, hmi⟩ := getElem?_of_length_eq ms d.mems i m' hi hlen.symm
      obtain ⟨m2, hn', hr, -⟩ := hrel i m hmi
      rw [hi] at hn'
      cases hn'
      exact ⟨m, hmi, by omega⟩
  · have hlt := not_le.1 hacc
    rw [clear_buffers_refuse env d k hlt]
    refine ⟨?_, rfl, rfl, rfl, fun _ => rfl, fun _ _ => rfl, fun h0 => absurd h0 hacc, ?_⟩
    · exact io_acct_frame env ex d _ _ h rfl rfl rfl rfl rfl (fun _ => rfl) (fun _ => rfl) rfl
        (no_release_port_use_buffers _ _ _ _)
    · intro i m' hi
      exact ⟨m', hi, le_refl _⟩

/-! ### `ensure_mix` keeps the invariant -/

theorem all_slots_eq (d : node_data) : all_slots d = d.free_mix ++ bound_slots d := rfl

/-- Binding a free slot with an empty buffer array, without touching its io pointer, keeps
the invariant. -/
theorem io_acct_bind (env : Env) (ex : Bool) (d d0 : node_data) (k : Nat) (rest : List Nat)
    (h : io_acct env ex d) (hfree : d.free_mix = k :: rest) (hfree0 : d0.free_mix = rest)
    (hperm : (bound_slots d0).Perm (k :: bound_slots d))
    (hpool : ∀ j, j ≠ k → d0.mix_pool j = d.mix_pool j)
    (hk : (d0.mix_pool k).buffers = []) (hiok : (d0.mix_pool k).io = (d.mix_pool k).io)
    (hmems : d0.mems = d.mems) (htrace : d0.trace = d.trace)
    (hp : d0.position = d.position) (hu : d0.undefined = d.undefined) :
    io_acct env ex d0 := by
  obtain ⟨hs, ⟨p1, p2, p3, p4, p5, p6⟩, ⟨a1, a2⟩, ht⟩ := h
  have hkf : k ∈ d.free_mix := by rw [hfree]; exact List.mem_cons_self k rest
  have hkb : k ∉ bound_slots d := free_mix_not_bound d p1 k hkf
  have hnil : buffer_ids ([] : List buffer) = [] := rfl
  have hrefs : ∀ X, recorded_refs d0 X = recorded_refs d X := by
    intro X
    unfold recorded_refs
    rw [(hperm.map _).sum_eq, List.map_cons, List.sum_cons, hk, hnil, List.count_nil,
      Nat.zero_add]
    exact sum_map_congr_off (bound_slots d) k
      (fun j => (buffer_ids (d.mix_pool j).buffers).count X)
      (fun j => (buffer_ids (d0.mix_pool j).buffers).count X) hkb
      (fun j hj => by show List.count X _ = List.count X _; rw [hpool j hj])
  have hmem : ∀ j, j ∈ bound_slots d0 → j = k ∨ j ∈ bound_slots d := by
    intro j hj
    exact List.mem_cons.1 (hperm.mem_iff.1 hj)
  have hio : ∀ j, (d0.mix_pool j).io = (d.mix_pool j).io := by
    intro j
    by_cases hj : j = k
    · rw [hj]; exact hiok
    · rw [hpool j hj]
  refine ⟨by rw [hmems]; exact hs, ⟨?_, ?_, ?_, ?_, ?_, ?_⟩, ⟨?_, ?_⟩, ?_⟩
  · refine List.Perm.trans ?_ p1
    rw [all_slots_eq, all_slots_eq, hfree0, hfree]
    refine List.Perm.trans (List.Perm.append_left rest hperm) ?_
    exact List.perm_middle
  · intro j b hj
    by_cases hjk : j = k
    · rw [hjk, hk] at hj
      simp at hj
    · rw [hpool j hjk] at hj
      exact p2 j b hj
  · rw [hu]; exact p3
  · intro j hj
    rcases hmem j hj with hjk | hjb
    · rw [hjk, hk, hnil]; exact List.not_mem_nil _
    · have hne : j ≠ k := fun e => hkb (e ▸ hjb)
      rw [hpool j hne]; exact p4 j hjb
  · intro j hj X hX
    rw [hmems]
    rcases hmem j hj with hjk | hjb
    · rw [hjk, hk, hnil] at hX; exact absurd hX (List.not_mem_nil _)
    · have hne : j ≠ k := fun e => hkb (e ▸ hjb)
      rw [hpool j hne] at hX; exact p5 j hjb X hX
  · intro hex j hj
    rw [hio j]
    apply p6 hex j
    intro hjb
    exact hj (hperm.mem_iff.2 (List.mem_cons_of_mem _ hjb))
  · intro i m hi
    rw [hmems] at hi
    rw [hrefs, io_refs_congr d d0 i hmems hp hio]
    exact a1 i m hi
  · intro hex i m hi
    rw [hmems] at hi
    rw [hrefs, io_refs_congr d d0 i hmems hp hio]
    exact a2 hex i m hi
  · intro hex
    rw [htrace, hmems]
    exact ht hex

/-- The function `ensure_mix` keeps the invariant. It changes neither the registry, nor the
trace, nor the position pointer, nor an io pointer; the slot it returns is bound, and it
is the slot of the mix that `find_mix` finds or a slot of the free list. -/
theorem ensure_mix_io_acct (env : Env) (ex : Bool) (d : node_data)
    (direction : spa_direction) (port_id mix_id : Nat) (h : io_acct env ex d) :
    io_acct env ex (ensure_mix env d direction port_id mix_id).2 ∧
    (ensure_mix env d direction port_id mix_id).2.mems = d.mems ∧
    (ensure_mix env d direction port_id mix_id).2.trace = d.trace ∧
    (ensure_mix env d direction port_id mix_id).2.position = d.position ∧
    (∀ j, ((ensure_mix env d direction port_id mix_id).2.mix_pool j).io = (d.mix_pool j).io) ∧
    (∀ k, (ensure_mix env d direction port_id mix_id).1 = some k →
      k ∈ bound_slots (ensure_mix env d direction port_id mix_id).2 ∧
      (find_mix d direction port_id mix_id = some k ∨ k ∈ d.free_mix)) ∧
    ((ensure_mix env d direction port_id mix_id).1 = none →
      (ensure_mix env d direction port_id mix_id).2 = d) := by
  unfold ensure_mix
  cases hf : find_mix d direction port_id mix_id with
  | some k =>
    refine ⟨h, rfl, rfl, rfl, fun _ => rfl, ?_, fun _ => rfl⟩
    intro k' hk'
    simp only [Option.some.injEq] at hk'
    subst hk'
    exact ⟨find_mix_mem d direction port_id mix_id k hf, Or.inl rfl⟩
  | none =>
    cases hfree : d.free_mix with
    | nil => exact ⟨h, rfl, rfl, rfl, fun _ => rfl, fun k hk => by simp at hk, fun _ => rfl⟩
    | cons k rest =>
      by_cases hp : env.pw_node_find_port d.trace direction port_id = true
      · simp only [hp, if_true]
        have hperm : (bound_slots
            { set_mix d k (mix_init (d.mix_pool k)
                { direction := direction, port_id := port_id } mix_id) with
              free_mix := rest
              mix := fun x => if x = direction then d.mix x ++ [k] else d.mix x }).Perm
            (k :: bound_slots d) := by
          unfold bound_slots
          cases direction
          · simp only [if_true, set_mix, List.append_assoc, List.singleton_append]
            exact List.perm_middle
          · simp only [if_true, set_mix]
            rw [if_neg (by decide), ← List.append_assoc]
            exact List.perm_append_singleton k _
        have hiok : ∀ j, ((set_mix d k (mix_init (d.mix_pool k)
            { direction := direction, port_id := port_id } mix_id)).mix_pool j).io
            = (d.mix_pool j).io := by
          intro j
          by_cases hj : j = k
          · subst hj; simp [set_mix, mix_init]
          · simp [set_mix, hj]
        have hb := io_acct_bind env ex d _ k rest h hfree rfl hperm
          (fun j hj => by simp only [set_mix, if_neg hj])
          (by simp only [set_mix, if_true, mix_init]) (hiok k) rfl rfl rfl rfl
        refine ⟨hb, rfl, rfl, rfl, hiok, ?_, fun hn => by simp at hn⟩
        intro k' hk'
        simp only [Option.some.injEq] at hk'
        subst hk'
        exact ⟨hperm.mem_iff.2 (List.mem_cons_self _ _), Or.inr (List.mem_cons_self _ _)⟩
      · simp only [hp]
        exact ⟨h, rfl, rfl, rfl, fun _ => rfl, fun k hk => by simp at hk, fun _ => rfl⟩

/-! ### `clear_mix` keeps the invariant -/

theorem sum_map_le (l : List Nat) (g g' : Nat → Nat) (h : ∀ j ∈ l, g' j ≤ g j) :
    (l.map g').sum ≤ (l.map g).sum := by
  induction l with
  | nil => exact Nat.le_refl _
  | cons a l ih =>
    simp only [List.map_cons, List.sum_cons]
    have h1 := h a (List.mem_cons_self a l)
    have h2 := ih (fun j hj => h j (List.mem_cons_of_mem a hj))
    omega

theorem bound_slots_filter (d d' : node_data) (k : Nat)
    (hmix : ∀ x, d'.mix x = (d.mix x).filter (fun j => decide (j ≠ k))) :
    bound_slots d' = (bound_slots d).filter (fun j => decide (j ≠ k)) := by
  unfold bound_slots
  rw [hmix, hmix, List.filter_append]

/-- Moving the slot of a bound mix to the end of the free list, with its buffer array
emptied and its io pointer as it is, keeps the invariant; with `exact`, when the array was
empty and the io pointer is `NULL`. -/
theorem io_acct_unbind (env : Env) (ex : Bool) (d d' : node_data) (k : Nat)
    (h : io_acct env ex d) (hk : k ∈ bound_slots d)
    (hmix : ∀ x, d'.mix x = (d.mix x).filter (fun j => decide (j ≠ k)))
    (hfree : d'.free_mix = d.free_mix.filter (fun j => decide (j ≠ k)) ++ [k])
    (hpool : ∀ j, j ≠ k → d'.mix_pool j = d.mix_pool j)
    (hbk : (d'.mix_pool k).buffers = []) (hiok : (d'.mix_pool k).io = (d.mix_pool k).io)
    (hmems : d'.mems = d.mems) (htrace : d'.trace = d.trace)
    (hp : d'.position = d.position) (hu : d'.undefined = d.undefined)
    (hex : ex = true → (d.mix_pool k).buffers = [] ∧ (d.mix_pool k).io = NULL) :
    io_acct env ex d' := by
  obtain ⟨hs, ⟨p1, p2, p3, p4, p5, p6⟩, ⟨a1, a2⟩, ht⟩ := h
  have hbs := bound_slots_filter d d' k hmix
  have hklt := bound_slots_lt d p1 k hk
  have hmem : ∀ j, j ∈ bound_slots d' ↔ j ∈ bound_slots d ∧ j ≠ k := by
    intro j
    rw [hbs, List.mem_filter]
    simp
  have hio : ∀ j, (d'.mix_pool j).io = (d.mix_pool j).io := by
    intro j
    by_cases hj : j = k
    · rw [hj]; exact hiok
    · rw [hpool j hj]
  have hrec0 : ∀ X, recorded_refs d' X
      = ((bound_slots d).map (fun j =>
          if j = k then 0 else (buffer_ids (d.mix_pool j).buffers).count X)).sum := by
    intro X
    unfold recorded_refs
    rw [hbs]
    exact sum_map_filter_ne (bound_slots d) k
      (fun j => if j = k then 0 else (buffer_ids (d.mix_pool j).buffers).count X)
      (fun j => (buffer_ids (d'.mix_pool j).buffers).count X)
      (by simp)
      (fun j hj => by simp only [if_neg hj, hpool j hj])
  have hrecle : ∀ X, recorded_refs d' X ≤ recorded_refs d X := by
    intro X
    rw [hrec0]
    unfold recorded_refs
    apply sum_map_le
    intro j _
    by_cases hj : j = k
    · simp [hj]
    · simp [hj]
  have hreceq : ex = true → ∀ X, recorded_refs d' X = recorded_refs d X := by
    intro hx X
    rw [hrec0]
    unfold recorded_refs
    apply congrArg
    apply List.map_congr_left
    intro j _
    by_cases hj : j = k
    · rw [if_pos hj, hj, (hex hx).1]
      rfl
    · rw [if_neg hj]
  have hcountk : (all_slots d).count k = 1 := by
    rw [p1.count_eq]
    exact List.count_eq_one_of_mem (List.nodup_range MAX_MIX) (List.mem_range.2 hklt)
  have hfilt : ∀ (l : List Nat) (a : Nat),
      (l.filter (fun j => decide (j ≠ k))).count a = if a = k then 0 else l.count a := by
    intro l a
    by_cases hak : a = k
    · rw [if_pos hak, List.count_eq_zero]
      intro hm
      have h2 := (List.mem_filter.1 hm).2
      simp [hak] at h2
    · rw [if_neg hak, List.count_filter]
      simpa using hak
  refine ⟨by rw [hmems]; exact hs, ⟨?_, ?_, ?_, ?_, ?_, ?_⟩, ⟨?_, ?_⟩, ?_⟩
  · refine List.Perm.trans ?_ p1
    rw [List.perm_iff_count]
    intro a
    unfold all_slots at hcountk ⊢
    rw [hfree, hmix, hmix]
    simp only [List.count_append, hfilt, List.count_cons, List.count_nil]
    simp only [List.count_append] at hcountk
    by_cases hak : a = k
    · subst hak
      simp only [if_true, beq_self_eq_true]
      omega
    · have hka : ¬ (k = a) := fun e => hak e.symm
      simp only [if_neg hak, beq_iff_eq, hka, if_false]
      omega
  · intro j b hj
    by_cases hjk : j = k
    · rw [hjk, hbk] at hj
      simp at hj
    · rw [hpool j hjk] at hj
      exact p2 j b hj
  · rw [hu]; exact p3
  · intro j hj
    obtain ⟨hjb, hjk⟩ := (hmem j).1 hj
    rw [hpool j hjk]
    exact p4 j hjb
  · intro j hj X hX
    obtain ⟨hjb, hjk⟩ := (hmem j).1 hj
    rw [hpool j hjk] at hX
    rw [hmems]
    exact p5 j hjb X hX
  · intro hx j hj
    rw [hio j]
    by_cases hjk : j = k
    · rw [hjk]; exact (hex hx).2
    · exact p6 hx j (fun hjb => hj ((hmem j).2 ⟨hjb, hjk⟩))
  · intro i m hi
    rw [hmems] at hi
    rw [io_refs_congr d d' i hmems hp hio]
    have := a1 i m hi
    have := hrecle m.id
    omega
  · intro hx i m hi
    rw [hmems] at hi
    rw [io_refs_congr d d' i hmems hp hio, hreceq hx]
    exact a2 hx i m hi
  · intro hx
    rw [htrace, hmems]
    exact ht hx

theorem clear_mix_frame_io (env : Env) (d : node_data) (k : Nat) :
    (clear_mix env d k).position = (clear_buffers env d k).position ∧
    (clear_mix env d k).undefined = (clear_buffers env d k).undefined ∧
    ((clear_mix env d k).mix_pool k).io = ((clear_buffers env d k).mix_pool k).io := by
  unfold clear_mix deactivate_mix
  dsimp only
  split <;> simp [set_mix]

/-- The function `clear_mix` on a bound mix keeps the invariant; with `exact`, when the io
area of the mix is not bound and its port accepts to drop its buffers. -/
theorem clear_mix_io_acct (env : Env) (ex : Bool) (d : node_data) (k : Nat)
    (h : io_acct env ex d) (hk : k ∈ bound_slots d)
    (hex : ex = true →
      (d.mix_pool k).io = NULL ∧
      0 ≤ env.pw_port_use_buffers d.trace (d.mix_pool k).port (d.mix_pool k).mix_id 0) :
    io_acct env ex (clear_mix env d k) := by
  obtain ⟨h1, c1, c2, c3, c4, c5, c6, -⟩ := clear_buffers_io_acct env ex d k h hk
  obtain ⟨f1, f2, -, f4, f5, -, -, -, f9, f10⟩ := clear_mix_frame env d k
  obtain ⟨g1, g2, g3⟩ := clear_mix_frame_io env d k
  refine io_acct_unbind env ex (clear_buffers env d k) (clear_mix env d k) k h1
    (by rw [bound_slots_congr d _ c1]; exact hk)
    (by intro x; rw [f1 x, c1]) (by rw [f2, c2])
    (by intro j hj; rw [f5 j hj, c5 j hj]) f4 g3 f9 f10 g1 g2 ?_
  intro hx
  exact ⟨c6 (hex hx).2, by rw [c4 k]; exact (hex hx).1⟩

/-! ### `client_node_add_mem` keeps the invariant -/

theorem getElem?_append_singleton {α : Type} (l : List α) (x y : α) (i : Nat)
    (h : (l ++ [x])[i]? = some y) : l[i]? = some y ∨ (i = l.length ∧ y = x) := by
  by_cases hi : i < l.length
  · rw [List.getElem?_append_left hi] at h
    exact Or.inl h
  · rw [List.getElem?_append_right (by omega)] at h
    right
    have hi0 : i - l.length = 0 := by
      by_contra hne
      have : ([x] : List α)[i - l.length]? = none :=
        List.getElem?_eq_none (by simp; omega)
      rw [this] at h
      cases h
    rw [hi0] at h
    simp only [List.getElem?_cons_zero, Option.some.injEq] at h
    exact ⟨by omega, h.symm⟩

theorem getElem?_append_of_some {α : Type} (l : List α) (x y : α) (i : Nat)
    (h : l[i]? = some y) : (l ++ [x])[i]? = some y := by
  rw [List.getElem?_append_left (List.getElem?_eq_some.1 h).1]
  exact h

/-- The handler `client_node_add_mem` keeps the invariant; without `exact`, when the fd is
a new one. -/
theorem add_mem_io_acct (env : Env) (ex : Bool) (d : node_data) (mem_id type : Nat)
    (memfd : Int) (flags : Nat) (henv : env_total env) (h : io_acct env ex d)
    (hfd : ex = false → memfd ≠ -1 ∧ ∀ m ∈ d.mems, m.fd ≠ memfd) :
    io_acct env ex (client_node_add_mem d mem_id type memfd flags) := by
  unfold client_node_add_mem
  cases hf : find_mem d.mems mem_id with
  | some n => exact h
  | none =>
    dsimp only
    have habs := find_mem_none d.mems mem_id hf
    obtain ⟨⟨r1, r2, r3, r4, r5⟩, ⟨p1, p2, p3, p4, p5, p6⟩, ⟨a1, a2⟩, ht⟩ := h
    have hrec0 : recorded_refs d mem_id = 0 := recorded_refs_zero_of_absent d mem_id p5 habs
    have hU : (0 : Nat) < U32 := by decide
    refine ⟨⟨?_, ?_, ?_, ?_, ?_⟩, ⟨p1, p2, p3, p4, ?_, p6⟩, ⟨?_, ?_⟩, ?_⟩
    · intro i j mi mj hi hj hij hne
      rcases getElem?_append_singleton _ _ _ _ hi with hi | ⟨hi, hmi⟩ <;>
        rcases getElem?_append_singleton _ _ _ _ hj with hj | ⟨hj, hmj⟩
      · exact r1 i j mi mj hi hj hij hne
      · subst hmj
        exact absurd hij (habs i mi hi)
      · subst hmi
        exact absurd hij.symm (habs j mj hj)
      · rw [hi, hj]
    · intro i j mi mj hi hj hij hne
      rcases getElem?_append_singleton _ _ _ _ hi with hi | ⟨hi, hmi⟩ <;>
        rcases getElem?_append_singleton _ _ _ _ hj with hj | ⟨hj, hmj⟩
      · exact r2 i j mi mj hi hj hij hne
      · subst hmj
        exact absurd hij hne
      · subst hmi
        exact absurd rfl hne
      · rw [hi, hj]
    · intro i m hi
      rcases getElem?_append_singleton _ _ _ _ hi with hi | ⟨hi, hmi⟩
      · exact r3 i m hi
      · subst hmi
        exact ⟨hU, fun _ => rfl, Nat.zero_mod _, henv.1⟩
    · intro hx i m hi
      rcases getElem?_append_singleton _ _ _ _ hi with hi | ⟨hi, hmi⟩
      · exact r4 hx i m hi
      · subst hmi
        rfl
    · intro hx
      obtain ⟨r5a, r5b⟩ := r5 hx
      obtain ⟨hfd1, hfd2⟩ := hfd hx
      refine ⟨?_, ?_⟩
      · intro i j mi mj hi hj hij hne
        rcases getElem?_append_singleton _ _ _ _ hi with hi | ⟨hi, hmi⟩ <;>
          rcases getElem?_append_singleton _ _ _ _ hj with hj | ⟨hj, hmj⟩
        · exact r5a i j mi mj hi hj hij hne
        · subst hmj
          exact absurd hij (hfd2 mi (List.getElem?_mem hi))
        · subst hmi
          exact absurd hij.symm (hfd2 mj (List.getElem?_mem hj))
        · rw [hi, hj]
      · intro i m hi hlive
        rcases getElem?_append_singleton _ _ _ _ hi with hi | ⟨hi, hmi⟩
        · exact r5b i m hi hlive
        · subst hmi
          exact hfd1
    · intro k hk X hX
      obtain ⟨n, m, hn, hid⟩ := p5 k hk X hX
      exact ⟨n, m, getElem?_append_of_some _ _ _ _ hn, hid⟩
    · intro i m hi
      rcases getElem?_append_singleton _ _ _ _ hi with hi2 | ⟨hi2, hmi⟩
      · have e : io_refs { d with mems := d.mems ++
            [{ id := mem_id, fd := memfd, flags := flags, ref := 0,
               map := { ptr := NULL, map := PW_MAP_RANGE_INIT } }] } i = io_refs d i := by
          rw [io_refs_eq _ i m hi, io_refs_eq d i m hi2]
          rfl
        rw [e]
        exact a1 i m hi2
      · subst hmi
        rw [io_refs_eq _ i _ hi]
        show recorded_refs d mem_id + 0 ≤ 0
        omega
    · intro hx i m hi
      rcases getElem?_append_singleton _ _ _ _ hi with hi2 | ⟨hi2, hmi⟩
      · have e : io_refs { d with mems := d.mems ++
            [{ id := mem_id, fd := memfd, flags := flags, ref := 0,
               map := { ptr := NULL, map := PW_MAP_RANGE_INIT } }] } i = io_refs d i := by
          rw [io_refs_eq _ i m hi, io_refs_eq d i m hi2]
          rfl
        rw [e]
        exact a2 hx i m hi2
      · subst hmi
        rw [io_refs_eq _ i _ hi]
        show 0 = recorded_refs d mem_id + 0
        omega
    · intro hx
      obtain ⟨t1, t2⟩ := ht hx
      refine ⟨t1, ?_⟩
      show close_count d.trace = dead_count (d.mems ++ _)
      unfold dead_count at t2 ⊢
      rw [List.countP_append, t2]
      have : memfd ≠ -1 := (hfd hx).1
      simp [List.countP_cons, this]

/-! ### The build of `client_node_port_use_buffers` keeps the invariant -/

/-- Where `mmap` does not fail, `mem_map` does not return `NULL`. -/
theorem mem_map_total (env : Env) (tr : List Event) (map : mapping) (fd : Int)
    (prot offset size : Nat) (henv : env_total env) :
    (mem_map env tr map fd prot offset size).1 ≠ NULL := by
  unfold mem_map
  dsimp only
  by_cases h1 : map.ptr = NULL ∨
      map.map.offset ≠ (pw_map_range_init offset size env.sc_pagesize).offset ∨
      map.map.size ≠ (pw_map_range_init offset size env.sc_pagesize).size
  · rw [if_pos h1]
    obtain ⟨e1, e2, -⟩ := henv.2.1 tr map.ptr
      (pw_map_range_init offset size env.sc_pagesize).size prot fd
      (pw_map_range_init offset size env.sc_pagesize).offset
    rw [if_neg e1]
    show _ + _ ≠ NULL
    unfold NULL at e2 ⊢
    omega
  · rw [if_neg h1]
    have hp : map.ptr ≠ NULL := fun h => h1 (Or.inl h)
    show _ + _ ≠ NULL
    unfold NULL at hp ⊢
    omega

/-- Where `mmap` and `malloc` do not fail, one round of the build changes neither the
position pointer, nor the flag `undefined`, nor the io pointer of the mix, and the slot
it adds to the buffer array is written in full. -/
theorem build_buffer_io (env : Env) (d : node_data) (k prot i : Nat)
    (cb : pw_client_node_buffer) (henv : env_total env) :
    (build_buffer env d k prot i cb).2.position = d.position ∧
    (build_buffer env d k prot i cb).2.undefined = d.undefined ∧
    ((build_buffer env d k prot i cb).2.mix_pool k).io = (d.mix_pool k).io ∧
    ((∀ b ∈ (d.mix_pool k).buffers, slot_undefined b = false) →
      ∀ b ∈ ((build_buffer env d k prot i cb).2.mix_pool k).buffers,
        slot_undefined b = false) := by
  unfold build_buffer
  cases hf : find_mem d.mems cb.mem_id with
  | none => exact ⟨rfl, rfl, rfl, fun h => h⟩
  | some mi =>
    have hptr := mem_map_total env d.trace { ptr := NULL, map := PW_MAP_RANGE_INIT }
      (d.mems.getD mi default).fd prot cb.offset cb.size henv
    have hmal := henv.2.2 (mem_map env d.trace { ptr := NULL, map := PW_MAP_RANGE_INIT }
      (d.mems.getD mi default).fd prot cb.offset cb.size).2.2
    simp only [set_mix, hptr, if_false, hmal, Bool.false_eq_true]
    split
    · refine ⟨rfl, rfl, by simp, ?_⟩
      intro hall b hb
      simp only [if_true, set_last_append, List.mem_append, List.mem_singleton] at hb
      rcases hb with hb | hb
      · exact hall b hb
      · subst hb; rfl
    · refine ⟨rfl, rfl, by simp, ?_⟩
      intro hall b hb
      simp only [if_true, set_last_append, List.mem_append, List.mem_singleton] at hb
      rcases hb with hb | hb
      · exact hall b hb
      · subst hb; rfl

theorem build_buffers_io (env : Env) (k prot : Nat) (henv : env_total env) :
    ∀ (msg : List pw_client_node_buffer) (i : Nat) (d : node_data),
      (build_buffers env k prot msg i d).2.position = d.position ∧
      (build_buffers env k prot msg i d).2.undefined = d.undefined ∧
      ((build_buffers env k prot msg i d).2.mix_pool k).io = (d.mix_pool k).io ∧
      ((∀ b ∈ (d.mix_pool k).buffers, slot_undefined b = false) →
        ∀ b ∈ ((build_buffers env k prot msg i d).2.mix_pool k).buffers,
          slot_undefined b = false) := by
  intro msg
  induction msg with
  | nil =>
    intro i d
    exact ⟨rfl, rfl, rfl, fun h => h⟩
  | cons cb rest ih =>
    intro i d
    obtain ⟨b1, b2, b3, b4⟩ := build_buffer_io env d k prot i cb henv
    unfold build_buffers
    cases hb : build_buffer env d k prot i cb with
    | mk r d1 =>
      rw [hb] at b1 b2 b3 b4
      cases r with
      | some res => exact ⟨b1, b2, b3, b4⟩
      | none =>
        obtain ⟨c1, c2, c3, c4⟩ := ih (i + 1) d1
        exact ⟨c1.trans b1, c2.trans b2, c3.trans b3, fun h => c4 (b4 h)⟩

/-- In a well formed registry the ids of a list without `SPA_ID_INVALID` hold on each entry
as many references as the list names its id. -/
theorem acq_eq_count (ex : Bool) (page : Nat) (ms : List mem) (R : List Nat) (i : Nat)
    (m : mem) (hs : reg_shape ex page ms) (hinv : SPA_ID_INVALID ∉ R)
    (hm : ms[i]? = some m) : acq ms R i = R.count m.id := by
  rw [acq_eq ms R i m hm]
  by_cases hid : m.id = SPA_ID_INVALID
  · rw [hid, List.count_eq_zero.2 hinv]
    split <;> rfl
  · rw [if_pos (find_mem_of_reg_shape ex page ms i m hs hm hid)]

/-- Raising ref counts, below `2^32` and not on entries without id, leaves the registry
well formed. -/
theorem reg_shape_refs (ex : Bool) (page : Nat) (ms ms' : List mem)
    (hs : reg_shape ex page ms) (hlen : ms'.length = ms.length)
    (hent : ∀ (i : Nat) (m : mem), ms[i]? = some m →
      ∃ r, ms'[i]? = some { m with ref := r } ∧ r < U32 ∧ (m.id = SPA_ID_INVALID → r = 0)) :
    reg_shape ex page ms' := by
  obtain ⟨r1, r2, r3, r4, r5⟩ := hs
  have hback : ∀ (i : Nat) (m' : mem), ms'[i]? = some m' →
      ∃ m r, ms[i]? = some m ∧ m' = { m with ref := r } ∧ r < U32 ∧
        (m.id = SPA_ID_INVALID → r = 0) := by
    intro i m' hi
    obtain ⟨m, hm⟩ := getElem?_of_length_eq ms' ms i m' hi hlen.symm
    obtain ⟨r, hr, h1, h2⟩ := hent i m hm
    rw [hi] at hr
    exact ⟨m, r, hm, Option.some.inj hr, h1, h2⟩
  refine ⟨?_, ?_, ?_, ?_, ?_⟩
  · intro i j mi mj hi hj hij hne
    obtain ⟨ni, ri, hni, rfl, -, -⟩ := hback i mi hi
    obtain ⟨nj, rj, hnj, rfl, -, -⟩ := hback j mj hj
    exact r1 i j ni nj hni hnj hij hne
  · intro i j mi mj hi hj hij hne
    obtain ⟨ni, ri, hni, rfl, -, -⟩ := hback i mi hi
    obtain ⟨nj, rj, hnj, rfl, -, -⟩ := hback j mj hj
    exact r2 i j ni nj hni hnj hij hne
  · intro i m' hi
    obtain ⟨n, r, hn, rfl, h1, h2⟩ := hback i m' hi
    obtain ⟨-, -, l3, l4⟩ := r3 i n hn
    exact ⟨h1, h2, l3, l4⟩
  · intro hx i m' hi
    obtain ⟨n, r, hn, rfl, -, -⟩ := hback i m' hi
    exact r4 hx i n hn
  · intro hx
    obtain ⟨r5a, r5b⟩ := r5 hx
    refine ⟨?_, ?_⟩
    · intro i j mi mj hi hj hij hne
      obtain ⟨ni, ri, hni, rfl, -, -⟩ := hback i mi hi
      obtain ⟨nj, rj, hnj, rfl, -, -⟩ := hback j mj hj
      exact r5a i j ni nj hni hnj hij hne
    · intro i m' hi hlive
      obtain ⟨n, r, hn, rfl, -, -⟩ := hback i m' hi
      exact r5b i n hn hlive

/-- Where `mmap` and `malloc` do not fail, the build of a message that names no
`SPA_ID_INVALID`, on a bound mix and without overflow of a ref count, keeps the invariant
and the lists of the pool. -/
theorem build_buffers_io_acct (env : Env) (ex : Bool) (d : node_data) (k prot : Nat)
    (msg : List pw_client_node_buffer) (henv : env_total env) (h : io_acct env ex d)
    (hk : k ∈ bound_slots d) (hinv : SPA_ID_INVALID ∉ msg_ids msg)
    (hovf : ∀ m ∈ d.mems, m.ref + msg_refs msg < U32) :
    io_acct env ex (build_buffers env k prot msg 0 d).2 ∧
    (build_buffers env k prot msg 0 d).2.mix = d.mix := by
  obtain ⟨L, tr, hpre, -, hids, hra, hfound, hfr, htr, hnr⟩ :=
    build_buffers_spec env k prot d.mems msg 0 d [] (refs_added_refl d.mems) (by
      intro n m0 hm0
      have := hovf m0 (List.getElem?_mem hm0)
      simp only [List.length_nil]
      omega)
  obtain ⟨b1, b2, b3, b4⟩ := build_buffers_io env k prot henv msg 0 d
  generalize (build_buffers env k prot msg 0 d).2 = d2 at hids hra hfr htr b1 b2 b3 b4 ⊢
  rw [List.nil_append] at hra
  obtain ⟨hs, ⟨p1, p2, p3, p4, p5, p6⟩, ⟨a1, a2⟩, ht⟩ := h
  obtain ⟨hmix, hfree, hpool⟩ := hfr
  obtain ⟨hlen, hent⟩ := hra
  have hLinv : SPA_ID_INVALID ∉ L := fun hc => hinv (hpre.subset hc)
  have hLlen : L.length ≤ msg_refs msg :=
    le_trans hpre.length_le (msg_ids_length_le msg)
  have hnd := bound_slots_nodup d p1
  have hbs := bound_slots_congr d d2 hmix
  have hent2 : ∀ (i : Nat) (m : mem), d.mems[i]? = some m →
      d2.mems[i]? = some { m with ref := m.ref + L.count m.id } := by
    intro i m hm
    rw [hent i m hm, acq_eq_count ex env.sc_pagesize d.mems L i m hs hLinv hm]
  have hback : ∀ (i : Nat) (m' : mem), d2.mems[i]? = some m' →
      ∃ m, d.mems[i]? = some m ∧ m' = { m with ref := m.ref + L.count m.id } := by
    intro i m' hi
    obtain ⟨m, hm⟩ := getElem?_of_length_eq d2.mems d.mems i m' hi hlen.symm
    have := hent2 i m hm
    rw [hi] at this
    exact ⟨m, hm, Option.some.inj this⟩
  have hrec : ∀ X, recorded_refs d2 X = recorded_refs d X + L.count X := by
    intro X
    have := recorded_refs_update d d2 k X ⟨hmix, hfree, hpool⟩ hnd hk
    rw [hids, List.count_append] at this
    omega
  have hio : ∀ j, (d2.mix_pool j).io = (d.mix_pool j).io := by
    intro j
    by_cases hj : j = k
    · rw [hj]; exact b3
    · rw [hpool j hj]
  have hiop := io_ptrs_congr d d2 b1 hio
  refine ⟨⟨?_, ⟨?_, ?_, ?_, ?_, ?_, ?_⟩, ⟨?_, ?_⟩, ?_⟩, hmix⟩
  · refine reg_shape_refs ex env.sc_pagesize d.mems d2.mems hs hlen ?_
    intro i m hm
    refine ⟨m.ref + L.count m.id, hent2 i m hm, ?_, ?_⟩
    · have h1 := hovf m (List.getElem?_mem hm)
      have h2 := List.count_le_length m.id L
      omega
    · intro hid
      rw [hid, List.count_eq_zero.2 hLinv, (hs.2.2.1 i m hm).2.1 hid]
  · rw [all_slots_congr d d2 hmix hfree]; exact p1
  · intro j b hj
    by_cases hjk : j = k
    · rw [hjk] at hj
      exact b4 (p2 k) b hj
    · rw [hpool j hjk] at hj
      exact p2 j b hj
  · rw [b2]; exact p3
  · intro j hj
    rw [hbs] at hj
    by_cases hjk : j = k
    · rw [hjk, hids, List.mem_append]
      rintro (hc | hc)
      · exact p4 k hk hc
      · exact hLinv hc
    · rw [hpool j hjk]
      exact p4 j hj
  · intro j hj X hX
    rw [hbs] at hj
    have hold : ∀ Y, (∃ (n : Nat) (m : mem), d.mems[n]? = some m ∧ m.id = Y) →
        ∃ (n : Nat) (m : mem), d2.mems[n]? = some m ∧ m.id = Y := by
      rintro Y ⟨n, m, hn, hid⟩
      exact ⟨n, _, hent2 n m hn, hid⟩
    by_cases hjk : j = k
    · rw [hjk, hids, List.mem_append] at hX
      rcases hX with hX | hX
      · exact hold X (p5 k hk X hX)
      · obtain ⟨n, hn⟩ := hfound X hX
        obtain ⟨⟨m, hm, hid⟩, -⟩ := (find_mem_some_iff d.mems X n).1 hn
        exact hold X ⟨n, m, hm, hid⟩
    · rw [hpool j hjk] at hX
      exact hold X (p5 j hj X hX)
  · intro hx j hj
    rw [hbs] at hj
    rw [hio j]
    exact p6 hx j hj
  · intro i m' hi
    obtain ⟨m, hm, rfl⟩ := hback i m' hi
    rw [io_refs_eq d2 i _ hi, hiop]
    have h1 := a1 i m hm
    rw [io_refs_eq d i m hm] at h1
    have h2 := hrec m.id
    show recorded_refs d2 m.id
      + (if m.map.ptr = NULL then 0 else (io_ptrs d).count m.map.ptr) ≤ m.ref + L.count m.id
    omega
  · intro hx i m' hi
    obtain ⟨m, hm, rfl⟩ := hback i m' hi
    rw [io_refs_eq d2 i _ hi, hiop]
    have h1 := a2 hx i m hm
    rw [io_refs_eq d i m hm] at h1
    have h2 := hrec m.id
    show m.ref + L.count m.id = recorded_refs d2 m.id
      + (if m.map.ptr = NULL then 0 else (io_ptrs d).count m.map.ptr)
    omega
  · intro hx
    obtain ⟨t1, t2⟩ := ht hx
    rw [htr, close_count_append, close_count_no_release tr hnr,
      dead_count_refs_added d.mems d2.mems L ⟨hlen, hent⟩]
    exact ⟨release_exact_append _ _ t1 (release_exact_of_no_release tr hnr), by omega⟩

/-- Where `mmap` and `malloc` do not fail, the handler `client_node_port_use_buffers` keeps
the invariant, for a message that names no `SPA_ID_INVALID` and overflows no ref count. -/
theorem port_use_buffers_io_acct (env : Env) (ex : Bool) (d : node_data)
    (direction : spa_direction) (port_id mix_id : Nat) (msg : List pw_client_node_buffer)
    (henv : env_total env) (h : io_acct env ex d) (hinv : SPA_ID_INVALID ∉ msg_ids msg)
    (hovf : ∀ m ∈ d.mems, m.ref + msg_refs msg < U32) :
    io_acct env ex (client_node_port_use_buffers env d direction port_id mix_id msg).2 := by
  obtain ⟨e1, e2, -, -, -, e6, -⟩ := ensure_mix_io_acct env ex d direction port_id mix_id h
  unfold client_node_port_use_buffers
  cases he : ensure_mix env d direction port_id mix_id with
  | mk r d0 =>
    rw [he] at e1 e2 e6
    cases r with
    | none => exact e1
    | some k =>
      have hk0 : k ∈ bound_slots d0 := (e6 k rfl).1
      obtain ⟨c0, c1, -, -, -, -, -, c7⟩ := clear_buffers_io_acct env ex d0 k e1 hk0
      have hk1 : k ∈ bound_slots (clear_buffers env d0 k) := by
        rw [bound_slots_congr d0 _ c1]; exact hk0
      have hovf1 : ∀ m ∈ (clear_buffers env d0 k).mems, m.ref + msg_refs msg < U32 := by
        intro m' hm'
        obtain ⟨i, hi⟩ := List.mem_iff_getElem?.1 hm'
        obtain ⟨m, hm, hle⟩ := c7 i m' hi
        simp only at e2
        rw [e2] at hm
        have := hovf m (List.getElem?_mem hm)
        omega
      obtain ⟨b0, b1⟩ := build_buffers_io_acct env ex (clear_buffers env d0 k) k
        (use_buffers_prot direction) msg henv c0 hk1 hinv hovf1
      dsimp only
      cases hb : build_buffers env k (use_buffers_prot direction) msg 0
          (clear_buffers env d0 k) with
      | mk r2 d2 =>
        rw [hb] at b0 b1
        cases r2 with
        | some res =>
          have hk2 : k ∈ bound_slots d2 := by
            rw [bound_slots_congr _ d2 b1]; exact hk1
          exact (clear_buffers_io_acct env ex d2 k b0 hk2).1
        | none =>
          exact io_acct_frame env ex d2 _ _ b0 rfl rfl rfl rfl rfl (fun _ => rfl)
            (fun _ => rfl) rfl (no_release_port_use_buffers _ _ _ _)

/-! ### Binding an io area: `map_io` -/

theorem pw_map_range_init_start (offset size page : Nat) :
    (pw_map_range_init offset size page).start = offset % page := by
  unfold pw_map_range_init SPA_ROUND_DOWN_N
  have := Nat.mod_le offset page
  show offset - (offset - offset % page) = offset % page
  omega

/-- Two page aligned addresses that are less than a page apart are the same. -/
theorem aligned_add_eq (a b s page : Nat) (ha : a % page = 0) (hb : b % page = 0)
    (hs : s < page) (h : a + s = b) : s = 0 ∧ a = b := by
  have h1 : (a + s) % page = s := by
    rw [Nat.add_mod, ha, Nat.zero_add, Nat.mod_mod, Nat.mod_eq_of_lt hs]
  rw [h, hb] at h1
  omega

/-- Where `mmap` does not fail, `mem_map` returns the cached mapping when it is one of the
window asked for, and a new mapping otherwise. -/
theorem mem_map_cases (env : Env) (tr : List Event) (map : mapping) (fd : Int)
    (prot offset size : Nat) (henv : env_total env) :
    (map.ptr ≠ NULL ∧
      map.map.offset = (pw_map_range_init offset size env.sc_pagesize).offset ∧
      map.map.size = (pw_map_range_init offset size env.sc_pagesize).size ∧
      mem_map env tr map fd prot offset size = (map.ptr + map.map.start, map, tr)) ∨
    ((map.ptr = NULL ∨
        map.map.offset ≠ (pw_map_range_init offset size env.sc_pagesize).offset ∨
        map.map.size ≠ (pw_map_range_init offset size env.sc_pagesize).size) ∧
      mem_map env tr map fd prot offset size
        = (env.mmap tr map.ptr (pw_map_range_init offset size env.sc_pagesize).size prot fd
              (pw_map_range_init offset size env.sc_pagesize).offset
            + (pw_map_range_init offset size env.sc_pagesize).start,
           { ptr := env.mmap tr map.ptr (pw_map_range_init offset size env.sc_pagesize).size
               prot fd (pw_map_range_init offset size env.sc_pagesize).offset,
             map := pw_map_range_init offset size env.sc_pagesize },
           tr ++ [Event.mmap map.ptr (pw_map_range_init offset size env.sc_pagesize).size prot
             fd (pw_map_range_init offset size env.sc_pagesize).offset
             (env.mmap tr map.ptr (pw_map_range_init offset size env.sc_pagesize).size prot fd
               (pw_map_range_init offset size env.sc_pagesize).offset)])) := by
  unfold mem_map
  dsimp only
  by_cases h1 : map.ptr = NULL ∨
      map.map.offset ≠ (pw_map_range_init offset size env.sc_pagesize).offset ∨
      map.map.size ≠ (pw_map_range_init offset size env.sc_pagesize).size
  · rw [if_pos h1]
    obtain ⟨e1, -, -⟩ := henv.2.1 tr map.ptr
      (pw_map_range_init offset size env.sc_pagesize).size prot fd
      (pw_map_range_init offset size env.sc_pagesize).offset
    rw [if_neg e1]
    exact Or.inr ⟨h1, rfl⟩
  · rw [if_neg h1]
    have hp : map.ptr ≠ NULL := fun h => h1 (Or.inl h)
    have ho : map.map.offset = (pw_map_range_init offset size env.sc_pagesize).offset := by
      by_contra hc; exact h1 (Or.inr (Or.inl hc))
    have hz : map.map.size = (pw_map_range_init offset size env.sc_pagesize).size := by
      by_contra hc; exact h1 (Or.inr (Or.inr hc))
    exact Or.inl ⟨hp, ho, hz, rfl⟩

theorem no_release_mmap (hint size prot : Nat) (fd : Int) (offset res : Nat) :
    no_release [Event.mmap hint size prot fd offset res] := by
  intro e he
  rw [List.mem_singleton] at he
  subst he
  rfl

theorem no_release_nil : no_release [] := by
  intro e he
  simp at he

/-- Where `mmap` does not fail and hands out an address not in use, `map_io` for an id
other than `SPA_ID_INVALID` returns early when the id is not registered, and otherwise
takes a reference on the entry and hands out the base of its mapping plus `start`: the
cached mapping, or a new one when there was none or the window differs. The registry stays
well formed. -/
theorem map_io_bind (env : Env) (ex : Bool) (d : node_data) (memid offset size : Nat)
    (henv : env_total env) (hs : reg_shape ex env.sc_pagesize d.mems)
    (hmid : memid ≠ SPA_ID_INVALID) (hfresh : mmap_fresh env d)
    (hovf : ∀ m ∈ d.mems, m.ref + 1 < U32)
    (hal : ex = true → offset % env.sc_pagesize = 0) :
    (find_mem d.mems memid = none ∧ map_io env d memid offset size = (none, d)) ∨
    ∃ (i : Nat) (m : mem) (nm : mapping) (blk : List Event),
      d.mems[i]? = some m ∧ find_mem d.mems memid = some i ∧
      map_io env d memid offset size
        = (some (nm.ptr + nm.map.start, size),
           { d with
             mems := modify_at (fun _ => { m with map := nm, ref := m.ref + 1 }) d.mems i
             trace := d.trace ++ blk }) ∧
      no_release blk ∧ nm.ptr ≠ NULL ∧
      reg_shape ex env.sc_pagesize
        (modify_at (fun _ => { m with map := nm, ref := m.ref + 1 }) d.mems i) ∧
      (nm = m.map ∨
       (nm.ptr ∉ io_ptrs d ∧
         (m.map.ptr = NULL ∨
          m.map.map.offset ≠ (pw_map_range_init offset size env.sc_pagesize).offset ∨
          m.map.map.size ≠ (pw_map_range_init offset size env.sc_pagesize).size))) := by
  unfold map_io
  rw [if_neg hmid]
  cases hf : find_mem d.mems memid with
  | none => exact Or.inl ⟨rfl, rfl⟩
  | some i =>
    right
    obtain ⟨⟨m, hm, hid⟩, -⟩ := (find_mem_some_iff d.mems memid i).1 hf
    have hgd : d.mems.getD i default = m := getD_of_getElem? d.mems i m default hm
    obtain ⟨l1, l2, l3, l4⟩ := hs.2.2.1 i m hm
    have hinc : inc32 m.ref = m.ref + 1 := inc32_of_lt m.ref (hovf m (List.getElem?_mem hm))
    have hnn := mem_map_total env d.trace m.map m.fd (PROT_READ ||| PROT_WRITE) offset size henv
    have hmod : ∀ (nm : mapping),
        modify_at (fun x => { x with ref := inc32 x.ref })
          (modify_at (fun x => { x with map := nm }) d.mems i) i
        = modify_at (fun _ => ({ m with map := nm, ref := m.ref + 1 } : mem)) d.mems i := by
      intro nm
      rw [modify_at_modify_at]
      apply modify_at_congr_at
      intro x hx
      rw [hm] at hx
      cases hx
      show ({ m with map := nm, ref := inc32 m.ref } : mem) = _
      rw [hinc]
    simp only [hgd]
    rw [if_neg hnn]
    rcases mem_map_cases env d.trace m.map m.fd (PROT_READ ||| PROT_WRITE) offset size henv with
      ⟨hp, ho, hz, heq⟩ | ⟨hmiss, heq⟩
    · refine ⟨i, m, m.map, [], hm, rfl, ?_, no_release_nil, hp, ?_, Or.inl rfl⟩
      · rw [heq]
        simp only [hmod, List.append_nil]
      · refine reg_shape_modify ex env.sc_pagesize d.mems i m _ hs hm (Or.inl rfl) (Or.inl rfl)
          ⟨hovf m (List.getElem?_mem hm), ?_, l3, l4⟩ (fun hx => hs.2.2.2.1 hx i m hm) ?_
        · intro hc
          have : m.id = SPA_ID_INVALID := hc
          rw [hid] at this
          exact absurd this hmid
        · intro hx
          exact ⟨Or.inl rfl, fun hl => (hs.2.2.2.2 hx).2 i m hm hl⟩
    · obtain ⟨f1, f2⟩ := hfresh m.map.ptr (pw_map_range_init offset size env.sc_pagesize).size
        (PROT_READ ||| PROT_WRITE) m.fd (pw_map_range_init offset size env.sc_pagesize).offset
      obtain ⟨e1, e2, e3⟩ := henv.2.1 d.trace m.map.ptr
        (pw_map_range_init offset size env.sc_pagesize).size (PROT_READ ||| PROT_WRITE) m.fd
        (pw_map_range_init offset size env.sc_pagesize).offset
      refine ⟨i, m,
        { ptr := env.mmap d.trace m.map.ptr (pw_map_range_init offset size env.sc_pagesize).size
            (PROT_READ ||| PROT_WRITE) m.fd
            (pw_map_range_init offset size env.sc_pagesize).offset,
          map := pw_map_range_init offset size env.sc_pagesize },
        [Event.mmap m.map.ptr (pw_map_range_init offset size env.sc_pagesize).size
          (PROT_READ ||| PROT_WRITE) m.fd (pw_map_range_init offset size env.sc_pagesize).offset
          (env.mmap d.trace m.map.ptr (pw_map_range_init offset size env.sc_pagesize).size
            (PROT_READ ||| PROT_WRITE) m.fd
            (pw_map_range_init offset size env.sc_pagesize).offset)],
        hm, rfl, ?_, no_release_mmap _ _ _ _ _ _, e2, ?_, Or.inr ⟨f1, hmiss⟩⟩
      · rw [heq]
        simp only [hmod]
      · refine reg_shape_modify ex env.sc_pagesize d.mems i m _ hs hm (Or.inl rfl)
          (Or.inr (Or.inr ?_))
          ⟨hovf m (List.getElem?_mem hm), ?_, e3, ?_⟩ ?_ ?_
        · intro j mj _ hj
          exact f2 mj (List.getElem?_mem hj)
        · intro hc
          have : m.id = SPA_ID_INVALID := hc
          rw [hid] at this
          exact absurd this hmid
        · show (pw_map_range_init offset size env.sc_pagesize).start < env.sc_pagesize
          rw [pw_map_range_init_start]
          exact Nat.mod_lt _ henv.1
        · intro hx
          show (pw_map_range_init offset size env.sc_pagesize).start = 0
          rw [pw_map_range_init_start]
          exact hal hx
        · intro hx
          exact ⟨Or.inl rfl, fun hl => (hs.2.2.2.2 hx).2 i m hm hl⟩

/-! ### Binding an io area: the accounting -/

theorem ite_one_le (c : Prop) [Decidable c] : (if c then 1 else 0) ≤ 1 := by
  split <;> omega

/-- The state after an io area was bound: the entry at index `i` has one reference more
and the mapping `nm`, the pointer `q = nm.ptr + nm.map.start` has taken the place of the io
pointer `old` (or of no pointer, for `old = q`), and nothing else that the invariant reads
has changed. With `exact`, `old` is `NULL` and the mapping that other io pointers point
to has not moved. -/
theorem io_acct_bind_ptr (env : Env) (ex : Bool) (d d' : node_data) (i : Nat) (m : mem)
    (nm : mapping) (q old : Nat) (blk : List Event)
    (h : io_acct env ex d) (hm : d.mems[i]? = some m)
    (hs' : reg_shape ex env.sc_pagesize
      (modify_at (fun _ => { m with map := nm, ref := m.ref + 1 }) d.mems i))
    (hnm : nm.ptr ≠ NULL) (hq : q = nm.ptr + nm.map.start)
    (hcase : nm = m.map ∨ nm.ptr ∉ io_ptrs d)
    (hex : ex = true → old = NULL ∧ (nm = m.map ∨ m.map.ptr = NULL ∨ io_refs d i = 0))
    (hcount : ∀ b, (io_ptrs d').count b + (if old = b then 1 else 0)
      = (io_ptrs d).count b + (if q = b then 1 else 0))
    (hmems : d'.mems = modify_at (fun _ => { m with map := nm, ref := m.ref + 1 }) d.mems i)
    (hmix : d'.mix = d.mix) (hfree : d'.free_mix = d.free_mix)
    (hu : d'.undefined = d.undefined)
    (hb : ∀ j, (d'.mix_pool j).buffers = (d.mix_pool j).buffers)
    (hio6 : ex = true → ∀ j, j ∉ bound_slots d → (d'.mix_pool j).io = NULL)
    (htr : d'.trace = d.trace ++ blk) (hblk : no_release blk) : io_acct env ex d' := by
  obtain ⟨hs, ⟨p1, p2, p3, p4, p5, p6⟩, ⟨a1, a2⟩, ht⟩ := h
  have hbs := bound_slots_congr d d' hmix
  have hrec : ∀ X, recorded_refs d' X = recorded_refs d X :=
    fun X => recorded_refs_congr d d' X hmix hb
  have hi' : (modify_at (fun _ => ({ m with map := nm, ref := m.ref + 1 } : mem)) d.mems i)[i]?
      = some { m with map := nm, ref := m.ref + 1 } := modify_at_getElem?_same _ d.mems i m hm
  have hget : ∀ (j : Nat) (mj : mem), d'.mems[j]? = some mj →
      (j = i ∧ mj = { m with map := nm, ref := m.ref + 1 }) ∨ (j ≠ i ∧ d.mems[j]? = some mj) := by
    intro j mj hj
    rw [hmems] at hj
    by_cases hji : j = i
    · subst hji
      rw [hi'] at hj
      exact Or.inl ⟨rfl, (Option.some.inj hj).symm⟩
    · rw [modify_at_getElem?_ne _ d.mems i j hji] at hj
      exact Or.inr ⟨hji, hj⟩
  obtain ⟨-, -, n3, n4⟩ := hs'.2.2.1 i _ hi'
  have hother : ∀ (j : Nat) (mj : mem), j ≠ i → d.mems[j]? = some mj → mj.map.ptr ≠ NULL →
      q ≠ mj.map.ptr := by
    intro j mj hji hj hne hc
    have hj' : (modify_at (fun _ => ({ m with map := nm, ref := m.ref + 1 } : mem))
        d.mems i)[j]? = some mj := by
      rw [modify_at_getElem?_ne _ d.mems i j hji]; exact hj
    obtain ⟨-, -, j3, -⟩ := hs'.2.2.1 j mj hj'
    rw [hq] at hc
    obtain ⟨-, e⟩ := aligned_add_eq nm.ptr mj.map.ptr nm.map.start env.sc_pagesize n3 j3 n4 hc
    exact hji (hs'.2.1 j i mj _ hj' hi' e.symm hne)
  have hIi := io_refs_eq d i m hm
  refine ⟨by rw [hmems]; exact hs', ⟨?_, ?_, ?_, ?_, ?_, ?_⟩, ⟨?_, ?_⟩, ?_⟩
  · rw [all_slots_congr d d' hmix hfree]; exact p1
  · intro k b hk
    rw [hb k] at hk
    exact p2 k b hk
  · rw [hu]; exact p3
  · intro k hk
    rw [hbs] at hk
    rw [hb k]
    exact p4 k hk
  · intro k hk X hX
    rw [hbs] at hk
    rw [hb k] at hX
    obtain ⟨n, mn, hn, hid⟩ := p5 k hk X hX
    rw [hmems]
    by_cases hni : n = i
    · subst hni
      rw [hm] at hn
      cases hn
      exact ⟨n, _, hi', hid⟩
    · exact ⟨n, mn, by rw [modify_at_getElem?_ne _ d.mems i n hni]; exact hn, hid⟩
  · intro hx j hj
    rw [hbs] at hj
    exact hio6 hx j hj
  · intro j mj hj
    rw [io_refs_eq d' j mj hj, hrec]
    rcases hget j mj hj with ⟨hji, hmj⟩ | ⟨hji, hmj⟩
    · subst hji
      subst hmj
      have h1 := a1 j m hm
      have hc := hcount nm.ptr
      have b1 := ite_one_le (old = nm.ptr)
      have b2 := ite_one_le (q = nm.ptr)
      show recorded_refs d m.id + (if nm.ptr = NULL then 0 else (io_ptrs d').count nm.ptr)
        ≤ m.ref + 1
      rw [if_neg hnm]
      rcases hcase with e | e
      · have e2 : m.map.ptr = nm.ptr := by rw [e]
        rw [hIi, e2, if_neg hnm] at h1
        omega
      · have e2 : (io_ptrs d).count nm.ptr = 0 := List.count_eq_zero.2 e
        omega
    · have h1 := a1 j mj hmj
      rw [io_refs_eq d j mj hmj] at h1
      by_cases hp : mj.map.ptr = NULL
      · rw [if_pos hp] at h1 ⊢
        exact h1
      · rw [if_neg hp] at h1 ⊢
        have hc := hcount mj.map.ptr
        rw [if_neg (hother j mj hji hmj hp)] at hc
        omega
  · intro hx j mj hj
    obtain ⟨hold, hkept⟩ := hex hx
    rw [io_refs_eq d' j mj hj, hrec]
    rcases hget j mj hj with ⟨hji, hmj⟩ | ⟨hji, hmj⟩
    · subst hji
      subst hmj
      have h1 := a2 hx j m hm
      have hc := hcount nm.ptr
      have hst : nm.map.start = 0 := hs'.2.2.2.1 hx j _ hi'
      have hqn : q = nm.ptr := by rw [hq, hst]; rfl
      rw [if_pos hqn, if_neg (by rw [hold]; exact fun e => hnm e.symm)] at hc
      show m.ref + 1
        = recorded_refs d m.id + (if nm.ptr = NULL then 0 else (io_ptrs d').count nm.ptr)
      rw [if_neg hnm]
      have hhit : nm = m.map → (io_ptrs d).count nm.ptr = io_refs d j := by
        intro e
        have e2 : m.map.ptr = nm.ptr := by rw [e]
        rw [hIi, e2, if_neg hnm]
      have hmiss : nm.ptr ∉ io_ptrs d → (io_ptrs d).count nm.ptr = 0 :=
        fun e => List.count_eq_zero.2 e
      rcases hkept with e | e | e
      · have := hhit e
        omega
      · have e0 : io_refs d j = 0 := by rw [hIi, if_pos e]
        rcases hcase with f | f
        · have := hhit f
          omega
        · have := hmiss f
          omega
      · rcases hcase with f | f
        · have := hhit f
          omega
        · have := hmiss f
          omega
    · have h1 := a2 hx j mj hmj
      rw [io_refs_eq d j mj hmj] at h1
      by_cases hp : mj.map.ptr = NULL
      · rw [if_pos hp] at h1 ⊢
        exact h1
      · rw [if_neg hp] at h1 ⊢
        have hc := hcount mj.map.ptr
        rw [if_neg (hother j mj hji hmj hp),
          if_neg (by rw [hold]; exact fun e => hp e.symm)] at hc
        omega
  · intro hx
    obtain ⟨t1, t2⟩ := ht hx
    have hdc := dead_count_modify_at d.mems i m
      ({ m with map := nm, ref := m.ref + 1 } : mem) hm
    rw [htr, hmems, close_count_append, close_count_no_release blk hblk]
    refine ⟨release_exact_append _ _ t1 (release_exact_of_no_release blk hblk), ?_⟩
    change dead_count _ + (if m.fd = -1 then 1 else 0)
      = dead_count d.mems + (if m.fd = -1 then 1 else 0) at hdc
    omega

/-! ### Unbinding an io area -/

/-- The release by pointer of an io pointer of the node that is not `NULL`: the entry whose
mapping it is the base of, if there is one, loses one reference. -/
theorem release_ptr_acct (env : Env) (ex : Bool) (d : node_data) (q : Nat)
    (h : io_acct env ex d) (hq : q ≠ NULL) (hqin : q ∈ io_ptrs d) :
    ∃ ms blk,
      release_ptr d q = { d with mems := ms, trace := d.trace ++ blk } ∧
      reg_shape ex env.sc_pagesize ms ∧ ms.length = d.mems.length ∧
      (∀ (i : Nat) (m : mem), d.mems[i]? = some m → ∃ m', ms[i]? = some m' ∧
        m'.ref + (if m.map.ptr = q then 1 else 0) = m.ref ∧
        ((m'.id = m.id ∧ m'.map.ptr = m.map.ptr) ∨
         (m'.id = SPA_ID_INVALID ∧ m'.ref = 0 ∧
           (m'.map.ptr = NULL ∨ (ex = true ∧ m'.map.ptr = m.map.ptr))))) ∧
      (ex = false → release_exact blk ∧
        close_count blk + dead_count d.mems = dead_count ms) := by
  obtain ⟨hs, -, ⟨a1, -⟩, -⟩ := h
  unfold release_ptr
  cases hf : find_mem_ptr d.mems q with
  | none =>
    have hno := find_mem_ptr_none d.mems q hf
    refine ⟨d.mems, [], by simp, hs, rfl, ?_, ?_⟩
    · intro i m hm
      exact ⟨m, hm, by rw [if_neg (hno i m hm)]; rfl, Or.inl ⟨rfl, rfl⟩⟩
    · intro _
      exact ⟨release_exact.nil, by simp [close_count]⟩
  | some i =>
    obtain ⟨⟨m, hm, hmp⟩, -⟩ := (find_mem_ptr_some_iff d.mems q i).1 hf
    have href : 1 ≤ m.ref := by
      have h1 := a1 i m hm
      rw [io_refs_eq d i m hm, hmp, if_neg hq] at h1
      have : 0 < (io_ptrs d).count q := List.count_pos_iff.2 hqin
      omega
    obtain ⟨m1, blk, heq, hs1, hr1, hcase1, htr1⟩ :=
      unref_mem_acct ex env.sc_pagesize d q i m hs hm href
    refine ⟨_, blk, heq, hs1, modify_at_length _ d.mems i, ?_, htr1⟩
    intro j mj hj
    by_cases hji : j = i
    · subst hji
      rw [hm] at hj
      cases hj
      refine ⟨m1, modify_at_getElem?_same _ d.mems j _ hm, ?_, hcase1⟩
      rw [if_pos hmp]
      exact hr1
    · refine ⟨mj, by rw [modify_at_getElem?_ne _ d.mems i j hji]; exact hj, ?_,
        Or.inl ⟨rfl, rfl⟩⟩
      have hne : mj.map.ptr ≠ q := by
        intro hc
        exact hji (hs.2.1 j i mj m hj hm (by rw [hc, hmp]) (by rw [hc]; exact hq))
      rw [if_neg hne]
      rfl

/-- The state after an io pointer `q` of the node, not `NULL`, was released and set to
`NULL`: given the registry and the trace that the release leaves, the invariant holds
again. -/
theorem io_acct_unbind_ptr (env : Env) (ex : Bool) (d d' : node_data) (q : Nat)
    (ms : List mem) (blk blk2 : List Event)
    (h : io_acct env ex d) (hq : q ≠ NULL) (hqin : q ∈ io_ptrs d)
    (hs2 : reg_shape ex env.sc_pagesize ms) (hlen : ms.length = d.mems.length)
    (hrel : ∀ (i : Nat) (m : mem), d.mems[i]? = some m → ∃ m', ms[i]? = some m' ∧
      m'.ref + (if m.map.ptr = q then 1 else 0) = m.ref ∧
      ((m'.id = m.id ∧ m'.map.ptr = m.map.ptr) ∨
       (m'.id = SPA_ID_INVALID ∧ m'.ref = 0 ∧
         (m'.map.ptr = NULL ∨ (ex = true ∧ m'.map.ptr = m.map.ptr)))))
    (htr : ex = false → release_exact blk ∧
      close_count blk + dead_count d.mems = dead_count ms)
    (hcount : ∀ b, (io_ptrs d').count b + (if q = b then 1 else 0)
      = (io_ptrs d).count b + (if NULL = b then 1 else 0))
    (hmems : d'.mems = ms) (hmix : d'.mix = d.mix) (hfree : d'.free_mix = d.free_mix)
    (hu : d'.undefined = d.undefined)
    (hb : ∀ j, (d'.mix_pool j).buffers = (d.mix_pool j).buffers)
    (hio6 : ex = true → ∀ j, j ∉ bound_slots d → (d'.mix_pool j).io = NULL)
    (htrace : d'.trace = d.trace ++ blk ++ blk2) (hblk2 : no_release blk2) :
    io_acct env ex d' := by
  obtain ⟨hs, ⟨p1, p2, p3, p4, p5, p6⟩, ⟨a1, a2⟩, ht⟩ := h
  have hbs := bound_slots_congr d d' hmix
  have hrec : ∀ X, recorded_refs d' X = recorded_refs d X :=
    fun X => recorded_refs_congr d d' X hmix hb
  have hp4 : ∀ j ∈ bound_slots d', SPA_ID_INVALID ∉ buffer_ids (d'.mix_pool j).buffers := by
    intro k hk
    rw [hbs] at hk
    rw [hb k]
    exact p4 k hk
  have hqpos : 0 < (io_ptrs d).count q := List.count_pos_iff.2 hqin
  refine ⟨by rw [hmems]; exact hs2, ⟨?_, ?_, ?_, hp4, ?_, ?_⟩, ⟨?_, ?_⟩, ?_⟩
  · rw [all_slots_congr d d' hmix hfree]; exact p1
  · intro k b hk
    rw [hb k] at hk
    exact p2 k b hk
  · rw [hu]; exact p3
  · intro k hk X hX
    rw [hbs] at hk
    rw [hb k] at hX
    obtain ⟨n, m, hn, hid⟩ := p5 k hk X hX
    obtain ⟨m', hn', hr, hcase⟩ := hrel n m hn
    refine ⟨n, m', by rw [hmems]; exact hn', ?_⟩
    rcases hcase with ⟨e, -⟩ | ⟨-, e0, -⟩
    · rw [e, hid]
    · exfalso
      have h1 := a1 n m hn
      have h3 := count_le_recorded_refs d k X hk
      have h4 : 0 < (buffer_ids (d.mix_pool k).buffers).count X := List.count_pos_iff.2 hX
      rw [hid] at h1
      rw [io_refs_eq d n m hn] at h1
      by_cases hpq : m.map.ptr = q
      · rw [hpq, if_neg hq] at h1
        rw [if_pos hpq] at hr
        omega
      · rw [if_neg hpq] at hr
        omega
  · intro hx j hj
    rw [hbs] at hj
    exact hio6 hx j hj
  · intro i m'' hi
    rw [hmems] at hi
    obtain ⟨m, hmi⟩ := getElem?_of_length_eq ms d.mems i m'' hi hlen.symm
    obtain ⟨m', hn', hr, hcase⟩ := hrel i m hmi
    rw [hi] at hn'
    cases hn'
    have h1 := a1 i m hmi
    rw [io_refs_eq d' i m'' (by rw [hmems]; exact hi), hrec]
    rw [io_refs_eq d i m hmi] at h1
    rcases hcase with ⟨e1, e2⟩ | ⟨e1, e0, e2⟩
    · rw [e1, e2]
      by_cases hp : m.map.ptr = NULL
      · rw [if_pos hp] at h1 ⊢
        rw [if_neg (by rw [hp]; exact fun e => hq e.symm)] at hr
        omega
      · rw [if_neg hp] at h1 ⊢
        have hc := hcount m.map.ptr
        rw [if_neg (fun e : NULL = m.map.ptr => hp e.symm)] at hc
        by_cases hpq : m.map.ptr = q
        · rw [if_pos hpq] at hr
          rw [if_pos hpq.symm] at hc
          omega
        · rw [if_neg hpq] at hr
          rw [if_neg (fun e : q = m.map.ptr => hpq e.symm)] at hc
          omega
    · rw [e1, recorded_refs_invalid d (by
        intro k hk; exact p4 k hk)]
      rcases e2 with e2 | ⟨hx, e2⟩
      · rw [if_pos e2]; omega
      · have h3 := a2 hx i m hmi
        rw [io_refs_eq d i m hmi] at h3
        rw [e2]
        by_cases hp : m.map.ptr = NULL
        · rw [if_pos hp]; omega
        · rw [if_neg hp] at h3 ⊢
          have hc := hcount m.map.ptr
          rw [if_neg (fun e : NULL = m.map.ptr => hp e.symm)] at hc
          by_cases hpq : m.map.ptr = q
          · rw [if_pos hpq] at hr
            rw [if_pos hpq.symm] at hc
            omega
          · rw [if_neg hpq] at hr
            rw [if_neg (fun e : q = m.map.ptr => hpq e.symm)] at hc
            omega
  · intro hx i m'' hi
    rw [hmems] at hi
    obtain ⟨m, hmi⟩ := getElem?_of_length_eq ms d.mems i m'' hi hlen.symm
    obtain ⟨m', hn', hr, hcase⟩ := hrel i m hmi
    rw [hi] at hn'
    cases hn'
    have h1 := a2 hx i m hmi
    rw [io_refs_eq d' i m'' (by rw [hmems]; exact hi), hrec]
    rw [io_refs_eq d i m hmi] at h1
    have hfin : ∀ (r : Nat), r + (if m.map.ptr = q then 1 else 0) = m.ref →
        r = recorded_refs d m.id
          + (if m.map.ptr = NULL then 0 else (io_ptrs d').count m.map.ptr) := by
      intro r hr
      by_cases hp : m.map.ptr = NULL
      · rw [if_pos hp] at h1 ⊢
        rw [if_neg (by rw [hp]; exact fun e => hq e.symm)] at hr
        omega
      · rw [if_neg hp] at h1 ⊢
        have hc := hcount m.map.ptr
        rw [if_neg (fun e : NULL = m.map.ptr => hp e.symm)] at hc
        by_cases hpq : m.map.ptr = q
        · rw [if_pos hpq] at hr
          rw [if_pos hpq.symm] at hc
          omega
        · rw [if_neg hpq] at hr
          rw [if_neg (fun e : q = m.map.ptr => hpq e.symm)] at hc
          omega
    rcases hcase with ⟨e1, e2⟩ | ⟨e1, e0, e2⟩
    · rw [e1, e2]
      exact hfin m''.ref hr
    · rw [e1, recorded_refs_invalid d (by
        intro k hk; exact p4 k hk)]
      have hf := hfin m''.ref hr
      rcases e2 with e2 | ⟨-, e2⟩
      · rw [if_pos e2]; omega
      · rw [e2]
        omega
  · intro hx
    obtain ⟨t1, t2⟩ := ht hx
    obtain ⟨t3, t4⟩ := htr hx
    rw [htrace, hmems, close_count_append, close_count_append,
      close_count_no_release blk2 hblk2]
    exact ⟨release_exact_append _ _ (release_exact_append _ _ t1 t3)
      (release_exact_of_no_release blk2 hblk2), by omega⟩

/-! ### `client_node_set_io` keeps the invariant -/

theorem no_release_node_set_io (id ptr size : Nat) :
    no_release [Event.node_set_io id ptr size] := by
  intro e he
  rw [List.mem_singleton] at he
  subst he
  rfl

theorem io_count_same (d d' : node_data) (b q : Nat) (hp : d'.position = d.position)
    (hio : ∀ k, (d'.mix_pool k).io = (d.mix_pool k).io) :
    (io_ptrs d').count b + (if q = b then 1 else 0)
      = (io_ptrs d).count b + (if q = b then 1 else 0) := by
  rw [io_ptrs_congr d d' hp hio]

theorem map_io_invalid (env : Env) (d : node_data) (offset size : Nat) :
    map_io env d SPA_ID_INVALID offset size = (some (NULL, 0), d) := by
  unfold map_io
  rw [if_pos rfl]

/-- From the condition that a binding does not move a mapping in use, and the way `map_io`
maps: the cached mapping is handed out, or the entry had no mapping, or no io pointer was
at its mapping. -/
theorem window_kept_cases (env : Env) (d : node_data) (memid offset size i : Nat) (m : mem)
    (nm : mapping) (hw : window_kept env d memid offset size)
    (hf : find_mem d.mems memid = some i) (hm : d.mems[i]? = some m)
    (hcase : nm = m.map ∨
      (nm.ptr ∉ io_ptrs d ∧
        (m.map.ptr = NULL ∨
         m.map.map.offset ≠ (pw_map_range_init offset size env.sc_pagesize).offset ∨
         m.map.map.size ≠ (pw_map_range_init offset size env.sc_pagesize).size))) :
    nm = m.map ∨ m.map.ptr = NULL ∨ io_refs d i = 0 := by
  rcases hw i m hf hm with e | e | ⟨e1, e2⟩
  · exact Or.inr (Or.inl e)
  · exact Or.inr (Or.inr e)
  · rcases hcase with f | ⟨-, f | f | f⟩
    · exact Or.inl f
    · exact Or.inr (Or.inl f)
    · exact absurd e1 f
    · exact absurd e2 f

/-- Where `mmap` does not fail, the handler `client_node_set_io` keeps the invariant: for
a binding, when `mmap` hands out an address not in use and no ref count overflows; with
`exact`, when the binding is one of the position area, not bound yet, at a page aligned
offset, that moves no mapping in use. -/
theorem set_io_io_acct (env : Env) (ex : Bool) (d : node_data) (id memid offset size : Nat)
    (henv : env_total env) (h : io_acct env ex d)
    (hbind : memid ≠ SPA_ID_INVALID → mmap_fresh env d ∧ ∀ m ∈ d.mems, m.ref + 1 < U32)
    (hex : ex = true → memid ≠ SPA_ID_INVALID →
      id = SPA_IO_Position ∧ d.position = NULL ∧ offset % env.sc_pagesize = 0 ∧
      window_kept env d memid offset size) :
    io_acct env ex (client_node_set_io env d id memid offset size) := by
  unfold client_node_set_io
  by_cases hmid : memid = SPA_ID_INVALID
  · subst hmid
    rw [map_io_invalid]
    dsimp only
    by_cases hid : id = SPA_IO_Position
    · rw [if_pos hid]
      by_cases hpos : d.position = NULL
      · rw [if_neg (fun hc => hc.2 hpos)]
        exact io_acct_frame env ex d _ _ h rfl hpos.symm rfl rfl rfl (fun _ => rfl)
          (fun _ => rfl) rfl (no_release_node_set_io _ _ _)
      · rw [if_pos ⟨rfl, hpos⟩]
        obtain ⟨ms, blk, heq, hs2, hlen, hrel, htr⟩ :=
          release_ptr_acct env ex d d.position h hpos (position_mem_io_ptrs d)
        rw [heq]
        refine io_acct_unbind_ptr env ex d _ d.position ms blk
          [Event.node_set_io id NULL 0] h hpos (position_mem_io_ptrs d) hs2 hlen hrel htr
          ?_ rfl rfl rfl rfl (fun _ => rfl) ?_ rfl (no_release_node_set_io _ _ _)
        · intro b
          exact io_count_position d _ b (fun _ => rfl)
        · intro hx j hj
          exact h.2.1.2.2.2.2.2 hx j hj
    · rw [if_neg hid]
      exact io_acct_frame env ex d _ _ h rfl rfl rfl rfl rfl (fun _ => rfl)
        (fun _ => rfl) rfl (no_release_node_set_io _ _ _)
  · obtain ⟨hfresh, hovf⟩ := hbind hmid
    rcases map_io_bind env ex d memid offset size henv h.1 hmid hfresh hovf
      (fun hx => (hex hx hmid).2.2.1) with ⟨-, heq⟩ | ⟨i, m, nm, blk, hm, hf, heq, hblk, hnm, hs', hcase⟩
    · rw [heq]
      exact h
    · rw [heq]
      dsimp only
      have hqn : nm.ptr + nm.map.start ≠ NULL := by
        unfold NULL at hnm ⊢
        omega
      have hcase' : nm = m.map ∨ nm.ptr ∉ io_ptrs d := by
        rcases hcase with e | ⟨e, -⟩
        · exact Or.inl e
        · exact Or.inr e
      by_cases hid : id = SPA_IO_Position
      · rw [if_pos hid, if_neg (fun hc => hqn hc.1)]
        refine io_acct_bind_ptr env ex d _ i m nm (nm.ptr + nm.map.start) d.position
          (blk ++ [Event.node_set_io id (nm.ptr + nm.map.start) size]) h hm hs' hnm rfl hcase'
          ?_ ?_ rfl rfl rfl rfl (fun _ => rfl) ?_ ?_
          (no_release_append _ _ hblk (no_release_node_set_io _ _ _))
        · intro hx
          obtain ⟨-, e2, -, e4⟩ := hex hx hmid
          exact ⟨e2, window_kept_cases env d memid offset size i m nm e4 hf hm hcase⟩
        · intro b
          exact io_count_position d _ b (fun _ => rfl)
        · intro hx j hj
          exact h.2.1.2.2.2.2.2 hx j hj
        · simp only [List.append_assoc]
      · rw [if_neg hid]
        refine io_acct_bind_ptr env ex d _ i m nm (nm.ptr + nm.map.start)
          (nm.ptr + nm.map.start)
          (blk ++ [Event.node_set_io id (nm.ptr + nm.map.start) size]) h hm hs' hnm rfl hcase'
          ?_ ?_ rfl rfl rfl rfl (fun _ => rfl) ?_ ?_
          (no_release_append _ _ hblk (no_release_node_set_io _ _ _))
        · intro hx
          exact absurd (hex hx hmid).1 hid
        · intro b
          exact io_count_same d _ b _ rfl (fun _ => rfl)
        · intro hx j hj
          exact h.2.1.2.2.2.2.2 hx j hj
        · simp only [List.append_assoc]

/-! ### `client_node_port_set_io` keeps the invariant -/

theorem no_release_port_set_io (port : pw_port) (id ptr size : Nat) :
    no_release [Event.port_set_io port id ptr size] := by
  intro e he
  rw [List.mem_singleton] at he
  subst he
  rfl

theorem deactivate_mix_view (d : node_data) (k : Nat) :
    (deactivate_mix d k).mems = d.mems ∧ (deactivate_mix d k).trace = d.trace ∧
    (deactivate_mix d k).position = d.position ∧
    (deactivate_mix d k).mix = d.mix ∧ (deactivate_mix d k).free_mix = d.free_mix ∧
    (deactivate_mix d k).undefined = d.undefined ∧
    (∀ j, ((deactivate_mix d k).mix_pool j).buffers = (d.mix_pool j).buffers) ∧
    (∀ j, ((deactivate_mix d k).mix_pool j).io = (d.mix_pool j).io) := by
  unfold deactivate_mix
  split
  · refine ⟨rfl, rfl, rfl, rfl, rfl, rfl, ?_, ?_⟩ <;>
    · intro j
      by_cases hj : j = k
      · subst hj; simp [set_mix]
      · simp [set_mix, hj]
  · exact ⟨rfl, rfl, rfl, rfl, rfl, rfl, fun _ => rfl, fun _ => rfl⟩

theorem activate_mix_view (d : node_data) (k : Nat) :
    (activate_mix d k).mems = d.mems ∧ (activate_mix d k).trace = d.trace ∧
    (activate_mix d k).position = d.position ∧
    (activate_mix d k).mix = d.mix ∧ (activate_mix d k).free_mix = d.free_mix ∧
    (activate_mix d k).undefined = d.undefined ∧
    (∀ j, ((activate_mix d k).mix_pool j).buffers = (d.mix_pool j).buffers) ∧
    (∀ j, ((activate_mix d k).mix_pool j).io = (d.mix_pool j).io) := by
  unfold activate_mix
  split
  · exact ⟨rfl, rfl, rfl, rfl, rfl, rfl, fun _ => rfl, fun _ => rfl⟩
  · refine ⟨rfl, rfl, rfl, rfl, rfl, rfl, ?_, ?_⟩ <;>
    · intro j
      by_cases hj : j = k
      · subst hj; simp [set_mix]
      · simp [set_mix, hj]

theorem set_io_view (d : node_data) (k q : Nat) :
    (set_mix d k { d.mix_pool k with io := q }).mems = d.mems ∧
    (set_mix d k { d.mix_pool k with io := q }).trace = d.trace ∧
    (set_mix d k { d.mix_pool k with io := q }).position = d.position ∧
    (set_mix d k { d.mix_pool k with io := q }).mix = d.mix ∧
    (set_mix d k { d.mix_pool k with io := q }).free_mix = d.free_mix ∧
    (set_mix d k { d.mix_pool k with io := q }).undefined = d.undefined ∧
    (∀ j, ((set_mix d k { d.mix_pool k with io := q }).mix_pool j).buffers
      = (d.mix_pool j).buffers) ∧
    (∀ j, j ≠ k → ((set_mix d k { d.mix_pool k with io := q }).mix_pool j).io
      = (d.mix_pool j).io) ∧
    ((set_mix d k { d.mix_pool k with io := q }).mix_pool k).io = q := by
  refine ⟨rfl, rfl, rfl, rfl, rfl, rfl, ?_, ?_, ?_⟩
  · intro j
    by_cases hj : j = k
    · subst hj; simp [set_mix]
    · simp [set_mix, hj]
  · intro j hj
    simp [set_mix, hj]
  · simp [set_mix]

/-- Where `mmap` does not fail, the handler `client_node_port_set_io` keeps the invariant:
for a binding, when `mmap` hands out an address not in use and no ref count overflows;
with `exact`, when the binding is one of the Buffers area of a mix that has none yet, at a
page aligned offset, that moves no mapping in use. -/
theorem port_set_io_io_acct (env : Env) (ex : Bool) (d : node_data)
    (direction : spa_direction) (port_id mix_id id memid offset size : Nat)
    (henv : env_total env) (h : io_acct env ex d)
    (hbind : memid ≠ SPA_ID_INVALID → mmap_fresh env d ∧ ∀ m ∈ d.mems, m.ref + 1 < U32)
    (hex : ex = true → memid ≠ SPA_ID_INVALID →
      id = SPA_IO_Buffers ∧ offset % env.sc_pagesize = 0 ∧
      window_kept env d memid offset size ∧
      ∀ k, find_mix d direction port_id mix_id = some k → (d.mix_pool k).io = NULL) :
    io_acct env ex
      (client_node_port_set_io env d direction port_id mix_id id memid offset size) := by
  obtain ⟨e1, e2, e3, e4, e5, e6, -⟩ := ensure_mix_io_acct env ex d direction port_id mix_id h
  unfold client_node_port_set_io
  cases he : ensure_mix env d direction port_id mix_id with
  | mk r d0 =>
    rw [he] at e1 e2 e3 e4 e5 e6
    simp only at e1 e2 e3 e4 e5 e6
    cases r with
    | none => exact e1
    | some k =>
      obtain ⟨hk0, hkorigin⟩ := e6 k rfl
      have hklt : k < MAX_MIX := bound_slots_lt d0 e1.2.1.1 k hk0
      have hp6 : ex = true → ∀ j, j ∉ bound_slots d0 → (d0.mix_pool j).io = NULL :=
        e1.2.1.2.2.2.2.2
      have hiop : io_ptrs d0 = io_ptrs d := io_ptrs_congr d d0 e4 e5
      dsimp only
      by_cases hmid : memid = SPA_ID_INVALID
      · subst hmid
        rw [map_io_invalid]
        dsimp only
        by_cases hid : id = SPA_IO_Buffers
        · rw [if_pos hid, if_neg (fun hc : ¬ NULL = NULL => hc rfl)]
          by_cases hio : (d0.mix_pool k).io = NULL
          · rw [if_neg (fun hc => hc.2 hio)]
            obtain ⟨v1, v2, v3, v4, v5, v6, v7, v8, v9⟩ := set_io_view d0 k NULL
            refine io_acct_frame env ex d0 _ [] e1 v1 v3 v4 v5 v6 v7 ?_ (by rw [v2]; simp)
              no_release_nil
            intro j
            by_cases hj : j = k
            · rw [hj, v9, hio]
            · exact v8 j hj
          · rw [if_pos ⟨rfl, hio⟩]
            obtain ⟨w1, w2, w3, w4, w5, w6, w7, w8⟩ := deactivate_mix_view d0 k
            have h3 : io_acct env ex (deactivate_mix d0 k) :=
              io_acct_frame env ex d0 _ [] e1 w1 w3 w4 w5 w6 w7 w8 (by rw [w2]; simp)
                no_release_nil
            have hq : ((deactivate_mix d0 k).mix_pool k).io ≠ NULL := by rw [w8 k]; exact hio
            have hqin := slot_mem_io_ptrs (deactivate_mix d0 k) k hklt
            obtain ⟨ms, blk, heq, hs2, hlen, hrel, htr⟩ :=
              release_ptr_acct env ex (deactivate_mix d0 k) _ h3 hq hqin
            rw [heq]
            refine io_acct_unbind_ptr env ex (deactivate_mix d0 k) _
              ((deactivate_mix d0 k).mix_pool k).io ms blk [] h3 hq hqin hs2 hlen hrel htr
              ?_ rfl rfl rfl rfl ?_ ?_ (by simp [set_mix]) no_release_nil
            · intro b
              have := io_count_slot (deactivate_mix d0 k)
                (set_mix { deactivate_mix d0 k with
                    mems := ms, trace := (deactivate_mix d0 k).trace ++ blk } k
                  { (deactivate_mix d0 k).mix_pool k with io := NULL }) b k hklt rfl
                (fun j hj => by simp [set_mix, hj])
              simpa [set_mix] using this
            · intro j
              by_cases hj : j = k
              · subst hj; simp [set_mix]
              · simp [set_mix, hj]
            · intro hx j hj
              have hjk : j ≠ k := by
                intro e
                apply hj
                rw [bound_slots_congr d0 _ w4, e]
                exact hk0
              have : ((set_mix { deactivate_mix d0 k with
                    mems := ms, trace := (deactivate_mix d0 k).trace ++ blk } k
                  { (deactivate_mix d0 k).mix_pool k with io := NULL }).mix_pool j).io
                  = ((deactivate_mix d0 k).mix_pool j).io := by simp [set_mix, hjk]
              rw [this]
              exact h3.2.1.2.2.2.2.2 hx j hj
        · rw [if_neg hid]
          exact io_acct_frame env ex d0 _ _ e1 rfl rfl rfl rfl rfl (fun _ => rfl)
            (fun _ => rfl) rfl (no_release_port_set_io _ _ _ _)
      · obtain ⟨hfresh, hovf⟩ := hbind hmid
        have hfresh0 : mmap_fresh env d0 := by
          intro hint sz prot fd off
          rw [e3, hiop, e2]
          exact hfresh hint sz prot fd off
        rcases map_io_bind env ex d0 memid offset size henv e1.1 hmid hfresh0
          (by rw [e2]; exact hovf)
          (fun hx => (hex hx hmid).2.1) with
          ⟨-, heq⟩ | ⟨i, m, nm, blk, hm, hf, heq, hblk, hnm, hs', hcase⟩
        · rw [heq]
          exact e1
        · rw [heq]
          dsimp only
          have hqn : nm.ptr + nm.map.start ≠ NULL := by
            unfold NULL at hnm ⊢
            omega
          have hcase' : nm = m.map ∨ nm.ptr ∉ io_ptrs d0 := by
            rcases hcase with e | ⟨e, -⟩
            · exact Or.inl e
            · exact Or.inr e
          by_cases hid : id = SPA_IO_Buffers
          · rw [if_pos hid]
            rw [if_neg (fun hc : nm.ptr + nm.map.start = NULL ∧ (d0.mix_pool k).io ≠ NULL =>
              hqn hc.1), if_pos hqn]
            obtain ⟨w1, w2, w3, w4, w5, w6, w7, w8⟩ := activate_mix_view
              (set_mix { d0 with
                  mems := modify_at (fun _ => { m with map := nm, ref := m.ref + 1 }) d0.mems i
                  trace := d0.trace ++ blk } k
                { d0.mix_pool k with io := nm.ptr + nm.map.start }) k
            have hiok : ∀ j, j ≠ k → ((activate_mix
                (set_mix { d0 with
                  mems := modify_at (fun _ => { m with map := nm, ref := m.ref + 1 }) d0.mems i
                  trace := d0.trace ++ blk } k
                { d0.mix_pool k with io := nm.ptr + nm.map.start }) k).mix_pool j).io
                = (d0.mix_pool j).io := by
              intro j hj
              rw [w8 j]
              simp [set_mix, hj]
            refine io_acct_bind_ptr env ex d0 _ i m nm (nm.ptr + nm.map.start)
              (d0.mix_pool k).io blk e1 hm hs' hnm rfl hcase' ?_ ?_ w1 w4 w5 w6 ?_ ?_ w2 hblk
            · intro hx
              obtain ⟨-, -, f3, f4⟩ := hex hx hmid
              have hw0 : window_kept env d0 memid offset size := by
                intro i' m' hf' hm'
                rw [e2] at hf' hm'
                rw [io_refs_congr d d0 i' e2 e4 e5]
                exact f3 i' m' hf' hm'
              refine ⟨?_, window_kept_cases env d0 memid offset size i m nm hw0 hf hm hcase⟩
              rcases hkorigin with hfound | hfree
              · rw [e5 k]
                exact f4 k hfound
              · rw [e5 k]
                exact h.2.1.2.2.2.2.2 hx k (free_mix_not_bound d h.2.1.1 k hfree)
            · intro b
              have := io_count_slot d0 (activate_mix
                (set_mix { d0 with
                  mems := modify_at (fun _ => { m with map := nm, ref := m.ref + 1 }) d0.mems i
                  trace := d0.trace ++ blk } k
                { d0.mix_pool k with io := nm.ptr + nm.map.start }) k) b k hklt w3 hiok
              rw [w8 k] at this
              simpa [set_mix] using this
            · intro j
              rw [w7 j]
              by_cases hj : j = k
              · subst hj; simp [set_mix]
              · simp [set_mix, hj]
            · intro hx j hj
              have hjk : j ≠ k := fun e => hj (e ▸ hk0)
              rw [hiok j hjk]
              exact hp6 hx j hj
          · rw [if_neg hid]
            refine io_acct_bind_ptr env ex d0 _ i m nm (nm.ptr + nm.map.start)
              (nm.ptr + nm.map.start)
              (blk ++ [Event.port_set_io (d0.mix_pool k).port id (nm.ptr + nm.map.start) size])
              e1 hm hs' hnm rfl hcase' ?_ ?_ rfl rfl rfl rfl (fun _ => rfl) ?_ ?_
              (no_release_append _ _ hblk (no_release_port_set_io _ _ _ _))
            · intro hx
              exact absurd (hex hx hmid).1 hid
            · intro b
              exact io_count_same d0 _ b _ rfl (fun _ => rfl)
            · intro hx j hj
              exact hp6 hx j hj
            · simp only [List.append_assoc]

/-! ### The invariant holds in every reachable state -/

theorem io_acct_node_export (env : Env) (ex : Bool) : io_acct env ex node_export := by
  refine ⟨⟨?_, ?_, ?_, ?_, ?_⟩, ⟨pool_partition_node_export.1, ?_, rfl, ?_, ?_, ?_⟩,
    ⟨?_, ?_⟩, ?_⟩
  · intro i j mi mj hi
    simp [node_export] at hi
  · intro i j mi mj hi
    simp [node_export] at hi
  · intro i m hi
    simp [node_export] at hi
  · intro _ i m hi
    simp [node_export] at hi
  · intro _
    refine ⟨?_, ?_⟩
    · intro i j mi mj hi
      simp [node_export] at hi
    · intro i m hi
      simp [node_export] at hi
  · intro k b hb
    simp [node_export] at hb
  · intro k hk
    simp [bound_slots, node_export] at hk
  · intro k hk
    simp [bound_slots, node_export] at hk
  · intro _ k _
    rfl
  · intro i m hi
    simp [node_export] at hi
  · intro _ i m hi
    simp [node_export] at hi
  · intro _
    exact ⟨release_exact.nil, rfl⟩

/-- Where `mmap` and `malloc` do not fail, every reachable state satisfies the invariant
of the registry with io areas. -/
theorem reachable_io_acct (env : Env) (ex : Bool) (d : node_data) (henv : env_total env)
    (h : reachable_io env ex d) : io_acct env ex d := by
  induction h with
  | init => exact io_acct_node_export env ex
  | add_mem d mem_id type memfd flags _ hfd ih =>
    exact add_mem_io_acct env ex d mem_id type memfd flags henv ih hfd
  | port_use_buffers d direction port_id mix_id msg _ hinv hovf ih =>
    exact port_use_buffers_io_acct env ex d direction port_id mix_id msg henv ih hinv hovf
  | set_io d id memid offset size _ hbind hex ih =>
    exact set_io_io_acct env ex d id memid offset size henv ih hbind hex
  | port_set_io d direction port_id mix_id id memid offset size _ hbind hex ih =>
    exact port_set_io_io_acct env ex d direction port_id mix_id id memid offset size henv ih
      hbind hex
  | clear_buffers d k _ hk ih => exact (clear_buffers_io_acct env ex d k ih hk).1
  | clear_mix d k _ hk hex ih => exact clear_mix_io_acct env ex d k ih hk hex

/-! ### What the trace says -/

theorem filter_length_eq_count (l : List Nat) (b : Nat) (p : Nat → Bool)
    (hp : ∀ x, p x = true ↔ x = b) : (l.filter p).length = l.count b := by
  induction l with
  | nil => rfl
  | cons x xs ih =>
    by_cases hx : x = b
    · rw [List.filter_cons_of_pos ((hp x).2 hx), List.length_cons, ih, hx,
        List.count_cons_self]
    · rw [List.filter_cons_of_neg (fun h => hx ((hp x).1 h)), ih,
        List.count_cons_of_ne (fun e => hx e.symm)]

theorem filter_length_eq_zero (l : List Nat) (p : Nat → Bool) (hp : ∀ x, p x = false) :
    (l.filter p).length = 0 := by
  induction l with
  | nil => rfl
  | cons x xs ih =>
    rw [List.filter_cons_of_neg (by rw [hp x]; exact Bool.false_ne_true), ih]

/-- With `exact`, the io bindings of an entry are the io pointers at its mapping. -/
theorem io_bindings_eq_io_refs (env : Env) (d : node_data) (i : Nat) (m : mem)
    (h : io_acct env true d) (hm : d.mems[i]? = some m) : io_bindings d i = io_refs d i := by
  obtain ⟨hs, ⟨p1, -, -, -, -, p6⟩, -, -⟩ := h
  rw [io_refs_eq d i m hm]
  unfold io_bindings
  by_cases hp : m.map.ptr = NULL
  · rw [if_pos hp]
    apply filter_length_eq_zero
    intro x
    rw [decide_eq_false_iff_not]
    rintro ⟨hx, hf⟩
    obtain ⟨m', hm', hpx⟩ := (find_mem_ptr_of_reg_shape true env.sc_pagesize d.mems x i hs hx).1 hf
    rw [hm] at hm'
    cases hm'
    exact hx (hpx ▸ hp)
  · rw [if_neg hp]
    rw [filter_length_eq_count _ m.map.ptr]
    · unfold io_ptrs
      rw [List.count_cons, List.count_cons]
      have hperm := (p1.map (fun k => (d.mix_pool k).io)).count_eq m.map.ptr
      rw [all_slots_eq, List.map_append, List.count_append] at hperm
      have hfree : (d.free_mix.map (fun k => (d.mix_pool k).io)).count m.map.ptr = 0 := by
        rw [List.count_eq_zero]
        intro hmem
        obtain ⟨k, hk, hkio⟩ := List.mem_map.1 hmem
        have := p6 rfl k (free_mix_not_bound d p1 k hk)
        rw [this] at hkio
        exact hp hkio.symm
      omega
    · intro x
      rw [decide_eq_true_iff]
      constructor
      · rintro ⟨hx, hf⟩
        obtain ⟨m', hm', hpx⟩ :=
          (find_mem_ptr_of_reg_shape true env.sc_pagesize d.mems x i hs hx).1 hf
        rw [hm] at hm'
        cases hm'
        exact hpx.symm
      · intro hx
        subst hx
        exact ⟨hp, (find_mem_ptr_of_reg_shape true env.sc_pagesize d.mems _ i hs hp).2
          ⟨m, hm, rfl⟩⟩

/-! ### Sample states -/

theorem env_total_env_plain : env_total env_plain := by
  refine ⟨by decide, ?_, fun _ => rfl⟩
  intro tr hint size prot fd offset
  show 0x10000 + 0x1000 * tr.length ≠ MAP_FAILED ∧ 0x10000 + 0x1000 * tr.length ≠ NULL ∧
    (0x10000 + 0x1000 * tr.length) % 4096 = 0
  unfold MAP_FAILED NULL
  refine ⟨by omega, by omega, by omega⟩

/-- Where nothing is mapped and no io area is bound, every address that `mmap` hands out
is one not in use. -/
theorem mmap_fresh_of_unbound (env : Env) (d : node_data) (henv : env_total env)
    (hp : d.position = NULL) (hio : ∀ k, (d.mix_pool k).io = NULL)
    (hm : ∀ m ∈ d.mems, m.map.ptr = NULL) : mmap_fresh env d := by
  intro hint size prot fd offset
  obtain ⟨-, e2, -⟩ := henv.2.1 d.trace hint size prot fd offset
  refine ⟨?_, ?_⟩
  · intro hmem
    unfold io_ptrs at hmem
    rcases List.mem_cons.1 hmem with h | h
    · exact e2 (h.trans hp)
    · obtain ⟨k, -, hk⟩ := List.mem_map.1 h
      exact e2 (hk.symm.trans (hio k))
  · intro m hmm hc
    exact e2 (hc.symm.trans (hm m hmm))

/-- Where nothing is mapped, no request moves a mapping. -/
theorem window_kept_of_unmapped (env : Env) (d : node_data) (memid offset size : Nat)
    (hm : ∀ m ∈ d.mems, m.map.ptr = NULL) : window_kept env d memid offset size := by
  intro i m _ hi
  exact Or.inl (hm m (List.getElem?_mem hi))

set_option maxRecDepth 1000000 in
theorem reachable_io_state_position_bound (ex : Bool) :
    reachable_io env_plain ex state_position_bound := by
  have hm : ∀ m ∈ (client_node_add_mem node_export 1 0 5 0).mems, m.map.ptr = NULL := by
    decide
  refine reachable_io.set_io _ _ _ _ _
    (reachable_io.add_mem _ _ _ _ _ reachable_io.init (fun _ => by decide)) ?_ ?_
  · intro _
    exact ⟨mmap_fresh_of_unbound env_plain _ env_total_env_plain rfl (fun _ => rfl) hm,
      by decide⟩
  · intro _ _
    exact ⟨rfl, rfl, by decide, window_kept_of_unmapped env_plain _ 1 0 8 hm⟩

set_option maxRecDepth 1000000 in
theorem reachable_io_state_io_bound (ex : Bool) : reachable_io env_plain ex state_io_bound :=
  reachable_io.port_use_buffers _ _ _ _ _ (reachable_io_state_position_bound ex)
    (by decide) (by decide)

set_option maxRecDepth 1000000 in
/-- C8 (as written, refuted). After the position area was bound into region 1 and then
rebound into region 2, region 1 is live with ref count 1 although no installed buffer
names it and no io pointer of the node resolves to it. The same holds of a region into
which an io area of another kind was bound, of a region whose position binding at an
offset inside a page was unbound, and of a region whose mix was cleared with its io area
bound or with a port that refuses to drop its buffers. After a second binding has moved
the mapping of a region and the first one was unbound, the region has ref count 2 and one
binding. Where `mmap` fails, the position pointer resolves to a region with ref count
0. -/
theorem ref_counts_broken :
    ((run env_plain node_export ops_rebind_position).mems.map (fun m => (m.id, m.fd, m.ref))
        = [(1, 5, 1), (2, 6, 1)] ∧
      recorded_refs (run env_plain node_export ops_rebind_position) 1 = 0 ∧
      io_bindings (run env_plain node_export ops_rebind_position) 0 = 0 ∧
      recorded_refs (run env_plain node_export ops_rebind_position) 2 = 0 ∧
      io_bindings (run env_plain node_export ops_rebind_position) 1 = 1) ∧
    ((run env_plain node_export ops_other_kind).mems.map (fun m => (m.id, m.fd, m.ref))
        = [(1, 5, 1)] ∧
      recorded_refs (run env_plain node_export ops_other_kind) 1 = 0 ∧
      io_bindings (run env_plain node_export ops_other_kind) 0 = 0) ∧
    ((run env_plain node_export ops_position_unaligned).mems.map
        (fun m => (m.id, m.fd, m.ref)) = [(1, 5, 1)] ∧
      (run env_plain node_export ops_position_unaligned).position = NULL ∧
      recorded_refs (run env_plain node_export ops_position_unaligned) 1 = 0 ∧
      io_bindings (run env_plain node_export ops_position_unaligned) 0 = 0) ∧
    ((run env_plain node_export ops_remap_bound).mems.map (fun m => (m.id, m.fd, m.ref))
        = [(1, 5, 2)] ∧
      (run env_plain node_export ops_remap_bound).position = NULL ∧
      recorded_refs (run env_plain node_export ops_remap_bound) 1 = 0 ∧
      io_bindings (run env_plain node_export ops_remap_bound) 0 = 1) ∧
    ((run env_plain node_export ops_clear_mix_bound).mems.map (fun m => (m.id, m.fd, m.ref))
        = [(1, 5, 1)] ∧
      bound_slots (run env_plain node_export ops_clear_mix_bound) = [] ∧
      recorded_refs (run env_plain node_export ops_clear_mix_bound) 1 = 0 ∧
      io_bindings (run env_plain node_export ops_clear_mix_bound) 0 = 0) ∧
    ((run env_port_refuses_clear node_export ops_clear_mix_installed).mems.map
        (fun m => (m.id, m.fd, m.ref)) = [(1, 5, 1)] ∧
      recorded_refs (run env_port_refuses_clear node_export ops_clear_mix_installed) 1 = 0 ∧
      io_bindings (run env_port_refuses_clear node_export ops_clear_mix_installed) 0 = 0) ∧
    ((run env_map_fails node_export ops_position_thrice).mems.map (fun m => (m.id, m.fd, m.ref))
        = [(1, 5, 0), (2, 6, 1)] ∧
      recorded_refs (run env_map_fails node_export ops_position_thrice) 1 = 0 ∧
      io_bindings (run env_map_fails node_export ops_position_thrice) 0 = 1 ∧
      recorded_refs (run env_map_fails node_export ops_position_thrice) 2 = 0 ∧
      io_bindings (run env_map_fails node_export ops_position_thrice) 1 = 0) :=
  ⟨by decide, by decide, by decide, by decide, by decide, by decide, by decide⟩

/-- C8 (amended): where `mmap` and `malloc` do not fail and `mmap` hands out page aligned
addresses that are not in use, in every state reached from a fresh node through
`client_node_add_mem`, `client_node_port_use_buffers` (messages naming no
`SPA_ID_INVALID`), `client_node_set_io` and `client_node_port_set_io` (a binding only of
the position area or of the Buffers area of a mix, not bound yet, at a page aligned
offset, that does not move a mapping that another binding points to; any unbinding),
`clear_buffers` on bound mixes and `clear_mix` on bound mixes whose io area is not bound
and whose port accepts the clear, with every ref count below `2^32`: the ref count of
every registry entry is the number of `buffer_mem` entries of installed buffers that name
its id plus the number of io pointers, of the node and of the bound mixes, that resolve
to it; and no two entries carry the same live id. -/
theorem reachable_ref_counts (env : Env) (d : node_data) (henv : env_total env)
    (h : reachable_io env true d) :
    (∀ (n : Nat) (m : mem), d.mems[n]? = some m →
      m.ref = recorded_refs d m.id + io_bindings d n) ∧
    (∀ (i j : Nat) (mi mj : mem), d.mems[i]? = some mi → d.mems[j]? = some mj →
      mi.id = mj.id → mi.id ≠ SPA_ID_INVALID → i = j) := by
  have hacct := reachable_io_acct env true d henv h
  refine ⟨?_, hacct.1.1⟩
  intro n m hn
  rw [io_bindings_eq_io_refs env d n m hacct hn]
  exact hacct.2.2.1.2 rfl n m hn

set_option maxRecDepth 1000000 in
/-- Witness for C8: region 1 (fd 5) is registered, the position area is bound into it and
a buffer living in it, with one plane in it, is installed. The state is reachable; region
1 has ref count 3, two recorded references and one io binding. -/
theorem reachable_ref_counts_witness :
    env_total env_plain ∧ reachable_io env_plain true state_io_bound ∧
    ((∀ (n : Nat) (m : mem), state_io_bound.mems[n]? = some m →
        m.ref = recorded_refs state_io_bound m.id + io_bindings state_io_bound n) ∧
      (∀ (i j : Nat) (mi mj : mem), state_io_bound.mems[i]? = some mi →
        state_io_bound.mems[j]? = some mj → mi.id = mj.id → mi.id ≠ SPA_ID_INVALID →
        i = j)) ∧
    state_io_bound.mems.map (fun m => (m.id, m.ref)) = [(1, 3)] ∧
    recorded_refs state_io_bound 1 = 2 ∧ io_bindings state_io_bound 0 = 1 :=
  ⟨env_total_env_plain, reachable_io_state_io_bound true,
   reachable_ref_counts env_plain state_io_bound env_total_env_plain
     (reachable_io_state_io_bound true),
   by decide, by decide, by decide⟩

end RemoteNode

namespace Spa

theorem update_at_length {α : Type} (f : α → α) (l : List α) (i : Nat) :
    (update_at f l i).length = l.length := by
  induction l generalizing i with
  | nil => rfl
  | cons x xs ih =>
    cases i with
    | zero => rfl
    | succ i => simp only [update_at, List.length_cons, ih]

theorem update_at_getElem?_same {α : Type} (f : α → α) (l : List α) (i : Nat) (x : α)
    (h : l[i]? = some x) : (update_at f l i)[i]? = some (f x) := by
  induction l generalizing i with
  | nil => simp at h
  | cons y ys ih =>
    cases i with
    | zero =>
      simp only [List.getElem?_cons_zero, Option.some.injEq] at h
      simp only [update_at, List.getElem?_cons_zero, h]
    | succ i =>
      simp only [List.getElem?_cons_succ] at h
      simp only [update_at, List.getElem?_cons_succ]
      exact ih i h

theorem update_at_getElem?_ne {α : Type} (f : α → α) (l : List α) (i j : Nat) (h : j ≠ i) :
    (update_at f l i)[j]? = l[j]? := by
  induction l generalizing i j with
  | nil => rfl
  | cons y ys ih =>
    cases i with
    | zero =>
      cases j with
      | zero => exact absurd rfl h
      | succ j => simp only [update_at, List.getElem?_cons_succ]
    | succ i =>
      cases j with
      | zero => simp only [update_at, List.getElem?_cons_zero]
      | succ j =>
        simp only [update_at, List.getElem?_cons_succ]
        exact ih i j (fun e => h (by rw [e]))

theorem flag_check_unset (f : Nat) : SPA_FLAG_CHECK (SPA_FLAG_UNSET f 1) 1 = false := by
  unfold SPA_FLAG_CHECK SPA_FLAG_UNSET
  have e : (0xffffffff ^^^ 1 : Nat) = 0xfffffffe := by decide
  rw [e, Nat.land_assoc]
  simp

theorem flag_check_set (f : Nat) : SPA_FLAG_CHECK (SPA_FLAG_SET f 1) 1 = true := by
  unfold SPA_FLAG_CHECK SPA_FLAG_SET
  have : (f ||| 1) &&& 1 = 1 := by
    apply Nat.eq_of_testBit_eq
    intro i
    simp only [Nat.testBit_and, Nat.testBit_or]
    cases i with
    | zero => simp
    | succ i => simp [Nat.testBit_succ]
  rw [this]
  rfl

theorem update_at_getElem?_inv {α : Type} (f : α → α) (l : List α) (i : Nat) (y : α)
    (h : (update_at f l i)[i]? = some y) : ∃ x, l[i]? = some x ∧ y = f x := by
  cases hx : l[i]? with
  | none =>
    have hlen : l.length ≤ i := by
      rcases Nat.lt_or_ge i l.length with hlt | hge
      · rw [List.getElem?_eq_getElem hlt] at hx; simp at hx
      · exact hge
    have : (update_at f l i)[i]? = none := by
      apply List.getElem?_eq_none
      rw [update_at_length]; exact hlen
    rw [this] at h; simp at h
  | some x =>
    rw [update_at_getElem?_same f l i x hx] at h
    exact ⟨x, rfl, (Option.some.inj h).symm⟩

/-- The first node of a list that is not empty is the first node that the walk meets. -/
theorem list_members_head (lm : List spa_list) (head p : Nat) (e : spa_list)
    (hne : spa_list_is_empty lm head = some false)
    (hfirst : spa_list_first lm head = some p) (hp : link_at lm p = some e) :
    list_members lm head = p :: list_walk lm head (lm.length - 1) e.next := by
  unfold spa_list_is_empty at hne
  unfold spa_list_first at hfirst
  unfold list_members
  cases hh : link_at lm head with
  | none => rw [hh] at hne; simp at hne
  | some h =>
    rw [hh] at hne hfirst
    simp only [Option.map_some', Option.some.injEq, decide_eq_false_iff_not] at hne hfirst
    have hpos : 0 < lm.length := by
      unfold link_at at hh
      split at hh
      · simp at hh
      · rcases Nat.lt_or_ge (head - 1) lm.length with hlt | hge
        · omega
        · rw [List.getElem?_eq_none hge] at hh; simp at hh
    obtain ⟨n, hn⟩ : ∃ n, lm.length = n + 1 := ⟨lm.length - 1, by omega⟩
    subst hfirst
    simp only [hn, Nat.add_sub_cancel]
    rw [list_walk, if_neg hne, hp]

/-- A node that `spa_list_remove` can take off its list is a node of the memory. -/
theorem link_at_of_remove (lm lm1 : List spa_list) (p : Nat)
    (h : spa_list_remove lm p = some lm1) : ∃ e, link_at lm p = some e := by
  unfold spa_list_remove at h
  cases he : link_at lm p with
  | none => rw [he] at h; simp at h
  | some e => exact ⟨e, rfl⟩

end Spa

namespace AlsaSource

open Spa

/-- What `impl_node_process` has done when it publishes a buffer. -/
theorem alsa_process_publishes (s s1 : state) (io : spa_io_buffers) (r : Int)
    (hio : s.io = some io) (hst : io.status ≠ SPA_STATUS_HAVE_BUFFER)
    (hp : impl_node_process s = some (r, s1))
    (hpub : ∃ io1, s1.io = some io1 ∧ io1.status = SPA_STATUS_HAVE_BUFFER) :
    ∃ (sr : state) (p b : Nat) (links : List spa_list) (bb : buffer),
      (io.buffer_id < s.n_buffers → ∃ s0, recycle_buffer s io.buffer_id = some s0 ∧
        sr = { s0 with io := some { io with buffer_id := SPA_ID_INVALID } }) ∧
      (¬ io.buffer_id < s.n_buffers → sr = s) ∧
      sr.ready.head? = some b ∧ sr.buffers[b]? = some bb ∧
      spa_list_first sr.links ready_addr = some p ∧ buffer_of p = some b ∧
      spa_list_remove sr.links p = some links ∧
      r = SPA_STATUS_HAVE_BUFFER ∧
      s1 = { sr with
        links := links
        io := some { status := SPA_STATUS_HAVE_BUFFER, buffer_id := bb.buf_id } } := by
  unfold impl_node_process at hp
  rw [hio] at hp
  simp only [if_neg hst] at hp
  generalize hrec : (if io.buffer_id < s.n_buffers then
      (recycle_buffer s io.buffer_id).map
        (fun s => { s with io := some { io with buffer_id := SPA_ID_INVALID } })
      else some s) = recycled at hp
  cases recycled with
  | none => simp at hp
  | some sr =>
    have hsrio : ∃ io2, sr.io = some io2 ∧ io2.status = io.status := by
      by_cases hlt : io.buffer_id < s.n_buffers
      · rw [if_pos hlt] at hrec
        cases hr : recycle_buffer s io.buffer_id with
        | none => rw [hr] at hrec; simp at hrec
        | some s0 =>
          rw [hr] at hrec
          simp only [Option.map_some', Option.some.injEq] at hrec
          rw [← hrec]
          exact ⟨_, rfl, rfl⟩
      · rw [if_neg hlt] at hrec
        rw [← Option.some.inj hrec]
        exact ⟨io, hio, rfl⟩
    obtain ⟨io2, h3, h4⟩ := hsrio
    simp only at hp
    cases hem : spa_list_is_empty sr.links ready_addr with
    | none => rw [hem] at hp; simp at hp
    | some em =>
      rw [hem] at hp
      cases em with
      | true =>
        simp only [Option.some.injEq, Prod.mk.injEq] at hp
        obtain ⟨io1, h1, h2⟩ := hpub
        rw [← hp.2, h3] at h1
        rw [← Option.some.inj h1, h4] at h2
        exact absurd h2 hst
      | false =>
        simp only at hp
        cases hfirst : spa_list_first sr.links ready_addr with
        | none => rw [hfirst] at hp; simp at hp
        | some p =>
          rw [hfirst] at hp
          simp only at hp
          cases hbo : buffer_of p with
          | none => rw [hbo] at hp; simp at hp
          | some b =>
            cases hrm : spa_list_remove sr.links p with
            | none => rw [hbo, hrm] at hp; simp at hp
            | some links =>
              rw [hbo, hrm] at hp
              simp only at hp
              cases hbb : sr.buffers[b]? with
              | none => rw [hbb] at hp; simp at hp
              | some bb =>
                rw [hbb, h3] at hp
                simp only [Option.some.injEq, Prod.mk.injEq] at hp
                obtain ⟨e, he⟩ := link_at_of_remove sr.links links p hrm
                refine ⟨sr, p, b, links, bb, ?_, ?_, ?_, hbb, hfirst, hbo, hrm, hp.1.symm, ?_⟩
                · intro hlt
                  rw [if_pos hlt] at hrec
                  cases hr : recycle_buffer s io.buffer_id with
                  | none => rw [hr] at hrec; simp at hrec
                  | some s0 =>
                    rw [hr] at hrec
                    simp only [Option.map_some', Option.some.injEq] at hrec
                    exact ⟨s0, rfl, hrec.symm⟩
                · intro hlt
                  rw [if_neg hlt] at hrec
                  exact (Option.some.inj hrec).symm
                · unfold state.ready
                  rw [list_members_head sr.links ready_addr p e hem hfirst he]
                  simp [List.filterMap_cons, hbo]
                · rw [← hp.2]

end AlsaSource

namespace Merger

open Spa

/-- What `dequeue_buffer` has done when it returns a buffer. -/
theorem dequeue_buffer_some (pt port2 : port) (bi : Nat)
    (h : dequeue_buffer pt = some (some (bi, port2))) :
    ∃ (p : Nat) (links : List spa_list) (dbuf : buffer),
      pt.queue.head? = some bi ∧ pt.buffers[bi]? = some dbuf ∧
      spa_list_first pt.links queue_addr = some p ∧ buffer_of p = some bi ∧
      spa_list_remove pt.links p = some links ∧
      port2 = { pt with
        links := links
        buffers := update_at
          (fun x => { x with flags := SPA_FLAG_UNSET x.flags BUFFER_FLAG_QUEUED })
          pt.buffers bi } := by
  unfold dequeue_buffer at h
  cases hem : spa_list_is_empty pt.links queue_addr with
  | none => rw [hem] at h; simp at h
  | some em =>
    rw [hem] at h
    cases em with
    | true => simp at h
    | false =>
      simp only at h
      cases hfirst : spa_list_first pt.links queue_addr with
      | none => rw [hfirst] at h; simp at h
      | some p =>
        rw [hfirst] at h
        simp only at h
        cases hbo : buffer_of p with
        | none => rw [hbo] at h; simp at h
        | some b =>
          cases hrm : spa_list_remove pt.links p with
          | none => rw [hbo, hrm] at h; simp at h
          | some links =>
            rw [hbo, hrm] at h
            simp only at h
            cases hbb : pt.buffers[b]? with
            | none => rw [hbb] at h; simp at h
            | some dbuf =>
              rw [hbb] at h
              simp only [Option.some.injEq, Prod.mk.injEq] at h
              obtain ⟨hb, hport⟩ := h
              subst hb
              obtain ⟨e, he⟩ := link_at_of_remove pt.links links p hrm
              refine ⟨p, links, dbuf, ?_, hbb, rfl, hbo, hrm, hport.symm⟩
              unfold port.queue
              rw [list_members_head pt.links queue_addr p e hem hfirst he]
              simp [List.filterMap_cons, hbo]

/-- The function `queue_buffer` leaves the io area of the port as it is. -/
theorem queue_buffer_io (pt pt1 : port) (id : Nat) (h : queue_buffer pt id = some pt1) :
    pt1.io = pt.io := by
  unfold queue_buffer at h
  cases hb : pt.buffers[id]? with
  | none => rw [hb] at h; simp at h
  | some b =>
    rw [hb] at h
    simp only at h
    split at h
    · rw [← Option.some.inj h]
    · cases hl : spa_list_append pt.links queue_addr (link_addr id) with
      | none => rw [hl] at h; simp at h
      | some links =>
        rw [hl] at h
        simp only [Option.some.injEq] at h
        rw [← h]

/-- What `impl_node_process` has done when it publishes a buffer. -/
theorem merger_process_publishes (m m1 : impl) (io : spa_io_buffers) (r : Int)
    (hio : m.out_port.io = some io) (hst : io.status ≠ SPA_STATUS_HAVE_BUFFER)
    (hp : impl_node_process m = some (r, m1))
    (hpub : ∃ io1, m1.out_port.io = some io1 ∧ io1.status = SPA_STATUS_HAVE_BUFFER) :
    ∃ (port1 port2 : port) (bi : Nat) (dbuf : buffer) (db : spa_buffer),
      (io.buffer_id < m.out_port.n_buffers →
        queue_buffer m.out_port io.buffer_id = some port1) ∧
      (¬ io.buffer_id < m.out_port.n_buffers → port1 = m.out_port) ∧
      port1.queue.head? = some bi ∧ port1.buffers[bi]? = some dbuf ∧ dbuf.buf = some db ∧
      dequeue_buffer port1 = some (some (bi, port2)) ∧
      m1.out_port = { port2 with
        io := some { status := SPA_STATUS_HAVE_BUFFER, buffer_id := db.id } } ∧
      (m.last_port : Int) ≤ m.port_count := by
  unfold impl_node_process at hp
  rw [hio] at hp
  simp only at hp
  by_cases hconv : m.convert = true
  · simp only [hconv, not_true_eq_false, if_false, if_neg hst] at hp
    generalize hq : (if io.buffer_id < m.out_port.n_buffers then
        queue_buffer m.out_port io.buffer_id else some m.out_port) = queued at hp
    cases queued with
    | none => simp at hp
    | some port1 =>
      have hp1io : port1.io = some io := by
        by_cases hlt : io.buffer_id < m.out_port.n_buffers
        · rw [if_pos hlt] at hq
          rw [queue_buffer_io _ _ _ hq]; exact hio
        · rw [if_neg hlt] at hq
          rw [← Option.some.inj hq]; exact hio
      simp only at hp
      cases hdq : dequeue_buffer port1 with
      | none => rw [hdq] at hp; simp at hp
      | some dq =>
        cases dq with
        | none =>
          rw [hdq] at hp
          simp only [Option.some.injEq, Prod.mk.injEq] at hp
          obtain ⟨io1, h1, h2⟩ := hpub
          rw [← hp.2] at h1
          change port1.io = some io1 at h1
          rw [hp1io] at h1
          rw [← Option.some.inj h1] at h2
          exact absurd h2 hst
        | some pr =>
          obtain ⟨bi, port2⟩ := pr
          rw [hdq] at hp
          simp only at hp
          obtain ⟨p, links, dbuf, hhead, hdbuf, -, -, -, hport2⟩ :=
            dequeue_buffer_some port1 port2 bi hdq
          cases hd2 : port2.buffers[bi]? with
          | none => rw [hd2] at hp; simp at hp
          | some dbuf2 =>
            rw [hd2] at hp
            simp only at hp
            cases hdb : dbuf2.buf with
            | none => rw [hdb] at hp; simp at hp
            | some db =>
              rw [hdb] at hp
              simp only at hp
              cases hd0 : db.datas[0]? with
              | none => rw [hd0] at hp; simp at hp
              | some d0 =>
                rw [hd0] at hp
                simp only at hp
                by_cases hstr : port2.stride = 0
                · rw [if_pos hstr] at hp; simp at hp
                · rw [if_neg hstr] at hp
                  by_cases hal : m.port_count < (m.last_port : Int)
                  · rw [if_pos hal] at hp; simp at hp
                  · rw [if_neg hal] at hp
                    cases hins : process_inputs m.in_ports m.last_port with
                    | none => rw [hins] at hp; simp at hp
                    | some pi =>
                      obtain ⟨ins, need⟩ := pi
                      rw [hins] at hp
                      simp only [Option.some.injEq, Prod.mk.injEq] at hp
                      have hd2' : port2.buffers[bi]? = some
                          { dbuf with flags := SPA_FLAG_UNSET dbuf.flags BUFFER_FLAG_QUEUED } := by
                        rw [hport2]
                        exact update_at_getElem?_same _ _ _ _ hdbuf
                      rw [hd2] at hd2'
                      have hdbeq : dbuf.buf = some db := by
                        rw [Option.some.inj hd2'] at hdb
                        exact hdb
                      refine ⟨port1, port2, bi, dbuf, db, ?_, ?_, hhead, hdbuf, hdbeq, hdq, ?_,
                        not_lt.1 hal⟩
                      · intro hlt; rw [if_pos hlt] at hq; exact hq
                      · intro hlt; rw [if_neg hlt] at hq; exact (Option.some.inj hq).symm
                      · rw [← hp.2]
  · simp only [hconv] at hp
    simp only [Bool.false_eq_true, not_false_eq_true, if_true, Option.some.injEq,
      Prod.mk.injEq] at hp
    obtain ⟨io1, h1, h2⟩ := hpub
    rw [← hp.2, hio] at h1
    rw [← Option.some.inj h1] at h2
    exact absurd h2 hst

end Merger

namespace Plugins

open Spa

/-! ## Recycling a buffer -/

set_option maxRecDepth 1000000 in
/-- C15, the code at the failing input, on the output port of a merger with a format.
`impl_node_port_use_buffers` with the buffers 0 (good) and 1 (without memory) puts
buffer 0 on the queue and returns `-EINVAL` with `n_buffers` still 0. The next
`impl_node_port_use_buffers`, with buffer 0 alone, does not empty the queue
(`clear_buffers` does so only when `n_buffers > 0`), clears the flags of buffer 0 and
calls `queue_buffer` for it: the buffer counts as outstanding, so its `link`, still on
the queue, is appended again. After that the node of buffer 0 points to itself and the
walk along the queue meets buffer 0 at every step. `impl_node_process` then hands out
buffer 0, the queue stays as it is, and once the peer has taken the buffer out of the
io area, without handing it back, the next `impl_node_process` hands out buffer 0
again. -/
theorem merger_requeues_linked_buffer :
    (Merger.impl_node_port_use_buffers Merger.sample_impl Merger.spa_direction.OUTPUT 0
        [Merger.sample_buffer 0, Merger.bad_buffer 1]).map
      (fun r => (r.1, r.2.out_port.n_buffers, r.2.out_port.queue,
        r.2.out_port.buffers.head?.map (fun b => b.flags)))
      = some (-EINVAL, 0, [0], some Merger.BUFFER_FLAG_QUEUED) ∧
    (Merger.impl_node_port_use_buffers Merger.sample_refused Merger.spa_direction.OUTPUT 0
        [Merger.sample_buffer 0]).map
      (fun r => (r.1, r.2.out_port.n_buffers, r.2.out_port.queue.take 3,
        r.2.out_port.queue.length, link_at r.2.out_port.links (Merger.link_addr 0)))
      = some (0, 1, [0, 0, 0], 65,
          some { next := Merger.link_addr 0, prev := Merger.link_addr 0 }) ∧
    (Merger.impl_node_process Merger.sample_retry).map
      (fun r => (r.1, r.2.out_port.io, r.2.out_port.queue.take 3))
      = some (SPA_STATUS_HAVE_BUFFER,
          some { status := SPA_STATUS_HAVE_BUFFER, buffer_id := 0 }, [0, 0, 0]) ∧
    ((Merger.impl_node_process Merger.sample_retry).bind
      (fun r => Merger.impl_node_process (Merger.consume r.2))).map
      (fun r => (r.1, r.2.out_port.io))
      = some (SPA_STATUS_HAVE_BUFFER,
          some { status := SPA_STATUS_HAVE_BUFFER, buffer_id := 0 }) :=
  ⟨by decide, by decide, by decide, by decide⟩


set_option maxRecDepth 1000000 in
/-- C16 (as written, refuted): on an ALSA source without buffers `port_reuse_buffer` of
id 0 answers `-EIO`, not `-EINVAL`; on a merger output port with two buffers
`port_reuse_buffer` of id 5 answers 0 and puts slot 5 of the array on the queue. -/
theorem reuse_buffer_out_of_range :
    AlsaSource.impl_node_port_reuse_buffer AlsaSource.sample_empty 0 0
      = some (-EIO_errno, AlsaSource.sample_empty) ∧
    (Merger.sample_two.out_port.n_buffers, Merger.sample_two.out_port.queue) = (2, [0, 1]) ∧
    (Merger.impl_node_port_reuse_buffer Merger.sample_two 0 5).map
      (fun r => (r.1, r.2.out_port.queue)) = some (0, [0, 1, 5]) := by
  decide

/-- C16 (amended): on the ALSA source, `port_reuse_buffer` with a buffer id that is not
below the number of installed buffers changes no state and is rejected: with `-EIO` when
the port id is 0 and no buffer is installed, with `-EINVAL` otherwise. -/
theorem alsa_reuse_buffer_rejected (s : AlsaSource.state) (port_id buffer_id : Nat)
    (h : s.n_buffers ≤ buffer_id) :
    AlsaSource.impl_node_port_reuse_buffer s port_id buffer_id
      = some (if port_id = 0 ∧ s.n_buffers = 0 then -EIO_errno else -EINVAL, s) := by
  unfold AlsaSource.impl_node_port_reuse_buffer
  by_cases hp : port_id = 0
  · by_cases hn : s.n_buffers = 0
    · simp [hp, hn]
    · simp [hp, hn, h]
  · simp [hp]

/-- Witness for C16: with two buffers installed, id 2 is rejected with `-EINVAL`. -/
theorem alsa_reuse_buffer_rejected_witness :
    AlsaSource.impl_node_port_reuse_buffer AlsaSource.sample_state 0 2
      = some (if (0 : Nat) = 0 ∧ AlsaSource.sample_state.n_buffers = 0 then -EIO_errno
          else -EINVAL, AlsaSource.sample_state) ∧
    (if (0 : Nat) = 0 ∧ AlsaSource.sample_state.n_buffers = 0 then -EIO_errno else -EINVAL)
      = -22 :=
  ⟨alsa_reuse_buffer_rejected AlsaSource.sample_state 0 2 (by decide), by decide⟩

/-! ## Publishing a buffer -/

/-- C17: whenever `impl_node_process` of the ALSA source or of the merger publishes a
buffer (the io area did not hold one and holds one afterwards), the id that the io area
held before, if it is below `n_buffers`, was first handed to the recycle routine
(`recycle_buffer`, `queue_buffer`), and the id published is the id of the buffer at the
head of the queue as it stands after that (`ready` for the source, the port's `queue`
for the merger); that buffer is taken off the queue (`spa_list_remove` on its `link`,
inside `dequeue_buffer` for the merger). -/
theorem process_recycles_then_publishes :
    (∀ (s s1 : AlsaSource.state) (io : spa_io_buffers) (r : Int),
      s.io = some io → io.status ≠ SPA_STATUS_HAVE_BUFFER →
      AlsaSource.impl_node_process s = some (r, s1) →
      (∃ io1, s1.io = some io1 ∧ io1.status = SPA_STATUS_HAVE_BUFFER) →
      ∃ (sr : AlsaSource.state) (p b : Nat) (bb : AlsaSource.buffer),
        (io.buffer_id < s.n_buffers →
          ∃ s0, AlsaSource.recycle_buffer s io.buffer_id = some s0 ∧
            sr = { s0 with io := some { io with buffer_id := SPA_ID_INVALID } }) ∧
        (¬ io.buffer_id < s.n_buffers → sr = s) ∧
        sr.ready.head? = some b ∧ sr.buffers[b]? = some bb ∧
        s1.io = some { status := SPA_STATUS_HAVE_BUFFER, buffer_id := bb.buf_id } ∧
        AlsaSource.buffer_of p = some b ∧ spa_list_remove sr.links p = some s1.links ∧
        s1.buffers = sr.buffers) ∧
    (∀ (m m1 : Merger.impl) (io : spa_io_buffers) (r : Int),
      m.out_port.io = some io → io.status ≠ SPA_STATUS_HAVE_BUFFER →
      Merger.impl_node_process m = some (r, m1) →
      (∃ io1, m1.out_port.io = some io1 ∧ io1.status = SPA_STATUS_HAVE_BUFFER) →
      ∃ (port1 port2 : Merger.port) (bi : Nat) (dbuf : Merger.buffer)
          (db : Merger.spa_buffer),
        (io.buffer_id < m.out_port.n_buffers →
          Merger.queue_buffer m.out_port io.buffer_id = some port1) ∧
        (¬ io.buffer_id < m.out_port.n_buffers → port1 = m.out_port) ∧
        port1.queue.head? = some bi ∧ port1.buffers[bi]? = some dbuf ∧ dbuf.buf = some db ∧
        m1.out_port.io = some { status := SPA_STATUS_HAVE_BUFFER, buffer_id := db.id } ∧
        Merger.dequeue_buffer port1 = some (some (bi, port2)) ∧
        m1.out_port.links = port2.links ∧ m1.out_port.buffers = port2.buffers) := by
  constructor
  · intro s s1 io r hio hst hp hpub
    obtain ⟨sr, p, b, links, bb, h1, h2, h3, h4, -, h6, h7, -, h9⟩ :=
      AlsaSource.alsa_process_publishes s s1 io r hio hst hp hpub
    refine ⟨sr, p, b, bb, h1, h2, h3, h4, ?_, h6, ?_, ?_⟩
    · rw [h9]
    · rw [h9]; exact h7
    · rw [h9]
  · intro m m1 io r hio hst hp hpub
    obtain ⟨port1, port2, bi, dbuf, db, h1, h2, h3, h4, h5, h6, h7, -⟩ :=
      Merger.merger_process_publishes m m1 io r hio hst hp hpub
    refine ⟨port1, port2, bi, dbuf, db, h1, h2, h3, h4, h5, ?_, h6, ?_, ?_⟩
    · rw [h7]
    · rw [h7]
    · rw [h7]

set_option maxRecDepth 1000000 in
/-- Witness for C17: the sample source recycles buffer 0 to the free list and publishes
buffer 1 from the ready list; the merger with the queue `[1]` and buffer 0 consumed
puts buffer 0 behind buffer 1 and publishes buffer 1. -/
theorem process_recycles_then_publishes_witness :
    (∃ (sr : AlsaSource.state) (p b : Nat) (bb : AlsaSource.buffer),
        ((0 : Nat) < AlsaSource.sample_state.n_buffers →
          ∃ s0, AlsaSource.recycle_buffer AlsaSource.sample_state 0 = some s0 ∧
            sr = { s0 with io := some { status := SPA_STATUS_NEED_BUFFER,
                                         buffer_id := SPA_ID_INVALID } }) ∧
        (¬ (0 : Nat) < AlsaSource.sample_state.n_buffers → sr = AlsaSource.sample_state) ∧
        sr.ready.head? = some b ∧ sr.buffers[b]? = some bb ∧
        (AlsaSource.impl_node_process AlsaSource.sample_state).map (fun x => x.2.io)
          = some (some { status := SPA_STATUS_HAVE_BUFFER, buffer_id := bb.buf_id }) ∧
        AlsaSource.buffer_of p = some b) ∧
    (AlsaSource.impl_node_process AlsaSource.sample_state).map
      (fun x => (x.2.io, x.2.free, x.2.ready))
      = some (some { status := SPA_STATUS_HAVE_BUFFER, buffer_id := 1 }, [0], []) ∧
    (Merger.impl_node_process { Merger.sample_published with
        out_port := { Merger.sample_published.out_port with
          io := some { status := SPA_STATUS_NEED_BUFFER, buffer_id := 0 } } }).map
      (fun x => (x.2.out_port.io, x.2.out_port.queue))
      = some (some { status := SPA_STATUS_HAVE_BUFFER, buffer_id := 1 }, [0]) := by
  refine ⟨?_, by decide, by decide⟩
  obtain ⟨sr, p, b, bb, h1, h2, h3, h4, h5, h6, -, -⟩ :=
    process_recycles_then_publishes.1 AlsaSource.sample_state
      { buffers := [{ buf_id := 0, flags := 0 }, { buf_id := 1, flags := 1 }],
        n_buffers := 2,
        links := [{ next := 3, prev := 3 }, { next := 2, prev := 2 },
                  { next := 1, prev := 1 }, { next := 2, prev := 2 }],
        io := some { status := 2, buffer_id := 1 } }
      { status := SPA_STATUS_NEED_BUFFER, buffer_id := 0 } 2 rfl (by decide) (by decide)
      ⟨_, rfl, rfl⟩
  refine ⟨sr, p, b, bb, h1, h2, h3, h4, ?_, h6⟩
  have e : (AlsaSource.impl_node_process AlsaSource.sample_state).map (fun x => x.2.io)
      = some (some { status := 2, buffer_id := 1 }) := by decide
  rw [e]
  exact congrArg some h5


/-! ## The buffers array of a merger port -/

set_option maxRecDepth 1000000 in
/-- C23, the code at the failing input: on the output port of a merger with a format,
`impl_node_port_use_buffers` with 64 buffers stores them and returns 0 with
`n_buffers = 64`; with 65 buffers it returns no error either: after filling
`buffers[0 .. 63]` the loop goes on to `buffers[64]`, outside the array, which is where
the embedding has no result. The function compares `n_buffers` with nothing. -/
theorem merger_use_buffers_overflows :
    (Merger.impl_node_port_use_buffers Merger.sample_impl Merger.spa_direction.OUTPUT 0
        ((List.range 64).map Merger.sample_buffer)).map
      (fun r => (r.1, r.2.out_port.n_buffers, r.2.out_port.queue.length)) = some (0, 64, 64) ∧
    Merger.impl_node_port_use_buffers Merger.sample_impl Merger.spa_direction.OUTPUT 0
        ((List.range 65).map Merger.sample_buffer) = none ∧
    (Merger.use_buffers_loop Merger.spa_direction.OUTPUT
        ((List.range 64).map Merger.sample_buffer) 0
        (Merger.clear_buffers Merger.sample_impl.out_port)).isSome = true ∧
    ((Merger.use_buffers_loop Merger.spa_direction.OUTPUT
        ((List.range 64).map Merger.sample_buffer) 0
        (Merger.clear_buffers Merger.sample_impl.out_port)).bind
      (fun r => Merger.use_buffers_loop Merger.spa_direction.OUTPUT [Merger.sample_buffer 64] 64
        r.1)) = none ∧
    Merger.sample_impl.out_port.buffers.length = Merger.MAX_BUFFERS := by
  decide

/-! ## The count of input ports and the last port -/

set_option maxRecDepth 1000000 in
/-- C28, the code at the failing input: after `impl_init`, input port 0 is added and removed
again. `port_count` is back at 0 and no input port is valid, but `last_port` stays 1:
`impl_node_remove_port` rescans only when `port_id == last_port + 1`, which the port
below `last_port` never meets. Likewise after adding the ports 0 and 5 and removing
port 5, `last_port` stays 6 where port 0 is the highest valid port. -/
theorem merger_remove_port_keeps_last_port :
    (Merger.port_run Merger.impl_init
        [Merger.PortOp.add_port Merger.spa_direction.INPUT 0,
         Merger.PortOp.remove_port Merger.spa_direction.INPUT 0]).map
      (fun s => (s.port_count, Merger.valid_count s, s.last_port, Merger.spec_last_port s))
      = some (0, 0, 1, 0) ∧
    (Merger.port_run Merger.impl_init
        [Merger.PortOp.add_port Merger.spa_direction.INPUT 0,
         Merger.PortOp.add_port Merger.spa_direction.INPUT 5,
         Merger.PortOp.remove_port Merger.spa_direction.INPUT 5]).map
      (fun s => (s.port_count, Merger.valid_count s, s.last_port, Merger.spec_last_port s))
      = some (1, 1, 6, 1) ∧
    (Merger.impl_node_remove_port
        (Merger.impl_node_add_port Merger.impl_init Merger.spa_direction.INPUT 0).2
        Merger.spa_direction.INPUT 0).map (fun r => r.1) = some 0 := by
  decide

/-! ## Blocks and stride of a merger port -/

set_option maxRecDepth 1000000 in
/-- C29, the code at the failing input: on a merger with two input ports the output port
is given the planar format S16P with two channels. `port_set_format` succeeds and sets
`blocks = 2`, but `stride = 4` where a sample of S16P has 2 bytes: `calc_width` names only
the interleaved formats and takes 4 for every other one. The same holds for U8P (4
instead of 1) and S24P (4 instead of 3); for the interleaved S16 the result is as
stated (`blocks = 1`, `stride = 2 * 2`). -/
theorem merger_planar_stride :
    (Merger.impl_node_port_set_format (fun _ _ => true) Merger.sample_stereo
        Merger.spa_direction.OUTPUT 0 0
        (some (Merger.sample_pod Merger.spa_audio_format.S16P 48000 2))).map
      (fun r => (r.1, r.2.out_port.have_format, r.2.out_port.blocks, r.2.out_port.stride))
      = some (0, true, 2, 4) ∧
    Merger.spec_sample_width Merger.spa_audio_format.S16P = 2 ∧
    (Merger.impl_node_port_set_format (fun _ _ => true) Merger.sample_stereo
        Merger.spa_direction.OUTPUT 0 0
        (some (Merger.sample_pod Merger.spa_audio_format.U8P 48000 2))).map
      (fun r => (r.1, r.2.out_port.blocks, r.2.out_port.stride)) = some (0, 2, 4) ∧
    Merger.spec_sample_width Merger.spa_audio_format.U8P = 1 ∧
    (Merger.impl_node_port_set_format (fun _ _ => true) Merger.sample_stereo
        Merger.spa_direction.OUTPUT 0 0
        (some (Merger.sample_pod Merger.spa_audio_format.S24P 48000 2))).map
      (fun r => (r.1, r.2.out_port.blocks, r.2.out_port.stride)) = some (0, 2, 4) ∧
    Merger.spec_sample_width Merger.spa_audio_format.S24P = 3 ∧
    (Merger.impl_node_port_set_format (fun _ _ => true) Merger.sample_stereo
        Merger.spa_direction.OUTPUT 0 0
        (some (Merger.sample_pod Merger.spa_audio_format.S16 48000 2))).map
      (fun r => (r.1, r.2.out_port.blocks, r.2.out_port.stride)) = some (0, 1, 4) := by
  decide

end Plugins

namespace V4l2

/-! ## Comparing a frame interval with a frame rate -/

theorem rate_lt_value_iff (f1 : v4l2_fract) (f2 : SpaFraction) (hn : 0 < f1.numerator)
    (hden : 0 < f2.denom) :
    rate_of f1 < value_of f2 ↔ f1.denominator * f2.denom < f1.numerator * f2.num := by
  unfold rate_of value_of
  have h1 : (0 : ℚ) < (f1.numerator : ℚ) := by exact_mod_cast hn
  have h2 : (0 : ℚ) < (f2.denom : ℚ) := by exact_mod_cast hden
  rw [div_lt_div_iff h1 h2]
  constructor
  · intro h
    have h3 : ((f1.denominator * f2.denom : Nat) : ℚ) < ((f1.numerator * f2.num : Nat) : ℚ) := by
      push_cast
      linarith
    exact_mod_cast h3
  · intro h
    have h3 : ((f1.denominator * f2.denom : Nat) : ℚ) < ((f1.numerator * f2.num : Nat) : ℚ) := by
      exact_mod_cast h
    push_cast at h3
    linarith

theorem rate_eq_value_iff (f1 : v4l2_fract) (f2 : SpaFraction) (hn : 0 < f1.numerator)
    (hden : 0 < f2.denom) :
    rate_of f1 = value_of f2 ↔ f1.denominator * f2.denom = f1.numerator * f2.num := by
  unfold rate_of value_of
  have h1 : (f1.numerator : ℚ) ≠ 0 := by exact_mod_cast (Nat.pos_iff_ne_zero.1 hn)
  have h2 : (f2.denom : ℚ) ≠ 0 := by exact_mod_cast (Nat.pos_iff_ne_zero.1 hden)
  rw [div_eq_div_iff h1 h2]
  constructor
  · intro h
    have h3 : ((f1.denominator * f2.denom : Nat) : ℚ) = ((f1.numerator * f2.num : Nat) : ℚ) := by
      push_cast
      linarith
    exact_mod_cast h3
  · intro h
    have h3 : ((f1.denominator * f2.denom : Nat) : ℚ) = ((f1.numerator * f2.num : Nat) : ℚ) := by
      exact_mod_cast h
    push_cast at h3
    linarith

theorem value_lt_rate_iff (f1 : v4l2_fract) (f2 : SpaFraction) (hn : 0 < f1.numerator)
    (hden : 0 < f2.denom) :
    value_of f2 < rate_of f1 ↔ f1.numerator * f2.num < f1.denominator * f2.denom := by
  unfold rate_of value_of
  have h1 : (0 : ℚ) < (f1.numerator : ℚ) := by exact_mod_cast hn
  have h2 : (0 : ℚ) < (f2.denom : ℚ) := by exact_mod_cast hden
  rw [div_lt_div_iff h2 h1]
  constructor
  · intro h
    have h3 : ((f1.numerator * f2.num : Nat) : ℚ) < ((f1.denominator * f2.denom : Nat) : ℚ) := by
      push_cast
      linarith
    exact_mod_cast h3
  · intro h
    have h3 : ((f1.numerator * f2.num : Nat) : ℚ) < ((f1.denominator * f2.denom : Nat) : ℚ) := by
      exact_mod_cast h
    push_cast at h3
    linarith

/-- Two fractions in lowest terms whose cross products agree have the same terms. -/
theorem same_terms_of_reduced (a b c d : Nat) (ha : 0 < a)
    (h1 : Nat.Coprime a b) (h2 : Nat.Coprime c d) (h : a * d = b * c) : a = c ∧ b = d := by
  have hac : a ∣ c := by
    have : a ∣ b * c := ⟨d, h.symm⟩
    exact h1.dvd_of_dvd_mul_left this
  have hca : c ∣ a := by
    have : c ∣ a * d := ⟨b, by rw [h]; ring⟩
    exact h2.dvd_of_dvd_mul_right this
  have e : a = c := Nat.dvd_antisymm hac hca
  refine ⟨e, ?_⟩
  subst e
  have h3 : a * d = a * b := by rw [h]; ring
  exact (Nat.eq_of_mul_eq_mul_left ha h3).symm


/-- C30 (as written, refuted): the interval 2/60 s has the rate 60/2, which equals the rate
30/1 as a rational number, but `compare_fraction` returns 1: it returns 0 only for
identical terms. For the interval `1/0xffffffff` and the rate `1/0xffffffff` the
product `0xffffffff * 0xffffffff` exceeds `INT64_MAX`: the multiplication in
`int64_t` overflows. -/
theorem compare_fraction_unreduced :
    compare_fraction { numerator := 2, denominator := 60 } { num := 30, denom := 1 } = some 1 ∧
    rate_of { numerator := 2, denominator := 60 } = value_of { num := 30, denom := 1 } ∧
    compare_fraction { numerator := 1, denominator := 0xffffffff }
      { num := 1, denom := 0xffffffff } = none ∧
    INT64_MAX < 0xffffffff * 0xffffffff := by
  refine ⟨by decide, ?_, by decide, by decide⟩
  unfold rate_of value_of
  norm_num

/-- C30 (amended): for every frame interval `f1` with non-zero terms and every frame rate
`f2` with non-zero `denom`, when both cross products are at most `INT64_MAX`,
`compare_fraction` returns a result: -1 exactly when the rate
`denominator / numerator` of `f1` is smaller than `f2` as a rational number, 0 exactly
when the terms are identical (`denominator = num` and `numerator = denom`), 1 in every
other case. When both fractions are in lowest terms it returns 0 exactly when the rates
are equal and 1 exactly when the rate of `f1` is larger. -/
theorem compare_fraction_spec (f1 : v4l2_fract) (f2 : SpaFraction)
    (hn : 0 < f1.numerator) (hd : 0 < f1.denominator) (hden : 0 < f2.denom)
    (h1 : f1.denominator * f2.denom ≤ INT64_MAX) (h2 : f1.numerator * f2.num ≤ INT64_MAX) :
    ∃ r, compare_fraction f1 f2 = some r ∧
      (r = -1 ↔ rate_of f1 < value_of f2) ∧
      (r = 0 ↔ (f1.denominator = f2.num ∧ f1.numerator = f2.denom)) ∧
      (r = 1 ↔ (¬ rate_of f1 < value_of f2 ∧
        ¬ (f1.denominator = f2.num ∧ f1.numerator = f2.denom))) ∧
      (Nat.Coprime f1.denominator f1.numerator → Nat.Coprime f2.num f2.denom →
        ((r = 0 ↔ rate_of f1 = value_of f2) ∧ (r = 1 ↔ value_of f2 < rate_of f1))) := by
  have hlt := rate_lt_value_iff f1 f2 hn hden
  have heq := rate_eq_value_iff f1 f2 hn hden
  have hgt := value_lt_rate_iff f1 f2 hn hden
  have hcop : Nat.Coprime f1.denominator f1.numerator → Nat.Coprime f2.num f2.denom →
      f1.denominator * f2.denom = f1.numerator * f2.num →
      (f1.denominator = f2.num ∧ f1.numerator = f2.denom) :=
    fun c1 c2 e => same_terms_of_reduced _ _ _ _ hd c1 c2 e
  unfold compare_fraction
  by_cases hid : f1.denominator = f2.num ∧ f1.numerator = f2.denom
  · rw [if_pos hid]
    have hcross : f1.denominator * f2.denom = f1.numerator * f2.num := by
      rw [hid.1, hid.2]; ring
    have hnlt : ¬ rate_of f1 < value_of f2 := by rw [hlt]; omega
    have hngt : ¬ value_of f2 < rate_of f1 := by rw [hgt]; omega
    have hre : rate_of f1 = value_of f2 := heq.2 hcross
    refine ⟨0, rfl, ?_, ?_, ?_, ?_⟩
    · constructor
      · intro h; exact absurd h (by decide)
      · intro h; exact absurd h hnlt
    · exact ⟨fun _ => hid, fun _ => rfl⟩
    · constructor
      · intro h; exact absurd h (by decide)
      · intro h; exact absurd hid h.2
    · intro _ _
      refine ⟨⟨fun _ => hre, fun _ => rfl⟩, ?_⟩
      constructor
      · intro h; exact absurd h (by decide)
      · intro h; exact absurd h hngt
  · rw [if_neg hid]
    have hno : ¬ (f1.denominator * f2.denom > INT64_MAX ∨ f1.numerator * f2.num > INT64_MAX) := by
      intro h
      rcases h with h | h <;> omega
    simp only [hno, if_false]
    by_cases hc : f1.denominator * f2.denom < f1.numerator * f2.num
    · rw [if_pos hc]
      have hrl : rate_of f1 < value_of f2 := hlt.2 hc
      refine ⟨-1, rfl, ?_, ?_, ?_, ?_⟩
      · exact ⟨fun _ => hrl, fun _ => rfl⟩
      · constructor
        · intro h; exact absurd h (by decide)
        · intro h; exact absurd h hid
      · constructor
        · intro h; exact absurd h (by decide)
        · intro h; exact absurd hrl h.1
      · intro _ _
        constructor
        · constructor
          · intro h; exact absurd h (by decide)
          · intro h
            rw [heq] at h
            omega
        · constructor
          · intro h; exact absurd h (by decide)
          · intro h
            rw [hgt] at h
            omega
    · rw [if_neg hc]
      have hrl : ¬ rate_of f1 < value_of f2 := by rw [hlt]; exact hc
      refine ⟨1, rfl, ?_, ?_, ?_, ?_⟩
      · constructor
        · intro h; exact absurd h (by decide)
        · intro h; exact absurd h hrl
      · constructor
        · intro h; exact absurd h (by decide)
        · intro h; exact absurd h hid
      · exact ⟨fun _ => ⟨hrl, hid⟩, fun _ => rfl⟩
      · intro c1 c2
        constructor
        · constructor
          · intro h; exact absurd h (by decide)
          · intro h
            rw [heq] at h
            exact absurd (hcop c1 c2 h) hid
        · constructor
          · intro _
            rw [hgt]
            have hne : f1.denominator * f2.denom ≠ f1.numerator * f2.num :=
              fun e => hid (hcop c1 c2 e)
            omega
          · intro _; rfl

/-- Witness for C30 (amended): the interval 1/30 s against the rate 25/1. -/
theorem compare_fraction_spec_witness :
    ∃ r, compare_fraction { numerator := 1, denominator := 30 } { num := 25, denom := 1 }
        = some r ∧
      (r = -1 ↔ rate_of { numerator := 1, denominator := 30 }
        < value_of { num := 25, denom := 1 }) ∧
      (r = 0 ↔ ((30 : Nat) = 25 ∧ (1 : Nat) = 1)) ∧
      (r = 1 ↔ (¬ rate_of { numerator := 1, denominator := 30 }
          < value_of { num := 25, denom := 1 } ∧
        ¬ ((30 : Nat) = 25 ∧ (1 : Nat) = 1))) ∧
      (Nat.Coprime 30 1 → Nat.Coprime 25 1 →
        ((r = 0 ↔ rate_of { numerator := 1, denominator := 30 }
            = value_of { num := 25, denom := 1 }) ∧
         (r = 1 ↔ value_of { num := 25, denom := 1 }
            < rate_of { numerator := 1, denominator := 30 }))) :=
  compare_fraction_spec { numerator := 1, denominator := 30 } { num := 25, denom := 1 }
    (by decide) (by decide) (by decide) (by decide) (by decide)

end V4l2

namespace ImplDevice

/-! ## The listener of a device resource -/

/-- The link between the listener and the end of the pending reply. -/
theorem listener_inv_await (d : resource_data) (cb : result_callback) (res sync : Int)
    (h : d.listener = if d.end_seq ≠ -1 then 1 else 0) :
    (await_reply d cb res sync).listener = 1 ∧
    (await_reply d cb res sync).end_seq = sync ∧
    (await_reply d cb res sync).seq = res ∧
    (await_reply d cb res sync).busy = true ∧
    (await_reply d cb res sync).trace
      = d.trace ++ [Event.set_busy true]
          ++ (if d.listener = 0 then [Event.add_listener cb] else []) := by
  unfold await_reply
  by_cases he : d.end_seq = -1
  · have hl : d.listener = 0 := by rw [h]; simp [he]
    simp [he, hl]
  · have hl : d.listener = 1 := by rw [h]; simp [he]
    simp [he, hl]

theorem result_device_done_spec (d : resource_data) (seq : Int) :
    (seq = d.end_seq →
      (result_device_done d seq).listener = d.listener - 1 ∧
      (result_device_done d seq).end_seq = -1 ∧
      (result_device_done d seq).busy = false ∧
      removals (result_device_done d seq).trace = removals d.trace + 1) ∧
    (seq ≠ d.end_seq → result_device_done d seq = d) ∧
    (result_device_done d seq).seq = d.seq ∧
    (result_device_done d seq).callback = d.callback := by
  unfold result_device_done
  by_cases he : seq = d.end_seq
  · simp [he, removals, List.count_append]
  · simp [he]

theorem emit_result_spec (d : resource_data) (seq : Int) (type : Nat) :
    (d.listener ≠ 0 → seq = d.end_seq →
      (emit_result d seq type).listener = d.listener - 1 ∧
      (emit_result d seq type).end_seq = -1 ∧
      (emit_result d seq type).busy = false ∧
      removals (emit_result d seq type).trace = removals d.trace + 1) ∧
    (seq ≠ d.end_seq →
      (emit_result d seq type).listener = d.listener ∧
      (emit_result d seq type).end_seq = d.end_seq ∧
      (emit_result d seq type).busy = d.busy ∧
      removals (emit_result d seq type).trace = removals d.trace) ∧
    (d.listener = 0 → emit_result d seq type = d) := by
  obtain ⟨h1, h2, h3, h4⟩ := result_device_done_spec d seq
  refine ⟨?_, ?_, ?_⟩
  · intro hl he
    obtain ⟨a, b, c, e⟩ := h1 he
    unfold emit_result
    rw [if_neg hl]
    cases hcb : d.callback with
    | result_device_done => exact ⟨a, b, c, e⟩
    | result_device_params_async =>
      simp only [result_device_params_async]
      split
      · refine ⟨a, b, c, ?_⟩
        simp only [removals, List.count_append] at e ⊢
        rw [e]
        simp
      · exact ⟨a, b, c, e⟩
  · intro he
    have hd := h2 he
    unfold emit_result
    by_cases hl : d.listener = 0
    · rw [if_pos hl]
      exact ⟨rfl, rfl, rfl, rfl⟩
    · rw [if_neg hl]
      cases hcb : d.callback with
      | result_device_done => rw [hd]; exact ⟨rfl, rfl, rfl, rfl⟩
      | result_device_params_async =>
        simp only [result_device_params_async, hd]
        split
        · refine ⟨rfl, rfl, rfl, ?_⟩
          simp [removals, List.count_append]
        · exact ⟨rfl, rfl, rfl, rfl⟩
  · intro hl
    unfold emit_result
    rw [if_pos hl]

theorem listener_inv_step (d : resource_data) (c : Call)
    (h : d.listener = if d.end_seq ≠ -1 then 1 else 0) (hs : sync_result c ≠ some (-1)) :
    (step d c).listener = if (step d c).end_seq ≠ -1 then 1 else 0 := by
  cases c with
  | enum_params seq res sync =>
    simp only [step, device_enum_params]
    by_cases hneg : res < 0
    · simp only [hneg, if_true]
      exact h
    · simp only [hneg, if_false]
      by_cases ha : SPA_RESULT_IS_ASYNC res = true
      · simp only [ha, if_true]
        have hsy : sync ≠ -1 := by
          intro e
          apply hs
          simp only [sync_result]
          rw [if_pos ⟨by omega, ha⟩, e]
        obtain ⟨a, b, _⟩ := listener_inv_await d result_callback.result_device_params_async
          res sync h
        simp only [a, b, if_pos hsy]
      · simp only [ha]
        exact h
  | set_param res sync =>
    simp only [step, device_set_param]
    by_cases hneg : res < 0
    · simp only [hneg, if_true]
      exact h
    · simp only [hneg, if_false]
      by_cases ha : SPA_RESULT_IS_ASYNC res = true
      · simp only [ha, if_true]
        have hsy : sync ≠ -1 := by
          intro e
          apply hs
          simp only [sync_result]
          rw [if_pos ⟨by omega, ha⟩, e]
        obtain ⟨a, b, _⟩ := listener_inv_await d result_callback.result_device_done
          res sync h
        simp only [a, b, if_pos hsy]
      · simp only [ha]
        exact h
  | result seq type =>
    simp only [step]
    obtain ⟨h1, h2, h3⟩ := emit_result_spec d seq type
    by_cases hl : d.listener = 0
    · simp only [h3 hl]
      exact h
    · by_cases he : seq = d.end_seq
      · obtain ⟨a, b, _⟩ := h1 hl he
        have hne : d.end_seq ≠ -1 := by
          intro e
          apply hl
          rw [h, e]
          simp
        have hl1 : d.listener = 1 := by rw [h]; simp [hne]
        simp only [a, b, hl1]
        simp
      · obtain ⟨a, b, _⟩ := h2 he
        simp only [a, b]
        exact h

theorem listener_inv_run (calls : List Call) :
    ∀ (d : resource_data), d.listener = (if d.end_seq ≠ -1 then 1 else 0) →
      (∀ c ∈ calls, sync_result c ≠ some (-1)) →
      (run d calls).listener = if (run d calls).end_seq ≠ -1 then 1 else 0 := by
  induction calls with
  | nil => intro d h _; exact h
  | cons c rest ih =>
    intro d h hs
    simp only [run, List.foldl_cons]
    exact ih (step d c) (listener_inv_step d c h (hs c (List.mem_cons_self c rest)))
      (fun x hx => hs x (List.mem_cons_of_mem c hx))


set_option maxRecDepth 1000000 in
/-- C21 (as written, refuted): on a new resource an asynchronous `device_set_param` whose
`spa_device_sync` returns -1 registers the listener and records -1 as the end: the
listener is registered while `end` is -1. A second asynchronous call then finds
`end == -1` and registers the listener again while it is still linked. -/
theorem listener_registered_with_end_unset :
    (run (global_bind false) [Call.set_param async5 (-1)]).listener = 1 ∧
    (run (global_bind false) [Call.set_param async5 (-1)]).end_seq = -1 ∧
    SPA_RESULT_IS_ASYNC async5 = true ∧
    (run (global_bind false) [Call.set_param async5 (-1), Call.set_param async5 async6]).listener
      = 2 ∧
    (run (global_bind false) [Call.set_param async5 (-1), Call.set_param async5 async6]).trace
      = [Event.set_busy true, Event.add_listener result_callback.result_device_done,
         Event.set_busy true, Event.add_listener result_callback.result_device_done] := by
  decide

/-- C21 (amended): in every run of calls and result events on a new device resource in
which `spa_device_sync` never returns -1, the listener is registered (once) exactly when
`end` is not -1. In such a state an asynchronous `device_enum_params` or
`device_set_param` marks the client busy, registers the listener only if it is not
registered, and records the result as `seq` and the sync point as `end`; a result event
whose sequence equals the recorded end removes the listener with one
`spa_hook_remove`, resets `end` to -1 and clears the busy flag; a result event with
another sequence leaves listener, `end` and busy flag as they are. -/
theorem device_listener_registered (busy : Bool) (calls : List Call)
    (hsync : ∀ c ∈ calls, sync_result c ≠ some (-1)) :
    ((run (global_bind busy) calls).listener
      = if (run (global_bind busy) calls).end_seq ≠ -1 then 1 else 0) ∧
    (∀ (seq res sync : Int), 0 ≤ res → SPA_RESULT_IS_ASYNC res = true →
      (device_enum_params (run (global_bind busy) calls) seq res sync).2.listener = 1 ∧
      (device_enum_params (run (global_bind busy) calls) seq res sync).2.end_seq = sync ∧
      (device_enum_params (run (global_bind busy) calls) seq res sync).2.seq = res ∧
      (device_enum_params (run (global_bind busy) calls) seq res sync).2.busy = true ∧
      (device_enum_params (run (global_bind busy) calls) seq res sync).2.trace
        = (run (global_bind busy) calls).trace ++ [Event.set_busy true]
            ++ (if (run (global_bind busy) calls).listener = 0
                then [Event.add_listener result_callback.result_device_params_async]
                else [])) ∧
    (∀ (res sync : Int), 0 ≤ res → SPA_RESULT_IS_ASYNC res = true →
      (device_set_param (run (global_bind busy) calls) res sync).2.listener = 1 ∧
      (device_set_param (run (global_bind busy) calls) res sync).2.end_seq = sync ∧
      (device_set_param (run (global_bind busy) calls) res sync).2.seq = res ∧
      (device_set_param (run (global_bind busy) calls) res sync).2.busy = true ∧
      (device_set_param (run (global_bind busy) calls) res sync).2.trace
        = (run (global_bind busy) calls).trace ++ [Event.set_busy true]
            ++ (if (run (global_bind busy) calls).listener = 0
                then [Event.add_listener result_callback.result_device_done]
                else [])) ∧
    (∀ (seq : Int) (type : Nat), (run (global_bind busy) calls).end_seq ≠ -1 →
      seq = (run (global_bind busy) calls).end_seq →
      (emit_result (run (global_bind busy) calls) seq type).listener = 0 ∧
      (emit_result (run (global_bind busy) calls) seq type).end_seq = -1 ∧
      (emit_result (run (global_bind busy) calls) seq type).busy = false ∧
      removals (emit_result (run (global_bind busy) calls) seq type).trace
        = removals (run (global_bind busy) calls).trace + 1) ∧
    (∀ (seq : Int) (type : Nat), seq ≠ (run (global_bind busy) calls).end_seq →
      (emit_result (run (global_bind busy) calls) seq type).listener
        = (run (global_bind busy) calls).listener ∧
      (emit_result (run (global_bind busy) calls) seq type).end_seq
        = (run (global_bind busy) calls).end_seq ∧
      (emit_result (run (global_bind busy) calls) seq type).busy
        = (run (global_bind busy) calls).busy ∧
      removals (emit_result (run (global_bind busy) calls) seq type).trace
        = removals (run (global_bind busy) calls).trace) := by
  have hinv := listener_inv_run calls (global_bind busy) (by simp [global_bind]) hsync
  generalize run (global_bind busy) calls = d at hinv
  refine ⟨hinv, ?_, ?_, ?_, ?_⟩
  · intro seq res sync hres ha
    have hneg : ¬ res < 0 := by omega
    simp only [device_enum_params, hneg, if_false, ha, if_true]
    exact listener_inv_await d _ res sync hinv
  · intro res sync hres ha
    have hneg : ¬ res < 0 := by omega
    simp only [device_set_param, hneg, if_false, ha, if_true]
    exact listener_inv_await d _ res sync hinv
  · intro seq type hne he
    have hl1 : d.listener = 1 := by rw [hinv]; simp [hne]
    obtain ⟨a, b, c, e⟩ := (emit_result_spec d seq type).1 (by omega) he
    refine ⟨?_, b, c, e⟩
    rw [a, hl1]
  · intro seq type hne
    exact (emit_result_spec d seq type).2.1 hne

set_option maxRecDepth 1000000 in
/-- Witness for C21 (amended): an asynchronous `device_enum_params` with sync point
`async6`, a result event for another sequence, and the result event for the sync
point: the listener was registered once and is removed again. -/
theorem device_listener_registered_witness :
    (run (global_bind false)
        [Call.enum_params 1 async5 async6, Call.result async5 SPA_RESULT_TYPE_DEVICE_PARAMS,
         Call.result async6 0]).listener
      = (if (run (global_bind false)
          [Call.enum_params 1 async5 async6, Call.result async5 SPA_RESULT_TYPE_DEVICE_PARAMS,
           Call.result async6 0]).end_seq ≠ -1 then 1 else 0) ∧
    (run (global_bind false)
        [Call.enum_params 1 async5 async6, Call.result async5 SPA_RESULT_TYPE_DEVICE_PARAMS,
         Call.result async6 0]).trace
      = [Event.set_busy true, Event.add_listener result_callback.result_device_params_async,
         Event.resource_param async5, Event.hook_remove, Event.set_busy false] :=
  ⟨(device_listener_registered false
      [Call.enum_params 1 async5 async6, Call.result async5 SPA_RESULT_TYPE_DEVICE_PARAMS,
       Call.result async6 0]
      (by decide)).1,
   by decide⟩

end ImplDevice

namespace Merger

open Spa

/-! ## The bookkeeping of the input ports -/

theorem countP_update_at {α : Type} (p : α → Bool) (g : α → α) :
    ∀ (l : List α) (i : Nat) (x : α), l[i]? = some x →
      (update_at g l i).countP p + (if p x then 1 else 0)
        = l.countP p + (if p (g x) then 1 else 0) := by
  intro l
  induction l with
  | nil => intro i x h; simp at h
  | cons y ys ih =>
    intro i x h
    cases i with
    | zero =>
      simp only [List.getElem?_cons_zero, Option.some.injEq] at h
      subst h
      simp only [update_at, List.countP_cons]
      omega
    | succ i =>
      simp only [List.getElem?_cons_succ] at h
      have := ih i x h
      simp only [update_at, List.countP_cons]
      omega

theorem ports_inv_impl_init : ports_inv impl_init := by
  refine ⟨by simp [impl_init], ?_, ?_⟩
  · have e : valid_count impl_init = 0 := by
      unfold valid_count impl_init
      rw [List.countP_eq_zero]
      intro a ha
      rw [(List.mem_replicate.1 ha).2]
      simp [memzero_port]
    rw [e]
    rfl
  intro i q h hv
  have hm : q ∈ List.replicate MAX_PORTS memzero_port := by
    apply List.mem_iff_getElem?.2
    exact ⟨i, h⟩
  have e := (List.mem_replicate.1 hm).2
  subst e
  simp [memzero_port] at hv

theorem ports_inv_add_port (s : impl) (d : spa_direction) (p : Nat) (h : ports_inv s) :
    ports_inv (impl_node_add_port s d p).2 ∧
    s.last_port ≤ (impl_node_add_port s d p).2.last_port := by
  obtain ⟨hlen, hcount, hbelow⟩ := h
  unfold impl_node_add_port
  by_cases hc : CHECK_FREE_IN_PORT s d p = true
  · simp only [hc, not_true_eq_false, if_false]
    unfold CHECK_FREE_IN_PORT at hc
    simp only [Bool.and_eq_true, decide_eq_true_eq] at hc
    obtain ⟨⟨_, hp⟩, hq⟩ := hc
    cases hget : s.in_ports[p]? with
    | none => rw [hget] at hq; simp at hq
    | some q =>
      rw [hget] at hq
      have hqv : q.valid = false := by simpa using hq
      refine ⟨⟨?_, ?_, ?_⟩, ?_⟩
      · simp only [update_at_length, hlen]
      · have hcp := countP_update_at (fun (x : port) => x.valid)
          (fun (x : port) => { x with valid := true, id := p, have_format := false })
          s.in_ports p q hget
        simp only [hqv, Bool.false_eq_true, if_false, if_true, Nat.add_zero] at hcp
        unfold valid_count at hcount ⊢
        simp only
        rw [hcp, hcount]
        push_cast
        ring
      · intro i q2 hi hv
        dsimp only at hi ⊢
        by_cases hip : i = p
        · subst hip
          split <;> omega
        · rw [update_at_getElem?_ne _ _ _ _ hip] at hi
          have := hbelow i q2 hi hv
          split <;> omega
      · split <;> omega
  · simp only [hc, not_false_eq_true, if_true]
    exact ⟨⟨hlen, hcount, hbelow⟩, Nat.le_refl _⟩

theorem ports_inv_remove_port (s : impl) (d : spa_direction) (p : Nat) (h : ports_inv s) :
    ∃ r s1, impl_node_remove_port s d p = some (r, s1) ∧ ports_inv s1 ∧
      s1.last_port = s.last_port := by
  obtain ⟨hlen, hcount, hbelow⟩ := h
  unfold impl_node_remove_port
  by_cases hc : CHECK_IN_PORT s d p = true
  · simp only [hc, not_true_eq_false, if_false]
    unfold CHECK_IN_PORT at hc
    simp only [Bool.and_eq_true, decide_eq_true_eq] at hc
    obtain ⟨⟨_, hp⟩, hq⟩ := hc
    cases hget : s.in_ports[p]? with
    | none => rw [hget] at hq; simp at hq
    | some q =>
      rw [hget] at hq
      have hqv : q.valid = true := hq
      have hpl : p < s.last_port := hbelow p q hget hqv
      have hne : ¬ (p = s.last_port + 1) := by omega
      have key : ∀ (s2 : impl), s2.in_ports = s.in_ports → s2.last_port = s.last_port →
          s2.port_count = s.port_count - 1 →
          ports_inv { s2 with in_ports := update_at (fun _ => memzero_port) s2.in_ports p } ∧
          ({ s2 with in_ports := update_at (fun _ => memzero_port) s2.in_ports p } : impl).last_port
            = s.last_port := by
        intro s2 h1 h2 h3
        refine ⟨⟨?_, ?_, ?_⟩, h2⟩
        · dsimp only
          rw [update_at_length, h1, hlen]
        · have hcp := countP_update_at (fun (x : port) => x.valid)
            (fun (_ : port) => memzero_port) s.in_ports p q hget
          have hz : memzero_port.valid = false := rfl
          simp only [hqv, hz, Bool.false_eq_true, if_false, if_true, Nat.add_zero] at hcp
          unfold valid_count at hcount ⊢
          dsimp only
          rw [h3, hcount, h1, ← hcp]
          push_cast
          ring
        · intro i q2 hi hv
          dsimp only at hi ⊢
          rw [h1] at hi
          rw [h2]
          by_cases hip : i = p
          · subst hip
            rw [update_at_getElem?_same _ _ _ q hget] at hi
            cases hi
            exact absurd hv (by decide)
          · rw [update_at_getElem?_ne _ _ _ _ hip] at hi
            exact hbelow i q2 hi hv
      cases hf : q.have_format with
      | true =>
        by_cases hn : s.n_formats - 1 = 0
        · simp only [hf, hn, if_true, hne, if_false]
          exact ⟨_, _, rfl, key
            { s with port_count := s.port_count - 1, n_formats := s.n_formats - 1,
                     have_format := false, convert := false } rfl rfl rfl⟩
        · simp only [hf, hn, if_true, hne, if_false]
          exact ⟨_, _, rfl, key
            { s with port_count := s.port_count - 1, n_formats := s.n_formats - 1 } rfl rfl rfl⟩
      | false =>
        simp only [hf, Bool.false_eq_true, hne, if_false]
        exact ⟨_, _, rfl, key { s with port_count := s.port_count - 1 } rfl rfl rfl⟩
  · simp only [hc, not_false_eq_true, if_true]
    exact ⟨_, _, rfl, ⟨hlen, hcount, hbelow⟩, rfl⟩


theorem port_run_ports_inv (ops : List PortOp) :
    ∀ (s : impl), ports_inv s →
      ∃ s1, port_run s ops = some s1 ∧ ports_inv s1 ∧ s.last_port ≤ s1.last_port := by
  induction ops with
  | nil => intro s h; exact ⟨s, rfl, h, Nat.le_refl _⟩
  | cons op rest ih =>
    intro s h
    cases op with
    | add_port d p =>
      obtain ⟨h1, h2⟩ := ports_inv_add_port s d p h
      obtain ⟨s1, e, h3, h4⟩ := ih _ h1
      refine ⟨s1, ?_, h3, Nat.le_trans h2 h4⟩
      simp only [port_run, port_step]
      exact e
    | remove_port d p =>
      obtain ⟨r, s2, e2, h1, h2⟩ := ports_inv_remove_port s d p h
      obtain ⟨s1, e, h3, h4⟩ := ih _ h1
      refine ⟨s1, ?_, h3, by omega⟩
      simp only [port_run, port_step, e2, Option.map_some']
      exact e


/-- The function `calc_width` gives the byte width of a sample for every format but the
planar ones of 1, 2 and 3 bytes. -/
theorem calc_width_eq_spec (info : spa_audio_info)
    (h1 : info.raw.format ≠ spa_audio_format.U8P) (h2 : info.raw.format ≠ spa_audio_format.S16P)
    (h3 : info.raw.format ≠ spa_audio_format.S24P) :
    calc_width info = spec_sample_width info.raw.format := by
  unfold calc_width spec_sample_width
  cases hf : info.raw.format <;> simp_all

end Merger
